import Mathlib

/-!
# Network configuration options of `pkg/machinery/config/types/v1alpha1`

The Go code mutates a `*NetworkConfig` through pointers: `getDevice` hands out a
`*Device`, the DHCP options and the KubeSpan settings sit behind pointers of their
own, and `WithNetworkConfig` copies one struct over another (`*cfg = *c`).  The
embedding therefore keeps an explicit heap: every struct that the options reach
through a pointer lives in a cell of the heap and a pointer is the index of its
cell.  An option is a function from a heap to a new heap; `none` stands for a
run-time panic (dereferencing a nil or invalid pointer).

Values that the options only ever replace as a whole (the `*bool` made by
`pointer.To`, the `*DeviceVIPConfig` literal, the caller's
`*DeviceWireguardConfig`) are kept as plain values, `Option` standing for a nilable
pointer.

The two string slices the options append to (`NameServers`, `DeviceAddresses`) are
slice headers over backing arrays that live in the heap: `*cfg = *c` copies the
header, so the two structs share the array afterwards, and `append` writes in place
when the capacity allows and moves to a fresh array otherwise.

`config/provider.go` only declares the `Provider` interface; `Clone` and
`RedactSecrets` are modelled on a store of provider objects over the same heap.
`hack/cloud-image-uploader/main.go` is embedded separately, in `Talos.Uploader`, as
state passing over the accumulator and the events of the process.
-/

namespace Talos

/-- Modelled from the spec: the role discriminator, `machine.Type` of the Go code.
The package `machine` is imported by the option file and not among the files at
hand; the option file names `TypeWorker` only. -/
inductive MachineType where
  | TypeUnknown
  | TypeInit
  | TypeControlPlane
  | TypeWorker
  deriving DecidableEq, Repr

/-- A pointer is the index of a heap cell. -/
abbrev Ptr := Nat

/-- A Go `error` value; `Option GoError` is the returned `error`, `none` being `nil`. -/
abbrev GoError := String

/-- A Go `[]string` value, the slice header: the backing array (`none` for the nil
slice), the index of the first element in it, the length and the capacity. -/
structure Slice where
  array : Option Ptr
  offset : Nat
  len : Nat
  cap : Nat
  deriving DecidableEq, Repr

/-- The nil slice, the zero value of `[]string`. -/
def Slice.nil : Slice := { array := none, offset := 0, len := 0, cap := 0 }

/-- Modelled from the spec: the struct behind `Device.DeviceVIPConfig`, declared
outside the files at hand; the option file sets its field `SharedIP`. -/
structure DeviceVIPConfig where
  SharedIP : String
  deriving DecidableEq, Repr

/-- Modelled from the spec: the struct behind `Device.DeviceWireguardConfig`,
declared outside the files at hand.  The option file stores the caller's pointer
and never looks inside, so the contents are one uninterpreted payload. -/
structure DeviceWireguardConfig where
  payload : String
  deriving DecidableEq, Repr

/-- Modelled from the spec: the struct behind `Device.DeviceDHCPOptions`, declared
outside the files at hand.  `DHCPIPv4` and `DHCPIPv6` are the two `*bool` fields
the option file writes (tri-state: nil is "unset"); `others` stands for the fields
of the struct that the option file never names. -/
structure DHCPOptions where
  DHCPIPv4 : Option Bool
  DHCPIPv6 : Option Bool
  others : String
  deriving DecidableEq, Repr

/-- Modelled from the spec: one entry of the interface list, the struct `Device`
declared outside the files at hand.  The fields are the ones the option file
writes; `others` stands for the fields it never names.  `DeviceDHCPOptions` is a
pointer into the heap because the options write through it, and `DeviceAddresses`
is a slice header because `append` is applied to it. -/
structure Device where
  DeviceInterface : String
  DeviceAddresses : Slice
  DeviceMTU : Int
  DeviceIgnore : Option Bool
  DeviceDHCP : Option Bool
  DeviceDHCPOptions : Option Ptr
  DeviceWireguardConfig : Option DeviceWireguardConfig
  DeviceVIPConfig : Option DeviceVIPConfig
  others : String
  deriving DecidableEq, Repr

/-- Modelled from the spec: the struct behind `NetworkConfig.NetworkKubeSpan`,
declared outside the files at hand; the option file writes `KubeSpanEnabled`, and
`others` stands for the fields it never names. -/
structure NetworkKubeSpan where
  KubeSpanEnabled : Option Bool
  others : String
  deriving DecidableEq, Repr

/-- Modelled from the spec: the network configuration struct `NetworkConfig`,
declared outside the files at hand.  `NetworkInterfaces` is the ordered collection
of device pointers that `getDevice` searches and extends: the option file never
names it, and how the collection is stored and how `getDevice` inserts into it are
outside the files at hand, so it is kept as the list of its entries; two configs that
share the storage behind their interface lists are therefore not among the heaps of
this development.  `NameServers`
(a slice header, `append` is applied to it) and `NetworkKubeSpan` (a nilable
pointer) are the fields the option file writes; `others` stands for the fields it
never names. -/
structure NetworkConfig where
  NetworkInterfaces : List Ptr
  NameServers : Slice
  NetworkKubeSpan : Option Ptr
  others : String
  deriving DecidableEq, Repr

/-- The heap: one list of cells per struct type, a pointer being an index, and the
backing arrays of the string slices; an array is the list of its slots and its
length never changes. -/
structure Heap where
  configs : List NetworkConfig
  devices : List Device
  dhcpOptions : List DHCPOptions
  kubeSpans : List NetworkKubeSpan
  arrays : List (List String)
  deriving DecidableEq, Repr

/-- What a call of an option leaves behind: the heap and the returned `error`. -/
abbrev Outcome := Heap × Option GoError

/-- Go: `type NetworkConfigOption func(machine.Type, *NetworkConfig) error`. -/
abbrev NetworkConfigOption := MachineType → Ptr → Heap → Option Outcome

/-- The zero value of `NetworkConfig`. -/
def NetworkConfig.zero : NetworkConfig :=
  { NetworkInterfaces := [], NameServers := Slice.nil, NetworkKubeSpan := none, others := "" }

/-- The zero value of `DHCPOptions`, Go `DHCPOptions{}`. -/
def DHCPOptions.zero : DHCPOptions :=
  { DHCPIPv4 := none, DHCPIPv6 := none, others := "" }

/-- The zero value of `NetworkKubeSpan`, Go `NetworkKubeSpan{}`. -/
def NetworkKubeSpan.zero : NetworkKubeSpan :=
  { KubeSpanEnabled := none, others := "" }

/-- A device with only its name set, Go `Device{DeviceInterface: name}`. -/
def Device.named (name : String) : Device :=
  { DeviceInterface := name, DeviceAddresses := Slice.nil, DeviceMTU := 0,
    DeviceIgnore := none,
    DeviceDHCP := none, DeviceDHCPOptions := none, DeviceWireguardConfig := none,
    DeviceVIPConfig := none, others := "" }

namespace Heap

/-- Read `*p` for a `*NetworkConfig`. -/
def config (h : Heap) (p : Ptr) : Option NetworkConfig := h.configs[p]?

/-- Read `*p` for a `*Device`. -/
def device (h : Heap) (p : Ptr) : Option Device := h.devices[p]?

/-- Read `*p` for a `*DHCPOptions`. -/
def dhcp (h : Heap) (p : Ptr) : Option DHCPOptions := h.dhcpOptions[p]?

/-- Read `*p` for a `*NetworkKubeSpan`. -/
def kubeSpan (h : Heap) (p : Ptr) : Option NetworkKubeSpan := h.kubeSpans[p]?

/-- Write `*p = c` for a `*NetworkConfig`. -/
def storeConfig (h : Heap) (p : Ptr) (c : NetworkConfig) : Heap :=
  { h with configs := h.configs.set p c }

/-- Write `*p = d` for a `*Device`. -/
def storeDevice (h : Heap) (p : Ptr) (d : Device) : Heap :=
  { h with devices := h.devices.set p d }

/-- Write `*p = o` for a `*DHCPOptions`. -/
def storeDhcp (h : Heap) (p : Ptr) (o : DHCPOptions) : Heap :=
  { h with dhcpOptions := h.dhcpOptions.set p o }

/-- Write `*p = k` for a `*NetworkKubeSpan`. -/
def storeKubeSpan (h : Heap) (p : Ptr) (k : NetworkKubeSpan) : Heap :=
  { h with kubeSpans := h.kubeSpans.set p k }

/-- Allocation `&Device{...}`: a fresh cell at the end of the device cells. -/
def newDevice (h : Heap) (d : Device) : Heap × Ptr :=
  ({ h with devices := h.devices ++ [d] }, h.devices.length)

/-- Allocation `&DHCPOptions{...}`. -/
def newDhcp (h : Heap) (o : DHCPOptions) : Heap × Ptr :=
  ({ h with dhcpOptions := h.dhcpOptions ++ [o] }, h.dhcpOptions.length)

/-- Allocation `&NetworkKubeSpan{...}`. -/
def newKubeSpan (h : Heap) (k : NetworkKubeSpan) : Heap × Ptr :=
  ({ h with kubeSpans := h.kubeSpans ++ [k] }, h.kubeSpans.length)

/-- Allocation of a `NetworkConfig` cell (used to set up documents). -/
def newConfig (h : Heap) (c : NetworkConfig) : Heap × Ptr :=
  ({ h with configs := h.configs ++ [c] }, h.configs.length)

/-- The heap with no cell at all. -/
def empty : Heap :=
  { configs := [], devices := [], dhcpOptions := [], kubeSpans := [], arrays := [] }

/-- Read a slice: the `len` slots of the backing array from `offset` on.  The nil
slice reads as the empty list; `none` when the array does not exist or the range
leaves it, which no slice value of a Go program does. -/
def readSlice (h : Heap) (s : Slice) : Option (List String) :=
  match s.array with
  | none => some []
  | some q =>
    match h.arrays[q]? with
    | none => none
    | some a =>
      if s.offset + s.len ≤ a.length then some ((a.drop s.offset).take s.len) else none

/-- The slice header describes memory that exists: the nil slice has length and
capacity zero, any other slice lies with its whole capacity inside its array. -/
def validSlice (h : Heap) (s : Slice) : Bool :=
  match s.array with
  | none => decide (s.len = 0 ∧ s.cap = 0)
  | some q =>
    match h.arrays[q]? with
    | none => false
    | some a => decide (s.len ≤ s.cap ∧ s.offset + s.cap ≤ a.length)

/-- Overwrite the slots of an array from index `i` on with `xs`. -/
def writeAt (a : List String) (i : Nat) (xs : List String) : List String :=
  a.take i ++ xs ++ a.drop (i + xs.length)

/-- Modelled from the spec: the capacity of the array that `append` moves to when the
old capacity `cap` does not hold the `needed` elements.  The choice is made by the Go
runtime, outside the files at hand: at least `needed`, and double the old capacity
when that is more (the amortised growth of small slices, size classes left out).
Nothing proved below uses more than `needed ≤ growCap cap needed`. -/
def growCap (cap needed : Nat) : Nat := max needed (2 * cap)

/-- `append` with not enough capacity: a fresh array holding the elements of the
slice, then `xs`, then unused slots up to the new capacity. -/
def appendFresh (h : Heap) (s : Slice) (xs : List String) : Heap × Slice :=
  let old := (h.readSlice s).getD []
  let n := old.length + xs.length
  let c := growCap s.cap n
  ({ h with arrays := h.arrays ++ [old ++ xs ++ List.replicate (c - n) ""] },
    { array := some h.arrays.length, offset := 0, len := n, cap := c })

/-- Go `append(s, xs...)` on `[]string`.  With nothing to append the slice is
returned as it is.  When the elements fit into the capacity they are written into the
backing array right behind the slice, in place, and the result is the same array with
a longer length; every other slice over that array sees the written slots.  Otherwise
the elements move to a fresh array. -/
def append (h : Heap) (s : Slice) (xs : List String) : Heap × Slice :=
  if xs.isEmpty then (h, s)
  else
    match s.array with
    | none => h.appendFresh s xs
    | some q =>
      match h.arrays[q]? with
      | none => h.appendFresh s xs
      | some a =>
        if s.len + xs.length ≤ s.cap ∧ s.offset + s.cap ≤ a.length then
          ({ h with arrays := h.arrays.set q (writeAt a (s.offset + s.len) xs) },
            { s with len := s.len + xs.length })
        else h.appendFresh s xs

/-- The heap with other backing arrays and the same struct cells: what an `append`
leaves of a heap. -/
def withArrays (h : Heap) (A : List (List String)) : Heap := { h with arrays := A }

end Heap

/-- Modelled from the spec: the lookup half of `getDevice` (declared outside the
files at hand), the first pointer of the list whose device carries the name;
`none` is a panic (a pointer that cannot be dereferenced), `some none` is
"not found". -/
def findDevice (h : Heap) (name : String) : List Ptr → Option (Option Ptr)
  | [] => some none
  | p :: ps =>
    match h.device p with
    | none => none
    | some d => if d.DeviceInterface = name then some (some p) else findDevice h name ps

/-- Modelled from the spec: `(*NetworkConfig).getDevice` is called by the option
file but declared elsewhere.  Get-or-create by interface name: looking up an absent
name appends a new entry carrying that name, all other fields zero, and returns it;
looking up a present name returns the existing entry. -/
def getDevice (h : Heap) (n : Ptr) (name : String) : Option (Heap × Ptr) :=
  match h.config n with
  | none => none
  | some cfg =>
    match findDevice h name cfg.NetworkInterfaces with
    | none => none
    | some (some p) => some (h, p)
    | some none =>
      let (h1, p) := h.newDevice (Device.named name)
      some (h1.storeConfig n { cfg with NetworkInterfaces := cfg.NetworkInterfaces ++ [p] }, p)

/-- The slice header that `cfg.getDevice(iface).DeviceAddresses` reads: the addresses
of the first device of the document carrying the name, the nil slice of a newly created
device when there is none. -/
def addressesOf (h : Heap) (cfg : Ptr) (iface : String) : Slice :=
  match h.config cfg with
  | none => Slice.nil
  | some v =>
    match findDevice h iface v.NetworkInterfaces with
    | some (some p) =>
      match h.device p with
      | some d => d.DeviceAddresses
      | none => Slice.nil
    | _ => Slice.nil

/-- The assignment `dev.F = v` through a `*Device`: read the cell, write it back
changed. -/
def updateDevice (h : Heap) (p : Ptr) (f : Device → Device) : Option Heap :=
  match h.device p with
  | none => none
  | some d => some (h.storeDevice p (f d))

/-- Go `WithNetworkConfig`: `*cfg = *c`.  The struct is copied field by field: the
pointers and the slice header of `NameServers` are copied, not what they refer to, so
the document and `c` share the devices, the KubeSpan struct and the backing array of
the nameservers afterwards. -/
def WithNetworkConfig (c : Option Ptr) : NetworkConfigOption := fun _ cfg h =>
  match c with
  | none => none
  | some pc =>
    match h.config pc, h.config cfg with
    | some v, some _ => some (h.storeConfig cfg v, none)
    | _, _ => none

/-- Go `WithNetworkNameservers`:
`cfg.NameServers = append(cfg.NameServers, nameservers...)`. -/
def WithNetworkNameservers (nameservers : List String) : NetworkConfigOption := fun _ cfg h =>
  match h.config cfg with
  | none => none
  | some v =>
    let (h1, s) := h.append v.NameServers nameservers
    some (h1.storeConfig cfg { v with NameServers := s }, none)

/-- Go `WithNetworkInterfaceIgnore`:
`cfg.getDevice(iface).DeviceIgnore = pointer.To(true)`. -/
def WithNetworkInterfaceIgnore (iface : String) : NetworkConfigOption := fun _ cfg h =>
  match getDevice h cfg iface with
  | none => none
  | some (h1, dev) =>
    match updateDevice h1 dev (fun d => { d with DeviceIgnore := some true }) with
    | none => none
    | some h2 => some (h2, none)

/-- Go `WithNetworkInterfaceDHCP`:
`cfg.getDevice(iface).DeviceDHCP = pointer.To(true)`; the parameter `enable` is not
used by the body. -/
def WithNetworkInterfaceDHCP (iface : String) (_enable : Bool) : NetworkConfigOption :=
  fun _ cfg h =>
  match getDevice h cfg iface with
  | none => none
  | some (h1, dev) =>
    match updateDevice h1 dev (fun d => { d with DeviceDHCP := some true }) with
    | none => none
    | some h2 => some (h2, none)

/-- The common prefix of the DHCPv4 and DHCPv6 options:
`if dev.DeviceDHCPOptions == nil { dev.DeviceDHCPOptions = &DHCPOptions{} }`,
returning the pointer that `dev.DeviceDHCPOptions` holds afterwards. -/
def ensureDHCPOptions (h : Heap) (dev : Ptr) : Option (Heap × Ptr) :=
  match h.device dev with
  | none => none
  | some d =>
    match d.DeviceDHCPOptions with
    | some q => some (h, q)
    | none =>
      let (h1, q) := h.newDhcp DHCPOptions.zero
      some (h1.storeDevice dev { d with DeviceDHCPOptions := some q }, q)

/-- The assignment `dev.DeviceDHCPOptions.F = v` through a `*DHCPOptions`. -/
def updateDhcp (h : Heap) (q : Ptr) (f : DHCPOptions → DHCPOptions) : Option Heap :=
  match h.dhcp q with
  | none => none
  | some o => some (h.storeDhcp q (f o))

/-- Go `WithNetworkInterfaceDHCPv4`. -/
def WithNetworkInterfaceDHCPv4 (iface : String) (enable : Bool) : NetworkConfigOption :=
  fun _ cfg h =>
  match getDevice h cfg iface with
  | none => none
  | some (h1, dev) =>
    match ensureDHCPOptions h1 dev with
    | none => none
    | some (h2, q) =>
      match updateDhcp h2 q (fun o => { o with DHCPIPv4 := some enable }) with
      | none => none
      | some h3 => some (h3, none)

/-- Go `WithNetworkInterfaceDHCPv6`. -/
def WithNetworkInterfaceDHCPv6 (iface : String) (enable : Bool) : NetworkConfigOption :=
  fun _ cfg h =>
  match getDevice h cfg iface with
  | none => none
  | some (h1, dev) =>
    match ensureDHCPOptions h1 dev with
    | none => none
    | some (h2, q) =>
      match updateDhcp h2 q (fun o => { o with DHCPIPv6 := some enable }) with
      | none => none
      | some h3 => some (h3, none)

/-- Go `WithNetworkInterfaceCIDR`:
`cfg.getDevice(iface).DeviceAddresses = append(cfg.getDevice(iface).DeviceAddresses, cidr)`.
Go evaluates the call on the left first, then the call on the right, then reads the
right device's slice header, appends to it, and assigns the resulting header through
the left pointer. -/
def WithNetworkInterfaceCIDR (iface cidr : String) : NetworkConfigOption := fun _ cfg h =>
  match getDevice h cfg iface with
  | none => none
  | some (h1, lhs) =>
    match getDevice h1 cfg iface with
    | none => none
    | some (h2, rhs) =>
      match h2.device rhs with
      | none => none
      | some r =>
        let (h3, s) := h2.append r.DeviceAddresses [cidr]
        match updateDevice h3 lhs (fun d => { d with DeviceAddresses := s }) with
        | none => none
        | some h4 => some (h4, none)

/-- Go `WithNetworkInterfaceMTU`: `cfg.getDevice(iface).DeviceMTU = mtu`. -/
def WithNetworkInterfaceMTU (iface : String) (mtu : Int) : NetworkConfigOption :=
  fun _ cfg h =>
  match getDevice h cfg iface with
  | none => none
  | some (h1, dev) =>
    match updateDevice h1 dev (fun d => { d with DeviceMTU := mtu }) with
    | none => none
    | some h2 => some (h2, none)

/-- Go `WithNetworkInterfaceWireguard`:
`cfg.getDevice(iface).DeviceWireguardConfig = wireguardConfig`. -/
def WithNetworkInterfaceWireguard (iface : String)
    (wireguardConfig : Option DeviceWireguardConfig) : NetworkConfigOption := fun _ cfg h =>
  match getDevice h cfg iface with
  | none => none
  | some (h1, dev) =>
    match updateDevice h1 dev (fun d => { d with DeviceWireguardConfig := wireguardConfig }) with
    | none => none
    | some h2 => some (h2, none)

/-- Go `WithNetworkInterfaceVirtualIP`: nothing for a worker, otherwise
`cfg.getDevice(iface).DeviceVIPConfig = &DeviceVIPConfig{SharedIP: cidr}`. -/
def WithNetworkInterfaceVirtualIP (iface cidr : String) : NetworkConfigOption :=
  fun machineType cfg h =>
  if machineType = MachineType.TypeWorker then some (h, none)
  else
    match getDevice h cfg iface with
    | none => none
    | some (h1, dev) =>
      match updateDevice h1 dev
          (fun d => { d with DeviceVIPConfig := some { SharedIP := cidr } }) with
      | none => none
      | some h2 => some (h2, none)

/-- Go `WithKubeSpan`: create the KubeSpan struct when the pointer is nil, then
`cfg.NetworkKubeSpan.KubeSpanEnabled = pointer.To(true)`. -/
def WithKubeSpan : NetworkConfigOption := fun _ cfg h =>
  match h.config cfg with
  | none => none
  | some v =>
    let (h1, k) :=
      match v.NetworkKubeSpan with
      | some k => (h, k)
      | none =>
        let (h0, k) := h.newKubeSpan NetworkKubeSpan.zero
        (h0.storeConfig cfg { v with NetworkKubeSpan := some k }, k)
    match h1.kubeSpan k with
    | none => none
    | some ks => some (h1.storeKubeSpan k { ks with KubeSpanEnabled := some true }, none)

/-- The calls the option file offers, as data: one constructor per exported
function, carrying its arguments. -/
inductive OptionCall where
  | networkConfig (c : Option Ptr)
  | networkNameservers (nameservers : List String)
  | interfaceIgnore (iface : String)
  | interfaceDHCP (iface : String) (enable : Bool)
  | interfaceDHCPv4 (iface : String) (enable : Bool)
  | interfaceDHCPv6 (iface : String) (enable : Bool)
  | interfaceCIDR (iface cidr : String)
  | interfaceMTU (iface : String) (mtu : Int)
  | interfaceWireguard (iface : String) (wireguardConfig : Option DeviceWireguardConfig)
  | interfaceVirtualIP (iface cidr : String)
  | kubeSpan
  deriving DecidableEq, Repr

namespace OptionCall

/-- The option function a call builds. -/
def build : OptionCall → NetworkConfigOption
  | networkConfig c => WithNetworkConfig c
  | networkNameservers ns => WithNetworkNameservers ns
  | interfaceIgnore iface => WithNetworkInterfaceIgnore iface
  | interfaceDHCP iface enable => WithNetworkInterfaceDHCP iface enable
  | interfaceDHCPv4 iface enable => WithNetworkInterfaceDHCPv4 iface enable
  | interfaceDHCPv6 iface enable => WithNetworkInterfaceDHCPv6 iface enable
  | interfaceCIDR iface cidr => WithNetworkInterfaceCIDR iface cidr
  | interfaceMTU iface mtu => WithNetworkInterfaceMTU iface mtu
  | interfaceWireguard iface w => WithNetworkInterfaceWireguard iface w
  | interfaceVirtualIP iface cidr => WithNetworkInterfaceVirtualIP iface cidr
  | kubeSpan => WithKubeSpan

/-- The interface name a call passes to `getDevice`, for the calls that take one. -/
def iface? : OptionCall → Option String
  | interfaceIgnore iface => some iface
  | interfaceDHCP iface _ => some iface
  | interfaceDHCPv4 iface _ => some iface
  | interfaceDHCPv6 iface _ => some iface
  | interfaceCIDR iface _ => some iface
  | interfaceMTU iface _ => some iface
  | interfaceWireguard iface _ => some iface
  | interfaceVirtualIP iface _ => some iface
  | _ => none

/-- The config pointer of a `WithNetworkConfig` call is usable: not nil and the
address of a config cell. -/
def argsValid (h : Heap) : OptionCall → Bool
  | networkConfig c =>
    match c with
    | none => false
    | some pc => decide (pc < h.configs.length)
  | _ => true

end OptionCall

/-- Modelled from the spec: the option engine is not in the files at hand.  It
applies the options in the caller's order to one document and stops at the first
option that reports an error, returning that error with the position of the option
in front. -/
def applyOptionsFrom (machineType : MachineType) (cfg : Ptr) :
    Nat → List NetworkConfigOption → Heap → Option Outcome
  | _, [], h => some (h, none)
  | i, o :: os, h =>
    match o machineType cfg h with
    | none => none
    | some (h1, some e) => some (h1, some ("option " ++ toString i ++ ": " ++ e))
    | some (h1, none) => applyOptionsFrom machineType cfg (i + 1) os h1

/-- The engine started at position zero. -/
def applyOptions (machineType : MachineType) (cfg : Ptr) (opts : List NetworkConfigOption)
    (h : Heap) : Option Outcome :=
  applyOptionsFrom machineType cfg 0 opts h

/-- Run a list of calls on the document at `cfg`. -/
def applyCalls (machineType : MachineType) (cfg : Ptr) (calls : List OptionCall)
    (h : Heap) : Option Outcome :=
  applyOptions machineType cfg (calls.map OptionCall.build) h

namespace Heap

/-- A device pointer can be dereferenced and the DHCP-options pointer of the device,
when not nil, can be dereferenced too. -/
def validDevice (h : Heap) (p : Ptr) : Bool :=
  match h.device p with
  | none => false
  | some d =>
    match d.DeviceDHCPOptions with
    | none => true
    | some q => decide (q < h.dhcpOptions.length)

/-- Every pointer reachable from a config struct can be dereferenced. -/
def validConfig (h : Heap) (c : NetworkConfig) : Bool :=
  c.NetworkInterfaces.all h.validDevice &&
    match c.NetworkKubeSpan with
    | none => true
    | some k => decide (k < h.kubeSpans.length)

/-- Every pointer reachable from a config cell is the address of a cell (the option
file never stores a nil device pointer in the interface list). -/
def pointersValid (h : Heap) : Bool := h.configs.all h.validConfig

/-- The slice headers of a config struct and of its devices describe memory that
exists. -/
def validSlices (h : Heap) (c : NetworkConfig) : Bool :=
  h.validSlice c.NameServers &&
    c.NetworkInterfaces.all fun p =>
      match h.device p with
      | none => true
      | some d => h.validSlice d.DeviceAddresses

/-- Every slice header reachable from a config cell describes memory that exists. -/
def slicesValid (h : Heap) : Bool := h.configs.all h.validSlices

/-- Go's memory safety as a property of the heap: every pointer reachable from a
config cell is the address of a cell, and every slice reachable from a config cell
lies inside its backing array. -/
def wellFormed (h : Heap) : Bool := h.pointersValid && h.slicesValid

/-- The pointer `cfg` is the address of a config cell. -/
def hasConfig (h : Heap) (cfg : Ptr) : Bool := decide (cfg < h.configs.length)

/-- The interface names of a list of device pointers, in list order. -/
def deviceNames (h : Heap) (ps : List Ptr) : List (Option String) :=
  ps.map (fun p => (h.device p).map Device.DeviceInterface)

end Heap

/-- The shape shared by the options that assign one field of a device,
`cfg.getDevice(iface).F = v`: the field assignment is the function `f`. -/
def assignDevice (iface : String) (f : Device → Device) : NetworkConfigOption := fun _ cfg h =>
  match getDevice h cfg iface with
  | none => none
  | some (h1, dev) =>
    match updateDevice h1 dev f with
    | none => none
    | some h2 => some (h2, none)

/-- The shape shared by the DHCPv4 and DHCPv6 options: get the device, make sure
it has DHCP options, assign one field of them (the function `g`). -/
def assignDhcp (iface : String) (g : DHCPOptions → DHCPOptions) : NetworkConfigOption :=
  fun _ cfg h =>
  match getDevice h cfg iface with
  | none => none
  | some (h1, dev) =>
    match ensureDHCPOptions h1 dev with
    | none => none
    | some (h2, q) =>
      match updateDhcp h2 q g with
      | none => none
      | some h3 => some (h3, none)

namespace Heap

/-- The state of the DHCPv4 switch as seen from a device pointer: unset when the
device has no DHCP options or the field is nil. -/
def deviceDHCPv4 (h : Heap) (dev : Ptr) : Option Bool :=
  match h.device dev with
  | none => none
  | some d =>
    match d.DeviceDHCPOptions with
    | none => none
    | some q =>
      match h.dhcp q with
      | none => none
      | some o => o.DHCPIPv4

/-- The state of the DHCPv6 switch as seen from a device pointer. -/
def deviceDHCPv6 (h : Heap) (dev : Ptr) : Option Bool :=
  match h.device dev with
  | none => none
  | some d =>
    match d.DeviceDHCPOptions with
    | none => none
    | some q =>
      match h.dhcp q with
      | none => none
      | some o => o.DHCPIPv6

end Heap

/-- A heap holding one document, the zero `NetworkConfig`, at address 0. -/
def emptyDocument : Heap := (Heap.empty.newConfig NetworkConfig.zero).1

/-- The summary every option satisfies on a heap whose pointers are valid: it returns
a nil error, the pointers of the heap stay valid, and no config cell other than the
document changes. -/
def StepOk (h : Heap) (cfg : Ptr) (r : Option Outcome) : Prop :=
  ∃ h', r = some (h', none) ∧ h'.pointersValid = true ∧
    h'.configs.length = h.configs.length ∧ ∀ p, p ≠ cfg → h'.config p = h.config p

/-- A device as a value: the struct with its DHCP options read through the
pointer and its addresses read through the slice. -/
structure DeviceValue where
  DeviceInterface : String
  DeviceAddresses : List String
  DeviceMTU : Int
  DeviceIgnore : Option Bool
  DeviceDHCP : Option Bool
  DeviceDHCPOptions : Option DHCPOptions
  DeviceWireguardConfig : Option DeviceWireguardConfig
  DeviceVIPConfig : Option DeviceVIPConfig
  others : String
  deriving DecidableEq, Repr

/-- A network configuration as a value: what a reader sees who follows every
pointer of the struct. -/
structure NetworkConfigValue where
  NetworkInterfaces : List DeviceValue
  NameServers : List String
  NetworkKubeSpan : Option NetworkKubeSpan
  others : String
  deriving DecidableEq, Repr

namespace Heap

/-- Read a device together with what its DHCP-options pointer and its address
slice refer to. -/
def readDevice (h : Heap) (p : Ptr) : Option DeviceValue :=
  match h.device p with
  | none => none
  | some d =>
    match h.readSlice d.DeviceAddresses with
    | none => none
    | some addresses =>
      match d.DeviceDHCPOptions with
      | none =>
        some { DeviceInterface := d.DeviceInterface, DeviceAddresses := addresses,
               DeviceMTU := d.DeviceMTU, DeviceIgnore := d.DeviceIgnore,
               DeviceDHCP := d.DeviceDHCP, DeviceDHCPOptions := none,
               DeviceWireguardConfig := d.DeviceWireguardConfig,
               DeviceVIPConfig := d.DeviceVIPConfig, others := d.others }
      | some q =>
        match h.dhcp q with
        | none => none
        | some o =>
          some { DeviceInterface := d.DeviceInterface, DeviceAddresses := addresses,
                 DeviceMTU := d.DeviceMTU, DeviceIgnore := d.DeviceIgnore,
                 DeviceDHCP := d.DeviceDHCP, DeviceDHCPOptions := some o,
                 DeviceWireguardConfig := d.DeviceWireguardConfig,
                 DeviceVIPConfig := d.DeviceVIPConfig, others := d.others }

/-- Read the devices of a pointer list, in order; `none` when a pointer cannot be
followed. -/
def readDevices (h : Heap) : List Ptr → Option (List DeviceValue)
  | [] => some []
  | p :: ps =>
    match h.readDevice p, readDevices h ps with
    | some d, some ds => some (d :: ds)
    | _, _ => none

/-- Read a nilable KubeSpan pointer; the outer `none` is a pointer that cannot be
followed. -/
def readKubeSpan (h : Heap) : Option Ptr → Option (Option NetworkKubeSpan)
  | none => some none
  | some k =>
    match h.kubeSpan k with
    | none => none
    | some s => some (some s)

/-- The value of the configuration at `p`: the document as a reader sees it. -/
def readConfig (h : Heap) (p : Ptr) : Option NetworkConfigValue :=
  match h.config p with
  | none => none
  | some v =>
    match h.readDevices v.NetworkInterfaces, h.readKubeSpan v.NetworkKubeSpan,
        h.readSlice v.NameServers with
    | some ds, some ks, some ns =>
      some { NetworkInterfaces := ds, NameServers := ns, NetworkKubeSpan := ks,
             others := v.others }
    | _, _, _ => none

end Heap

/-- A heap holding one document, at address 0, whose nameserver list is already
`["1.1.1.1"]`. -/
def nameserverDocument : Heap :=
  { configs := [{ NetworkConfig.zero with
                  NameServers := { array := some 0, offset := 0, len := 1, cap := 1 } }],
    devices := [], dhcpOptions := [], kubeSpans := [], arrays := [["1.1.1.1"]] }

/-- A heap holding an empty document at address 0 and, at address 1, a caller's
config whose interface list has one device, `eth0`, with DHCP options. -/
def callerConfigHeap : Heap :=
  { configs := [NetworkConfig.zero, { NetworkConfig.zero with NetworkInterfaces := [0] }],
    devices := [{ Device.named "eth0" with DeviceDHCPOptions := some 0 }],
    dhcpOptions := [DHCPOptions.zero],
    kubeSpans := [],
    arrays := [] }

/-- The calls that append to a list on every application: `WithNetworkNameservers`
with at least one nameserver and `WithNetworkInterfaceCIDR`. -/
def OptionCall.appends : OptionCall → Bool
  | OptionCall.networkNameservers ns => !ns.isEmpty
  | OptionCall.interfaceCIDR _ _ => true
  | _ => false

/-- The interface name a call hands to `getDevice` when it runs for the machine
type `mt`: the interface options hand over their first argument, except that the
virtual-IP option returns before the lookup for a worker. -/
def OptionCall.lookedUp (mt : MachineType) : OptionCall → Option String
  | OptionCall.interfaceVirtualIP iface _ =>
    if mt = MachineType.TypeWorker then none else some iface
  | c => c.iface?

/-- Add a name to a list of names unless it is there already. -/
def noteReference (seen : List String) (name : String) : List String :=
  if name ∈ seen then seen else seen ++ [name]

/-- The distinct names of a sequence of references, in the order in which they are
first referenced. -/
def firstReferences (names : List String) : List String :=
  names.foldl noteReference []

/-- A sequence of interface options naming `eth0`, `eth1`, `eth0`, `eth1`, `eth2`. -/
def sampleInterfaceCalls : List OptionCall :=
  [OptionCall.interfaceMTU "eth0" 1500, OptionCall.interfaceDHCPv4 "eth1" false,
   OptionCall.interfaceCIDR "eth0" "10.0.0.2/24", OptionCall.interfaceVirtualIP "eth1" "10.0.0.9",
   OptionCall.interfaceIgnore "eth2"]

/-! ### Providers

`provider.go` declares the `Provider` interface (`Clone`, `RedactSecrets`,
`Readonly`, `RawV1Alpha1`) and no implementation; what follows is written from the
specification. -/

/-- Modelled from the spec: a scalar field of a configuration document together
with the tag that marks it as secret-bearing (the implementation's struct and
its field tags are not in the files at hand). -/
structure DocumentField where
  name : String
  secret : Bool
  value : String
  deriving DecidableEq, Repr

/-- Modelled from the spec: the object behind a `Provider` (no implementation of
the interface is in the files at hand): exactly one configuration document, here
its scalar fields and a pointer to its network configuration, plus the readonly
flag. -/
structure ProviderObject where
  fields : List DocumentField
  network : Ptr
  readonly : Bool
  deriving DecidableEq, Repr

/-- The heap of the network structs together with the provider objects; a
`Provider` value is the index of a provider cell. -/
structure Store where
  heap : Heap
  providers : List ProviderObject
  deriving DecidableEq, Repr

namespace Heap

/-- Every cell of `h` is a cell of `h2` with the same contents: `h2` came from `h`
by allocation only. -/
structure Extends (h h2 : Heap) : Prop where
  config : ∀ p v, h.config p = some v → h2.config p = some v
  device : ∀ p d, h.device p = some d → h2.device p = some d
  dhcp : ∀ p o, h.dhcp p = some o → h2.dhcp p = some o
  kubeSpan : ∀ p k, h.kubeSpan p = some k → h2.kubeSpan p = some k
  array : ∀ (q : Nat) (a : List String), h.arrays[q]? = some a → h2.arrays[q]? = some a

/-- Modelled from the spec: the slice part of the "deep copy" that `Clone` and
`RedactSecrets` are specified to make.  Copy the elements of a slice into a fresh
array of exactly their number. -/
def copySlice (h : Heap) (s : Slice) : Option (Heap × Slice) :=
  match h.readSlice s with
  | none => none
  | some xs =>
    some ({ h with arrays := h.arrays ++ [xs] },
      { array := some h.arrays.length, offset := 0, len := xs.length, cap := xs.length })

/-- Modelled from the spec: the device part of the "deep copy".  Copy a device with
its addresses and, when it has DHCP options, these too, into fresh cells. -/
def copyDevice (h : Heap) (p : Ptr) : Option (Heap × Ptr) :=
  match h.device p with
  | none => none
  | some d =>
    match h.copySlice d.DeviceAddresses with
    | none => none
    | some (h0, s) =>
      match d.DeviceDHCPOptions with
      | none => some (h0.newDevice { d with DeviceAddresses := s })
      | some q =>
        match h0.dhcp q with
        | none => none
        | some o =>
          let (h1, q1) := h0.newDhcp o
          some (h1.newDevice { d with DeviceAddresses := s, DeviceDHCPOptions := some q1 })

/-- Modelled from the spec: the keyed-collection part of the "deep copy".  Copy the
devices of a pointer list, in order, and return the pointers of the copies. -/
def copyDevices (h : Heap) : List Ptr → Option (Heap × List Ptr)
  | [] => some (h, [])
  | p :: ps =>
    match h.copyDevice p with
    | none => none
    | some (h1, p1) =>
      match copyDevices h1 ps with
      | none => none
      | some (h2, ps1) => some (h2, p1 :: ps1)

/-- Modelled from the spec: the KubeSpan part of the "deep copy".  Copy the struct
behind a nilable pointer. -/
def copyKubeSpan (h : Heap) : Option Ptr → Option (Heap × Option Ptr)
  | none => some (h, none)
  | some k =>
    match h.kubeSpan k with
    | none => none
    | some s =>
      let (h1, k1) := h.newKubeSpan s
      some (h1, some k1)

/-- Modelled from the spec: the "deep copy, independent of source" of a network
configuration.  Copy the struct with everything it points to into fresh cells. -/
def copyConfig (h : Heap) (p : Ptr) : Option (Heap × Ptr) :=
  match h.config p with
  | none => none
  | some v =>
    match h.copyDevices v.NetworkInterfaces with
    | none => none
    | some (h1, ps) =>
      match h1.copyKubeSpan v.NetworkKubeSpan with
      | none => none
      | some (h2, k) =>
        match h2.copySlice v.NameServers with
        | none => none
        | some (h3, s) =>
          some (h3.newConfig
            { v with NetworkInterfaces := ps, NameServers := s, NetworkKubeSpan := k })

end Heap

namespace Store

/-- Read the provider object behind a `Provider`. -/
def provider (st : Store) (p : Ptr) : Option ProviderObject := st.providers[p]?

/-- Modelled from the spec: the secret-bearing field is replaced by the placeholder
as a whole, any other field is copied verbatim. -/
def redactField (placeholder : String) (f : DocumentField) : DocumentField :=
  if f.secret then { f with value := placeholder } else f

/-- Modelled from the spec: `Provider.RedactSecrets(placeholder)`, declared in
`provider.go` without an implementation.  A deep copy of the provider in which
every field tagged as secret is replaced by the placeholder and every other field
is copied verbatim; the receiver is not written to.  The result is the store with
the copy allocated and the pointer to the copy. -/
def RedactSecrets (st : Store) (p : Ptr) (placeholder : String) : Option (Store × Ptr) :=
  match st.provider p with
  | none => none
  | some o =>
    match st.heap.copyConfig o.network with
    | none => none
    | some (h1, n1) =>
      some ({ heap := h1,
              providers := st.providers ++
                [{ fields := o.fields.map (redactField placeholder), network := n1,
                   readonly := o.readonly }] },
            st.providers.length)

/-- The network configuration of the provider can be read in full. -/
def readable (st : Store) (p : Ptr) : Bool :=
  match st.provider p with
  | none => false
  | some o => (st.heap.readConfig o.network).isSome

end Store

/-- A store with one provider: a machine token and a CA key tagged secret, a
hostname that is not, and a network configuration with one device behind it. -/
def sampleStore : Store :=
  { heap := { configs := [{ NetworkConfig.zero with NetworkInterfaces := [0] }],
              devices := [{ Device.named "eth0" with DeviceDHCPOptions := some 0 }],
              dhcpOptions := [DHCPOptions.zero],
              kubeSpans := [],
              arrays := [] },
    providers := [{ fields := [{ name := "token", secret := true, value := "s3cr3t" },
                               { name := "hostname", secret := false, value := "node-1" },
                               { name := "ca-key", secret := true, value := "" }],
                    network := 0, readonly := true }] }

/-! ### Comparing two runs

Two runs of the same options from heaps that differ only in unreachable cells
allocate their new cells at different addresses.  `Shift` renames the pointers of
one run into those of the other, `Sim` is the relation the options preserve. -/

/-- A renaming of pointers: addresses below the base stay, addresses from the base
on move up by the offset; one base and offset per kind of cell. -/
structure Shift where
  deviceBase : Nat
  deviceOffset : Nat
  dhcpBase : Nat
  dhcpOffset : Nat
  kubeSpanBase : Nat
  kubeSpanOffset : Nat
  arrayBase : Nat
  arrayOffset : Nat
  deriving DecidableEq, Repr

namespace Shift

/-- Rename a device pointer. -/
def dev (s : Shift) (p : Nat) : Nat := if p < s.deviceBase then p else p + s.deviceOffset

/-- Rename a DHCP-options pointer. -/
def dhcp (s : Shift) (p : Nat) : Nat := if p < s.dhcpBase then p else p + s.dhcpOffset

/-- Rename a KubeSpan pointer. -/
def ks (s : Shift) (p : Nat) : Nat := if p < s.kubeSpanBase then p else p + s.kubeSpanOffset

/-- Rename the address of a backing array. -/
def arr (s : Shift) (p : Nat) : Nat := if p < s.arrayBase then p else p + s.arrayOffset

/-- Rename the array inside a slice header. -/
def slice (s : Shift) (x : Slice) : Slice :=
  { x with array := x.array.map s.arr }

/-- Rename the pointers inside a device struct. -/
def device (s : Shift) (d : Device) : Device :=
  { d with DeviceDHCPOptions := d.DeviceDHCPOptions.map s.dhcp,
           DeviceAddresses := s.slice d.DeviceAddresses }

/-- Rename the pointers inside a config struct. -/
def config (s : Shift) (v : NetworkConfig) : NetworkConfig :=
  { v with NetworkInterfaces := v.NetworkInterfaces.map s.dev,
           NameServers := s.slice v.NameServers,
           NetworkKubeSpan := v.NetworkKubeSpan.map s.ks }

end Shift

namespace Heap

/-- The device pointer occurs in the interface list of some config cell. -/
def LiveDevice (h : Heap) (p : Ptr) : Prop := ∃ v ∈ h.configs, p ∈ v.NetworkInterfaces

/-- The array is the backing array of the nameservers of some config cell or of the
addresses of a device that some config cell lists. -/
def LiveArray (h : Heap) (q : Ptr) : Prop :=
  (∃ v ∈ h.configs, v.NameServers.array = some q) ∨
    ∃ p d, h.LiveDevice p ∧ h.device p = some d ∧ d.DeviceAddresses.array = some q

/-- The heaps `a` and `b` hold the same documents up to the renaming `s`: the
config cells correspond one to one, and every device, DHCP-options and KubeSpan
cell and every backing array reachable from a config cell of `a` has its
counterpart in `b`. -/
structure Sim (s : Shift) (a b : Heap) : Prop where
  configs : b.configs = a.configs.map s.config
  deviceLength : b.devices.length = a.devices.length + s.deviceOffset
  deviceBase : s.deviceBase ≤ a.devices.length
  dhcpLength : b.dhcpOptions.length = a.dhcpOptions.length + s.dhcpOffset
  dhcpBase : s.dhcpBase ≤ a.dhcpOptions.length
  kubeSpanLength : b.kubeSpans.length = a.kubeSpans.length + s.kubeSpanOffset
  kubeSpanBase : s.kubeSpanBase ≤ a.kubeSpans.length
  device : ∀ p, a.LiveDevice p →
    ∃ d, a.device p = some d ∧ b.device (s.dev p) = some (s.device d)
  dhcp : ∀ p d q, a.LiveDevice p → a.device p = some d → d.DeviceDHCPOptions = some q →
    ∃ o, a.dhcp q = some o ∧ b.dhcp (s.dhcp q) = some o
  kubeSpan : ∀ v k, v ∈ a.configs → v.NetworkKubeSpan = some k →
    ∃ x, a.kubeSpan k = some x ∧ b.kubeSpan (s.ks k) = some x
  arrayLength : b.arrays.length = a.arrays.length + s.arrayOffset
  arrayBase : s.arrayBase ≤ a.arrays.length
  array : ∀ q, a.LiveArray q → b.arrays[s.arr q]? = a.arrays[q]?

/-- The backing array of the slice, all of it, is the same in `h1` as in `h0`. -/
def sameArray (h0 h1 : Heap) (x : Slice) : Bool :=
  match x.array with
  | none => true
  | some q => decide (h1.arrays[q]? = h0.arrays[q]?)

/-- The device behind `p`, its DHCP options and the backing array of its addresses
are the same in `h1` as in `h0`. -/
def sameDevice (h0 h1 : Heap) (p : Ptr) : Bool :=
  decide (h1.device p = h0.device p) &&
    match h0.device p with
    | none => true
    | some d =>
      sameArray h0 h1 d.DeviceAddresses &&
        match d.DeviceDHCPOptions with
        | none => true
        | some q => decide (h1.dhcp q = h0.dhcp q)

/-- Every cell and every backing array the config struct `v` points to is the same in
`h1` as in `h0`. -/
def sameReach (h0 h1 : Heap) (v : NetworkConfig) : Bool :=
  v.NetworkInterfaces.all (sameDevice h0 h1) && sameArray h0 h1 v.NameServers &&
    match v.NetworkKubeSpan with
    | none => true
    | some k => decide (h1.kubeSpan k = h0.kubeSpan k)

/-- No cell and no backing array that a config other than the document at `cfg`
points to differs between `h0` and `h1`. -/
def untouchedOutside (h0 h1 : Heap) (cfg : Ptr) : Bool :=
  (List.range h0.configs.length).all fun p =>
    decide (p = cfg) ||
      match h0.config p with
      | none => true
      | some v => sameReach h0 h1 v

end Heap

/-- The renaming between a heap and a later state of it: the addresses of `h0` stay,
cells allocated past them move up by what `h1` allocated in the meantime. -/
def shiftBetween (h0 h1 : Heap) : Shift :=
  ⟨h0.devices.length, h1.devices.length - h0.devices.length,
   h0.dhcpOptions.length, h1.dhcpOptions.length - h0.dhcpOptions.length,
   h0.kubeSpans.length, h1.kubeSpans.length - h0.kubeSpans.length,
   h0.arrays.length, h1.arrays.length - h0.arrays.length⟩

/-- The run of the calls `P` on the document at `cfg` ends without error and has
written to no cell and to no backing array that a config other than the document
points to. -/
def leavesOthersUntouched (mt : MachineType) (cfg : Ptr) (calls : List OptionCall)
    (h : Heap) : Bool :=
  match applyCalls mt cfg calls h with
  | some (h1, none) => h.untouchedOutside h1 cfg
  | _ => false

/-- A heap holding an empty document at address 0 and an empty caller's config at
address 1. -/
def emptyReplacementHeap : Heap :=
  { configs := [NetworkConfig.zero, NetworkConfig.zero], devices := [], dhcpOptions := [],
    kubeSpans := [], arrays := [] }

/-! ### The cloud image uploader

`hack/cloud-image-uploader/main.go`: the accumulator `result`, `pushResult` and
`run`.  The program is modelled as state passing over the package-level accumulator
and the list of things the process has done to the outside, in order.  What `run`
calls but the file does not declare (the region query, the random source, the
upload task, the file system, the JSON encoder) is an input of the model. -/

namespace Uploader

/-- Go `CloudImage`, the record of one official cloud image (the Go field `Type` is
`ImageType` here). -/
structure CloudImage where
  Cloud : String
  Tag : String
  Region : String
  Arch : String
  ImageType : String
  ID : String
  deriving DecidableEq, Repr

/-- Go `Result`, `[]CloudImage`. -/
abbrev Result := List CloudImage

/-- A Go `error` value: a plain error with its message, or the value built by
`fmt.Errorf(format, err)` with the verb `%w`, which keeps the error it wraps; the
text of `format` in front of the verb is `text`. -/
inductive Failure where
  | plain (message : String)
  | wrapping (text : String) (cause : Failure)
  deriving DecidableEq, Repr

namespace Failure

/-- Go `err.Error()`. -/
def Error : Failure → String
  | plain m => m
  | wrapping t c => t ++ c.Error

/-- Go `errors.Unwrap(err)`. -/
def Unwrap : Failure → Option Failure
  | plain _ => none
  | wrapping _ c => some c

end Failure

/-- What the process does to the outside. -/
inductive Event where
  | logged (message : String)
  | created (path : String)
  | encoded (records : Result)
  | closed (path : String)
  deriving DecidableEq, Repr

/-- The state of the process: the package-level variable `result` and the events
so far, oldest first. -/
structure Process where
  result : Result
  events : List Event
  deriving DecidableEq, Repr

/-- The state at program start: `result` is nil and nothing has happened. -/
def Process.start : Process := { result := [], events := [] }

/-- Go `pushResult`: `result = append(result, image)` under the mutex. -/
def pushResult (image : CloudImage) (s : Process) : Process :=
  { s with result := s.result ++ [image] }

/-- Record an event. -/
def Process.emit (s : Process) (e : Event) : Process :=
  { s with events := s.events ++ [e] }

/-- What `run` meets outside the file.  Modelled from the spec: the upload task
(`AWSUploader.Upload`) is not in the files at hand; its part in `run` is the images
it hands to `pushResult`, in the order the mutex admits them, and the error or nil
that `g.Wait()` reports for the group.  `cloudImagesPath` is the value of
`filepath.Join(DefaultOptions.ArtifactsPath, "cloud-images.json")`: both the options
and the library function that joins and cleans the path are outside the file, so the
model takes the joined path as it is. -/
structure Environment where
  regionsError : Option Failure
  seedError : Option Failure
  cloudImagesPath : String
  pushed : List CloudImage
  groupError : Option Failure
  createError : Option Failure
  encodeError : Option Failure
  deriving DecidableEq, Repr

/-- How a call of `run` ends: it returns an error or nil, or `log.Fatalf` ends the
process inside it. -/
inductive Exit where
  | returned (err : Option Failure)
  | fatal
  deriving DecidableEq, Repr

/-- Go `run`.  Flag parsing, which only fills `DefaultOptions` before the group is
started, is left out; the path handed to `os.Create` is `env.cloudImagesPath`.  The
deferred `f.Close()` is the last event of a run that created the file. -/
def run (env : Environment) (s : Process) : Process × Exit :=
  let s1 :=
    match env.regionsError with
    | some e =>
      s.emit (Event.logged
        ("failed to get a list of enabled AWS regions: " ++ e.Error ++ ", ignored"))
    | none => s
  match env.seedError with
  | some e => (s1.emit (Event.logged ("error seeding rand: " ++ e.Error)), Exit.fatal)
  | none =>
    let s2 := env.pushed.foldl (fun t image => pushResult image t) s1
    match env.groupError with
    | some e => (s2, Exit.returned (some (Failure.wrapping "failed: " e)))
    | none =>
      let path := env.cloudImagesPath
      match env.createError with
      | some e => (s2, Exit.returned (some (Failure.wrapping "failed: " e)))
      | none =>
        let s3 := s2.emit (Event.created path)
        let s4 := s3.emit (Event.encoded s3.result)
        (s4.emit (Event.closed path), Exit.returned env.encodeError)

/-- An event of `run` that puts results outside the process: creating the file or
encoding the accumulator. -/
def Event.emits : Event → Bool
  | Event.created _ => true
  | Event.encoded _ => true
  | _ => false

/-- A run in which the group fails after the task has pushed two images. -/
def failingUpload : Environment :=
  { regionsError := none, seedError := none, cloudImagesPath := "_out/cloud-images.json",
    pushed := [{ Cloud := "aws", Tag := "v1", Region := "us-east-1", Arch := "amd64",
                 ImageType := "hvm", ID := "ami-1" },
               { Cloud := "aws", Tag := "v1", Region := "eu-west-1", Arch := "amd64",
                 ImageType := "hvm", ID := "ami-2" }],
    groupError := some (Failure.plain "upload failed"),
    createError := none, encodeError := none }

end Uploader

/-! ### The frame of the interface options -/

/-- The slice `t` sees one of the `n` slots right behind the slice `s` in the same
array, slots that lie within the capacity of `s`: the slots that an `append` of `n`
elements to `s` fills in place. -/
def Slice.seesBehind (t s : Slice) (n : Nat) : Bool :=
  decide (0 < n ∧ t.array.isSome = true ∧ t.array = s.array ∧ s.len + n ≤ s.cap ∧
    t.offset < s.offset + s.len + n ∧ s.offset + s.len < t.offset + t.len)

/-- A device struct as a value, given what its address slice and its DHCP-options
pointer refer to. -/
def Device.toValue (d : Device) (addresses : List String) (o : Option DHCPOptions) :
    DeviceValue :=
  { DeviceInterface := d.DeviceInterface, DeviceAddresses := addresses,
    DeviceMTU := d.DeviceMTU, DeviceIgnore := d.DeviceIgnore,
    DeviceDHCP := d.DeviceDHCP, DeviceDHCPOptions := o,
    DeviceWireguardConfig := d.DeviceWireguardConfig,
    DeviceVIPConfig := d.DeviceVIPConfig, others := d.others }

/-- The value of the device that `getDevice` creates for an absent name. -/
def DeviceValue.named (name : String) : DeviceValue := (Device.named name).toValue [] none

/-- The field an interface option targets, as a function on the value of the device:
the statement "the option assigns this one field" in the words of the frame
property, to be compared with what the option does to the heap.  The DHCPv4 and
DHCPv6 options target one switch inside the DHCP options, which exist afterwards;
the virtual-IP option targets nothing for a worker. -/
def OptionCall.valueEffect (mt : MachineType) : OptionCall → DeviceValue → DeviceValue
  | OptionCall.interfaceIgnore _ => fun x => { x with DeviceIgnore := some true }
  | OptionCall.interfaceDHCP _ _ => fun x => { x with DeviceDHCP := some true }
  | OptionCall.interfaceDHCPv4 _ enable => fun x =>
    let o := x.DeviceDHCPOptions.getD DHCPOptions.zero
    { x with DeviceDHCPOptions := some { o with DHCPIPv4 := some enable } }
  | OptionCall.interfaceDHCPv6 _ enable => fun x =>
    let o := x.DeviceDHCPOptions.getD DHCPOptions.zero
    { x with DeviceDHCPOptions := some { o with DHCPIPv6 := some enable } }
  | OptionCall.interfaceCIDR _ cidr => fun x =>
    { x with DeviceAddresses := x.DeviceAddresses ++ [cidr] }
  | OptionCall.interfaceMTU _ mtu => fun x => { x with DeviceMTU := mtu }
  | OptionCall.interfaceWireguard _ w => fun x => { x with DeviceWireguardConfig := w }
  | OptionCall.interfaceVirtualIP _ cidr => fun x =>
    if mt = MachineType.TypeWorker then x
    else { x with DeviceVIPConfig := some { SharedIP := cidr } }
  | _ => fun x => x

/-- The calls that write through the DHCP-options pointer of the device. -/
def OptionCall.writesOptions : OptionCall → Bool
  | OptionCall.interfaceDHCPv4 _ _ => true
  | OptionCall.interfaceDHCPv6 _ _ => true
  | _ => false

/-- The number of elements a call appends to the address slice of the device. -/
def OptionCall.appended : OptionCall → Nat
  | OptionCall.interfaceCIDR _ _ => 1
  | _ => 0

/-- The call, run on a document that has the top-level struct of the config at `pc`,
may write into memory that `pc` reaches.  An interface option that finds a device of
`pc` under its name writes into that device, into its DHCP options or into the slots
behind its address list.  `WithKubeSpan` writes into the KubeSpan struct of `pc` when
it has one.  `WithNetworkNameservers` may fill the slots behind the nameserver list
of `pc`, which the address list of a device of `pc` may see.  `WithNetworkConfig`
assigns the top-level struct of the document only. -/
def OptionCall.writesInto (mt : MachineType) (h : Heap) (pc : Ptr) (call : OptionCall) : Bool :=
  match h.config pc with
  | none => false
  | some v =>
    match call with
    | OptionCall.networkConfig _ => false
    | OptionCall.networkNameservers ns =>
      v.NetworkInterfaces.any fun p =>
        match h.device p with
        | none => false
        | some d => d.DeviceAddresses.seesBehind v.NameServers ns.length
    | OptionCall.kubeSpan => v.NetworkKubeSpan.isSome
    | c =>
      match c.lookedUp mt with
      | none => false
      | some iface => decide (findDevice h iface v.NetworkInterfaces ≠ some none)

/-- What an interface option that looks up `iface` leaves alone and what it changes,
between the heap `h` before and the heap `h'` after, for the document at `cfg` whose
config struct is `v` before and `v'` after.  `F` is the change to the value of the
targeted device, `viaOptions` tells whether the option writes through the device's
DHCP-options pointer, and `appended` is the number of elements it appends to the
device's address slice. -/
structure InterfaceFrame (h h' : Heap) (cfg : Ptr) (v v' : NetworkConfig) (iface : String)
    (F : DeviceValue → DeviceValue) (viaOptions : Bool) (appended : Nat) : Prop where
  /-- The document after the call. -/
  config : h'.config cfg = some v'
  /-- The slice header of the global nameservers is unchanged. -/
  nameServers : v'.NameServers = v.NameServers
  /-- The KubeSpan pointer is unchanged. -/
  kubeSpan : v'.NetworkKubeSpan = v.NetworkKubeSpan
  /-- The rest of the config struct is unchanged. -/
  others : v'.others = v.others
  /-- No KubeSpan struct changes. -/
  kubeSpans : h'.kubeSpans = h.kubeSpans
  /-- The entries of the interface list keep their positions: the list is the
  previous list, followed by one new pointer when no device had the name. -/
  positions : v'.NetworkInterfaces = v.NetworkInterfaces ∨
    (findDevice h iface v.NetworkInterfaces = some none ∧
      v'.NetworkInterfaces = v.NetworkInterfaces ++ [h.devices.length])
  /-- Every device struct whose name differs from `iface` is unchanged. -/
  otherDevices : ∀ p d, h.device p = some d → d.DeviceInterface ≠ iface → h'.device p = some d
  /-- An option that does not write through the options pointer changes no
  DHCP-options struct. -/
  optionsKept : viaOptions = false → h'.dhcpOptions = h.dhcpOptions
  /-- The only DHCP-options struct that can change is the one the first device named
  `iface` points to. -/
  otherOptions : ∀ q o, h.dhcp q = some o → h'.dhcp q = some o ∨
    ∃ p d, findDevice h iface v.NetworkInterfaces = some (some p) ∧ h.device p = some d ∧
      d.DeviceDHCPOptions = some q
  /-- An option that does not append changes no backing array. -/
  arraysKept : appended = 0 → h'.arrays = h.arrays
  /-- A slice that could be read before reads the same afterwards, unless it sees a
  slot that the append to the addresses of the first device named `iface` fills in
  place. -/
  otherSlices : ∀ t xs, h.readSlice t = some xs →
    (∀ p d, findDevice h iface v.NetworkInterfaces = some (some p) → h.device p = some d →
      t.seesBehind d.DeviceAddresses appended = false) →
    h'.readSlice t = some xs
  /-- The global nameservers read as before, unless their slice sees a slot filled in
  place. -/
  nameServerList :
    (∀ p d, findDevice h iface v.NetworkInterfaces = some (some p) → h.device p = some d →
      v.NameServers.seesBehind d.DeviceAddresses appended = false) →
    h'.readSlice v'.NameServers = h.readSlice v.NameServers
  /-- Every device of the document whose name differs from `iface` reads as before,
  addresses and options included, with two exceptions: an option that writes through
  the options pointer is seen by a device that points to the very options struct of
  the targeted device, and an append in place is seen by a device whose address
  slice sees the filled slot. -/
  otherValues : ∀ p ∈ v.NetworkInterfaces, ∀ d, h.device p = some d →
    d.DeviceInterface ≠ iface →
    (viaOptions = true → ∀ t dt q, findDevice h iface v.NetworkInterfaces = some (some t) →
      h.device t = some dt → dt.DeviceDHCPOptions = some q → d.DeviceDHCPOptions ≠ some q) →
    (∀ t dt, findDevice h iface v.NetworkInterfaces = some (some t) → h.device t = some dt →
      d.DeviceAddresses.seesBehind dt.DeviceAddresses appended = false) →
    h'.readDevice p = h.readDevice p
  /-- In the first device named `iface` only the targeted field changes. -/
  target : ∀ p, findDevice h iface v.NetworkInterfaces = some (some p) →
    h'.readDevice p = (h.readDevice p).map F
  /-- When no device had the name, the new device is the zero device of that name
  with the targeted field assigned. -/
  created : findDevice h iface v.NetworkInterfaces = some none →
    h'.readDevice h.devices.length = some (F (DeviceValue.named iface))

/-! ### Independence of documents

Which cells and backing arrays a document owns, what a run on one document may
touch, and when two documents share nothing. -/

namespace Heap

/-- The device cell `p` is in the interface list of the document at `a`. -/
def ownsDevice (h : Heap) (a p : Ptr) : Prop :=
  ∃ v, h.config a = some v ∧ p ∈ v.NetworkInterfaces

/-- The DHCP-options cell `q` is pointed to by a device of the document at `a`. -/
def ownsOptions (h : Heap) (a q : Ptr) : Prop :=
  ∃ v p d, h.config a = some v ∧ p ∈ v.NetworkInterfaces ∧ h.device p = some d ∧
    d.DeviceDHCPOptions = some q

/-- The KubeSpan cell `k` is pointed to by the document at `a`. -/
def ownsKubeSpan (h : Heap) (a k : Ptr) : Prop :=
  ∃ v, h.config a = some v ∧ v.NetworkKubeSpan = some k

/-- The backing array `q` is the array of the nameservers of the document at `a` or
of the addresses of one of its devices. -/
def ownsArray (h : Heap) (a q : Ptr) : Prop :=
  ∃ v, h.config a = some v ∧
    (v.NameServers.array = some q ∨
      ∃ p d, p ∈ v.NetworkInterfaces ∧ h.device p = some d ∧
        d.DeviceAddresses.array = some q)

/-- The heap `h'` came from `h` by writes to the document at `a` only: every config
cell other than `a` and every cell and array that existed and was not owned by `a`
is unchanged, nothing was freed, and what `a` owns afterwards it owned before or is
new. -/
structure Footprint (h h' : Heap) (a : Ptr) : Prop where
  configs : ∀ n, n ≠ a → h'.config n = h.config n
  devices : ∀ p, p < h.devices.length → ¬ h.ownsDevice a p → h'.device p = h.device p
  options : ∀ q, q < h.dhcpOptions.length → ¬ h.ownsOptions a q → h'.dhcp q = h.dhcp q
  kubeSpans : ∀ k, k < h.kubeSpans.length → ¬ h.ownsKubeSpan a k →
    h'.kubeSpan k = h.kubeSpan k
  growDevices : h.devices.length ≤ h'.devices.length
  growOptions : h.dhcpOptions.length ≤ h'.dhcpOptions.length
  growKubeSpans : h.kubeSpans.length ≤ h'.kubeSpans.length
  ownDevices : ∀ p, h'.ownsDevice a p → p < h.devices.length → h.ownsDevice a p
  ownOptions : ∀ q, h'.ownsOptions a q → q < h.dhcpOptions.length → h.ownsOptions a q
  ownKubeSpan : ∀ k, h'.ownsKubeSpan a k → k < h.kubeSpans.length → h.ownsKubeSpan a k
  arrays : ∀ q, q < h.arrays.length → ¬ h.ownsArray a q → h'.arrays[q]? = h.arrays[q]?
  growArrays : h.arrays.length ≤ h'.arrays.length
  ownArrays : ∀ q, h'.ownsArray a q → q < h.arrays.length → h.ownsArray a q

/-- The documents at `a` and `b` are different config cells and own no cell and no
backing array in common. -/
structure Separate (h : Heap) (a b : Ptr) : Prop where
  ne : a ≠ b
  devices : ∀ p, h.ownsDevice a p → ¬ h.ownsDevice b p
  options : ∀ q, h.ownsOptions a q → ¬ h.ownsOptions b q
  kubeSpans : ∀ k, h.ownsKubeSpan a k → ¬ h.ownsKubeSpan b k
  arrays : ∀ q, h.ownsArray a q → ¬ h.ownsArray b q

end Heap

/-- The call replaces the whole document (`WithNetworkConfig`) instead of changing
something inside it. -/
def OptionCall.replaces : OptionCall → Bool
  | OptionCall.networkConfig _ => true
  | _ => false

/-- Modelled from the spec: `Provider.Clone()`, declared in `provider.go` without an
implementation ("Clone returns a copy of the Provider"; the specification: a deep
copy, independent of the source, whose readonly flag matches the source's).  The
fields and the flag are copied and the network configuration is copied with
everything it points to into fresh cells.  The result is the store with the copy
allocated and the pointer to the copy. -/
def Store.Clone (st : Store) (p : Ptr) : Option (Store × Ptr) :=
  match st.provider p with
  | none => none
  | some o =>
    match st.heap.copyConfig o.network with
    | none => none
    | some (h1, n1) =>
      some ({ heap := h1,
              providers := st.providers ++
                [{ fields := o.fields, network := n1, readonly := o.readonly }] },
            st.providers.length)

/-- A heap holding one document, at address 0, whose devices `eth0` and `eth1` point
to the same DHCP-options struct. -/
def sharedOptionsHeap : Heap :=
  { configs := [{ NetworkConfig.zero with NetworkInterfaces := [0, 1] }],
    devices := [{ Device.named "eth0" with DeviceDHCPOptions := some 0 },
                { Device.named "eth1" with DeviceDHCPOptions := some 0 }],
    dhcpOptions := [DHCPOptions.zero],
    kubeSpans := [],
    arrays := [] }

/-- A heap holding one document, at address 0, whose devices `eth0` and `eth1` have
address slices over the same backing array of two slots: `eth0` has the first slot
and capacity for the second, `eth1` has both. -/
def sharedAddressesHeap : Heap :=
  { configs := [{ NetworkConfig.zero with NetworkInterfaces := [0, 1] }],
    devices := [{ Device.named "eth0" with
                  DeviceAddresses := { array := some 0, offset := 0, len := 1, cap := 2 } },
                { Device.named "eth1" with
                  DeviceAddresses := { array := some 0, offset := 0, len := 2, cap := 2 } }],
    dhcpOptions := [],
    kubeSpans := [],
    arrays := [["10.0.0.1/24", "10.0.0.9/24"]] }

/-- A heap holding one document, at address 0, whose nameserver slice and whose
device `eth0` have slices over the same backing array of two slots: the nameservers
have the first slot and capacity for the second, the addresses of `eth0` have both. -/
def sharedNameserverHeap : Heap :=
  { configs := [{ NetworkConfig.zero with
                  NetworkInterfaces := [0],
                  NameServers := { array := some 0, offset := 0, len := 1, cap := 2 } }],
    devices := [{ Device.named "eth0" with
                  DeviceAddresses := { array := some 0, offset := 0, len := 2, cap := 2 } }],
    dhcpOptions := [],
    kubeSpans := [],
    arrays := [["1.1.1.1", "9.9.9.9"]] }

/-! ## Lemmas -/

/-! ### Slices and backing arrays -/

namespace Heap

theorem le_growCap (cap needed : Nat) : needed ≤ growCap cap needed := by
  unfold growCap
  exact le_max_left _ _

theorem writeAt_length {a : List String} {i : Nat} {xs : List String}
    (hfit : i + xs.length ≤ a.length) : (writeAt a i xs).length = a.length := by
  simp only [writeAt, List.length_append, List.length_take, List.length_drop]
  omega

theorem readSlice_nil (h : Heap) : h.readSlice Slice.nil = some [] := rfl

/-- Reading a slice only looks at its backing array. -/
theorem readSlice_congr {h h' : Heap} {t : Slice}
    (ha : ∀ q, t.array = some q → h'.arrays[q]? = h.arrays[q]?) :
    h'.readSlice t = h.readSlice t := by
  unfold readSlice
  cases hq : t.array with
  | none => rfl
  | some q => simp [ha q hq]

theorem lt_of_readSlice {h : Heap} {t : Slice} {q : Ptr} {xs : List String}
    (hr : h.readSlice t = some xs) (hq : t.array = some q) : q < h.arrays.length := by
  unfold readSlice at hr
  simp only [hq] at hr
  cases ha : h.arrays[q]? with
  | none => simp [ha] at hr
  | some a => exact (List.getElem?_eq_some.1 ha).1

theorem validSlice_iff {h : Heap} {s : Slice} :
    h.validSlice s = true ↔
      (s.array = none ∧ s.len = 0 ∧ s.cap = 0) ∨
      ∃ q a, s.array = some q ∧ h.arrays[q]? = some a ∧ s.len ≤ s.cap ∧
        s.offset + s.cap ≤ a.length := by
  unfold validSlice
  cases hq : s.array with
  | none => simp
  | some q =>
    cases ha : h.arrays[q]? with
    | none => simp [ha]
    | some a => simp [ha]

/-- A valid slice can be read. -/
theorem readSlice_isSome_of_valid {h : Heap} {s : Slice} (hv : h.validSlice s = true) :
    ∃ xs, h.readSlice s = some xs := by
  rcases validSlice_iff.1 hv with ⟨hn, -, -⟩ | ⟨q, a, hq, ha, h1, h2⟩
  · exact ⟨[], by simp [readSlice, hn]⟩
  · refine ⟨(a.drop s.offset).take s.len, ?_⟩
    have : s.offset + s.len ≤ a.length := by omega
    simp [readSlice, hq, ha, this]

/-- A slice stays valid when every array that existed keeps its length. -/
theorem validSlice_mono {h h' : Heap} {s : Slice}
    (ha : ∀ (q : Nat) (a : List String), h.arrays[q]? = some a →
      ∃ a', h'.arrays[q]? = some a' ∧ a'.length = a.length)
    (hv : h.validSlice s = true) : h'.validSlice s = true := by
  rw [validSlice_iff] at hv ⊢
  rcases hv with hn | ⟨q, a, hq, hqa, h1, h2⟩
  · exact Or.inl hn
  · obtain ⟨a', ha', hl⟩ := ha q a hqa
    exact Or.inr ⟨q, a', hq, ha', h1, by omega⟩

theorem getElem?_writeAt {a : List String} {i : Nat} {xs : List String} (j : Nat)
    (hfit : i + xs.length ≤ a.length) :
    (writeAt a i xs)[j]? =
      if j < i then a[j]? else if j < i + xs.length then xs[j - i]? else a[j]? := by
  unfold writeAt
  have hi : i ≤ a.length := by omega
  by_cases h1 : j < i
  · simp only [h1, if_true]
    rw [List.append_assoc, List.getElem?_append_left (by simp; omega)]
    simp [List.getElem?_take, h1]
  · simp only [h1, if_false]
    rw [List.append_assoc, List.getElem?_append_right (by simp; omega)]
    have hl : (List.take i a).length = i := by simp; omega
    rw [hl]
    by_cases h2 : j < i + xs.length
    · simp only [h2, if_true]
      rw [List.getElem?_append_left (by omega)]
    · simp only [h2, if_false]
      rw [List.getElem?_append_right (by omega), List.getElem?_drop]
      congr 1
      omega

theorem take_drop_writeAt_self {a : List String} {o l : Nat} {xs : List String}
    (hfit : o + l + xs.length ≤ a.length) :
    ((writeAt a (o + l) xs).drop o).take (l + xs.length) = (a.drop o).take l ++ xs := by
  apply List.ext_getElem?
  intro j
  rw [List.getElem?_take, List.getElem?_drop, getElem?_writeAt _ hfit, List.getElem?_append]
  have hlen : ((a.drop o).take l).length = l := by simp; omega
  rw [hlen]
  by_cases h1 : j < l
  · have : o + j < o + l := by omega
    simp [h1, this, List.getElem?_take, List.getElem?_drop]
    omega
  · by_cases h2 : j < l + xs.length
    · have : ¬ o + j < o + l := by omega
      have h3 : o + j < o + l + xs.length := by omega
      simp only [h1, h2, this, h3, if_true, if_false]
      congr 1
      omega
    · simp only [h1, h2, if_false]
      exact (List.getElem?_eq_none (by omega)).symm

theorem take_drop_writeAt_other {a : List String} {i : Nat} {xs : List String} {o l : Nat}
    (hfit : i + xs.length ≤ a.length)
    (hdis : xs.length = 0 ∨ i + xs.length ≤ o ∨ o + l ≤ i) :
    ((writeAt a i xs).drop o).take l = (a.drop o).take l := by
  apply List.ext_getElem?
  intro j
  rw [List.getElem?_take, List.getElem?_take, List.getElem?_drop, List.getElem?_drop,
    getElem?_writeAt _ hfit]
  by_cases h1 : j < l
  · simp only [h1, if_true]
    by_cases h2 : o + j < i
    · simp [h2]
    · by_cases h3 : o + j < i + xs.length
      · exfalso
        omega
      · simp [h2, h3]
  · simp [h1]

/-- The three ways `append` goes: nothing to append, in place, or to a fresh array. -/
theorem append_cases (h : Heap) (s : Slice) (xs : List String) :
    (xs = [] ∧ h.append s xs = (h, s)) ∨
    (∃ q a, xs ≠ [] ∧ s.array = some q ∧ h.arrays[q]? = some a ∧
      s.len + xs.length ≤ s.cap ∧ s.offset + s.cap ≤ a.length ∧
      h.append s xs
        = ({ h with arrays := h.arrays.set q (writeAt a (s.offset + s.len) xs) },
            { s with len := s.len + xs.length })) ∨
    (xs ≠ [] ∧ h.append s xs = h.appendFresh s xs) := by
  unfold append
  by_cases hx : xs = []
  · exact Or.inl ⟨hx, by simp [hx]⟩
  · have hx' : xs.isEmpty = false := by simpa using hx
    simp only [hx', Bool.false_eq_true, if_false]
    cases hq : s.array with
    | none => exact Or.inr (Or.inr ⟨hx, rfl⟩)
    | some q =>
      cases ha : h.arrays[q]? with
      | none => exact Or.inr (Or.inr ⟨hx, by simp [ha]⟩)
      | some a =>
        by_cases hfit : s.len + xs.length ≤ s.cap ∧ s.offset + s.cap ≤ a.length
        · exact Or.inr (Or.inl ⟨q, a, hx, rfl, ha, hfit.1, hfit.2, by simp [ha, hfit]⟩)
        · exact Or.inr (Or.inr ⟨hx, by simp [ha, hfit]⟩)

/-- An `append` changes no struct cell. -/
theorem append_cells (h : Heap) (s : Slice) (xs : List String) :
    (h.append s xs).1.configs = h.configs ∧ (h.append s xs).1.devices = h.devices ∧
      (h.append s xs).1.dhcpOptions = h.dhcpOptions ∧
      (h.append s xs).1.kubeSpans = h.kubeSpans := by
  rcases append_cases h s xs with ⟨-, e⟩ | ⟨q, a, -, -, -, -, -, e⟩ | ⟨-, e⟩ <;> rw [e] <;>
    exact ⟨rfl, rfl, rfl, rfl⟩

theorem append_config (h : Heap) (s : Slice) (xs : List String) (p : Ptr) :
    (h.append s xs).1.config p = h.config p := by
  simp [Heap.config, (append_cells h s xs).1]

theorem append_device (h : Heap) (s : Slice) (xs : List String) (p : Ptr) :
    (h.append s xs).1.device p = h.device p := by
  simp [Heap.device, (append_cells h s xs).2.1]

theorem append_dhcp (h : Heap) (s : Slice) (xs : List String) (p : Ptr) :
    (h.append s xs).1.dhcp p = h.dhcp p := by
  simp [Heap.dhcp, (append_cells h s xs).2.2.1]

theorem append_kubeSpan (h : Heap) (s : Slice) (xs : List String) (p : Ptr) :
    (h.append s xs).1.kubeSpan p = h.kubeSpan p := by
  simp [Heap.kubeSpan, (append_cells h s xs).2.2.2]

/-- An `append` frees no array and changes the length of none. -/
theorem append_arrays_mono (h : Heap) (s : Slice) (xs : List String) (q : Nat)
    (a : List String) (ha : h.arrays[q]? = some a) :
    ∃ a', (h.append s xs).1.arrays[q]? = some a' ∧ a'.length = a.length := by
  rcases append_cases h s xs with ⟨-, e⟩ | ⟨q0, a0, -, hq0, ha0, h1, h2, e⟩ | ⟨-, e⟩ <;> rw [e]
  · exact ⟨a, ha, rfl⟩
  · by_cases hqq : q0 = q
    · subst hqq
      rw [ha] at ha0
      cases ha0
      refine ⟨writeAt a (s.offset + s.len) xs, ?_, writeAt_length (by omega)⟩
      simp [List.getElem?_set, (List.getElem?_eq_some.1 ha).1]
    · exact ⟨a, by simpa [List.getElem?_set, hqq] using ha, rfl⟩
  · exact ⟨a, by simpa [appendFresh, List.getElem?_append_left (List.getElem?_eq_some.1 ha).1] using ha, rfl⟩

theorem append_arrays_length (h : Heap) (s : Slice) (xs : List String) :
    h.arrays.length ≤ (h.append s xs).1.arrays.length := by
  rcases append_cases h s xs with ⟨-, e⟩ | ⟨q0, a0, -, hq0, ha0, h1, h2, e⟩ | ⟨-, e⟩ <;> rw [e]
  · simp
  · simp [appendFresh]

/-- An array that is not the backing array of the slice is not changed by an `append`
to the slice. -/
theorem append_other_array (h : Heap) (s : Slice) (xs : List String) (q : Nat)
    (hq : s.array ≠ some q) (hlt : q < h.arrays.length) :
    (h.append s xs).1.arrays[q]? = h.arrays[q]? := by
  rcases append_cases h s xs with ⟨-, e⟩ | ⟨q0, a0, -, hq0, ha0, h1, h2, e⟩ | ⟨-, e⟩ <;> rw [e]
  · have hne : q0 ≠ q := fun hqq => hq (hqq ▸ hq0)
    simp [List.getElem?_set, hne]
  · simp [appendFresh, List.getElem?_append_left hlt]

/-- The slice an `append` returns holds the elements of the slice followed by the
appended elements. -/
theorem append_read {h : Heap} {s : Slice} {old : List String} (xs : List String)
    (hr : h.readSlice s = some old) :
    (h.append s xs).1.readSlice (h.append s xs).2 = some (old ++ xs) := by
  rcases append_cases h s xs with ⟨hx, e⟩ | ⟨q, a, -, hq, ha, h1, h2, e⟩ | ⟨-, e⟩ <;> rw [e]
  · simp [hx, hr]
  · have hlen : s.offset + s.len ≤ a.length := by omega
    have hold : old = (a.drop s.offset).take s.len := by
      simp [readSlice, hq, ha, hlen] at hr
      exact hr.symm
    have hfit : s.offset + s.len + xs.length ≤ a.length := by omega
    have hlt := (List.getElem?_eq_some.1 ha).1
    have hlen' : s.offset + (s.len + xs.length) ≤ (writeAt a (s.offset + s.len) xs).length := by
      rw [writeAt_length hfit]
      omega
    simp only [readSlice, hq, List.getElem?_set, hlt, if_true, hlen']
    rw [take_drop_writeAt_self hfit, hold]
  · have e2 : h.appendFresh s xs
        = ({ h with arrays := h.arrays ++ [old ++ xs ++ List.replicate
              (growCap s.cap (old.length + xs.length) - (old.length + xs.length)) ""] },
            { array := some h.arrays.length, offset := 0, len := old.length + xs.length,
              cap := growCap s.cap (old.length + xs.length) }) := by
      simp [appendFresh, hr]
    rw [e2]
    have hl : (0 : Nat) + (old.length + xs.length)
        ≤ (old ++ xs ++ List.replicate
            (growCap s.cap (old.length + xs.length) - (old.length + xs.length)) "").length := by
      simp
    simp only [readSlice, List.getElem?_concat_length, hl, if_true, List.drop_zero]
    rw [List.take_append_eq_append_take]
    simp

/-- A slice that does not see the slots filled in place reads as before. -/
theorem append_frame {h : Heap} {s t : Slice} {ys : List String} (xs : List String)
    (hr : h.readSlice t = some ys) (hsee : t.seesBehind s xs.length = false) :
    (h.append s xs).1.readSlice t = some ys := by
  cases ht : t.array with
  | none => simpa [readSlice, ht] using hr
  | some qt =>
    have hqt := lt_of_readSlice hr ht
    rcases append_cases h s xs with ⟨-, e⟩ | ⟨q, a, hx, hq, ha, h1, h2, e⟩ | ⟨-, e⟩
    · rw [e]
      exact hr
    · by_cases hqq : q = qt
      · subst hqq
        have hlt := (List.getElem?_eq_some.1 ha).1
        have hfit : s.offset + s.len + xs.length ≤ a.length := by omega
        have hxs : 0 < xs.length := List.length_pos.2 hx
        simp only [readSlice, ht, ha] at hr
        by_cases hin : t.offset + t.len ≤ a.length
        · simp only [hin, if_true, Option.some.injEq] at hr
          have hsee' : ¬ (0 < xs.length ∧ t.array.isSome = true ∧ t.array = s.array ∧
              s.len + xs.length ≤ s.cap ∧ t.offset < s.offset + s.len + xs.length ∧
              s.offset + s.len < t.offset + t.len) := by
            simpa [Slice.seesBehind] using hsee
          have hdis : xs.length = 0 ∨ s.offset + s.len + xs.length ≤ t.offset ∨
              t.offset + t.len ≤ s.offset + s.len := by
            by_contra hcon
            apply hsee'
            exact ⟨hxs, by simp [ht], by rw [ht, hq], h1, by omega, by omega⟩
          rw [e]
          simp only [readSlice, ht, List.getElem?_set, hlt, if_true, writeAt_length hfit, hin]
          rw [take_drop_writeAt_other hfit hdis, hr]
        · simp [hin] at hr
      · rw [← hr]
        exact readSlice_congr (fun q' hq' => by
          rw [ht] at hq'
          cases hq'
          exact append_other_array h s xs qt (fun hc => hqq (by rw [hq] at hc; exact Option.some.inj hc)) hqt)
    · rw [← hr, e]
      exact readSlice_congr (fun q' hq' => by
        rw [ht] at hq'
        cases hq'
        simp [appendFresh, List.getElem?_append_left hqt])

/-- The slice an `append` returns is valid when the slice was. -/
theorem append_valid {h : Heap} {s : Slice} (xs : List String) (hv : h.validSlice s = true) :
    (h.append s xs).1.validSlice (h.append s xs).2 = true := by
  rcases append_cases h s xs with ⟨hx, e⟩ | ⟨q, a, -, hq, ha, h1, h2, e⟩ | ⟨-, e⟩ <;> rw [e]
  · exact hv
  · have hlt := (List.getElem?_eq_some.1 ha).1
    refine validSlice_iff.2 (Or.inr ⟨q, writeAt a (s.offset + s.len) xs, hq, ?_, h1, ?_⟩)
    · simp [List.getElem?_set, hlt]
    · rw [writeAt_length (by omega)]
      exact h2
  · obtain ⟨old, hold⟩ := readSlice_isSome_of_valid hv
    have e2 : h.appendFresh s xs
        = ({ h with arrays := h.arrays ++ [old ++ xs ++ List.replicate
              (growCap s.cap (old.length + xs.length) - (old.length + xs.length)) ""] },
            { array := some h.arrays.length, offset := 0, len := old.length + xs.length,
              cap := growCap s.cap (old.length + xs.length) }) := by
      simp [appendFresh, hold]
    rw [e2]
    have hg := le_growCap s.cap (old.length + xs.length)
    refine validSlice_iff.2 (Or.inr ⟨h.arrays.length, _, rfl,
      List.getElem?_concat_length _ _, hg, ?_⟩)
    simp only [List.length_append, List.length_replicate]
    omega

/-- Slices that were valid stay valid through an `append`. -/
theorem append_validSlice (h : Heap) (s : Slice) (xs : List String) {t : Slice}
    (hv : h.validSlice t = true) : (h.append s xs).1.validSlice t = true :=
  validSlice_mono (append_arrays_mono h s xs) hv

/-- An `append` changes backing arrays only. -/
theorem append_eq_withArrays (h : Heap) (s : Slice) (xs : List String) :
    (h.append s xs).1 = h.withArrays (h.append s xs).1.arrays := by
  obtain ⟨h1, h2, h3, h4⟩ := append_cells h s xs
  generalize (h.append s xs).1 = h' at *
  cases h'
  cases h
  simp only [withArrays] at *
  simp [h1, h2, h3, h4]

/-- What an `append` does depends on the backing arrays only. -/
theorem append_congr {h h' : Heap} (harr : h'.arrays = h.arrays) (s : Slice)
    (xs : List String) :
    (h'.append s xs).1.arrays = (h.append s xs).1.arrays ∧
      (h'.append s xs).2 = (h.append s xs).2 := by
  unfold append appendFresh readSlice
  rw [harr]
  by_cases hx : xs.isEmpty = true
  · simp [hx, harr]
  · simp only [hx, Bool.false_eq_true, if_false]
    cases s.array with
    | none => exact ⟨rfl, rfl⟩
    | some q =>
      simp only []
      cases h.arrays[q]? with
      | none => exact ⟨rfl, rfl⟩
      | some a =>
        simp only []
        split <;> exact ⟨rfl, rfl⟩

theorem append_of_arrays_eq {h h' : Heap} (harr : h'.arrays = h.arrays) (s : Slice)
    (xs : List String) :
    h'.append s xs = (h'.withArrays (h.append s xs).1.arrays, (h.append s xs).2) := by
  obtain ⟨e1, e2⟩ := append_congr harr s xs
  refine Prod.ext ?_ e2
  rw [append_eq_withArrays, e1]

theorem pointersValid_withArrays (h : Heap) (A : List (List String)) :
    (h.withArrays A).pointersValid = h.pointersValid := rfl

theorem config_withArrays (h : Heap) (A : List (List String)) (p : Ptr) :
    (h.withArrays A).config p = h.config p := rfl

theorem device_withArrays (h : Heap) (A : List (List String)) (p : Ptr) :
    (h.withArrays A).device p = h.device p := rfl

theorem dhcp_withArrays (h : Heap) (A : List (List String)) (p : Ptr) :
    (h.withArrays A).dhcp p = h.dhcp p := rfl

theorem kubeSpan_withArrays (h : Heap) (A : List (List String)) (p : Ptr) :
    (h.withArrays A).kubeSpan p = h.kubeSpan p := rfl

theorem withArrays_withArrays (h : Heap) (A B : List (List String)) :
    (h.withArrays A).withArrays B = h.withArrays B := rfl

theorem withArrays_self (h : Heap) : h.withArrays h.arrays = h := rfl

theorem storeConfig_withArrays (h : Heap) (A : List (List String)) (p : Ptr)
    (v : NetworkConfig) : (h.withArrays A).storeConfig p v = (h.storeConfig p v).withArrays A :=
  rfl

theorem storeDevice_withArrays (h : Heap) (A : List (List String)) (p : Ptr)
    (d : Device) : (h.withArrays A).storeDevice p d = (h.storeDevice p d).withArrays A :=
  rfl

theorem append_pointersValid (h : Heap) (s : Slice) (xs : List String) :
    (h.append s xs).1.pointersValid = h.pointersValid := by
  rw [append_eq_withArrays]
  rfl

theorem lt_of_validSlice {h : Heap} {s : Slice} {q : Ptr} (hv : h.validSlice s = true)
    (hq : s.array = some q) : q < h.arrays.length := by
  rcases validSlice_iff.1 hv with ⟨hn, -, -⟩ | ⟨q0, a, hq0, ha, -, -⟩
  · rw [hn] at hq
    cases hq
  · rw [hq0] at hq
    cases hq
    exact (List.getElem?_eq_some.1 ha).1

/-- The slice an `append` returns lies in the array of the slice it was given or in
a fresh array. -/
theorem append_array_old {h : Heap} {s : Slice} {xs : List String} {q : Ptr}
    (hq : (h.append s xs).2.array = some q) (hlt : q < h.arrays.length) :
    s.array = some q := by
  rcases append_cases h s xs with ⟨-, e⟩ | ⟨q0, a, -, hq0, -, -, -, e⟩ | ⟨-, e⟩
  · rw [e] at hq
    exact hq
  · rw [e] at hq
    exact hq
  · rw [e] at hq
    simp only [appendFresh, Option.some.injEq] at hq
    subst hq
    exact absurd hlt (Nat.lt_irrefl _)

end Heap

/-- Reading a device, step by step: the cell, the address slice, the DHCP options. -/
theorem readDevice_toValue (h : Heap) (p : Ptr) :
    h.readDevice p = (h.device p).bind (fun d =>
      (h.readSlice d.DeviceAddresses).bind (fun addresses =>
        match d.DeviceDHCPOptions with
        | none => some (d.toValue addresses none)
        | some q => (h.dhcp q).map (fun o => d.toValue addresses (some o)))) := by
  unfold Heap.readDevice
  cases h.device p with
  | none => rfl
  | some d =>
    cases hs : h.readSlice d.DeviceAddresses with
    | none => simp [hs]
    | some addresses =>
      cases hq : d.DeviceDHCPOptions with
      | none => simp [hs, hq, Device.toValue]
      | some q =>
        cases ho : h.dhcp q with
        | none => simp [hs, hq, ho]
        | some o => simp [hs, hq, ho, Device.toValue]

theorem readDevice_newDevice (h : Heap) (d : Device) :
    (h.newDevice d).1.readDevice (h.newDevice d).2 =
      (h.readSlice d.DeviceAddresses).bind (fun addresses =>
        match d.DeviceDHCPOptions with
        | none => some (d.toValue addresses none)
        | some q => (h.dhcp q).map (fun o => d.toValue addresses (some o))) := by
  rw [readDevice_toValue]
  have hd : (h.newDevice d).1.device (h.newDevice d).2 = some d := by
    simp [Heap.newDevice, Heap.device]
  rw [hd]
  rfl

theorem findDevice_congr (h h' : Heap) (name : String) (ps : List Ptr)
    (hnames : ∀ p ∈ ps, (h'.device p).map Device.DeviceInterface
      = (h.device p).map Device.DeviceInterface) :
    findDevice h' name ps = findDevice h name ps := by
  induction ps with
  | nil => rfl
  | cons p ps ih =>
    have hp := hnames p (List.mem_cons_self _ _)
    have ih' := ih (fun q hq => hnames q (List.mem_cons_of_mem _ hq))
    unfold findDevice
    cases hd : h.device p with
    | none =>
      rw [hd] at hp
      cases hd' : h'.device p with
      | none => rfl
      | some d' => rw [hd'] at hp; simp at hp
    | some d =>
      rw [hd] at hp
      cases hd' : h'.device p with
      | none => rw [hd'] at hp; simp at hp
      | some d' =>
        rw [hd'] at hp
        simp only [Option.map_some', Option.some.injEq] at hp
        simp only [hp, ih']

theorem findDevice_found {h : Heap} {name : String} {ps : List Ptr} {p : Ptr}
    (hf : findDevice h name ps = some (some p)) :
    p ∈ ps ∧ ∃ d, h.device p = some d ∧ d.DeviceInterface = name := by
  induction ps with
  | nil => simp [findDevice] at hf
  | cons q qs ih =>
    unfold findDevice at hf
    cases hd : h.device q with
    | none => simp [hd] at hf
    | some d =>
      simp only [hd] at hf
      by_cases hname : d.DeviceInterface = name
      · simp only [hname, if_true, Option.some.injEq] at hf
        subst hf
        exact ⟨List.mem_cons_self _ _, d, hd, hname⟩
      · simp only [hname, if_false] at hf
        obtain ⟨hm, hd'⟩ := ih hf
        exact ⟨List.mem_cons_of_mem _ hm, hd'⟩

theorem findDevice_absent {h : Heap} {name : String} {ps : List Ptr}
    (hf : findDevice h name ps = some none) :
    ∀ p ∈ ps, ∃ d, h.device p = some d ∧ d.DeviceInterface ≠ name := by
  induction ps with
  | nil => simp
  | cons q qs ih =>
    unfold findDevice at hf
    cases hd : h.device q with
    | none => simp [hd] at hf
    | some d =>
      simp only [hd] at hf
      by_cases hname : d.DeviceInterface = name
      · simp [hname] at hf
      · simp only [hname, if_false] at hf
        intro p hp
        rcases List.mem_cons.1 hp with rfl | hp
        · exact ⟨d, hd, hname⟩
        · exact ih hf p hp

theorem findDevice_total {h : Heap} (name : String) {ps : List Ptr}
    (hv : ∀ p ∈ ps, p < h.devices.length) : ∃ r, findDevice h name ps = some r := by
  induction ps with
  | nil => exact ⟨none, rfl⟩
  | cons q qs ih =>
    have hq := hv q (List.mem_cons_self _ _)
    obtain ⟨r, hr⟩ := ih (fun p hp => hv p (List.mem_cons_of_mem _ hp))
    unfold findDevice
    have : h.device q = some (h.devices[q]) := by simp [Heap.device, hq]
    rw [this]
    by_cases hname : (h.devices[q]).DeviceInterface = name
    · exact ⟨some q, by simp [hname]⟩
    · exact ⟨r, by simp [hname, hr]⟩

theorem findDevice_append (h : Heap) (name : String) (ps qs : List Ptr) :
    findDevice h name (ps ++ qs) =
      match findDevice h name ps with
      | some none => findDevice h name qs
      | r => r := by
  induction ps with
  | nil => rfl
  | cons p ps ih =>
    simp only [List.cons_append, findDevice]
    cases hd : h.device p with
    | none => rfl
    | some d =>
      by_cases hname : d.DeviceInterface = name
      · simp [hname]
      · simp only [hname, if_false]; exact ih

namespace Heap

theorem device_eq_some_iff {h : Heap} {p : Ptr} {d : Device} :
    h.device p = some d ↔ ∃ hp : p < h.devices.length, h.devices[p] = d := by
  simp [Heap.device, List.getElem?_eq_some]

theorem device_of_lt {h : Heap} {p : Ptr} (hp : p < h.devices.length) :
    h.device p = some h.devices[p] := by
  simp [Heap.device, hp]

theorem lt_of_device {h : Heap} {p : Ptr} {d : Device} (hd : h.device p = some d) :
    p < h.devices.length := (device_eq_some_iff.1 hd).1

theorem config_of_lt {h : Heap} {p : Ptr} (hp : p < h.configs.length) :
    h.config p = some h.configs[p] := by
  simp [Heap.config, hp]

theorem lt_of_config {h : Heap} {p : Ptr} {v : NetworkConfig} (hv : h.config p = some v) :
    p < h.configs.length := by
  simp only [Heap.config, List.getElem?_eq_some] at hv
  exact hv.1

theorem mem_of_config {h : Heap} {p : Ptr} {v : NetworkConfig} (hv : h.config p = some v) :
    v ∈ h.configs := by
  simp only [Heap.config] at hv
  exact List.getElem?_mem hv

theorem validDevice_iff {h : Heap} {p : Ptr} :
    h.validDevice p = true ↔
      ∃ d, h.device p = some d ∧ ∀ q, d.DeviceDHCPOptions = some q → q < h.dhcpOptions.length := by
  unfold validDevice
  cases hd : h.device p with
  | none => simp
  | some d =>
    cases hq : d.DeviceDHCPOptions with
    | none => simp [hq]
    | some q => simp [hq]

theorem validConfig_iff {h : Heap} {c : NetworkConfig} :
    h.validConfig c = true ↔
      (∀ p ∈ c.NetworkInterfaces, h.validDevice p = true) ∧
        ∀ k, c.NetworkKubeSpan = some k → k < h.kubeSpans.length := by
  unfold validConfig
  cases hk : c.NetworkKubeSpan with
  | none => simp
  | some k => simp

theorem pointersValid_iff {h : Heap} :
    h.pointersValid = true ↔ ∀ c ∈ h.configs, h.validConfig c = true := by
  simp [pointersValid]

theorem validConfig_of_config {h : Heap} {p : Ptr} {v : NetworkConfig}
    (hwf : h.pointersValid = true) (hv : h.config p = some v) : h.validConfig v = true :=
  pointersValid_iff.1 hwf v (mem_of_config hv)

theorem interfaces_lt {h : Heap} {p : Ptr} {v : NetworkConfig}
    (hwf : h.pointersValid = true) (hv : h.config p = some v) :
    ∀ q ∈ v.NetworkInterfaces, q < h.devices.length := by
  intro q hq
  obtain ⟨d, hd, -⟩ := validDevice_iff.1 ((validConfig_iff.1 (validConfig_of_config hwf hv)).1 q hq)
  exact lt_of_device hd

/-- Validity is kept by a heap change that keeps every valid device valid, loses no
KubeSpan cell and only adds valid configs. -/
theorem pointersValid_of_step {h h' : Heap} (hwf : h.pointersValid = true)
    (hdev : ∀ p, h.validDevice p = true → h'.validDevice p = true)
    (hks : h.kubeSpans.length ≤ h'.kubeSpans.length)
    (hcfg : ∀ c ∈ h'.configs, c ∈ h.configs ∨ h'.validConfig c = true) :
    h'.pointersValid = true := by
  rw [pointersValid_iff] at hwf ⊢
  intro c hc
  rcases hcfg c hc with hold | hnew
  · obtain ⟨h1, h2⟩ := validConfig_iff.1 (hwf c hold)
    exact validConfig_iff.2 ⟨fun p hp => hdev p (h1 p hp), fun k hk => lt_of_lt_of_le (h2 k hk) hks⟩
  · exact hnew

end Heap

theorem getDevice_cases {h : Heap} {n : Ptr} {v : NetworkConfig} (name : String)
    (hn : h.config n = some v) (hv : ∀ p ∈ v.NetworkInterfaces, p < h.devices.length) :
    (∃ p, findDevice h name v.NetworkInterfaces = some (some p) ∧
        getDevice h n name = some (h, p)) ∨
      (findDevice h name v.NetworkInterfaces = some none ∧
        getDevice h n name =
          some ((h.newDevice (Device.named name)).1.storeConfig n
            { v with NetworkInterfaces := v.NetworkInterfaces ++ [h.devices.length] },
            h.devices.length)) := by
  obtain ⟨r, hr⟩ := findDevice_total name hv
  cases r with
  | some p => exact Or.inl ⟨p, hr, by simp [getDevice, hn, hr]⟩
  | none => exact Or.inr ⟨hr, by simp [getDevice, hn, hr, Heap.newDevice]⟩

theorem set_eq_self_of_getElem? {α : Type} {l : List α} {i : Nat} {a : α}
    (hi : l[i]? = some a) : l.set i a = l := by
  apply List.ext_getElem?
  intro n
  rw [List.getElem?_set]
  by_cases hin : i = n
  · subst hin
    have := (List.getElem?_eq_some.1 hi).1
    simp [this, hi]
  · simp [hin]

namespace Heap

theorem device_storeDevice (h : Heap) (p q : Ptr) (d : Device) :
    (h.storeDevice p d).device q =
      if p = q then (if p < h.devices.length then some d else none) else h.device q := by
  simp only [Heap.device, Heap.storeDevice, List.getElem?_set]

theorem device_storeDevice_self {h : Heap} {p : Ptr} {d : Device} (d' : Device)
    (hd : h.device p = some d) : (h.storeDevice p d').device p = some d' := by
  simp [device_storeDevice, lt_of_device hd]

theorem device_storeDevice_ne (h : Heap) {p q : Ptr} (d : Device) (hpq : p ≠ q) :
    (h.storeDevice p d).device q = h.device q := by
  simp [device_storeDevice, hpq]

theorem storeDevice_same {h : Heap} {p : Ptr} {d : Device} (hd : h.device p = some d) :
    h.storeDevice p d = h := by
  cases h
  simp only [storeDevice, mk.injEq, and_true, true_and]
  exact set_eq_self_of_getElem? hd

theorem storeDevice_storeDevice (h : Heap) (p : Ptr) (d d' : Device) :
    (h.storeDevice p d).storeDevice p d' = h.storeDevice p d' := by
  simp [storeDevice, List.set_set]

theorem validDevice_storeDevice {h : Heap} {p : Ptr} {d : Device} (d' : Device)
    (hd : h.device p = some d)
    (hq : ∀ q, d'.DeviceDHCPOptions = some q → q < h.dhcpOptions.length) (r : Ptr)
    (hr : h.validDevice r = true) : (h.storeDevice p d').validDevice r = true := by
  rw [validDevice_iff] at hr ⊢
  by_cases hpr : p = r
  · subst hpr
    exact ⟨d', device_storeDevice_self d' hd, hq⟩
  · obtain ⟨e, he, hq'⟩ := hr
    exact ⟨e, by rw [device_storeDevice_ne h d' hpr]; exact he, hq'⟩

theorem pointersValid_storeDevice {h : Heap} {p : Ptr} {d : Device} (d' : Device)
    (hwf : h.pointersValid = true) (hd : h.device p = some d)
    (hq : ∀ q, d'.DeviceDHCPOptions = some q → q < h.dhcpOptions.length) :
    (h.storeDevice p d').pointersValid = true :=
  pointersValid_of_step hwf (validDevice_storeDevice d' hd hq) (le_refl _)
    (fun _ hc => Or.inl hc)

end Heap

theorem findDevice_storeDevice {h : Heap} {p : Ptr} {d : Device} (d' : Device)
    (hd : h.device p = some d) (hname : d'.DeviceInterface = d.DeviceInterface)
    (name : String) (ps : List Ptr) :
    findDevice (h.storeDevice p d') name ps = findDevice h name ps := by
  apply findDevice_congr
  intro q _
  by_cases hpq : p = q
  · subst hpq
    rw [Heap.device_storeDevice_self d' hd, hd]
    simp [hname]
  · rw [Heap.device_storeDevice_ne h d' hpq]

theorem updateDevice_eq {h : Heap} {p : Ptr} {d : Device} (f : Device → Device)
    (hd : h.device p = some d) : updateDevice h p f = some (h.storeDevice p (f d)) := by
  simp [updateDevice, hd]

/-- What `getDevice` guarantees on a well-formed heap: it returns, the heap stays
well-formed, the returned pointer is the first entry of the document's interface
list carrying the name, and nothing but the interface list and the device cells
may have changed. -/
theorem getDevice_spec {h : Heap} {n : Ptr} {v : NetworkConfig} (name : String)
    (hwf : h.pointersValid = true) (hn : h.config n = some v) :
    ∃ h1 dev d v1, getDevice h n name = some (h1, dev) ∧ h1.pointersValid = true ∧
      h1.device dev = some d ∧ d.DeviceInterface = name ∧
      h1.config n = some v1 ∧ findDevice h1 name v1.NetworkInterfaces = some (some dev) ∧
      v1.NameServers = v.NameServers ∧ v1.NetworkKubeSpan = v.NetworkKubeSpan ∧
      v1.others = v.others ∧
      h1.dhcpOptions = h.dhcpOptions ∧ h1.kubeSpans = h.kubeSpans ∧
      h1.configs.length = h.configs.length := by
  have hlt := Heap.interfaces_lt hwf hn
  rcases getDevice_cases name hn hlt with ⟨p, hf, hg⟩ | ⟨hf, hg⟩
  · obtain ⟨-, d, hd, hname⟩ := findDevice_found hf
    exact ⟨h, p, d, v, hg, hwf, hd, hname, hn, hf, rfl, rfl, rfl, rfl, rfl, rfl⟩
  · have hnlt := Heap.lt_of_config hn
    refine ⟨_, _, Device.named name,
      { v with NetworkInterfaces := v.NetworkInterfaces ++ [h.devices.length] },
      hg, ?_, ?_, rfl, ?_, ?_, rfl, rfl, rfl, rfl, rfl, ?_⟩
    · -- well-formedness
      have hdev : ∀ p, h.validDevice p = true →
          ((h.newDevice (Device.named name)).1.storeConfig n
            { v with NetworkInterfaces := v.NetworkInterfaces ++ [h.devices.length] }).validDevice p
              = true := by
        intro p hp
        rw [Heap.validDevice_iff] at hp ⊢
        obtain ⟨d, hd, hq⟩ := hp
        refine ⟨d, ?_, hq⟩
        have := Heap.lt_of_device hd
        simp only [Heap.device] at hd ⊢
        simp only [Heap.storeConfig, Heap.newDevice]
        rw [List.getElem?_append_left this]
        exact hd
      refine Heap.pointersValid_of_step hwf hdev (le_refl _) ?_
      intro c hc
      simp only [Heap.storeConfig, Heap.newDevice] at hc
      rcases List.mem_or_eq_of_mem_set hc with hc | hc
      · exact Or.inl hc
      · right
        subst hc
        obtain ⟨h1, h2⟩ := Heap.validConfig_iff.1 (Heap.validConfig_of_config hwf hn)
        refine Heap.validConfig_iff.2 ⟨?_, h2⟩
        intro p hp
        rcases List.mem_append.1 hp with hp | hp
        · exact hdev p (h1 p hp)
        · simp only [List.mem_singleton] at hp
          subst hp
          rw [Heap.validDevice_iff]
          exact ⟨Device.named name, by simp [Heap.device, Heap.storeConfig, Heap.newDevice],
            by simp [Device.named]⟩
    · simp [Heap.device, Heap.storeConfig, Heap.newDevice]
    · simp [Heap.config, Heap.storeConfig, Heap.newDevice, hnlt]
    · rw [findDevice_append]
      have hsame : findDevice ((h.newDevice (Device.named name)).1.storeConfig n
            { v with NetworkInterfaces := v.NetworkInterfaces ++ [h.devices.length] }) name
            v.NetworkInterfaces = findDevice h name v.NetworkInterfaces := by
        apply findDevice_congr
        intro p hp
        have := hlt p hp
        simp only [Heap.device, Heap.storeConfig, Heap.newDevice]
        rw [List.getElem?_append_left this]
      rw [hsame, hf]
      simp [findDevice, Heap.device, Heap.storeConfig, Heap.newDevice, Device.named]
    · simp [Heap.storeConfig, Heap.newDevice]

theorem getDevice_of_find {h : Heap} {n : Ptr} {v : NetworkConfig} {name : String} {p : Ptr}
    (hn : h.config n = some v)
    (hf : findDevice h name v.NetworkInterfaces = some (some p)) :
    getDevice h n name = some (h, p) := by
  simp [getDevice, hn, hf]

/-- What an option of the shape `cfg.getDevice(iface).F = v` does on a well-formed
heap, for an assignment `f` that touches neither the name nor the DHCP-options
pointer of the device. -/
theorem assignDevice_spec {h : Heap} {cfg : Ptr} {v : NetworkConfig} (iface : String)
    (f : Device → Device) (mt : MachineType)
    (hname : ∀ d, (f d).DeviceInterface = d.DeviceInterface)
    (hdhcp : ∀ d, (f d).DeviceDHCPOptions = d.DeviceDHCPOptions)
    (hwf : h.pointersValid = true) (hcfg : h.config cfg = some v) :
    ∃ h1 dev d v1, getDevice h cfg iface = some (h1, dev) ∧ h1.device dev = some d ∧
      d.DeviceInterface = iface ∧
      assignDevice iface f mt cfg h = some (h1.storeDevice dev (f d), none) ∧
      (h1.storeDevice dev (f d)).pointersValid = true ∧
      (h1.storeDevice dev (f d)).config cfg = some v1 ∧
      findDevice (h1.storeDevice dev (f d)) iface v1.NetworkInterfaces = some (some dev) ∧
      (h1.storeDevice dev (f d)).device dev = some (f d) ∧
      v1.NameServers = v.NameServers ∧ v1.NetworkKubeSpan = v.NetworkKubeSpan ∧
      v1.others = v.others := by
  obtain ⟨h1, dev, d, v1, hg, hwf1, hd, hdn, hc1, hf1, hns, hks, hoth, -, -, -⟩ :=
    getDevice_spec iface hwf hcfg
  refine ⟨h1, dev, d, v1, hg, hd, hdn, ?_, ?_, ?_, ?_, ?_, hns, hks, hoth⟩
  · simp [assignDevice, hg, updateDevice_eq f hd]
  · apply Heap.pointersValid_storeDevice (f d) hwf1 hd
    intro q hq
    rw [hdhcp] at hq
    obtain ⟨hm, -⟩ := findDevice_found hf1
    obtain ⟨e, he, hq'⟩ := Heap.validDevice_iff.1
      ((Heap.validConfig_iff.1 (Heap.validConfig_of_config hwf1 hc1)).1 dev hm)
    rw [hd] at he
    cases he
    exact hq' q hq
  · exact hc1
  · rw [findDevice_storeDevice (f d) hd (hname d)]
    exact hf1
  · exact Heap.device_storeDevice_self (f d) hd

/-- Applying an idempotent field assignment a second time changes nothing. -/
theorem assignDevice_twice {h : Heap} {cfg : Ptr} {v : NetworkConfig} (iface : String)
    (f : Device → Device) (mt : MachineType)
    (hname : ∀ d, (f d).DeviceInterface = d.DeviceInterface)
    (hdhcp : ∀ d, (f d).DeviceDHCPOptions = d.DeviceDHCPOptions)
    (hidem : ∀ d, f (f d) = f d)
    (hwf : h.pointersValid = true) (hcfg : h.config cfg = some v) :
    ∃ h', assignDevice iface f mt cfg h = some (h', none) ∧
      assignDevice iface f mt cfg h' = some (h', none) := by
  obtain ⟨h1, dev, d, v1, -, -, -, hrun, -, hc, hf, hd, -, -, -⟩ :=
    assignDevice_spec iface f mt hname hdhcp hwf hcfg
  refine ⟨_, hrun, ?_⟩
  simp [assignDevice, getDevice_of_find hc hf, updateDevice_eq f hd, hidem,
    Heap.storeDevice_storeDevice]

theorem withNetworkInterfaceIgnore_eq (iface : String) :
    WithNetworkInterfaceIgnore iface
      = assignDevice iface (fun d => { d with DeviceIgnore := some true }) := rfl

theorem withNetworkInterfaceDHCP_eq (iface : String) (enable : Bool) :
    WithNetworkInterfaceDHCP iface enable
      = assignDevice iface (fun d => { d with DeviceDHCP := some true }) := rfl

theorem withNetworkInterfaceMTU_eq (iface : String) (mtu : Int) :
    WithNetworkInterfaceMTU iface mtu
      = assignDevice iface (fun d => { d with DeviceMTU := mtu }) := rfl

theorem withNetworkInterfaceWireguard_eq (iface : String) (w : Option DeviceWireguardConfig) :
    WithNetworkInterfaceWireguard iface w
      = assignDevice iface (fun d => { d with DeviceWireguardConfig := w }) := rfl

theorem withNetworkInterfaceVirtualIP_eq (iface cidr : String) (mt : MachineType)
    (hmt : mt ≠ MachineType.TypeWorker) (cfg : Ptr) (h : Heap) :
    WithNetworkInterfaceVirtualIP iface cidr mt cfg h
      = assignDevice iface (fun d => { d with DeviceVIPConfig := some { SharedIP := cidr } })
          mt cfg h := by
  simp [WithNetworkInterfaceVirtualIP, assignDevice, hmt]

theorem withNetworkInterfaceDHCPv4_eq (iface : String) (enable : Bool) :
    WithNetworkInterfaceDHCPv4 iface enable
      = assignDhcp iface (fun o => { o with DHCPIPv4 := some enable }) := rfl

theorem withNetworkInterfaceDHCPv6_eq (iface : String) (enable : Bool) :
    WithNetworkInterfaceDHCPv6 iface enable
      = assignDhcp iface (fun o => { o with DHCPIPv6 := some enable }) := rfl

namespace Heap

theorem dhcp_of_lt {h : Heap} {q : Ptr} (hq : q < h.dhcpOptions.length) :
    h.dhcp q = some h.dhcpOptions[q] := by
  simp [Heap.dhcp, hq]

theorem lt_of_dhcp {h : Heap} {q : Ptr} {o : DHCPOptions} (ho : h.dhcp q = some o) :
    q < h.dhcpOptions.length := by
  simp only [Heap.dhcp, List.getElem?_eq_some] at ho
  exact ho.1

theorem dhcp_storeDhcp_self {h : Heap} {q : Ptr} {o : DHCPOptions} (o' : DHCPOptions)
    (ho : h.dhcp q = some o) : (h.storeDhcp q o').dhcp q = some o' := by
  simp [Heap.dhcp, Heap.storeDhcp, List.getElem?_set, lt_of_dhcp ho]

theorem storeDhcp_storeDhcp (h : Heap) (q : Ptr) (o o' : DHCPOptions) :
    (h.storeDhcp q o).storeDhcp q o' = h.storeDhcp q o' := by
  simp [storeDhcp, List.set_set]

theorem validDevice_of_devices_eq (h h' : Heap) (hdev : h'.devices = h.devices)
    (hlen : h.dhcpOptions.length ≤ h'.dhcpOptions.length) (p : Ptr)
    (hp : h.validDevice p = true) : h'.validDevice p = true := by
  rw [validDevice_iff] at hp ⊢
  obtain ⟨d, hd, hq⟩ := hp
  exact ⟨d, by simpa [Heap.device, hdev] using hd, fun q hq' => lt_of_lt_of_le (hq q hq') hlen⟩

end Heap

theorem updateDhcp_eq {h : Heap} {q : Ptr} {o : DHCPOptions} (g : DHCPOptions → DHCPOptions)
    (ho : h.dhcp q = some o) : updateDhcp h q g = some (h.storeDhcp q (g o)) := by
  simp [updateDhcp, ho]

/-- What an option of the DHCPv4/DHCPv6 shape does on a well-formed heap: it
returns, the device named `iface` has DHCP options afterwards, and these are the
previous ones (the zero value when there were none) with `g` applied. -/
theorem assignDhcp_spec {h : Heap} {cfg : Ptr} {v : NetworkConfig} (iface : String)
    (g : DHCPOptions → DHCPOptions) (mt : MachineType)
    (hwf : h.pointersValid = true) (hcfg : h.config cfg = some v) :
    ∃ h' dev d q o v1, assignDhcp iface g mt cfg h = some (h', none) ∧
      h'.pointersValid = true ∧ h'.config cfg = some v1 ∧
      findDevice h' iface v1.NetworkInterfaces = some (some dev) ∧
      h'.device dev = some d ∧ d.DeviceInterface = iface ∧
      d.DeviceDHCPOptions = some q ∧ h'.dhcp q = some (g o) ∧
      v1.NameServers = v.NameServers ∧ v1.NetworkKubeSpan = v.NetworkKubeSpan ∧
      v1.others = v.others := by
  obtain ⟨h1, dev, d, v1, hg, hwf1, hd, hdn, hc1, hf1, hns, hks, hoth, -, -, -⟩ :=
    getDevice_spec iface hwf hcfg
  obtain ⟨hm, -⟩ := findDevice_found hf1
  obtain ⟨e, he, hq'⟩ := Heap.validDevice_iff.1
    ((Heap.validConfig_iff.1 (Heap.validConfig_of_config hwf1 hc1)).1 dev hm)
  rw [hd] at he
  cases he
  cases hopt : d.DeviceDHCPOptions with
  | some q =>
    have hq := hq' q hopt
    have ho := Heap.dhcp_of_lt hq
    refine ⟨h1.storeDhcp q (g h1.dhcpOptions[q]), dev, d, q, h1.dhcpOptions[q], v1,
      ?_, ?_, hc1, ?_, hd, hdn, hopt, Heap.dhcp_storeDhcp_self _ ho, hns, hks, hoth⟩
    · simp [assignDhcp, hg, ensureDHCPOptions, hd, hopt, updateDhcp_eq g ho]
    · exact Heap.pointersValid_of_step hwf1
        (Heap.validDevice_of_devices_eq h1 (h1.storeDhcp q (g h1.dhcpOptions[q]))
          rfl (by simp [Heap.storeDhcp])) (le_refl _)
        (fun _ hc => Or.inl hc)
    · rw [← hf1]
      exact findDevice_congr _ _ _ _ (fun _ _ => rfl)
  | none =>
    let d1 : Device := { d with DeviceDHCPOptions := some h1.dhcpOptions.length }
    let h2 : Heap := (h1.newDhcp DHCPOptions.zero).1.storeDevice dev d1
    have hd' : (h1.newDhcp DHCPOptions.zero).1.device dev = some d := hd
    have ho2 : h2.dhcp h1.dhcpOptions.length = some DHCPOptions.zero := by
      simp [h2, Heap.dhcp, Heap.storeDevice, Heap.newDhcp]
    have hens : ensureDHCPOptions h1 dev = some (h2, h1.dhcpOptions.length) := by
      simp [ensureDHCPOptions, hd, hopt, h2, d1, Heap.newDhcp]
    have hd2 : h2.device dev = some d1 := Heap.device_storeDevice_self d1 hd'
    refine ⟨h2.storeDhcp h1.dhcpOptions.length (g DHCPOptions.zero), dev, d1,
      h1.dhcpOptions.length, DHCPOptions.zero, v1, ?_, ?_, hc1, ?_, hd2, hdn, rfl,
      Heap.dhcp_storeDhcp_self _ ho2, hns, hks, hoth⟩
    · simp [assignDhcp, hg, hens, updateDhcp_eq g ho2]
    · refine Heap.pointersValid_of_step hwf1 ?_ (le_refl _) (fun _ hc => Or.inl hc)
      intro p hp
      have hp1 : (h1.newDhcp DHCPOptions.zero).1.validDevice p = true :=
        Heap.validDevice_of_devices_eq h1 (h1.newDhcp DHCPOptions.zero).1 rfl
          (by simp [Heap.newDhcp]) p hp
      have hp2 : h2.validDevice p = true :=
        Heap.validDevice_storeDevice d1 hd' (by simp [d1, Heap.newDhcp]) p hp1
      exact Heap.validDevice_of_devices_eq h2
        (h2.storeDhcp h1.dhcpOptions.length (g DHCPOptions.zero)) rfl
        (by simp [Heap.storeDhcp]) p hp2
    · have e1 : findDevice (h2.storeDhcp h1.dhcpOptions.length (g DHCPOptions.zero)) iface
          v1.NetworkInterfaces = findDevice h2 iface v1.NetworkInterfaces :=
        findDevice_congr _ _ _ _ (fun _ _ => rfl)
      have e2 : findDevice h2 iface v1.NetworkInterfaces
          = findDevice (h1.newDhcp DHCPOptions.zero).1 iface v1.NetworkInterfaces :=
        findDevice_storeDevice d1 hd' rfl iface _
      have e3 : findDevice (h1.newDhcp DHCPOptions.zero).1 iface v1.NetworkInterfaces
          = findDevice h1 iface v1.NetworkInterfaces :=
        findDevice_congr _ _ _ _ (fun _ _ => rfl)
      rw [e1, e2, e3, hf1]

/-- Applying an idempotent DHCP field assignment a second time changes nothing. -/
theorem assignDhcp_twice {h : Heap} {cfg : Ptr} {v : NetworkConfig} (iface : String)
    (g : DHCPOptions → DHCPOptions) (mt : MachineType) (hidem : ∀ o, g (g o) = g o)
    (hwf : h.pointersValid = true) (hcfg : h.config cfg = some v) :
    ∃ h', assignDhcp iface g mt cfg h = some (h', none) ∧
      assignDhcp iface g mt cfg h' = some (h', none) := by
  obtain ⟨h', dev, d, q, o, v1, hrun, -, hc, hf, hd, -, hq, ho, -, -, -⟩ :=
    assignDhcp_spec iface g mt hwf hcfg
  refine ⟨h', hrun, ?_⟩
  have hs : h'.storeDhcp q (g o) = h' := by
    cases h'
    simp only [Heap.storeDhcp, Heap.mk.injEq, true_and, and_true]
    exact set_eq_self_of_getElem? ho
  simp [assignDhcp, getDevice_of_find hc hf, ensureDHCPOptions, hd, hq, updateDhcp_eq g ho,
    hidem, hs]

namespace Heap

theorem config_storeConfig_self {h : Heap} {p : Ptr} {v : NetworkConfig} (v' : NetworkConfig)
    (hv : h.config p = some v) : (h.storeConfig p v').config p = some v' := by
  simp [Heap.config, Heap.storeConfig, List.getElem?_set, lt_of_config hv]

theorem config_storeConfig_ne (h : Heap) {p q : Ptr} (v : NetworkConfig) (hpq : p ≠ q) :
    (h.storeConfig p v).config q = h.config q := by
  simp [Heap.config, Heap.storeConfig, List.getElem?_set, hpq]

theorem storeConfig_storeConfig (h : Heap) (p : Ptr) (v v' : NetworkConfig) :
    (h.storeConfig p v).storeConfig p v' = h.storeConfig p v' := by
  simp [storeConfig, List.set_set]

theorem storeConfig_same {h : Heap} {p : Ptr} {v : NetworkConfig} (hv : h.config p = some v) :
    h.storeConfig p v = h := by
  cases h
  simp only [storeConfig, mk.injEq, and_true]
  exact set_eq_self_of_getElem? hv

theorem kubeSpan_of_lt {h : Heap} {k : Ptr} (hk : k < h.kubeSpans.length) :
    h.kubeSpan k = some h.kubeSpans[k] := by
  simp [Heap.kubeSpan, hk]

theorem lt_of_kubeSpan {h : Heap} {k : Ptr} {s : NetworkKubeSpan} (hs : h.kubeSpan k = some s) :
    k < h.kubeSpans.length := by
  simp only [Heap.kubeSpan, List.getElem?_eq_some] at hs
  exact hs.1

theorem validConfig_of_mem_storeConfig {h : Heap} {p : Ptr} {v c : NetworkConfig}
    (hv : h.validConfig v = true) (hc : c ∈ (h.storeConfig p v).configs) :
    c ∈ h.configs ∨ (h.storeConfig p v).validConfig c = true := by
  rcases List.mem_or_eq_of_mem_set hc with hc | hc
  · exact Or.inl hc
  · right
    subst hc
    exact hv

end Heap

/-- The option `WithNetworkConfig` on a heap where both pointers can be dereferenced: the
document cell receives a copy of the struct at `c`. -/
theorem withNetworkConfig_eq {h : Heap} {cfg pc : Ptr} {v w : NetworkConfig} (mt : MachineType)
    (hc : h.config pc = some v) (hcfg : h.config cfg = some w) :
    WithNetworkConfig (some pc) mt cfg h = some (h.storeConfig cfg v, none) := by
  simp [WithNetworkConfig, hc, hcfg]

theorem withNetworkConfig_pointersValid {h : Heap} {cfg pc : Ptr} {v : NetworkConfig}
    (hwf : h.pointersValid = true) (hc : h.config pc = some v) :
    (h.storeConfig cfg v).pointersValid = true :=
  Heap.pointersValid_of_step hwf (fun _ hp => hp) (le_refl _)
    (fun _ hm => Heap.validConfig_of_mem_storeConfig (Heap.validConfig_of_config hwf hc) hm)

/-- The option `WithNetworkNameservers` on a heap holding the document. -/
theorem withNetworkNameservers_eq {h : Heap} {cfg : Ptr} {v : NetworkConfig}
    (ns : List String) (mt : MachineType) (hcfg : h.config cfg = some v) :
    WithNetworkNameservers ns mt cfg h
      = some ((h.append v.NameServers ns).1.storeConfig cfg
          { v with NameServers := (h.append v.NameServers ns).2 }, none) := by
  simp [WithNetworkNameservers, hcfg]

theorem withNetworkNameservers_pointersValid {h : Heap} {cfg : Ptr} {v : NetworkConfig}
    (ns : List String) (hwf : h.pointersValid = true) (hcfg : h.config cfg = some v) :
    ((h.append v.NameServers ns).1.storeConfig cfg
      { v with NameServers := (h.append v.NameServers ns).2 }).pointersValid = true := by
  rw [Heap.append_eq_withArrays, Heap.storeConfig_withArrays, Heap.pointersValid_withArrays]
  refine Heap.pointersValid_of_step hwf (fun _ hp => hp) (le_refl _) ?_
  intro c hm
  rcases List.mem_or_eq_of_mem_set hm with hm | hm
  · exact Or.inl hm
  · right
    subst hm
    have := Heap.validConfig_of_config hwf hcfg
    rw [Heap.validConfig_iff] at this ⊢
    exact this

/-- What `WithKubeSpan` does on a well-formed heap: it returns, the document has a
KubeSpan struct afterwards, and its enabled switch is set to `true`; the other
fields of the struct are the previous ones, or zero when there was none. -/
theorem withKubeSpan_spec {h : Heap} {cfg : Ptr} {v : NetworkConfig} (mt : MachineType)
    (hwf : h.pointersValid = true) (hcfg : h.config cfg = some v) :
    ∃ h' k s, WithKubeSpan mt cfg h = some (h', none) ∧ h'.pointersValid = true ∧
      h'.config cfg = some { v with NetworkKubeSpan := some k } ∧
      h'.kubeSpan k = some { s with KubeSpanEnabled := some true } ∧
      (∀ k0, v.NetworkKubeSpan = some k0 → k0 = k ∧ h.kubeSpan k = some s) ∧
      (v.NetworkKubeSpan = none → s = NetworkKubeSpan.zero) ∧
      h'.devices = h.devices ∧ h'.dhcpOptions = h.dhcpOptions ∧
      (∀ p, p ≠ cfg → h'.config p = h.config p) ∧
      h'.configs.length = h.configs.length := by
  cases hk : v.NetworkKubeSpan with
  | some k =>
    have hklt := (Heap.validConfig_iff.1 (Heap.validConfig_of_config hwf hcfg)).2 k hk
    have hs := Heap.kubeSpan_of_lt hklt
    refine ⟨h.storeKubeSpan k { h.kubeSpans[k] with KubeSpanEnabled := some true }, k,
      h.kubeSpans[k], ?_, ?_, ?_, ?_, ?_, ?_, rfl, rfl, fun _ _ => rfl, rfl⟩
    · simp [WithKubeSpan, hcfg, hk, hs]
    · refine Heap.pointersValid_of_step hwf ?_ (by simp [Heap.storeKubeSpan])
        (fun _ hc => Or.inl hc)
      intro p hp
      exact Heap.validDevice_of_devices_eq h _ rfl (le_refl _) p hp
    · rw [← hk]
      exact hcfg
    · simp [Heap.kubeSpan, Heap.storeKubeSpan, List.getElem?_set, hklt]
    · intro k0 hk0
      cases hk0
      exact ⟨rfl, hs⟩
    · intro hnone
      cases hnone
  | none =>
    have hlt := Heap.lt_of_config hcfg
    refine ⟨((h.newKubeSpan NetworkKubeSpan.zero).1.storeConfig cfg
        { v with NetworkKubeSpan := some h.kubeSpans.length }).storeKubeSpan h.kubeSpans.length
        { NetworkKubeSpan.zero with KubeSpanEnabled := some true },
      h.kubeSpans.length, NetworkKubeSpan.zero, ?_, ?_, ?_, ?_, ?_, fun _ => rfl, rfl, rfl, ?_,
      by simp [Heap.storeKubeSpan, Heap.storeConfig, Heap.newKubeSpan]⟩
    · simp [WithKubeSpan, hcfg, hk, Heap.newKubeSpan, Heap.kubeSpan, Heap.storeConfig]
    · refine Heap.pointersValid_of_step hwf ?_
        (by simp [Heap.storeKubeSpan, Heap.storeConfig, Heap.newKubeSpan]) ?_
      · intro p hp
        exact Heap.validDevice_of_devices_eq h _ rfl (le_refl _) p hp
      · intro c hc
        simp only [Heap.storeKubeSpan, Heap.storeConfig, Heap.newKubeSpan] at hc
        rcases List.mem_or_eq_of_mem_set hc with hc | hc
        · exact Or.inl hc
        · right
          subst hc
          obtain ⟨h1, -⟩ := Heap.validConfig_iff.1 (Heap.validConfig_of_config hwf hcfg)
          refine Heap.validConfig_iff.2 ⟨?_, ?_⟩
          · intro p hp
            exact Heap.validDevice_of_devices_eq h _ rfl (le_refl _) p (h1 p hp)
          · intro k hk'
            simp only [Option.some.injEq] at hk'
            subst hk'
            simp [Heap.storeKubeSpan, Heap.storeConfig, Heap.newKubeSpan]
    · simp [Heap.config, Heap.storeKubeSpan, Heap.storeConfig, Heap.newKubeSpan, hlt]
    · simp [Heap.kubeSpan, Heap.storeKubeSpan, Heap.storeConfig, Heap.newKubeSpan,
        List.getElem?_set]
    · intro k0 hk0
      cases hk0
    · intro p hp
      simp [Heap.config, Heap.storeKubeSpan, Heap.storeConfig, Heap.newKubeSpan,
        List.getElem?_set, Ne.symm hp]

/-- The option `WithKubeSpan` applied a second time changes nothing. -/
theorem withKubeSpan_twice {h : Heap} {cfg : Ptr} {v : NetworkConfig} (mt : MachineType)
    (hwf : h.pointersValid = true) (hcfg : h.config cfg = some v) :
    ∃ h', WithKubeSpan mt cfg h = some (h', none) ∧
      WithKubeSpan mt cfg h' = some (h', none) := by
  obtain ⟨h', k, s, hrun, -, hc, hs, -⟩ := withKubeSpan_spec mt hwf hcfg
  refine ⟨h', hrun, ?_⟩
  have hsame : h'.storeKubeSpan k { s with KubeSpanEnabled := some true } = h' := by
    cases h'
    simp only [Heap.storeKubeSpan, Heap.mk.injEq, true_and, and_true]
    exact set_eq_self_of_getElem? hs
  simp [WithKubeSpan, hc, hs, hsame]

/-- What `getDevice` can change at all: the config cell it is called on and the
device cells past the old end. -/
theorem getDevice_frame {h h1 : Heap} {n dev : Ptr} {name : String}
    (hg : getDevice h n name = some (h1, dev)) :
    h1.configs.length = h.configs.length ∧ (∀ p, p ≠ n → h1.config p = h.config p) ∧
      (∀ p, p < h.devices.length → h1.device p = h.device p) ∧
      h1.dhcpOptions = h.dhcpOptions ∧ h1.kubeSpans = h.kubeSpans := by
  unfold getDevice at hg
  cases hc : h.config n with
  | none => simp [hc] at hg
  | some v =>
    simp only [hc] at hg
    cases hf : findDevice h name v.NetworkInterfaces with
    | none => simp [hf] at hg
    | some r =>
      cases r with
      | some p =>
        simp only [hf, Option.some.injEq, Prod.mk.injEq] at hg
        obtain ⟨rfl, -⟩ := hg
        exact ⟨rfl, fun _ _ => rfl, fun _ _ => rfl, rfl, rfl⟩
      | none =>
        simp only [hf, Heap.newDevice, Option.some.injEq, Prod.mk.injEq] at hg
        obtain ⟨rfl, -⟩ := hg
        refine ⟨by simp [Heap.storeConfig], ?_, ?_, rfl, rfl⟩
        · intro p hp
          simp [Heap.config, Heap.storeConfig, List.getElem?_set, Ne.symm hp]
        · intro p hp
          simp [Heap.device, Heap.storeConfig, List.getElem?_append_left hp]

theorem assignDevice_frame {h h' : Heap} {cfg : Ptr} {iface : String} {f : Device → Device}
    {mt : MachineType} {e : Option GoError}
    (hrun : assignDevice iface f mt cfg h = some (h', e)) :
    e = none ∧ h'.configs.length = h.configs.length ∧
      (∀ p, p ≠ cfg → h'.config p = h.config p) := by
  unfold assignDevice at hrun
  cases hg : getDevice h cfg iface with
  | none => simp [hg] at hrun
  | some r =>
    obtain ⟨h1, dev⟩ := r
    obtain ⟨hlen, hfr, -, -, -⟩ := getDevice_frame hg
    simp only [hg, updateDevice] at hrun
    cases hd : h1.device dev with
    | none => simp [hd] at hrun
    | some d =>
      simp only [hd, Option.some.injEq, Prod.mk.injEq] at hrun
      obtain ⟨rfl, rfl⟩ := hrun
      exact ⟨rfl, hlen, hfr⟩

theorem ensureDHCPOptions_configs {h h2 : Heap} {dev q : Ptr}
    (he : ensureDHCPOptions h dev = some (h2, q)) : h2.configs = h.configs := by
  unfold ensureDHCPOptions at he
  cases hd : h.device dev with
  | none => simp [hd] at he
  | some d =>
    simp only [hd] at he
    cases hq : d.DeviceDHCPOptions with
    | some q0 =>
      simp only [hq, Option.some.injEq, Prod.mk.injEq] at he
      obtain ⟨rfl, -⟩ := he
      rfl
    | none =>
      simp only [hq, Heap.newDhcp, Option.some.injEq, Prod.mk.injEq] at he
      obtain ⟨rfl, -⟩ := he
      rfl

theorem assignDhcp_frame {h h' : Heap} {cfg : Ptr} {iface : String}
    {g : DHCPOptions → DHCPOptions} {mt : MachineType} {e : Option GoError}
    (hrun : assignDhcp iface g mt cfg h = some (h', e)) :
    e = none ∧ h'.configs.length = h.configs.length ∧
      (∀ p, p ≠ cfg → h'.config p = h.config p) := by
  unfold assignDhcp at hrun
  cases hg : getDevice h cfg iface with
  | none => simp [hg] at hrun
  | some r =>
    obtain ⟨h1, dev⟩ := r
    obtain ⟨hlen, hfr, -, -, -⟩ := getDevice_frame hg
    simp only [hg] at hrun
    cases he : ensureDHCPOptions h1 dev with
    | none => simp [he] at hrun
    | some r2 =>
      obtain ⟨h2, q⟩ := r2
      have hc2 := ensureDHCPOptions_configs he
      simp only [he, updateDhcp] at hrun
      cases ho : h2.dhcp q with
      | none => simp [ho] at hrun
      | some o =>
        simp only [ho, Option.some.injEq, Prod.mk.injEq] at hrun
        obtain ⟨rfl, rfl⟩ := hrun
        refine ⟨rfl, ?_, ?_⟩
        · show h2.configs.length = _
          rw [hc2, hlen]
        · intro p hp
          show h2.configs[p]? = _
          rw [hc2]
          exact hfr p hp

theorem getDevice_arrays {h h1 : Heap} {n dev : Ptr} {name : String}
    (hg : getDevice h n name = some (h1, dev)) : h1.arrays = h.arrays := by
  unfold getDevice at hg
  cases hc : h.config n with
  | none => simp [hc] at hg
  | some v =>
    simp only [hc] at hg
    cases hf : findDevice h name v.NetworkInterfaces with
    | none => simp [hf] at hg
    | some r =>
      cases r with
      | some p =>
        simp only [hf, Option.some.injEq, Prod.mk.injEq] at hg
        obtain ⟨rfl, -⟩ := hg
        rfl
      | none =>
        simp only [hf, Heap.newDevice, Option.some.injEq, Prod.mk.injEq] at hg
        obtain ⟨rfl, -⟩ := hg
        rfl

/-- The device `getDevice` returns carries the addresses `addressesOf` names. -/
theorem getDevice_addresses {h h1 : Heap} {n dev : Ptr} {name : String} {d : Device}
    (hg : getDevice h n name = some (h1, dev)) (hd : h1.device dev = some d) :
    d.DeviceAddresses = addressesOf h n name := by
  unfold getDevice at hg
  unfold addressesOf
  cases hc : h.config n with
  | none => simp [hc] at hg
  | some v =>
    simp only [hc] at hg ⊢
    cases hf : findDevice h name v.NetworkInterfaces with
    | none => simp [hf] at hg
    | some r =>
      cases r with
      | some p =>
        simp only [hf, Option.some.injEq, Prod.mk.injEq] at hg
        obtain ⟨rfl, rfl⟩ := hg
        simp [hd]
      | none =>
        simp only [hf, Heap.newDevice, Option.some.injEq, Prod.mk.injEq] at hg
        obtain ⟨rfl, rfl⟩ := hg
        simp only [Heap.device, Heap.storeConfig, List.getElem?_concat_length,
          Option.some.injEq] at hd
        subst hd
        rfl

theorem findDevice_withArrays (h : Heap) (A : List (List String)) (name : String)
    (ps : List Ptr) : findDevice (h.withArrays A) name ps = findDevice h name ps :=
  findDevice_congr _ _ name ps (fun _ _ => rfl)

theorem getDevice_withArrays (h : Heap) (A : List (List String)) (n : Ptr) (name : String) :
    getDevice (h.withArrays A) n name
      = (getDevice h n name).map (fun r => (r.1.withArrays A, r.2)) := by
  unfold getDevice
  rw [Heap.config_withArrays]
  cases hc : h.config n with
  | none => rfl
  | some v =>
    simp only [findDevice_withArrays]
    cases hf : findDevice h name v.NetworkInterfaces with
    | none => rfl
    | some r =>
      cases r with
      | some p => rfl
      | none => rfl

theorem assignDevice_withArrays (h : Heap) (A : List (List String)) (iface : String)
    (f : Device → Device) (mt : MachineType) (cfg : Ptr) :
    assignDevice iface f mt cfg (h.withArrays A)
      = (assignDevice iface f mt cfg h).map (fun r => (r.1.withArrays A, r.2)) := by
  unfold assignDevice
  rw [getDevice_withArrays]
  cases hg : getDevice h cfg iface with
  | none => rfl
  | some r =>
    obtain ⟨h1, dev⟩ := r
    simp only [Option.map_some', updateDevice, Heap.device_withArrays]
    cases hd : h1.device dev with
    | none => rfl
    | some d => rfl

/-- On a well-formed heap the two `getDevice` calls of `WithNetworkInterfaceCIDR`
return the same device, so the option is the `append` to that device's addresses
followed by the assignment of the resulting slice header to the same device. -/
theorem withNetworkInterfaceCIDR_eq {h : Heap} {cfg : Ptr} {v : NetworkConfig}
    (iface cidr : String) (mt : MachineType)
    (hwf : h.pointersValid = true) (hcfg : h.config cfg = some v) :
    WithNetworkInterfaceCIDR iface cidr mt cfg h
      = (assignDevice iface
          (fun d => { d with
            DeviceAddresses := (h.append (addressesOf h cfg iface) [cidr]).2 }) mt cfg h).map
          (fun r => (r.1.withArrays (h.append (addressesOf h cfg iface) [cidr]).1.arrays,
            r.2)) := by
  obtain ⟨h1, dev, d, v1, hg, -, hd, -, hc1, hf1, -⟩ := getDevice_spec iface hwf hcfg
  have ha := getDevice_addresses hg hd
  have harr := getDevice_arrays hg
  have e : h1.append d.DeviceAddresses [cidr]
      = (h1.withArrays (h.append (addressesOf h cfg iface) [cidr]).1.arrays,
          (h.append (addressesOf h cfg iface) [cidr]).2) := by
    rw [← ha]
    exact Heap.append_of_arrays_eq harr _ _
  simp [WithNetworkInterfaceCIDR, assignDevice, hg, getDevice_of_find hc1 hf1, hd, updateDevice,
    e, Heap.device_withArrays, Heap.storeDevice_withArrays]

/-- The same, with the `append` carried out first. -/
theorem withNetworkInterfaceCIDR_pre {h : Heap} {cfg : Ptr} {v : NetworkConfig}
    (iface cidr : String) (mt : MachineType)
    (hwf : h.pointersValid = true) (hcfg : h.config cfg = some v) :
    WithNetworkInterfaceCIDR iface cidr mt cfg h
      = assignDevice iface
          (fun d => { d with
            DeviceAddresses := (h.append (addressesOf h cfg iface) [cidr]).2 }) mt cfg
          (h.append (addressesOf h cfg iface) [cidr]).1 := by
  rw [withNetworkInterfaceCIDR_eq iface cidr mt hwf hcfg, ← assignDevice_withArrays,
    ← Heap.append_eq_withArrays]

/-- The slice `addressesOf` names is nil or the address slice of a device of the
document. -/
theorem addressesOf_cases (h : Heap) (cfg : Ptr) (iface : String) :
    addressesOf h cfg iface = Slice.nil ∨
      ∃ v p d, h.config cfg = some v ∧ findDevice h iface v.NetworkInterfaces = some (some p) ∧
        h.device p = some d ∧ addressesOf h cfg iface = d.DeviceAddresses := by
  unfold addressesOf
  cases hv : h.config cfg with
  | none => exact Or.inl rfl
  | some v =>
    cases hf : findDevice h iface v.NetworkInterfaces with
    | none => exact Or.inl (by simp [hf])
    | some r =>
      cases r with
      | none => exact Or.inl (by simp [hf])
      | some p =>
        cases hd : h.device p with
        | none => exact Or.inl (by simp [hf, hd])
        | some d => exact Or.inr ⟨v, p, d, rfl, hf, hd, by simp [hf, hd]⟩

theorem assignDevice_stepOk {h : Heap} {cfg : Ptr} (iface : String)
    (f : Device → Device) (mt : MachineType)
    (hname : ∀ d, (f d).DeviceInterface = d.DeviceInterface)
    (hdhcp : ∀ d, (f d).DeviceDHCPOptions = d.DeviceDHCPOptions)
    (hwf : h.pointersValid = true) (hcfg : h.hasConfig cfg = true) :
    StepOk h cfg (assignDevice iface f mt cfg h) := by
  have hc := Heap.config_of_lt (of_decide_eq_true hcfg)
  obtain ⟨h1, dev, d, v1, -, -, -, hrun, hwf', -⟩ :=
    assignDevice_spec iface f mt hname hdhcp hwf hc
  obtain ⟨-, hlen, hfr⟩ := assignDevice_frame hrun
  exact ⟨_, hrun, hwf', hlen, hfr⟩

theorem map_withArrays_eq_some {r : Option (Heap × Option GoError)} {A : List (List String)}
    {h' : Heap} {e : Option GoError}
    (hr : r.map (fun x => (x.1.withArrays A, x.2)) = some (h', e)) :
    ∃ h0, r = some (h0, e) ∧ h' = h0.withArrays A := by
  cases r with
  | none => simp at hr
  | some x =>
    obtain ⟨h0, e0⟩ := x
    simp only [Option.map_some', Option.some.injEq, Prod.mk.injEq] at hr
    obtain ⟨rfl, rfl⟩ := hr
    exact ⟨h0, rfl, rfl⟩

/-- A step stays good when the backing arrays of its result are replaced. -/
theorem StepOk.keptByArrays {h : Heap} {cfg : Ptr} {r : Option (Heap × Option GoError)}
    (hok : StepOk h cfg r) (A : List (List String)) :
    StepOk h cfg (r.map (fun x => (x.1.withArrays A, x.2))) := by
  obtain ⟨h', hrun, hwf', hlen, hfr⟩ := hok
  exact ⟨h'.withArrays A, by simp [hrun], hwf', hlen, hfr⟩

theorem assignDhcp_stepOk {h : Heap} {cfg : Ptr} (iface : String)
    (g : DHCPOptions → DHCPOptions) (mt : MachineType)
    (hwf : h.pointersValid = true) (hcfg : h.hasConfig cfg = true) :
    StepOk h cfg (assignDhcp iface g mt cfg h) := by
  have hc := Heap.config_of_lt (of_decide_eq_true hcfg)
  obtain ⟨h', dev, d, q, o, v1, hrun, hwf', -⟩ := assignDhcp_spec iface g mt hwf hc
  obtain ⟨-, hlen, hfr⟩ := assignDhcp_frame hrun
  exact ⟨_, hrun, hwf', hlen, hfr⟩

/-- Every call of the option file, with a usable config pointer in the case of
`WithNetworkConfig`, returns a nil error on a well-formed heap holding the document
and keeps the heap well-formed. -/
theorem build_stepOk (call : OptionCall) (mt : MachineType) {h : Heap} {cfg : Ptr}
    (hwf : h.pointersValid = true) (hcfg : h.hasConfig cfg = true)
    (hargs : call.argsValid h = true) :
    StepOk h cfg (call.build mt cfg h) := by
  have hc := Heap.config_of_lt (of_decide_eq_true hcfg)
  cases call with
  | networkConfig c =>
    cases c with
    | none => simp [OptionCall.argsValid] at hargs
    | some pc =>
      have hpc := Heap.config_of_lt (of_decide_eq_true hargs)
      refine ⟨_, withNetworkConfig_eq mt hpc hc, withNetworkConfig_pointersValid hwf hpc,
        by simp [Heap.storeConfig], ?_⟩
      intro p hp
      exact Heap.config_storeConfig_ne h _ (Ne.symm hp)
  | networkNameservers ns =>
    refine ⟨_, withNetworkNameservers_eq ns mt hc, withNetworkNameservers_pointersValid ns hwf hc,
      by simp [Heap.storeConfig, (Heap.append_cells h _ ns).1], ?_⟩
    intro p hp
    rw [Heap.config_storeConfig_ne _ _ (Ne.symm hp)]
    exact Heap.append_config h _ ns p
  | interfaceIgnore iface =>
    exact assignDevice_stepOk iface _ mt (fun _ => rfl) (fun _ => rfl) hwf hcfg
  | interfaceDHCP iface enable =>
    exact assignDevice_stepOk iface _ mt (fun _ => rfl) (fun _ => rfl) hwf hcfg
  | interfaceDHCPv4 iface enable => exact assignDhcp_stepOk iface _ mt hwf hcfg
  | interfaceDHCPv6 iface enable => exact assignDhcp_stepOk iface _ mt hwf hcfg
  | interfaceCIDR iface cidr =>
    show StepOk h cfg (WithNetworkInterfaceCIDR iface cidr mt cfg h)
    rw [withNetworkInterfaceCIDR_eq iface cidr mt hwf hc]
    apply StepOk.keptByArrays
    exact assignDevice_stepOk iface _ mt (fun _ => rfl) (fun _ => rfl) hwf hcfg
  | interfaceMTU iface mtu =>
    exact assignDevice_stepOk iface _ mt (fun _ => rfl) (fun _ => rfl) hwf hcfg
  | interfaceWireguard iface w =>
    exact assignDevice_stepOk iface _ mt (fun _ => rfl) (fun _ => rfl) hwf hcfg
  | interfaceVirtualIP iface cidr =>
    by_cases hmt : mt = MachineType.TypeWorker
    · subst hmt
      exact ⟨h, by simp [OptionCall.build, WithNetworkInterfaceVirtualIP], hwf, rfl,
        fun _ _ => rfl⟩
    · show StepOk h cfg (WithNetworkInterfaceVirtualIP iface cidr mt cfg h)
      rw [withNetworkInterfaceVirtualIP_eq iface cidr mt hmt]
      exact assignDevice_stepOk iface _ mt (fun _ => rfl) (fun _ => rfl) hwf hcfg
  | kubeSpan =>
    obtain ⟨h', k, s, hrun, hwf', -, -, -, -, -, -, hfr, hlen⟩ := withKubeSpan_spec mt hwf hc
    exact ⟨h', hrun, hwf', hlen, hfr⟩

theorem argsValid_of_length {h h' : Heap} (hlen : h'.configs.length = h.configs.length)
    (call : OptionCall) (hargs : call.argsValid h = true) : call.argsValid h' = true := by
  cases call with
  | networkConfig c =>
    cases c with
    | none => exact hargs
    | some pc => simpa [OptionCall.argsValid, hlen] using hargs
  | _ => rfl

theorem hasConfig_of_length {h h' : Heap} (hlen : h'.configs.length = h.configs.length)
    {cfg : Ptr} (hcfg : h.hasConfig cfg = true) : h'.hasConfig cfg = true := by
  simpa [Heap.hasConfig, hlen] using hcfg

theorem applyOptionsFrom_cons_ok {mt : MachineType} {cfg : Ptr} {o : NetworkConfigOption}
    {h h1 : Heap} (i : Nat) (os : List NetworkConfigOption)
    (ho : o mt cfg h = some (h1, none)) :
    applyOptionsFrom mt cfg i (o :: os) h = applyOptionsFrom mt cfg (i + 1) os h1 := by
  simp [applyOptionsFrom, ho]

/-- A run that ends without error does not depend on the position it started at. -/
theorem applyOptionsFrom_index {mt : MachineType} {cfg : Ptr} (os : List NetworkConfigOption)
    (i j : Nat) {h h' : Heap} (hrun : applyOptionsFrom mt cfg i os h = some (h', none)) :
    applyOptionsFrom mt cfg j os h = some (h', none) := by
  induction os generalizing i j h with
  | nil => simpa [applyOptionsFrom] using hrun
  | cons o os ih =>
    unfold applyOptionsFrom at hrun ⊢
    cases ho : o mt cfg h with
    | none => simp [ho] at hrun
    | some r =>
      obtain ⟨h1, e⟩ := r
      cases e with
      | some e => simp [ho] at hrun
      | none =>
        simp only [ho] at hrun ⊢
        exact ih (i + 1) (j + 1) hrun

/-- Running `os ++ ps` is running `os` and, when that ends without error, running
`ps` on the heap it left. -/
theorem applyOptionsFrom_append (mt : MachineType) (cfg : Ptr) (os ps : List NetworkConfigOption)
    (i : Nat) (h : Heap) :
    applyOptionsFrom mt cfg i (os ++ ps) h =
      match applyOptionsFrom mt cfg i os h with
      | some (h1, none) => applyOptionsFrom mt cfg (i + os.length) ps h1
      | r => r := by
  induction os generalizing i h with
  | nil => simp [applyOptionsFrom]
  | cons o os ih =>
    simp only [List.cons_append, applyOptionsFrom]
    cases ho : o mt cfg h with
    | none => rfl
    | some r =>
      obtain ⟨h1, e⟩ := r
      cases e with
      | some e => rfl
      | none =>
        have := ih (i + 1) h1
        rw [show i + 1 + os.length = i + (os.length + 1) by omega] at this
        simpa only [List.length_cons, List.append_eq] using this

/-- Running calls `cs ++ ds` when the run of `cs` ends without error. -/
theorem applyCalls_append {mt : MachineType} {cfg : Ptr} {cs : List OptionCall} {h h1 : Heap}
    (ds : List OptionCall) (hrun : applyCalls mt cfg cs h = some (h1, none)) (h2 : Heap) :
    applyCalls mt cfg (cs ++ ds) h = some (h2, none) ↔
      applyCalls mt cfg ds h1 = some (h2, none) := by
  unfold applyCalls applyOptions at *
  rw [List.map_append, applyOptionsFrom_append, hrun]
  exact ⟨fun hx => applyOptionsFrom_index _ _ _ hx, fun hx => applyOptionsFrom_index _ _ _ hx⟩

theorem applyCalls_nil (mt : MachineType) (cfg : Ptr) (h : Heap) :
    applyCalls mt cfg [] h = some (h, none) := rfl

theorem applyCalls_cons {mt : MachineType} {cfg : Ptr} {c : OptionCall} {h h1 : Heap}
    (cs : List OptionCall) (hc : c.build mt cfg h = some (h1, none)) (h2 : Heap) :
    applyCalls mt cfg (c :: cs) h = some (h2, none) ↔
      applyCalls mt cfg cs h1 = some (h2, none) := by
  unfold applyCalls applyOptions
  rw [List.map_cons, applyOptionsFrom_cons_ok 0 _ hc]
  exact ⟨fun hx => applyOptionsFrom_index _ _ _ hx, fun hx => applyOptionsFrom_index _ _ _ hx⟩

/-- A list of calls with usable arguments runs to the end on a well-formed heap
holding the document. -/
theorem applyCalls_stepOk (mt : MachineType) (cfg : Ptr) (cs : List OptionCall) {h : Heap}
    (hwf : h.pointersValid = true) (hcfg : h.hasConfig cfg = true)
    (hargs : ∀ c ∈ cs, c.argsValid h = true) :
    StepOk h cfg (applyCalls mt cfg cs h) := by
  induction cs generalizing h with
  | nil => exact ⟨h, rfl, hwf, rfl, fun _ _ => rfl⟩
  | cons c cs ih =>
    obtain ⟨h1, hc, hwf1, hlen1, hfr1⟩ :=
      build_stepOk c mt hwf hcfg (hargs c (List.mem_cons_self _ _))
    obtain ⟨h2, hrun, hwf2, hlen2, hfr2⟩ := ih hwf1 (hasConfig_of_length hlen1 hcfg)
      (fun d hd => argsValid_of_length hlen1 d (hargs d (List.mem_cons_of_mem _ hd)))
    refine ⟨h2, (applyCalls_cons cs hc h2).2 hrun, hwf2, hlen2.trans hlen1, ?_⟩
    intro p hp
    rw [hfr2 p hp, hfr1 p hp]

theorem mem_foldl_noteReference (names seen : List String) (x : String) :
    x ∈ names.foldl noteReference seen ↔ x ∈ seen ∨ x ∈ names := by
  induction names generalizing seen with
  | nil => simp
  | cons n ns ih =>
    simp only [List.foldl_cons, ih, noteReference, List.mem_cons]
    by_cases hn : n ∈ seen
    · simp only [hn, if_true]
      constructor
      · rintro (h | h)
        · exact Or.inl h
        · exact Or.inr (Or.inr h)
      · rintro (h | rfl | h)
        · exact Or.inl h
        · exact Or.inl hn
        · exact Or.inr h
    · simp only [hn, if_false, List.mem_append, List.mem_singleton]
      tauto

theorem nodup_foldl_noteReference (names seen : List String) (hs : seen.Nodup) :
    (names.foldl noteReference seen).Nodup := by
  induction names generalizing seen with
  | nil => simpa
  | cons n ns ih =>
    simp only [List.foldl_cons]
    apply ih
    unfold noteReference
    by_cases hn : n ∈ seen
    · simpa [hn] using hs
    · simp only [hn, if_false]
      rw [List.nodup_append]
      refine ⟨hs, List.nodup_singleton n, ?_⟩
      intro a ha hb
      simp only [List.mem_singleton] at hb
      subst hb
      exact hn ha

theorem mem_firstReferences (names : List String) (x : String) :
    x ∈ firstReferences names ↔ x ∈ names := by
  simp [firstReferences, mem_foldl_noteReference]

theorem nodup_firstReferences (names : List String) : (firstReferences names).Nodup :=
  nodup_foldl_noteReference names [] List.nodup_nil

theorem length_firstReferences (names : List String) :
    (firstReferences names).length = names.toFinset.card := by
  rw [← List.toFinset_card_of_nodup (nodup_firstReferences names)]
  congr 1
  ext x
  simp [mem_firstReferences]

/-- The order kept by `noteReference`: an earlier entry is first referenced
earlier. -/
theorem pairwise_foldl_noteReference (pre rest seen : List String)
    (hmem : ∀ a, a ∈ seen ↔ a ∈ pre)
    (hs : seen.Pairwise (fun a b => (pre ++ rest).indexOf a < (pre ++ rest).indexOf b)) :
    (rest.foldl noteReference seen).Pairwise
      (fun a b => (pre ++ rest).indexOf a < (pre ++ rest).indexOf b) := by
  induction rest generalizing pre seen with
  | nil => simpa using hs
  | cons n ns ih =>
    simp only [List.foldl_cons]
    have key := ih (pre ++ [n]) (noteReference seen n)
    simp only [List.append_assoc, List.singleton_append] at key
    apply key
    · intro a
      unfold noteReference
      by_cases hn : n ∈ seen
      · simp only [hn, if_true, List.mem_append, List.mem_singleton, hmem]
        constructor
        · exact Or.inl
        · rintro (h | rfl)
          · exact h
          · exact (hmem _).1 hn
      · simp only [hn, if_false, List.mem_append, List.mem_singleton, hmem]
    · unfold noteReference
      by_cases hn : n ∈ seen
      · simpa [hn] using hs
      · simp only [hn, if_false]
        rw [List.pairwise_append]
        refine ⟨hs, List.pairwise_singleton _ _, ?_⟩
        intro a ha b hb
        simp only [List.mem_singleton] at hb
        subst hb
        have hap := (hmem a).1 ha
        have hbp : b ∉ pre := fun hb => hn ((hmem b).2 hb)
        have h1 : (pre ++ b :: ns).indexOf a < pre.length := by
          rw [List.indexOf_append_of_mem hap]
          exact List.indexOf_lt_length.2 hap
        rw [List.indexOf_append_of_not_mem hbp]
        omega

/-- The entries of `firstReferences names` stand in the order of their first
occurrence in `names`. -/
theorem pairwise_firstReferences (names : List String) :
    (firstReferences names).Pairwise (fun a b => names.indexOf a < names.indexOf b) := by
  have := pairwise_foldl_noteReference [] names [] (by simp) List.Pairwise.nil
  simpa [firstReferences] using this

theorem deviceNames_congr (h h' : Heap) (ps : List Ptr)
    (hnames : ∀ p ∈ ps, (h'.device p).map Device.DeviceInterface
      = (h.device p).map Device.DeviceInterface) :
    h'.deviceNames ps = h.deviceNames ps := by
  unfold Heap.deviceNames
  exact List.map_congr_left hnames

theorem mem_deviceNames_of_find {h : Heap} {name : String} {ps : List Ptr} {p : Ptr}
    (hf : findDevice h name ps = some (some p)) : some name ∈ h.deviceNames ps := by
  obtain ⟨hm, d, hd, hn⟩ := findDevice_found hf
  unfold Heap.deviceNames
  exact List.mem_map.2 ⟨p, hm, by simp [hd, hn]⟩

theorem not_mem_deviceNames_of_find {h : Heap} {name : String} {ps : List Ptr}
    (hf : findDevice h name ps = some none) : some name ∉ h.deviceNames ps := by
  intro hm
  unfold Heap.deviceNames at hm
  obtain ⟨p, hp, hpn⟩ := List.mem_map.1 hm
  obtain ⟨d, hd, hn⟩ := findDevice_absent hf p hp
  rw [hd] at hpn
  simp only [Option.map_some', Option.some.injEq] at hpn
  exact hn hpn

/-- The interface names of the document after `getDevice`: unchanged when the name
is among them, extended by the name at the end otherwise. -/
theorem getDevice_names {h : Heap} {n : Ptr} {v : NetworkConfig} (name : String)
    (hwf : h.pointersValid = true) (hn : h.config n = some v) :
    ∃ h1 dev v1, getDevice h n name = some (h1, dev) ∧ h1.config n = some v1 ∧
      h1.deviceNames v1.NetworkInterfaces =
        if some name ∈ h.deviceNames v.NetworkInterfaces then h.deviceNames v.NetworkInterfaces
        else h.deviceNames v.NetworkInterfaces ++ [some name] := by
  have hlt := Heap.interfaces_lt hwf hn
  rcases getDevice_cases name hn hlt with ⟨p, hf, hg⟩ | ⟨hf, hg⟩
  · exact ⟨h, p, v, hg, hn, by simp [mem_deviceNames_of_find hf]⟩
  · refine ⟨_, _, { v with NetworkInterfaces := v.NetworkInterfaces ++ [h.devices.length] },
      hg, ?_, ?_⟩
    · exact Heap.config_storeConfig_self _ hn
    · simp only [not_mem_deviceNames_of_find hf, if_false]
      unfold Heap.deviceNames
      rw [List.map_append]
      congr 1
      · apply List.map_congr_left
        intro p hp
        have := hlt p hp
        simp [Heap.device, Heap.storeConfig, Heap.newDevice, List.getElem?_append_left this]
      · simp [Heap.device, Heap.storeConfig, Heap.newDevice, Device.named]

theorem assignDevice_after_getDevice {h h' : Heap} {cfg : Ptr} {iface : String}
    {f : Device → Device} {mt : MachineType} {e : Option GoError}
    (hrun : assignDevice iface f mt cfg h = some (h', e))
    (hname : ∀ d, (f d).DeviceInterface = d.DeviceInterface) :
    ∃ h1 dev, getDevice h cfg iface = some (h1, dev) ∧ h'.configs = h1.configs ∧
      ∀ p, (h'.device p).map Device.DeviceInterface
        = (h1.device p).map Device.DeviceInterface := by
  unfold assignDevice at hrun
  cases hg : getDevice h cfg iface with
  | none => simp [hg] at hrun
  | some r =>
    obtain ⟨h1, dev⟩ := r
    simp only [hg, updateDevice] at hrun
    cases hd : h1.device dev with
    | none => simp [hd] at hrun
    | some d =>
      simp only [hd, Option.some.injEq, Prod.mk.injEq] at hrun
      obtain ⟨rfl, -⟩ := hrun
      refine ⟨h1, dev, rfl, rfl, ?_⟩
      intro p
      by_cases hp : dev = p
      · subst hp
        rw [Heap.device_storeDevice_self _ hd, hd]
        simp [hname]
      · rw [Heap.device_storeDevice_ne _ _ hp]

theorem ensureDHCPOptions_names {h h2 : Heap} {dev q : Ptr}
    (he : ensureDHCPOptions h dev = some (h2, q)) :
    ∀ p, (h2.device p).map Device.DeviceInterface
      = (h.device p).map Device.DeviceInterface := by
  unfold ensureDHCPOptions at he
  cases hd : h.device dev with
  | none => simp [hd] at he
  | some d =>
    simp only [hd] at he
    cases hq : d.DeviceDHCPOptions with
    | some q0 =>
      simp only [hq, Option.some.injEq, Prod.mk.injEq] at he
      obtain ⟨rfl, -⟩ := he
      exact fun _ => rfl
    | none =>
      simp only [hq, Heap.newDhcp, Option.some.injEq, Prod.mk.injEq] at he
      obtain ⟨rfl, -⟩ := he
      intro p
      have hd' : ({ h with dhcpOptions := h.dhcpOptions ++ [DHCPOptions.zero] } : Heap).device dev
          = some d := hd
      by_cases hp : dev = p
      · subst hp
        rw [Heap.device_storeDevice_self _ hd', hd]
        rfl
      · rw [Heap.device_storeDevice_ne _ _ hp]
        rfl

theorem assignDhcp_after_getDevice {h h' : Heap} {cfg : Ptr} {iface : String}
    {g : DHCPOptions → DHCPOptions} {mt : MachineType} {e : Option GoError}
    (hrun : assignDhcp iface g mt cfg h = some (h', e)) :
    ∃ h1 dev, getDevice h cfg iface = some (h1, dev) ∧ h'.configs = h1.configs ∧
      ∀ p, (h'.device p).map Device.DeviceInterface
        = (h1.device p).map Device.DeviceInterface := by
  unfold assignDhcp at hrun
  cases hg : getDevice h cfg iface with
  | none => simp [hg] at hrun
  | some r =>
    obtain ⟨h1, dev⟩ := r
    simp only [hg] at hrun
    cases he : ensureDHCPOptions h1 dev with
    | none => simp [he] at hrun
    | some r2 =>
      obtain ⟨h2, q⟩ := r2
      simp only [he, updateDhcp] at hrun
      cases ho : h2.dhcp q with
      | none => simp [ho] at hrun
      | some o =>
        simp only [ho, Option.some.injEq, Prod.mk.injEq] at hrun
        obtain ⟨rfl, -⟩ := hrun
        exact ⟨h1, dev, rfl, (ensureDHCPOptions_configs he : h2.configs = h1.configs),
          fun p => (ensureDHCPOptions_names he p :
            (h2.device p).map Device.DeviceInterface = _)⟩

/-- A call that looks a name up runs `getDevice` on that name first and afterwards
changes neither a config cell nor the name of a device. -/
theorem build_after_getDevice (c : OptionCall) (mt : MachineType) {h h' : Heap} {cfg : Ptr}
    {v : NetworkConfig} {n : String} {e : Option GoError}
    (hl : c.lookedUp mt = some n) (hwf : h.pointersValid = true) (hcfg : h.config cfg = some v)
    (hrun : c.build mt cfg h = some (h', e)) :
    ∃ h1 dev, getDevice h cfg n = some (h1, dev) ∧ h'.configs = h1.configs ∧
      ∀ p, (h'.device p).map Device.DeviceInterface
        = (h1.device p).map Device.DeviceInterface := by
  cases c with
  | networkConfig c => simp [OptionCall.lookedUp, OptionCall.iface?] at hl
  | networkNameservers ns => simp [OptionCall.lookedUp, OptionCall.iface?] at hl
  | kubeSpan => simp [OptionCall.lookedUp, OptionCall.iface?] at hl
  | interfaceIgnore iface =>
    simp only [OptionCall.lookedUp, OptionCall.iface?, Option.some.injEq] at hl
    subst hl
    exact assignDevice_after_getDevice
      (show assignDevice iface _ mt cfg h = some (h', e) from hrun) (fun _ => rfl)
  | interfaceDHCP iface enable =>
    simp only [OptionCall.lookedUp, OptionCall.iface?, Option.some.injEq] at hl
    subst hl
    exact assignDevice_after_getDevice
      (show assignDevice iface _ mt cfg h = some (h', e) from hrun) (fun _ => rfl)
  | interfaceDHCPv4 iface enable =>
    simp only [OptionCall.lookedUp, OptionCall.iface?, Option.some.injEq] at hl
    subst hl
    exact assignDhcp_after_getDevice (show assignDhcp iface _ mt cfg h = some (h', e) from hrun)
  | interfaceDHCPv6 iface enable =>
    simp only [OptionCall.lookedUp, OptionCall.iface?, Option.some.injEq] at hl
    subst hl
    exact assignDhcp_after_getDevice (show assignDhcp iface _ mt cfg h = some (h', e) from hrun)
  | interfaceCIDR iface cidr =>
    simp only [OptionCall.lookedUp, OptionCall.iface?, Option.some.injEq] at hl
    subst hl
    have hrun' : WithNetworkInterfaceCIDR iface cidr mt cfg h = some (h', e) := hrun
    rw [withNetworkInterfaceCIDR_eq iface cidr mt hwf hcfg] at hrun'
    obtain ⟨h0, hrun0, rfl⟩ := map_withArrays_eq_some hrun'
    obtain ⟨h1, dev, hg, hc, hn⟩ := assignDevice_after_getDevice hrun0 (fun _ => rfl)
    exact ⟨h1, dev, hg, hc, hn⟩
  | interfaceMTU iface mtu =>
    simp only [OptionCall.lookedUp, OptionCall.iface?, Option.some.injEq] at hl
    subst hl
    exact assignDevice_after_getDevice
      (show assignDevice iface _ mt cfg h = some (h', e) from hrun) (fun _ => rfl)
  | interfaceWireguard iface w =>
    simp only [OptionCall.lookedUp, OptionCall.iface?, Option.some.injEq] at hl
    subst hl
    exact assignDevice_after_getDevice
      (show assignDevice iface _ mt cfg h = some (h', e) from hrun) (fun _ => rfl)
  | interfaceVirtualIP iface cidr =>
    by_cases hmt : mt = MachineType.TypeWorker
    · simp [OptionCall.lookedUp, hmt] at hl
    · simp only [OptionCall.lookedUp, hmt, if_false, Option.some.injEq] at hl
      subst hl
      have hrun' : WithNetworkInterfaceVirtualIP iface cidr mt cfg h = some (h', e) := hrun
      rw [withNetworkInterfaceVirtualIP_eq iface cidr mt hmt] at hrun'
      exact assignDevice_after_getDevice hrun' (fun _ => rfl)

/-- One call that looks a name up: the interface names of the document afterwards
are the names before with the looked-up name noted. -/
theorem lookup_step (c : OptionCall) (mt : MachineType) {h : Heap} {cfg : Ptr}
    {v : NetworkConfig} {seen : List String} {n : String}
    (hl : c.lookedUp mt = some n) (hwf : h.pointersValid = true) (hcfg : h.config cfg = some v)
    (hnames : h.deviceNames v.NetworkInterfaces = seen.map some) :
    ∃ h' v', c.build mt cfg h = some (h', none) ∧ h'.pointersValid = true ∧
      h'.config cfg = some v' ∧
      h'.deviceNames v'.NetworkInterfaces = (noteReference seen n).map some := by
  have hhas : h.hasConfig cfg = true := decide_eq_true (Heap.lt_of_config hcfg)
  have hargs : c.argsValid h = true := by
    cases c <;> first | rfl | simp [OptionCall.lookedUp, OptionCall.iface?] at hl
  obtain ⟨h', hrun, hwf', -, -⟩ := build_stepOk c mt hwf hhas hargs
  obtain ⟨h1, dev, hg, hcfgs, hnm⟩ := build_after_getDevice c mt hl hwf hcfg hrun
  obtain ⟨h1', dev', v1, hg', hc1, hn1⟩ := getDevice_names n hwf hcfg
  rw [hg] at hg'
  simp only [Option.some.injEq, Prod.mk.injEq] at hg'
  obtain ⟨rfl, rfl⟩ := hg'
  refine ⟨h', v1, hrun, hwf', ?_, ?_⟩
  · simp only [Heap.config, hcfgs]
    exact hc1
  · rw [deviceNames_congr h1 h' _ (fun p _ => hnm p), hn1, hnames]
    unfold noteReference
    by_cases hs : n ∈ seen
    · have : some n ∈ seen.map some := List.mem_map.2 ⟨n, hs, rfl⟩
      simp [hs, this]
    · have : some n ∉ List.map some seen := by
        intro hm
        obtain ⟨a, ha, hb⟩ := List.mem_map.1 hm
        simp only [Option.some.injEq] at hb
        subst hb
        exact hs ha
      simp [hs, this]

/-- A run of calls that all look a name up: the interface names afterwards are the
names before with the looked-up names noted in call order. -/
theorem applyCalls_names (mt : MachineType) (cfg : Ptr) (calls : List OptionCall) {h : Heap}
    {v : NetworkConfig} {seen : List String}
    (hwf : h.pointersValid = true) (hcfg : h.config cfg = some v)
    (hnames : h.deviceNames v.NetworkInterfaces = seen.map some)
    (hcalls : ∀ c ∈ calls, (c.lookedUp mt).isSome = true) :
    ∃ h' v', applyCalls mt cfg calls h = some (h', none) ∧ h'.pointersValid = true ∧
      h'.config cfg = some v' ∧
      h'.deviceNames v'.NetworkInterfaces =
        ((calls.filterMap (OptionCall.lookedUp mt)).foldl noteReference seen).map some := by
  induction calls generalizing h v seen with
  | nil => exact ⟨h, v, rfl, hwf, hcfg, by simpa using hnames⟩
  | cons c cs ih =>
    obtain ⟨n, hl⟩ := Option.isSome_iff_exists.1 (hcalls c (List.mem_cons_self _ _))
    obtain ⟨h1, v1, hrun1, hwf1, hc1, hn1⟩ := lookup_step c mt hl hwf hcfg hnames
    obtain ⟨h2, v2, hrun2, hwf2, hc2, hn2⟩ :=
      ih hwf1 hc1 hn1 (fun d hd => hcalls d (List.mem_cons_of_mem _ hd))
    refine ⟨h2, v2, (applyCalls_cons cs hrun1 h2).2 hrun2, hwf2, hc2, ?_⟩
    rw [hn2, List.filterMap_cons, hl]
    rfl

namespace Heap

theorem Extends.refl (h : Heap) : h.Extends h :=
  ⟨fun _ _ hv => hv, fun _ _ hv => hv, fun _ _ hv => hv, fun _ _ hv => hv, fun _ _ hv => hv⟩

theorem Extends.trans {h1 h2 h3 : Heap} (h12 : h1.Extends h2) (h23 : h2.Extends h3) :
    h1.Extends h3 :=
  ⟨fun p v hv => h23.config p v (h12.config p v hv),
   fun p v hv => h23.device p v (h12.device p v hv),
   fun p v hv => h23.dhcp p v (h12.dhcp p v hv),
   fun p v hv => h23.kubeSpan p v (h12.kubeSpan p v hv),
   fun p v hv => h23.array p v (h12.array p v hv)⟩

theorem getElem?_append_of_some {α : Type} {l : List α} {i : Nat} {a : α} (l2 : List α)
    (hi : l[i]? = some a) : (l ++ l2)[i]? = some a := by
  rw [List.getElem?_append_left (List.getElem?_eq_some.1 hi).1]
  exact hi

theorem extends_newDevice (h : Heap) (d : Device) : h.Extends (h.newDevice d).1 :=
  ⟨fun _ _ hv => hv, fun _ _ hv => getElem?_append_of_some _ hv, fun _ _ hv => hv,
    fun _ _ hv => hv, fun _ _ hv => hv⟩

theorem extends_newDhcp (h : Heap) (o : DHCPOptions) : h.Extends (h.newDhcp o).1 :=
  ⟨fun _ _ hv => hv, fun _ _ hv => hv, fun _ _ hv => getElem?_append_of_some _ hv,
    fun _ _ hv => hv, fun _ _ hv => hv⟩

theorem extends_newKubeSpan (h : Heap) (k : NetworkKubeSpan) : h.Extends (h.newKubeSpan k).1 :=
  ⟨fun _ _ hv => hv, fun _ _ hv => hv, fun _ _ hv => hv,
    fun _ _ hv => getElem?_append_of_some _ hv, fun _ _ hv => hv⟩

theorem extends_newConfig (h : Heap) (v : NetworkConfig) : h.Extends (h.newConfig v).1 :=
  ⟨fun _ _ hv => getElem?_append_of_some _ hv, fun _ _ hv => hv, fun _ _ hv => hv,
    fun _ _ hv => hv, fun _ _ hv => hv⟩

theorem extends_newArray (h : Heap) (a : List String) :
    h.Extends { h with arrays := h.arrays ++ [a] } :=
  ⟨fun _ _ hv => hv, fun _ _ hv => hv, fun _ _ hv => hv, fun _ _ hv => hv,
    fun _ _ hv => getElem?_append_of_some _ hv⟩

theorem readSlice_of_extends {h h2 : Heap} (he : h.Extends h2) {s : Slice} {xs : List String}
    (hx : h.readSlice s = some xs) : h2.readSlice s = some xs := by
  unfold readSlice at hx ⊢
  cases hq : s.array with
  | none => simpa [hq] using hx
  | some q =>
    simp only [hq] at hx ⊢
    cases ha : h.arrays[q]? with
    | none => simp [ha] at hx
    | some a =>
      rw [he.array q a ha]
      simpa [ha] using hx

theorem readDevice_of_extends {h h2 : Heap} (he : h.Extends h2) {p : Ptr} {x : DeviceValue}
    (hx : h.readDevice p = some x) : h2.readDevice p = some x := by
  unfold readDevice at hx ⊢
  cases hd : h.device p with
  | none => simp [hd] at hx
  | some d =>
    rw [he.device p d hd]
    simp only [hd] at hx
    cases hs : h.readSlice d.DeviceAddresses with
    | none => simp [hs] at hx
    | some addresses =>
      simp only [hs, readSlice_of_extends he hs] at hx ⊢
      cases hq : d.DeviceDHCPOptions with
      | none => simpa [hq] using hx
      | some q =>
        simp only [hq] at hx ⊢
        cases ho : h.dhcp q with
        | none => simp [ho] at hx
        | some o =>
          rw [he.dhcp q o ho]
          simpa [ho] using hx

theorem readDevices_of_extends {h h2 : Heap} (he : h.Extends h2) {ps : List Ptr}
    {xs : List DeviceValue} (hx : h.readDevices ps = some xs) : h2.readDevices ps = some xs := by
  induction ps generalizing xs with
  | nil => simpa [readDevices] using hx
  | cons p ps ih =>
    unfold readDevices at hx ⊢
    cases hp : h.readDevice p with
    | none => simp [hp] at hx
    | some x =>
      cases hps : h.readDevices ps with
      | none => simp [hp, hps] at hx
      | some ys =>
        rw [readDevice_of_extends he hp, ih hps]
        simpa [hp, hps] using hx

theorem readKubeSpan_of_extends {h h2 : Heap} (he : h.Extends h2) {k : Option Ptr}
    {x : Option NetworkKubeSpan} (hx : h.readKubeSpan k = some x) :
    h2.readKubeSpan k = some x := by
  cases k with
  | none => simpa [readKubeSpan] using hx
  | some k =>
    cases hk : h.kubeSpan k with
    | none => simp [readKubeSpan, hk] at hx
    | some s =>
      simp only [readKubeSpan, hk, he.kubeSpan k s hk] at hx ⊢
      exact hx

/-- Allocation does not change the value of a configuration that could be read. -/
theorem readConfig_of_extends {h h2 : Heap} (he : h.Extends h2) {p : Ptr}
    {x : NetworkConfigValue} (hx : h.readConfig p = some x) : h2.readConfig p = some x := by
  cases hv : h.config p with
  | none => simp [readConfig, hv] at hx
  | some v =>
    cases hds : h.readDevices v.NetworkInterfaces with
    | none => simp [readConfig, hv, hds] at hx
    | some ds =>
      cases hks : h.readKubeSpan v.NetworkKubeSpan with
      | none => simp [readConfig, hv, hds, hks] at hx
      | some ks =>
        cases hns : h.readSlice v.NameServers with
        | none => simp [readConfig, hv, hds, hks, hns] at hx
        | some ns =>
          simp only [readConfig, hv, he.config p v hv, hds, hks, hns,
            readDevices_of_extends he hds, readKubeSpan_of_extends he hks,
            readSlice_of_extends he hns] at hx ⊢
          exact hx

/-- Copying a readable slice allocates one array and yields a slice of the same
elements. -/
theorem copySlice_spec {h : Heap} {s : Slice} {xs : List String}
    (hx : h.readSlice s = some xs) :
    ∃ h1 s1, h.copySlice s = some (h1, s1) ∧ h.Extends h1 ∧ h1.readSlice s1 = some xs ∧
      h1.configs = h.configs :=
  ⟨{ h with arrays := h.arrays ++ [xs] },
    { array := some h.arrays.length, offset := 0, len := xs.length, cap := xs.length },
    by simp [copySlice, hx], extends_newArray h xs, by simp [readSlice], rfl⟩

/-- Copying a readable device allocates only and yields a device of equal value. -/
theorem copyDevice_spec {h : Heap} {p : Ptr} {x : DeviceValue} (hx : h.readDevice p = some x) :
    ∃ h1 p1, h.copyDevice p = some (h1, p1) ∧ h.Extends h1 ∧ h1.readDevice p1 = some x ∧
      h1.configs = h.configs := by
  rw [readDevice_toValue] at hx
  cases hd : h.device p with
  | none => simp [hd] at hx
  | some d =>
    cases hs : h.readSlice d.DeviceAddresses with
    | none => simp [hd, hs] at hx
    | some addresses =>
      obtain ⟨h0, s0, hcopy, he0, hread0, hcfg0⟩ := copySlice_spec hs
      simp only [hd, hs, Option.some_bind] at hx
      cases hq : d.DeviceDHCPOptions with
      | none =>
        simp only [hq, Option.some.injEq] at hx
        refine ⟨(h0.newDevice { d with DeviceAddresses := s0 }).1,
          (h0.newDevice { d with DeviceAddresses := s0 }).2,
          by simp [copyDevice, hd, hcopy, hq], he0.trans (extends_newDevice _ _), ?_, hcfg0⟩
        rw [readDevice_newDevice]
        simp [hread0, hq, ← hx, Device.toValue]
      | some q =>
        simp only [hq] at hx
        cases ho : h.dhcp q with
        | none => simp [ho] at hx
        | some o =>
          simp only [ho, Option.map_some', Option.some.injEq] at hx
          have ho0 := he0.dhcp q o ho
          refine ⟨((h0.newDhcp o).1.newDevice
              { d with DeviceAddresses := s0, DeviceDHCPOptions := some (h0.newDhcp o).2 }).1,
            ((h0.newDhcp o).1.newDevice
              { d with DeviceAddresses := s0, DeviceDHCPOptions := some (h0.newDhcp o).2 }).2,
            by simp [copyDevice, hd, hcopy, hq, ho0],
            he0.trans ((extends_newDhcp _ o).trans (extends_newDevice _ _)), ?_, hcfg0⟩
          rw [readDevice_newDevice]
          have hr := readSlice_of_extends (extends_newDhcp h0 o) hread0
          have hn : (h0.newDhcp o).1.dhcp (h0.newDhcp o).2 = some o := by
            simp [Heap.newDhcp, Heap.dhcp]
          simp [hr, hn, ← hx, Device.toValue]

theorem copyDevices_spec {h : Heap} {ps : List Ptr} {xs : List DeviceValue}
    (hx : h.readDevices ps = some xs) :
    ∃ h1 ps1, h.copyDevices ps = some (h1, ps1) ∧ h.Extends h1 ∧
      h1.readDevices ps1 = some xs ∧ h1.configs = h.configs := by
  induction ps generalizing h xs with
  | nil =>
    simp only [readDevices, Option.some.injEq] at hx
    subst hx
    exact ⟨h, [], rfl, Extends.refl h, rfl, rfl⟩
  | cons p ps ih =>
    unfold readDevices at hx
    cases hp : h.readDevice p with
    | none => simp [hp] at hx
    | some x =>
      cases hps : h.readDevices ps with
      | none => simp [hp, hps] at hx
      | some ys =>
        simp only [hp, hps, Option.some.injEq] at hx
        subst hx
        obtain ⟨h1, p1, hc1, he1, hr1, hg1⟩ := copyDevice_spec hp
        obtain ⟨h2, ps2, hc2, he2, hr2, hg2⟩ := ih (readDevices_of_extends he1 hps)
        refine ⟨h2, p1 :: ps2, ?_, he1.trans he2, ?_, hg2.trans hg1⟩
        · simp [copyDevices, hc1, hc2]
        · simp [readDevices, readDevice_of_extends he2 hr1, hr2]

theorem copyKubeSpan_spec {h : Heap} {k : Option Ptr} {x : Option NetworkKubeSpan}
    (hx : h.readKubeSpan k = some x) :
    ∃ h1 k1, h.copyKubeSpan k = some (h1, k1) ∧ h.Extends h1 ∧
      h1.readKubeSpan k1 = some x ∧ h1.configs = h.configs := by
  cases k with
  | none => exact ⟨h, none, rfl, Extends.refl h, hx, rfl⟩
  | some k =>
    cases hk : h.kubeSpan k with
    | none => simp [readKubeSpan, hk] at hx
    | some s =>
      simp only [readKubeSpan, hk] at hx
      refine ⟨(h.newKubeSpan s).1, some (h.newKubeSpan s).2, by simp [copyKubeSpan, hk],
        extends_newKubeSpan h s, ?_, rfl⟩
      simp only [readKubeSpan, Heap.kubeSpan, newKubeSpan, List.getElem?_concat_length]
      exact hx

/-- Copying a readable configuration allocates only and yields a configuration of
equal value at a fresh address. -/
theorem copyConfig_spec {h : Heap} {p : Ptr} {x : NetworkConfigValue}
    (hx : h.readConfig p = some x) :
    ∃ h1 p1, h.copyConfig p = some (h1, p1) ∧ h.Extends h1 ∧ h1.readConfig p1 = some x ∧
      h.config p1 = none := by
  cases hv : h.config p with
  | none => simp [readConfig, hv] at hx
  | some v =>
    cases hds : h.readDevices v.NetworkInterfaces with
    | none => simp [readConfig, hv, hds] at hx
    | some ds =>
      cases hks : h.readKubeSpan v.NetworkKubeSpan with
      | none => simp [readConfig, hv, hds, hks] at hx
      | some ks =>
        cases hns : h.readSlice v.NameServers with
        | none => simp [readConfig, hv, hds, hks, hns] at hx
        | some ns =>
          simp only [readConfig, hv, hds, hks, hns, Option.some.injEq] at hx
          obtain ⟨h1, ps1, hc1, he1, hr1, hg1⟩ := copyDevices_spec hds
          obtain ⟨h2, k2, hc2, he2, hr2, hg2⟩ :=
            copyKubeSpan_spec (readKubeSpan_of_extends he1 hks)
          have he12 := he1.trans he2
          obtain ⟨h3, s3, hc3, he3, hr3, hg3⟩ := copySlice_spec (readSlice_of_extends he12 hns)
          have hcfgs3 : h3.configs = h.configs := hg3.trans (hg2.trans hg1)
          refine ⟨(h3.newConfig
              { v with NetworkInterfaces := ps1, NameServers := s3, NetworkKubeSpan := k2 }).1,
            h3.configs.length, by simp [copyConfig, hv, hc1, hc2, hc3, newConfig],
            (he12.trans he3).trans (extends_newConfig _ _), ?_, ?_⟩
          · have e3 := extends_newConfig h3
              { v with NetworkInterfaces := ps1, NameServers := s3, NetworkKubeSpan := k2 }
            simp only [readConfig, Heap.config, newConfig, List.getElem?_concat_length]
            have r1 := readDevices_of_extends ((he2.trans he3).trans e3) hr1
            have r2 := readKubeSpan_of_extends (he3.trans e3) hr2
            have r3 := readSlice_of_extends e3 hr3
            simp only [newConfig] at r1 r2 r3
            rw [r1, r2, r3]
            simp only [Option.some.injEq]
            exact hx
          · simp [Heap.config, hcfgs3]

end Heap

namespace Shift

theorem dev_injective (s : Shift) {p q : Nat} (h : s.dev p = s.dev q) : p = q := by
  unfold dev at h
  split at h <;> split at h <;> omega

theorem dhcp_injective (s : Shift) {p q : Nat} (h : s.dhcp p = s.dhcp q) : p = q := by
  unfold dhcp at h
  split at h <;> split at h <;> omega

theorem ks_injective (s : Shift) {p q : Nat} (h : s.ks p = s.ks q) : p = q := by
  unfold ks at h
  split at h <;> split at h <;> omega

theorem arr_injective (s : Shift) {p q : Nat} (h : s.arr p = s.arr q) : p = q := by
  unfold arr at h
  split at h <;> split at h <;> omega

theorem arr_of_le (s : Shift) {p : Nat} (h : s.arrayBase ≤ p) : s.arr p = p + s.arrayOffset := by
  unfold arr
  rw [if_neg (by omega)]

theorem arr_le (s : Shift) (p : Nat) : s.arr p ≤ p + s.arrayOffset := by
  unfold arr
  split <;> omega

theorem le_arr (s : Shift) (p : Nat) : p ≤ s.arr p := by
  unfold arr
  split <;> omega

theorem dev_of_le (s : Shift) {p : Nat} (h : s.deviceBase ≤ p) : s.dev p = p + s.deviceOffset := by
  unfold dev
  rw [if_neg (by omega)]

theorem dhcp_of_le (s : Shift) {p : Nat} (h : s.dhcpBase ≤ p) : s.dhcp p = p + s.dhcpOffset := by
  unfold dhcp
  rw [if_neg (by omega)]

theorem ks_of_le (s : Shift) {p : Nat} (h : s.kubeSpanBase ≤ p) :
    s.ks p = p + s.kubeSpanOffset := by
  unfold ks
  rw [if_neg (by omega)]

end Shift

namespace Heap

theorem liveDevice_of_config {h : Heap} {n p : Ptr} {v : NetworkConfig}
    (hv : h.config n = some v) (hp : p ∈ v.NetworkInterfaces) : h.LiveDevice p :=
  ⟨v, mem_of_config hv, hp⟩

theorem Sim.config_eq {s : Shift} {a b : Heap} (sim : Sim s a b) {n : Ptr} {v : NetworkConfig}
    (hv : a.config n = some v) : b.config n = some (s.config v) := by
  simp only [Heap.config] at hv ⊢
  rw [sim.configs, List.getElem?_map, hv]
  rfl

end Heap

/-- The lookup loop finds corresponding devices in corresponding heaps. -/
theorem findDevice_sim {s : Shift} {a b : Heap} (sim : Heap.Sim s a b) (name : String)
    (ps : List Ptr) (hlive : ∀ p ∈ ps, a.LiveDevice p) :
    findDevice b name (ps.map s.dev) = (findDevice a name ps).map (Option.map s.dev) := by
  induction ps with
  | nil => rfl
  | cons p ps ih =>
    obtain ⟨d, hda, hdb⟩ := sim.device p (hlive p (List.mem_cons_self _ _))
    have ih' := ih (fun q hq => hlive q (List.mem_cons_of_mem _ hq))
    simp only [List.map_cons, findDevice, hda, hdb]
    by_cases hn : d.DeviceInterface = name
    · simp [Shift.device, hn]
    · simp [Shift.device, hn, ih']

namespace Heap

theorem device_append_of_some {h : Heap} {p : Ptr} {d : Device} (ds : List Device)
    (hd : h.device p = some d) : (h.devices ++ ds)[p]? = some d :=
  getElem?_append_of_some ds hd

/-- A device pointer live after a config cell was overwritten was live before or
stands in the new struct. -/
theorem liveDevice_of_set {cs : List NetworkConfig} {n p : Ptr} {v1 v : NetworkConfig}
    (hv : v ∈ cs.set n v1) (hp : p ∈ v.NetworkInterfaces) :
    (∃ w ∈ cs, p ∈ w.NetworkInterfaces) ∨ p ∈ v1.NetworkInterfaces := by
  rcases List.mem_or_eq_of_mem_set hv with hv | rfl
  · exact Or.inl ⟨v, hv, hp⟩
  · exact Or.inr hp

/-- Overwriting a config cell on both sides with a struct whose pointers are already
reachable keeps the heaps in correspondence. -/
theorem Sim.storeConfig {s : Shift} {a b : Heap} (sim : Sim s a b) (n : Ptr) (v1 : NetworkConfig)
    (hdev : ∀ p ∈ v1.NetworkInterfaces, a.LiveDevice p)
    (hks : ∀ k, v1.NetworkKubeSpan = some k → ∃ v ∈ a.configs, v.NetworkKubeSpan = some k)
    (hns : ∀ q, v1.NameServers.array = some q → b.arrays[s.arr q]? = a.arrays[q]?) :
    Sim s (a.storeConfig n v1) (b.storeConfig n (s.config v1)) := by
  have hlive : ∀ p, (a.storeConfig n v1).LiveDevice p → a.LiveDevice p := by
    rintro p ⟨v, hv, hp⟩
    rcases liveDevice_of_set hv hp with h1 | h1
    · exact h1
    · exact hdev p h1
  refine ⟨?_, sim.deviceLength, sim.deviceBase, sim.dhcpLength, sim.dhcpBase,
    sim.kubeSpanLength, sim.kubeSpanBase, ?_, ?_, ?_, sim.arrayLength, sim.arrayBase, ?_⟩
  · simp only [Heap.storeConfig, sim.configs, List.map_set]
  · intro p hp
    exact sim.device p (hlive p hp)
  · intro p d q hp hd hq
    exact sim.dhcp p d q (hlive p hp) hd hq
  · intro v k hv hk
    rcases List.mem_or_eq_of_mem_set hv with hv | rfl
    · exact sim.kubeSpan v k hv hk
    · obtain ⟨w, hw, hwk⟩ := hks k hk
      exact sim.kubeSpan w k hw hwk
  · rintro q (⟨v, hv, hq⟩ | ⟨p, d, hp, hd, hq⟩)
    · rcases List.mem_or_eq_of_mem_set hv with hv | rfl
      · exact sim.array q (Or.inl ⟨v, hv, hq⟩)
      · exact hns q hq
    · exact sim.array q (Or.inr ⟨p, d, hlive p hp, hd, hq⟩)

/-- The "create" branch of `getDevice` on both sides. -/
theorem Sim.createDevice {s : Shift} {a b : Heap} (sim : Sim s a b) {n : Ptr}
    {v : NetworkConfig} (name : String) (hv : a.config n = some v) :
    Sim s
      ((a.newDevice (Device.named name)).1.storeConfig n
        { v with NetworkInterfaces := v.NetworkInterfaces ++ [a.devices.length] })
      ((b.newDevice (Device.named name)).1.storeConfig n
        { s.config v with
          NetworkInterfaces := (s.config v).NetworkInterfaces ++ [b.devices.length] }) := by
  have hnew : s.dev a.devices.length = b.devices.length := by
    rw [Shift.dev_of_le s sim.deviceBase, sim.deviceLength]
  have hlive : ∀ p, ((a.newDevice (Device.named name)).1.storeConfig n
        { v with NetworkInterfaces := v.NetworkInterfaces ++ [a.devices.length] }).LiveDevice p →
      a.LiveDevice p ∨ p = a.devices.length := by
    rintro p ⟨w, hw, hp⟩
    rcases liveDevice_of_set hw hp with h1 | h1
    · exact Or.inl h1
    · rcases List.mem_append.1 h1 with h2 | h2
      · exact Or.inl (liveDevice_of_config hv h2)
      · exact Or.inr (List.mem_singleton.1 h2)
  refine ⟨?_, ?_, ?_, sim.dhcpLength, sim.dhcpBase, sim.kubeSpanLength, sim.kubeSpanBase,
    ?_, ?_, ?_, sim.arrayLength, sim.arrayBase, ?_⟩
  · simp only [Heap.storeConfig, Heap.newDevice, sim.configs, List.map_set, Shift.config,
      List.map_append, List.map_cons, List.map_nil, hnew]
  · simp only [Heap.storeConfig, Heap.newDevice, List.length_append, List.length_singleton,
      sim.deviceLength]
    omega
  · simp only [Heap.storeConfig, Heap.newDevice, List.length_append, List.length_singleton]
    exact Nat.le_succ_of_le sim.deviceBase
  · intro p hp
    rcases hlive p hp with hold | rfl
    · obtain ⟨d, hda, hdb⟩ := sim.device p hold
      exact ⟨d, device_append_of_some _ hda, device_append_of_some _ hdb⟩
    · refine ⟨Device.named name, ?_, ?_⟩
      · simp [Heap.device, Heap.storeConfig, Heap.newDevice]
      · rw [hnew]
        simp [Heap.device, Heap.storeConfig, Heap.newDevice, Shift.device, Device.named,
          Shift.slice, Slice.nil]
  · intro p d q hp hd hq
    rcases hlive p hp with hold | rfl
    · obtain ⟨d0, hda, -⟩ := sim.device p hold
      have : (a.devices ++ [Device.named name])[p]? = some d0 := device_append_of_some _ hda
      have hd' : (a.devices ++ [Device.named name])[p]? = some d := hd
      rw [this] at hd'
      cases hd'
      exact sim.dhcp p d q hold hda hq
    · have hd' : (a.devices ++ [Device.named name])[a.devices.length]? = some d := hd
      rw [List.getElem?_concat_length] at hd'
      cases hd'
      simp [Device.named] at hq
  · intro w k hw hk
    rcases List.mem_or_eq_of_mem_set hw with hw | rfl
    · exact sim.kubeSpan w k hw hk
    · exact sim.kubeSpan v k (mem_of_config hv) hk
  · rintro q (⟨w, hw, hq⟩ | ⟨p, d, hp, hd, hq⟩)
    · rcases List.mem_or_eq_of_mem_set hw with hw | rfl
      · exact sim.array q (Or.inl ⟨w, hw, hq⟩)
      · exact sim.array q (Or.inl ⟨v, mem_of_config hv, hq⟩)
    · rcases hlive p hp with hold | rfl
      · obtain ⟨d0, hda, -⟩ := sim.device p hold
        have : (a.devices ++ [Device.named name])[p]? = some d0 := device_append_of_some _ hda
        have hd' : (a.devices ++ [Device.named name])[p]? = some d := hd
        rw [this] at hd'
        cases hd'
        exact sim.array q (Or.inr ⟨p, d, hold, hda, hq⟩)
      · have hd' : (a.devices ++ [Device.named name])[a.devices.length]? = some d := hd
        rw [List.getElem?_concat_length] at hd'
        cases hd'
        simp [Device.named, Slice.nil] at hq

end Heap

/-- The lookup `getDevice` on corresponding heaps returns corresponding devices and leaves
corresponding heaps. -/
theorem getDevice_sim {s : Shift} {a b a1 : Heap} {n p : Ptr} {name : String}
    (sim : Heap.Sim s a b) (hg : getDevice a n name = some (a1, p)) :
    ∃ b1, getDevice b n name = some (b1, s.dev p) ∧ Heap.Sim s a1 b1 ∧ a1.LiveDevice p := by
  unfold getDevice at hg
  cases hv : a.config n with
  | none => simp [hv] at hg
  | some v =>
    have hvb := sim.config_eq hv
    have hlive : ∀ q ∈ v.NetworkInterfaces, a.LiveDevice q :=
      fun q hq => Heap.liveDevice_of_config hv hq
    have hfind := findDevice_sim sim name v.NetworkInterfaces hlive
    simp only [hv] at hg
    cases hf : findDevice a name v.NetworkInterfaces with
    | none => simp [hf] at hg
    | some r =>
      rw [hf] at hfind
      cases r with
      | some q =>
        simp only [hf, Option.some.injEq, Prod.mk.injEq] at hg
        obtain ⟨rfl, rfl⟩ := hg
        refine ⟨b, ?_, sim, hlive q (findDevice_found hf).1⟩
        simp [getDevice, hvb, Shift.config, hfind]
      | none =>
        simp only [hf, Heap.newDevice, Option.some.injEq, Prod.mk.injEq] at hg
        obtain ⟨rfl, rfl⟩ := hg
        have hnlt := Heap.lt_of_config hv
        have hnew : s.dev a.devices.length = b.devices.length := by
          rw [Shift.dev_of_le s sim.deviceBase, sim.deviceLength]
        refine ⟨(b.newDevice (Device.named name)).1.storeConfig n
            { s.config v with
              NetworkInterfaces := (s.config v).NetworkInterfaces ++ [b.devices.length] },
          ?_, ?_, ?_⟩
        · simp [getDevice, hvb, Shift.config, hfind, Heap.newDevice, hnew]
        · exact sim.createDevice name hv
        · refine ⟨{ v with NetworkInterfaces := v.NetworkInterfaces ++ [a.devices.length] }, ?_,
            List.mem_append_right _ (List.mem_singleton_self _)⟩
          exact Heap.mem_of_config (Heap.config_storeConfig_self _ hv)

namespace Heap

/-- Writing a reachable device on both sides, with a struct that keeps the
DHCP-options pointer, keeps the heaps in correspondence. -/
theorem Sim.storeDevice {s : Shift} {a b : Heap} (sim : Sim s a b) {p : Ptr} {d : Device}
    (d1 : Device) (hp : a.LiveDevice p) (hd : a.device p = some d)
    (hq : d1.DeviceDHCPOptions = d.DeviceDHCPOptions)
    (hadr : ∀ q, d1.DeviceAddresses.array = some q → b.arrays[s.arr q]? = a.arrays[q]?) :
    Sim s (a.storeDevice p d1) (b.storeDevice (s.dev p) (s.device d1)) := by
  obtain ⟨d0, hda, hdb⟩ := sim.device p hp
  rw [hd] at hda
  cases hda
  refine ⟨sim.configs, ?_, ?_, sim.dhcpLength, sim.dhcpBase, sim.kubeSpanLength,
    sim.kubeSpanBase, ?_, ?_, sim.kubeSpan, sim.arrayLength, sim.arrayBase, ?_⟩
  · simp only [Heap.storeDevice, List.length_set]
    exact sim.deviceLength
  · simp only [Heap.storeDevice, List.length_set]
    exact sim.deviceBase
  · intro r hr
    by_cases hpr : p = r
    · subst hpr
      exact ⟨d1, device_storeDevice_self d1 hd, device_storeDevice_self _ hdb⟩
    · obtain ⟨e, hea, heb⟩ := sim.device r hr
      refine ⟨e, ?_, ?_⟩
      · rw [device_storeDevice_ne a d1 hpr]; exact hea
      · rw [device_storeDevice_ne b _ (fun h => hpr (s.dev_injective h))]; exact heb
  · intro r e q hr he hq'
    by_cases hpr : p = r
    · subst hpr
      rw [device_storeDevice_self d1 hd] at he
      cases he
      rw [hq] at hq'
      exact sim.dhcp p d q hp hd hq'
    · rw [device_storeDevice_ne a d1 hpr] at he
      exact sim.dhcp r e q hr he hq'
  · rintro q (⟨v, hv, hq'⟩ | ⟨r, e, hr, he, hq'⟩)
    · exact sim.array q (Or.inl ⟨v, hv, hq'⟩)
    · by_cases hpr : p = r
      · subst hpr
        rw [device_storeDevice_self d1 hd] at he
        cases he
        exact hadr q hq'
      · rw [device_storeDevice_ne a d1 hpr] at he
        exact sim.array q (Or.inr ⟨r, e, hr, he, hq'⟩)

/-- Giving a reachable device fresh zero DHCP options on both sides keeps the heaps
in correspondence. -/
theorem Sim.createDhcp {s : Shift} {a b : Heap} (sim : Sim s a b) {p : Ptr} {d : Device}
    (hp : a.LiveDevice p) (hd : a.device p = some d) :
    Sim s
      ((a.newDhcp DHCPOptions.zero).1.storeDevice p
        { d with DeviceDHCPOptions := some a.dhcpOptions.length })
      ((b.newDhcp DHCPOptions.zero).1.storeDevice (s.dev p)
        { s.device d with DeviceDHCPOptions := some b.dhcpOptions.length }) := by
  obtain ⟨d0, hda, hdb⟩ := sim.device p hp
  rw [hd] at hda
  cases hda
  have hnew : s.dhcp a.dhcpOptions.length = b.dhcpOptions.length := by
    rw [Shift.dhcp_of_le s sim.dhcpBase, sim.dhcpLength]
  have hda1 : (a.newDhcp DHCPOptions.zero).1.device p = some d := hd
  have hdb1 : (b.newDhcp DHCPOptions.zero).1.device (s.dev p) = some (s.device d) := hdb
  refine ⟨sim.configs, ?_, ?_, ?_, ?_, sim.kubeSpanLength, sim.kubeSpanBase, ?_, ?_,
    sim.kubeSpan, sim.arrayLength, sim.arrayBase, ?_⟩
  · simp only [Heap.storeDevice, Heap.newDhcp, List.length_set]
    exact sim.deviceLength
  · simp only [Heap.storeDevice, Heap.newDhcp, List.length_set]
    exact sim.deviceBase
  · simp only [Heap.storeDevice, Heap.newDhcp, List.length_append, List.length_singleton,
      sim.dhcpLength]
    omega
  · simp only [Heap.storeDevice, Heap.newDhcp, List.length_append, List.length_singleton]
    exact Nat.le_succ_of_le sim.dhcpBase
  · intro r hr
    by_cases hpr : p = r
    · subst hpr
      refine ⟨_, device_storeDevice_self _ hda1, ?_⟩
      rw [device_storeDevice_self _ hdb1]
      simp [Shift.device, hnew]
    · obtain ⟨e, hea, heb⟩ := sim.device r hr
      refine ⟨e, ?_, ?_⟩
      · rw [device_storeDevice_ne _ _ hpr]; exact hea
      · rw [device_storeDevice_ne _ _ (fun h => hpr (s.dev_injective h))]; exact heb
  · intro r e q hr he hq
    by_cases hpr : p = r
    · subst hpr
      rw [device_storeDevice_self _ hda1] at he
      cases he
      simp only [Option.some.injEq] at hq
      subst hq
      refine ⟨DHCPOptions.zero, ?_, ?_⟩
      · simp [Heap.dhcp, Heap.storeDevice, Heap.newDhcp]
      · rw [hnew]
        simp [Heap.dhcp, Heap.storeDevice, Heap.newDhcp]
    · rw [device_storeDevice_ne _ _ hpr] at he
      obtain ⟨o, hoa, hob⟩ := sim.dhcp r e q hr he hq
      exact ⟨o, getElem?_append_of_some _ hoa, getElem?_append_of_some _ hob⟩
  · rintro q (⟨v, hv, hq'⟩ | ⟨r, e, hr, he, hq'⟩)
    · exact sim.array q (Or.inl ⟨v, hv, hq'⟩)
    · by_cases hpr : p = r
      · subst hpr
        rw [device_storeDevice_self _ hda1] at he
        cases he
        exact sim.array q (Or.inr ⟨p, d, hp, hd, hq'⟩)
      · rw [device_storeDevice_ne _ _ hpr] at he
        exact sim.array q (Or.inr ⟨r, e, hr, he, hq'⟩)

/-- Writing DHCP options on both sides keeps the heaps in correspondence. -/
theorem Sim.storeDhcp {s : Shift} {a b : Heap} (sim : Sim s a b) (q : Ptr) (o : DHCPOptions) :
    Sim s (a.storeDhcp q o) (b.storeDhcp (s.dhcp q) o) := by
  refine ⟨sim.configs, sim.deviceLength, sim.deviceBase, ?_, ?_, sim.kubeSpanLength,
    sim.kubeSpanBase, sim.device, ?_, sim.kubeSpan, sim.arrayLength, sim.arrayBase, sim.array⟩
  · simp only [Heap.storeDhcp, List.length_set]
    exact sim.dhcpLength
  · simp only [Heap.storeDhcp, List.length_set]
    exact sim.dhcpBase
  · intro r e q1 hr he hq1
    obtain ⟨o1, hoa, hob⟩ := sim.dhcp r e q1 hr he hq1
    by_cases hqq : q = q1
    · subst hqq
      exact ⟨o, dhcp_storeDhcp_self o hoa, dhcp_storeDhcp_self o hob⟩
    · refine ⟨o1, ?_, ?_⟩
      · simpa [Heap.dhcp, Heap.storeDhcp, List.getElem?_set, hqq] using hoa
      · have : s.dhcp q ≠ s.dhcp q1 := fun h => hqq (s.dhcp_injective h)
        simpa [Heap.dhcp, Heap.storeDhcp, List.getElem?_set, this] using hob

/-- Writing KubeSpan settings on both sides keeps the heaps in correspondence. -/
theorem Sim.storeKubeSpan {s : Shift} {a b : Heap} (sim : Sim s a b) (k : Ptr)
    (x : NetworkKubeSpan) :
    Sim s (a.storeKubeSpan k x) (b.storeKubeSpan (s.ks k) x) := by
  refine ⟨sim.configs, sim.deviceLength, sim.deviceBase, sim.dhcpLength, sim.dhcpBase, ?_, ?_,
    sim.device, sim.dhcp, ?_, sim.arrayLength, sim.arrayBase, sim.array⟩
  · simp only [Heap.storeKubeSpan, List.length_set]
    exact sim.kubeSpanLength
  · simp only [Heap.storeKubeSpan, List.length_set]
    exact sim.kubeSpanBase
  · intro v k1 hv hk1
    obtain ⟨x1, hxa, hxb⟩ := sim.kubeSpan v k1 hv hk1
    by_cases hkk : k = k1
    · subst hkk
      refine ⟨x, ?_, ?_⟩
      · simp [Heap.kubeSpan, Heap.storeKubeSpan, List.getElem?_set, lt_of_kubeSpan hxa]
      · simp [Heap.kubeSpan, Heap.storeKubeSpan, List.getElem?_set, lt_of_kubeSpan hxb]
    · refine ⟨x1, ?_, ?_⟩
      · simpa [Heap.kubeSpan, Heap.storeKubeSpan, List.getElem?_set, hkk] using hxa
      · have : s.ks k ≠ s.ks k1 := fun h => hkk (s.ks_injective h)
        simpa [Heap.kubeSpan, Heap.storeKubeSpan, List.getElem?_set, this] using hxb

/-- Giving the document fresh zero KubeSpan settings on both sides keeps the heaps
in correspondence. -/
theorem Sim.createKubeSpan {s : Shift} {a b : Heap} (sim : Sim s a b) {n : Ptr}
    {v : NetworkConfig} (hv : a.config n = some v) :
    Sim s
      ((a.newKubeSpan NetworkKubeSpan.zero).1.storeConfig n
        { v with NetworkKubeSpan := some a.kubeSpans.length })
      ((b.newKubeSpan NetworkKubeSpan.zero).1.storeConfig n
        { s.config v with NetworkKubeSpan := some b.kubeSpans.length }) := by
  have hnew : s.ks a.kubeSpans.length = b.kubeSpans.length := by
    rw [Shift.ks_of_le s sim.kubeSpanBase, sim.kubeSpanLength]
  have hlive : ∀ p, ((a.newKubeSpan NetworkKubeSpan.zero).1.storeConfig n
        { v with NetworkKubeSpan := some a.kubeSpans.length }).LiveDevice p → a.LiveDevice p := by
    rintro p ⟨w, hw, hp⟩
    rcases liveDevice_of_set hw hp with h1 | h1
    · exact h1
    · exact liveDevice_of_config hv h1
  refine ⟨?_, sim.deviceLength, sim.deviceBase, sim.dhcpLength, sim.dhcpBase, ?_, ?_, ?_, ?_, ?_,
    sim.arrayLength, sim.arrayBase, ?_⟩
  · simp only [Heap.storeConfig, Heap.newKubeSpan, sim.configs, List.map_set, Shift.config,
      Option.map_some', hnew]
  · simp only [Heap.storeConfig, Heap.newKubeSpan, List.length_append, List.length_singleton,
      sim.kubeSpanLength]
    omega
  · simp only [Heap.storeConfig, Heap.newKubeSpan, List.length_append, List.length_singleton]
    exact Nat.le_succ_of_le sim.kubeSpanBase
  · intro p hp
    exact sim.device p (hlive p hp)
  · intro p d q hp hd hq
    exact sim.dhcp p d q (hlive p hp) hd hq
  · intro w k hw hk
    rcases List.mem_or_eq_of_mem_set hw with hw | rfl
    · obtain ⟨x, hxa, hxb⟩ := sim.kubeSpan w k hw hk
      exact ⟨x, getElem?_append_of_some _ hxa, getElem?_append_of_some _ hxb⟩
    · simp only [Option.some.injEq] at hk
      subst hk
      refine ⟨NetworkKubeSpan.zero, ?_, ?_⟩
      · simp [Heap.kubeSpan, Heap.storeConfig, Heap.newKubeSpan]
      · rw [hnew]
        simp [Heap.kubeSpan, Heap.storeConfig, Heap.newKubeSpan]
  · rintro q (⟨w, hw, hq⟩ | ⟨p, d, hp, hd, hq⟩)
    · rcases List.mem_or_eq_of_mem_set hw with hw | rfl
      · exact sim.array q (Or.inl ⟨w, hw, hq⟩)
      · exact sim.array q (Or.inl ⟨v, mem_of_config hv, hq⟩)
    · exact sim.array q (Or.inr ⟨p, d, hlive p hp, hd, hq⟩)

theorem Sim.readSlice_eq {s : Shift} {a b : Heap} {x : Slice}
    (hx : ∀ q, x.array = some q → b.arrays[s.arr q]? = a.arrays[q]?) :
    b.readSlice (s.slice x) = a.readSlice x := by
  unfold readSlice
  cases hq : x.array with
  | none => simp [Shift.slice, hq]
  | some q => simp [Shift.slice, hq, hx q hq]

/-- Replacing the backing arrays on both sides by arrays that correspond keeps the
heaps in correspondence. -/
theorem Sim.withArrays {s : Shift} {a b : Heap} (sim : Sim s a b) (A B : List (List String))
    (hl : B.length = A.length + s.arrayOffset) (hb : s.arrayBase ≤ A.length)
    (harr : ∀ q, a.LiveArray q → B[s.arr q]? = A[q]?) :
    Sim s (a.withArrays A) (b.withArrays B) :=
  ⟨sim.configs, sim.deviceLength, sim.deviceBase, sim.dhcpLength, sim.dhcpBase,
    sim.kubeSpanLength, sim.kubeSpanBase, sim.device, sim.dhcp, sim.kubeSpan, hl, hb, harr⟩

theorem Sim.appendFresh {s : Shift} {a b : Heap} (sim : Sim s a b) (x : Slice)
    (xs : List String)
    (hx : ∀ q, x.array = some q → b.arrays[s.arr q]? = a.arrays[q]?) :
    (b.appendFresh (s.slice x) xs).2 = s.slice (a.appendFresh x xs).2 ∧
      Sim s (a.appendFresh x xs).1 (b.appendFresh (s.slice x) xs).1 ∧
      ∀ q, (a.appendFresh x xs).2.array = some q →
        (b.appendFresh (s.slice x) xs).1.arrays[s.arr q]? = (a.appendFresh x xs).1.arrays[q]? := by
  have hnew : s.arr a.arrays.length = b.arrays.length := by
    rw [Shift.arr_of_le s sim.arrayBase, sim.arrayLength]
  have hr : b.readSlice (s.slice x) = a.readSlice x := Sim.readSlice_eq hx
  have hcap : (s.slice x).cap = x.cap := rfl
  simp only [Heap.appendFresh, hr, hcap]
  generalize ((a.readSlice x).getD [] ++ xs ++ List.replicate
    (growCap x.cap (((a.readSlice x).getD []).length + xs.length) -
      (((a.readSlice x).getD []).length + xs.length)) "") = fresh
  refine ⟨by simp [Shift.slice, hnew], ?_, ?_⟩
  · refine Sim.withArrays sim _ _ ?_ ?_ ?_
    · simp [sim.arrayLength]
      omega
    · simp only [List.length_append, List.length_singleton]
      exact Nat.le_succ_of_le sim.arrayBase
    · intro q hq
      rcases Nat.lt_trichotomy q a.arrays.length with hlt | heq | hgt
      · have h2 : s.arr q < b.arrays.length := by
          have := s.arr_le q
          rw [sim.arrayLength]
          omega
        rw [List.getElem?_append_left hlt, List.getElem?_append_left h2]
        exact sim.array q hq
      · subst heq
        rw [hnew, List.getElem?_concat_length, List.getElem?_concat_length]
      · have h2 : b.arrays.length < s.arr q := by
          rw [Shift.arr_of_le s (by have := sim.arrayBase; omega), sim.arrayLength]
          omega
        rw [List.getElem?_eq_none (by simp; omega), List.getElem?_eq_none (by simp; omega)]
  · intro q hq
    simp only [Option.some.injEq] at hq
    subst hq
    show (b.arrays ++ [fresh])[s.arr a.arrays.length]? = (a.arrays ++ [fresh])[a.arrays.length]?
    rw [hnew, List.getElem?_concat_length, List.getElem?_concat_length]

/-- An `append` to corresponding slices on both sides takes the same branch, returns
corresponding slices and keeps the heaps in correspondence. -/
theorem Sim.append {s : Shift} {a b : Heap} (sim : Sim s a b) (x : Slice) (xs : List String)
    (hx : ∀ q, x.array = some q → b.arrays[s.arr q]? = a.arrays[q]?) :
    (b.append (s.slice x) xs).2 = s.slice (a.append x xs).2 ∧
      Sim s (a.append x xs).1 (b.append (s.slice x) xs).1 ∧
      ∀ q, (a.append x xs).2.array = some q →
        (b.append (s.slice x) xs).1.arrays[s.arr q]? = (a.append x xs).1.arrays[q]? := by
  have hfresh := sim.appendFresh x xs hx
  unfold Heap.append
  by_cases hxs : xs.isEmpty = true
  · simp only [hxs, if_true]
    exact ⟨trivial, sim, hx⟩
  · simp only [hxs, Bool.false_eq_true, if_false]
    cases hq : x.array with
    | none =>
      have : (s.slice x).array = none := by simp [Shift.slice, hq]
      simp only [this]
      exact hfresh
    | some q =>
      have : (s.slice x).array = some (s.arr q) := by simp [Shift.slice, hq]
      simp only [this, hx q hq]
      cases ha : a.arrays[q]? with
      | none => exact hfresh
      | some arr =>
        have hb := hx q hq
        rw [ha] at hb
        have hqlt := (List.getElem?_eq_some.1 ha).1
        have hqlt' := (List.getElem?_eq_some.1 hb).1
        simp only []
        have e1 : (s.slice x).len = x.len := rfl
        have e2 : (s.slice x).cap = x.cap := rfl
        have e3 : (s.slice x).offset = x.offset := rfl
        simp only [e1, e2, e3]
        by_cases hfit : x.len + xs.length ≤ x.cap ∧ x.offset + x.cap ≤ arr.length
        · simp only [hfit, and_self, if_true]
          refine ⟨by simp [Shift.slice], ?_, ?_⟩
          · refine Sim.withArrays sim _ _ ?_ ?_ ?_
            · simp [sim.arrayLength]
            · simp only [List.length_set]
              exact sim.arrayBase
            · intro q' hq'
              by_cases hqq : q = q'
              · subst hqq
                simp [List.getElem?_set, hqlt, hqlt']
              · have : s.arr q ≠ s.arr q' := fun h => hqq (s.arr_injective h)
                simp only [List.getElem?_set, hqq, this, if_false]
                exact sim.array q' hq'
          · intro q' hq'
            simp only [hq, Option.some.injEq] at hq'
            subst hq'
            simp [List.getElem?_set, hqlt, hqlt']
        · simp only [hfit, if_false]
          exact hfresh

theorem Sim.pointersValid_left {s : Shift} {a b : Heap} (sim : Sim s a b) :
    a.pointersValid = true := by
  rw [pointersValid_iff]
  intro v hv
  rw [validConfig_iff]
  refine ⟨?_, ?_⟩
  · intro p hp
    rw [validDevice_iff]
    obtain ⟨d, hd, -⟩ := sim.device p ⟨v, hv, hp⟩
    refine ⟨d, hd, ?_⟩
    intro q hq
    obtain ⟨o, ho, -⟩ := sim.dhcp p d q ⟨v, hv, hp⟩ hd hq
    exact lt_of_dhcp ho
  · intro k hk
    obtain ⟨x, hx, -⟩ := sim.kubeSpan v k hv hk
    exact lt_of_kubeSpan hx

theorem Sim.pointersValid_right {s : Shift} {a b : Heap} (sim : Sim s a b) :
    b.pointersValid = true := by
  rw [pointersValid_iff]
  intro w hw
  rw [sim.configs] at hw
  obtain ⟨v, hv, rfl⟩ := List.mem_map.1 hw
  rw [validConfig_iff]
  refine ⟨?_, ?_⟩
  · intro p' hp'
    obtain ⟨p, hp, rfl⟩ := List.mem_map.1 hp'
    rw [validDevice_iff]
    obtain ⟨d, hd, hdb⟩ := sim.device p ⟨v, hv, hp⟩
    refine ⟨_, hdb, ?_⟩
    intro q' hq'
    cases hq : d.DeviceDHCPOptions with
    | none => simp [Shift.device, hq] at hq'
    | some q =>
      simp only [Shift.device, hq, Option.map_some', Option.some.injEq] at hq'
      subst hq'
      obtain ⟨o, -, hob⟩ := sim.dhcp p d q ⟨v, hv, hp⟩ hd hq
      exact lt_of_dhcp hob
  · intro k' hk'
    cases hk : v.NetworkKubeSpan with
    | none => simp [Shift.config, hk] at hk'
    | some k =>
      simp only [Shift.config, hk, Option.map_some', Option.some.injEq] at hk'
      subst hk'
      obtain ⟨x, -, hxb⟩ := sim.kubeSpan v k hv hk
      exact lt_of_kubeSpan hxb

end Heap

theorem ensureDHCPOptions_of_none {h : Heap} {p : Ptr} {d : Device}
    (hd : h.device p = some d) (hq : d.DeviceDHCPOptions = none) :
    ensureDHCPOptions h p =
      some ((h.newDhcp DHCPOptions.zero).1.storeDevice p
        { d with DeviceDHCPOptions := some h.dhcpOptions.length }, h.dhcpOptions.length) := by
  simp [ensureDHCPOptions, hd, hq, Heap.newDhcp]

theorem ensureDHCPOptions_of_some {h : Heap} {p q : Ptr} {d : Device}
    (hd : h.device p = some d) (hq : d.DeviceDHCPOptions = some q) :
    ensureDHCPOptions h p = some (h, q) := by
  simp [ensureDHCPOptions, hd, hq]

/-- An option of the shape `cfg.getDevice(iface).F = v` run on corresponding heaps
leaves corresponding heaps. -/
theorem assignDevice_sim_of {s : Shift} {a b a1 : Heap} {cfg : Ptr} {iface : String}
    {f g : Device → Device} {mt : MachineType} {e : Option GoError}
    (sim : Heap.Sim s a b) (hrun : assignDevice iface f mt cfg a = some (a1, e))
    (hcomm : ∀ d, g (s.device d) = s.device (f d))
    (hq : ∀ d, (f d).DeviceDHCPOptions = d.DeviceDHCPOptions)
    (hadr : ∀ d q, (f d).DeviceAddresses.array = some q →
      d.DeviceAddresses.array = some q ∨ b.arrays[s.arr q]? = a.arrays[q]?) :
    ∃ b1, assignDevice iface g mt cfg b = some (b1, e) ∧ Heap.Sim s a1 b1 := by
  unfold assignDevice at hrun
  cases hg : getDevice a cfg iface with
  | none => simp [hg] at hrun
  | some r =>
    obtain ⟨a0, p⟩ := r
    obtain ⟨b0, hgb, sim0, hlive⟩ := getDevice_sim sim hg
    simp only [hg, updateDevice] at hrun
    cases hd : a0.device p with
    | none => simp [hd] at hrun
    | some d =>
      simp only [hd, Option.some.injEq, Prod.mk.injEq] at hrun
      obtain ⟨rfl, rfl⟩ := hrun
      obtain ⟨d0, hda, hdb⟩ := sim0.device p hlive
      rw [hd] at hda
      cases hda
      have harra := getDevice_arrays hg
      have harrb := getDevice_arrays hgb
      refine ⟨b0.storeDevice (s.dev p) (s.device (f d)), ?_,
        sim0.storeDevice (f d) hlive hd (hq d) ?_⟩
      · simp [assignDevice, hgb, updateDevice, hdb, hcomm]
      · intro q hq'
        rcases hadr d q hq' with h1 | h1
        · exact sim0.array q (Or.inr ⟨p, d, hlive, hd, h1⟩)
        · rw [harra, harrb]
          exact h1

/-- The same for an assignment that leaves the addresses of the device alone. -/
theorem assignDevice_sim {s : Shift} {a b a1 : Heap} {cfg : Ptr} {iface : String}
    {f : Device → Device} {mt : MachineType} {e : Option GoError}
    (sim : Heap.Sim s a b) (hrun : assignDevice iface f mt cfg a = some (a1, e))
    (hcomm : ∀ d, f (s.device d) = s.device (f d))
    (hq : ∀ d, (f d).DeviceDHCPOptions = d.DeviceDHCPOptions)
    (hadr : ∀ d, (f d).DeviceAddresses = d.DeviceAddresses) :
    ∃ b1, assignDevice iface f mt cfg b = some (b1, e) ∧ Heap.Sim s a1 b1 :=
  assignDevice_sim_of sim hrun hcomm hq (fun d q h => Or.inl (by rw [← hadr d]; exact h))

theorem addressesOf_sim {s : Shift} {a b : Heap} (sim : Heap.Sim s a b) (cfg : Ptr)
    (iface : String) :
    addressesOf b cfg iface = s.slice (addressesOf a cfg iface) ∧
      ∀ q, (addressesOf a cfg iface).array = some q → b.arrays[s.arr q]? = a.arrays[q]? := by
  unfold addressesOf
  cases hv : a.config cfg with
  | none =>
    have : b.config cfg = none := by
      simp only [Heap.config] at hv ⊢
      rw [sim.configs, List.getElem?_map, hv]
      rfl
    simp only [this]
    exact ⟨rfl, fun q hq => by simp [Slice.nil] at hq⟩
  | some v =>
    have hfind := findDevice_sim sim iface v.NetworkInterfaces
      (fun q hq => Heap.liveDevice_of_config hv hq)
    have e1 : (s.config v).NetworkInterfaces = v.NetworkInterfaces.map s.dev := rfl
    simp only [sim.config_eq hv, e1, hfind]
    cases hf : findDevice a iface v.NetworkInterfaces with
    | none => exact ⟨rfl, fun q hq => by simp [Slice.nil] at hq⟩
    | some r =>
      cases r with
      | none => exact ⟨rfl, fun q hq => by simp [Slice.nil] at hq⟩
      | some p =>
        have hlive := Heap.liveDevice_of_config hv (findDevice_found hf).1
        obtain ⟨d, hda, hdb⟩ := sim.device p hlive
        simp only [Option.map_some', hda, hdb]
        exact ⟨rfl, fun q hq => sim.array q (Or.inr ⟨p, d, hlive, hda, hq⟩)⟩

/-- An option of the DHCPv4/DHCPv6 shape run on corresponding heaps leaves
corresponding heaps. -/
theorem assignDhcp_sim {s : Shift} {a b a1 : Heap} {cfg : Ptr} {iface : String}
    {g : DHCPOptions → DHCPOptions} {mt : MachineType} {e : Option GoError}
    (sim : Heap.Sim s a b) (hrun : assignDhcp iface g mt cfg a = some (a1, e)) :
    ∃ b1, assignDhcp iface g mt cfg b = some (b1, e) ∧ Heap.Sim s a1 b1 := by
  unfold assignDhcp at hrun
  cases hg : getDevice a cfg iface with
  | none => simp [hg] at hrun
  | some r =>
    obtain ⟨a0, p⟩ := r
    obtain ⟨b0, hgb, sim0, hlive⟩ := getDevice_sim sim hg
    simp only [hg, ensureDHCPOptions] at hrun
    cases hd : a0.device p with
    | none => simp [hd] at hrun
    | some d =>
      obtain ⟨d0, hda, hdb⟩ := sim0.device p hlive
      rw [hd] at hda
      cases hda
      simp only [hd] at hrun
      cases hopt : d.DeviceDHCPOptions with
      | some q =>
        obtain ⟨o, hoa, hob⟩ := sim0.dhcp p d q hlive hd hopt
        simp only [hopt, updateDhcp, hoa, Option.some.injEq, Prod.mk.injEq] at hrun
        obtain ⟨rfl, rfl⟩ := hrun
        refine ⟨b0.storeDhcp (s.dhcp q) (g o), ?_, sim0.storeDhcp q (g o)⟩
        simp [assignDhcp, hgb, ensureDHCPOptions, hdb, Shift.device, hopt, updateDhcp, hob]
      | none =>
        have sim1 := sim0.createDhcp hlive hd
        have hnew : s.dhcp a0.dhcpOptions.length = b0.dhcpOptions.length := by
          rw [Shift.dhcp_of_le s sim0.dhcpBase, sim0.dhcpLength]
        have hza : ((a0.newDhcp DHCPOptions.zero).1.storeDevice p
            { d with DeviceDHCPOptions := some a0.dhcpOptions.length }).dhcp
              a0.dhcpOptions.length = some DHCPOptions.zero := by
          simp [Heap.dhcp, Heap.storeDevice, Heap.newDhcp]
        have hzb : ((b0.newDhcp DHCPOptions.zero).1.storeDevice (s.dev p)
            { s.device d with DeviceDHCPOptions := some b0.dhcpOptions.length }).dhcp
              b0.dhcpOptions.length = some DHCPOptions.zero := by
          simp [Heap.dhcp, Heap.storeDevice, Heap.newDhcp]
        have hea := ensureDHCPOptions_of_none hd hopt
        have heb := ensureDHCPOptions_of_none hdb
          (show (s.device d).DeviceDHCPOptions = none by simp [Shift.device, hopt])
        have hrun' : (match ensureDHCPOptions a0 p with
            | none => none
            | some (h2, q) =>
              match updateDhcp h2 q g with
              | none => none
              | some h3 => some (h3, (none : Option GoError))) = some (a1, e) := by
          simpa only [ensureDHCPOptions, hd] using hrun
        rw [hea] at hrun'
        simp only [updateDhcp_eq g hza, Option.some.injEq, Prod.mk.injEq] at hrun'
        obtain ⟨rfl, rfl⟩ := hrun'
        have sim2 := sim1.storeDhcp a0.dhcpOptions.length (g DHCPOptions.zero)
        rw [hnew] at sim2
        refine ⟨_, ?_, sim2⟩
        simp only [assignDhcp, hgb, heb, updateDhcp_eq g hzb]

/-- Every call of the option file run on corresponding heaps leaves corresponding
heaps, with the same returned error. -/
theorem build_sim (c : OptionCall) (mt : MachineType) {s : Shift} {a b a1 : Heap} {cfg : Ptr}
    {e : Option GoError} (sim : Heap.Sim s a b) (hrun : c.build mt cfg a = some (a1, e)) :
    ∃ b1, c.build mt cfg b = some (b1, e) ∧ Heap.Sim s a1 b1 := by
  cases c with
  | networkConfig c =>
    cases c with
    | none => simp [OptionCall.build, WithNetworkConfig] at hrun
    | some pc =>
      simp only [OptionCall.build, WithNetworkConfig] at hrun
      cases hv : a.config pc with
      | none => simp [hv] at hrun
      | some v =>
        cases hw : a.config cfg with
        | none => simp [hv, hw] at hrun
        | some w =>
          simp only [hv, hw, Option.some.injEq, Prod.mk.injEq] at hrun
          obtain ⟨rfl, rfl⟩ := hrun
          refine ⟨b.storeConfig cfg (s.config v), ?_, sim.storeConfig cfg v ?_ ?_ ?_⟩
          · simp [OptionCall.build, WithNetworkConfig, sim.config_eq hv, sim.config_eq hw]
          · exact fun p hp => Heap.liveDevice_of_config hv hp
          · exact fun k hk => ⟨v, Heap.mem_of_config hv, hk⟩
          · exact fun q hq => sim.array q (Or.inl ⟨v, Heap.mem_of_config hv, hq⟩)
  | networkNameservers ns =>
    have hrun' : WithNetworkNameservers ns mt cfg a = some (a1, e) := hrun
    cases hv : a.config cfg with
    | none => simp [WithNetworkNameservers, hv] at hrun'
    | some v =>
      rw [withNetworkNameservers_eq ns mt hv] at hrun'
      simp only [Option.some.injEq, Prod.mk.injEq] at hrun'
      obtain ⟨rfl, rfl⟩ := hrun'
      obtain ⟨hs2, sim1, harr⟩ := sim.append v.NameServers ns
        (fun q hq => sim.array q (Or.inl ⟨v, Heap.mem_of_config hv, hq⟩))
      have hcells := Heap.append_cells a v.NameServers ns
      have hv1 : (a.append v.NameServers ns).1.config cfg = some v := by
        rw [Heap.append_config]
        exact hv
      have sim2 := sim1.storeConfig cfg { v with NameServers := (a.append v.NameServers ns).2 }
        (fun p hp => Heap.liveDevice_of_config hv1 hp)
        (fun k hk => ⟨v, Heap.mem_of_config hv1, hk⟩) harr
      refine ⟨_, ?_, sim2⟩
      show WithNetworkNameservers ns mt cfg b = _
      rw [withNetworkNameservers_eq ns mt (sim.config_eq hv)]
      simp [Shift.config, hs2]
  | interfaceIgnore iface =>
    exact assignDevice_sim sim
      (show assignDevice iface _ mt cfg a = some (a1, e) from hrun) (fun _ => rfl) (fun _ => rfl)
      (fun _ => rfl)
  | interfaceDHCP iface enable =>
    exact assignDevice_sim sim
      (show assignDevice iface _ mt cfg a = some (a1, e) from hrun) (fun _ => rfl) (fun _ => rfl)
      (fun _ => rfl)
  | interfaceDHCPv4 iface enable =>
    exact assignDhcp_sim sim (show assignDhcp iface _ mt cfg a = some (a1, e) from hrun)
  | interfaceDHCPv6 iface enable =>
    exact assignDhcp_sim sim (show assignDhcp iface _ mt cfg a = some (a1, e) from hrun)
  | interfaceCIDR iface cidr =>
    have hrun' : WithNetworkInterfaceCIDR iface cidr mt cfg a = some (a1, e) := hrun
    cases hv : a.config cfg with
    | none => simp [WithNetworkInterfaceCIDR, getDevice, hv] at hrun'
    | some v =>
      rw [withNetworkInterfaceCIDR_pre iface cidr mt sim.pointersValid_left hv] at hrun'
      obtain ⟨hab, hx⟩ := addressesOf_sim sim cfg iface
      obtain ⟨hs2, sim0, harr⟩ := sim.append (addressesOf a cfg iface) [cidr] hx
      rw [← hab] at hs2 sim0 harr
      obtain ⟨b1, hb, sim1⟩ := assignDevice_sim_of sim0 hrun'
        (g := fun d => { d with
          DeviceAddresses := (b.append (addressesOf b cfg iface) [cidr]).2 })
        (fun d => by simp [Shift.device, hs2]) (fun _ => rfl)
        (fun _ q hq => Or.inr (harr q hq))
      refine ⟨b1, ?_, sim1⟩
      show WithNetworkInterfaceCIDR iface cidr mt cfg b = some (b1, e)
      rw [withNetworkInterfaceCIDR_pre iface cidr mt sim.pointersValid_right (sim.config_eq hv)]
      exact hb
  | interfaceMTU iface mtu =>
    exact assignDevice_sim sim
      (show assignDevice iface _ mt cfg a = some (a1, e) from hrun) (fun _ => rfl) (fun _ => rfl)
      (fun _ => rfl)
  | interfaceWireguard iface w =>
    exact assignDevice_sim sim
      (show assignDevice iface _ mt cfg a = some (a1, e) from hrun) (fun _ => rfl) (fun _ => rfl)
      (fun _ => rfl)
  | interfaceVirtualIP iface cidr =>
    have hrun' : WithNetworkInterfaceVirtualIP iface cidr mt cfg a = some (a1, e) := hrun
    by_cases hmt : mt = MachineType.TypeWorker
    · subst hmt
      simp only [WithNetworkInterfaceVirtualIP, if_true, Option.some.injEq,
        Prod.mk.injEq] at hrun'
      obtain ⟨rfl, rfl⟩ := hrun'
      exact ⟨b, by simp [OptionCall.build, WithNetworkInterfaceVirtualIP], sim⟩
    · rw [withNetworkInterfaceVirtualIP_eq iface cidr mt hmt] at hrun'
      obtain ⟨b1, hb, sim1⟩ := assignDevice_sim sim hrun' (fun _ => rfl) (fun _ => rfl)
        (fun _ => rfl)
      refine ⟨b1, ?_, sim1⟩
      show WithNetworkInterfaceVirtualIP iface cidr mt cfg b = some (b1, e)
      rw [withNetworkInterfaceVirtualIP_eq iface cidr mt hmt]
      exact hb
  | kubeSpan =>
    have hrun' : WithKubeSpan mt cfg a = some (a1, e) := hrun
    unfold WithKubeSpan at hrun'
    cases hv : a.config cfg with
    | none => simp [hv] at hrun'
    | some v =>
      have hvb := sim.config_eq hv
      cases hk : v.NetworkKubeSpan with
      | some k =>
        obtain ⟨x, hxa, hxb⟩ := sim.kubeSpan v k (Heap.mem_of_config hv) hk
        simp only [hv, hk, hxa, Option.some.injEq, Prod.mk.injEq] at hrun'
        obtain ⟨rfl, rfl⟩ := hrun'
        refine ⟨b.storeKubeSpan (s.ks k) { x with KubeSpanEnabled := some true }, ?_,
          sim.storeKubeSpan k _⟩
        simp [OptionCall.build, WithKubeSpan, hvb, Shift.config, hk, hxb]
      | none =>
        have sim1 := sim.createKubeSpan hv
        have hnew : s.ks a.kubeSpans.length = b.kubeSpans.length := by
          rw [Shift.ks_of_le s sim.kubeSpanBase, sim.kubeSpanLength]
        have sim2 := sim1.storeKubeSpan a.kubeSpans.length
          { NetworkKubeSpan.zero with KubeSpanEnabled := some true }
        rw [hnew] at sim2
        simp only [hv, hk, Heap.newKubeSpan, Heap.kubeSpan, Heap.storeConfig,
          List.getElem?_concat_length, Option.some.injEq, Prod.mk.injEq] at hrun'
        obtain ⟨rfl, rfl⟩ := hrun'
        refine ⟨_, ?_, sim2⟩
        simp [OptionCall.build, WithKubeSpan, hvb, Shift.config, hk, Heap.newKubeSpan,
          Heap.kubeSpan, Heap.storeConfig]

/-- A run of calls on corresponding heaps leaves corresponding heaps. -/
theorem applyCalls_sim (mt : MachineType) (cfg : Ptr) (cs : List OptionCall) {s : Shift}
    {a b a1 : Heap} (sim : Heap.Sim s a b) (hrun : applyCalls mt cfg cs a = some (a1, none)) :
    ∃ b1, applyCalls mt cfg cs b = some (b1, none) ∧ Heap.Sim s a1 b1 := by
  induction cs generalizing a b with
  | nil =>
    simp only [applyCalls_nil, Option.some.injEq, Prod.mk.injEq, and_true] at hrun
    subst hrun
    exact ⟨b, rfl, sim⟩
  | cons c cs ih =>
    cases hc : c.build mt cfg a with
    | none => simp [applyCalls, applyOptions, applyOptionsFrom, hc] at hrun
    | some r =>
      obtain ⟨a0, e⟩ := r
      cases e with
      | some e => simp [applyCalls, applyOptions, applyOptionsFrom, hc] at hrun
      | none =>
        obtain ⟨b0, hb, sim0⟩ := build_sim c mt sim hc
        obtain ⟨b1, hb1, sim1⟩ := ih sim0 ((applyCalls_cons cs hc a1).1 hrun)
        exact ⟨b1, (applyCalls_cons cs hb b1).2 hb1, sim1⟩

namespace Heap

theorem Sim.readDevice_eq {s : Shift} {a b : Heap} (sim : Sim s a b) {p : Ptr}
    (hp : a.LiveDevice p) : b.readDevice (s.dev p) = a.readDevice p := by
  obtain ⟨d, hda, hdb⟩ := sim.device p hp
  have hs : b.readSlice (s.slice d.DeviceAddresses) = a.readSlice d.DeviceAddresses :=
    Sim.readSlice_eq (fun q hq => sim.array q (Or.inr ⟨p, d, hp, hda, hq⟩))
  cases hq : d.DeviceDHCPOptions with
  | none => simp [readDevice, hda, hdb, Shift.device, hq, hs]
  | some q =>
    obtain ⟨o, hoa, hob⟩ := sim.dhcp p d q hp hda hq
    simp [readDevice, hda, hdb, Shift.device, hq, hoa, hob, hs]

theorem Sim.readDevices_eq {s : Shift} {a b : Heap} (sim : Sim s a b) (ps : List Ptr)
    (hp : ∀ p ∈ ps, a.LiveDevice p) : b.readDevices (ps.map s.dev) = a.readDevices ps := by
  induction ps with
  | nil => rfl
  | cons p ps ih =>
    simp only [List.map_cons, readDevices, sim.readDevice_eq (hp p (List.mem_cons_self _ _)),
      ih (fun q hq => hp q (List.mem_cons_of_mem _ hq))]

/-- Corresponding heaps hold documents of equal value. -/
theorem Sim.readConfig_eq {s : Shift} {a b : Heap} (sim : Sim s a b) (n : Ptr) :
    b.readConfig n = a.readConfig n := by
  cases hv : a.config n with
  | none =>
    have : b.config n = none := by
      simp only [Heap.config] at hv ⊢
      rw [sim.configs, List.getElem?_map, hv]
      rfl
    simp [readConfig, hv, this]
  | some v =>
    have hds := sim.readDevices_eq v.NetworkInterfaces (fun p hp => liveDevice_of_config hv hp)
    have hks : b.readKubeSpan (v.NetworkKubeSpan.map s.ks) = a.readKubeSpan v.NetworkKubeSpan := by
      cases hk : v.NetworkKubeSpan with
      | none => rfl
      | some k =>
        obtain ⟨x, hxa, hxb⟩ := sim.kubeSpan v k (mem_of_config hv) hk
        simp [readKubeSpan, hxa, hxb]
    have hns : b.readSlice (s.slice v.NameServers) = a.readSlice v.NameServers :=
      Sim.readSlice_eq (fun q hq => sim.array q (Or.inl ⟨v, mem_of_config hv, hq⟩))
    simp only [readConfig, hv, sim.config_eq hv, Shift.config, hds, hks, hns]

theorem validSlices_iff {h : Heap} {c : NetworkConfig} :
    h.validSlices c = true ↔
      h.validSlice c.NameServers = true ∧
        ∀ p ∈ c.NetworkInterfaces, ∀ d, h.device p = some d →
          h.validSlice d.DeviceAddresses = true := by
  unfold validSlices
  rw [Bool.and_eq_true, List.all_eq_true]
  refine and_congr Iff.rfl (forall_congr' fun p => forall_congr' fun _ => ?_)
  cases hd : h.device p with
  | none => simp
  | some d => simp

theorem slicesValid_iff {h : Heap} :
    h.slicesValid = true ↔ ∀ c ∈ h.configs, h.validSlices c = true := by
  simp [slicesValid]

theorem wellFormed_iff {h : Heap} :
    h.wellFormed = true ↔ h.pointersValid = true ∧ h.slicesValid = true := by
  simp [wellFormed]

theorem pointersValid_of_wellFormed {h : Heap} (hwf : h.wellFormed = true) :
    h.pointersValid = true := (wellFormed_iff.1 hwf).1

theorem slicesValid_of_wellFormed {h : Heap} (hwf : h.wellFormed = true) :
    h.slicesValid = true := (wellFormed_iff.1 hwf).2

theorem validSlices_of_config {h : Heap} {p : Ptr} {v : NetworkConfig}
    (hsl : h.slicesValid = true) (hv : h.config p = some v) : h.validSlices v = true :=
  slicesValid_iff.1 hsl v (mem_of_config hv)

theorem readDevice_isSome_of_valid {h : Heap} {p : Ptr} (hp : h.validDevice p = true)
    (hs : ∀ d, h.device p = some d → h.validSlice d.DeviceAddresses = true) :
    ∃ x, h.readDevice p = some x := by
  obtain ⟨d, hd, hq⟩ := validDevice_iff.1 hp
  obtain ⟨addresses, ha⟩ := readSlice_isSome_of_valid (hs d hd)
  apply Option.isSome_iff_exists.1
  cases hopt : d.DeviceDHCPOptions with
  | none => simp [readDevice, hd, hopt, ha]
  | some q =>
    have ho := dhcp_of_lt (hq q hopt)
    simp [readDevice, hd, hopt, ho, ha]

theorem readDevices_isSome_of_valid {h : Heap} {ps : List Ptr}
    (hp : ∀ p ∈ ps, h.validDevice p = true)
    (hs : ∀ p ∈ ps, ∀ d, h.device p = some d → h.validSlice d.DeviceAddresses = true) :
    ∃ xs, h.readDevices ps = some xs := by
  induction ps with
  | nil => exact ⟨[], rfl⟩
  | cons p ps ih =>
    obtain ⟨x, hx⟩ := readDevice_isSome_of_valid (hp p (List.mem_cons_self _ _))
      (hs p (List.mem_cons_self _ _))
    obtain ⟨xs, hxs⟩ := ih (fun q hq => hp q (List.mem_cons_of_mem _ hq))
      (fun q hq => hs q (List.mem_cons_of_mem _ hq))
    exact ⟨x :: xs, by simp [readDevices, hx, hxs]⟩

/-- On a well-formed heap every config cell can be read in full. -/
theorem readConfig_isSome_of_valid {h : Heap} {n : Ptr} {v : NetworkConfig}
    (hwf : h.pointersValid = true) (hsl : h.slicesValid = true) (hv : h.config n = some v) :
    ∃ x, h.readConfig n = some x := by
  obtain ⟨h1, h2⟩ := validConfig_iff.1 (validConfig_of_config hwf hv)
  obtain ⟨h3, h4⟩ := validSlices_iff.1 (validSlices_of_config hsl hv)
  obtain ⟨xs, hxs⟩ := readDevices_isSome_of_valid h1 h4
  obtain ⟨ns, hns⟩ := readSlice_isSome_of_valid h3
  apply Option.isSome_iff_exists.1
  cases hk : v.NetworkKubeSpan with
  | none => simp [readConfig, hv, hxs, hk, readKubeSpan, hns]
  | some k =>
    have hx := kubeSpan_of_lt (h2 k hk)
    simp [readConfig, hv, hxs, hk, readKubeSpan, hx, hns]

/-- The value read at a cell that was just overwritten with the struct of another
cell is the value of that other cell. -/
theorem readConfig_storeConfig_copy {h : Heap} {n m : Ptr} {v w : NetworkConfig}
    (hv : h.config m = some v) (hw : h.config n = some w) :
    (h.storeConfig n v).readConfig n = h.readConfig m := by
  have e1 : ∀ ps, (h.storeConfig n v).readDevices ps = h.readDevices ps := by
    intro ps
    induction ps with
    | nil => rfl
    | cons p ps ih =>
      simp only [readDevices, ih]
      rfl
  have e2 : ∀ k, (h.storeConfig n v).readKubeSpan k = h.readKubeSpan k := fun _ => rfl
  have e3 : ∀ x, (h.storeConfig n v).readSlice x = h.readSlice x := fun _ => rfl
  simp only [readConfig, config_storeConfig_self v hw, hv, e1, e2, e3]

end Heap

theorem getDevice_grows {h h1 : Heap} {n dev : Ptr} {name : String}
    (hg : getDevice h n name = some (h1, dev)) :
    h.devices.length ≤ h1.devices.length ∧ h1.dhcpOptions = h.dhcpOptions ∧
      h1.kubeSpans = h.kubeSpans := by
  unfold getDevice at hg
  cases hc : h.config n with
  | none => simp [hc] at hg
  | some v =>
    simp only [hc] at hg
    cases hf : findDevice h name v.NetworkInterfaces with
    | none => simp [hf] at hg
    | some r =>
      cases r with
      | some p =>
        simp only [hf, Option.some.injEq, Prod.mk.injEq] at hg
        obtain ⟨rfl, -⟩ := hg
        exact ⟨le_refl _, rfl, rfl⟩
      | none =>
        simp only [hf, Heap.newDevice, Option.some.injEq, Prod.mk.injEq] at hg
        obtain ⟨rfl, -⟩ := hg
        exact ⟨by simp [Heap.storeConfig], rfl, rfl⟩

theorem assignDevice_grows {h h' : Heap} {cfg : Ptr} {iface : String} {f : Device → Device}
    {mt : MachineType} {e : Option GoError}
    (hrun : assignDevice iface f mt cfg h = some (h', e)) :
    h.devices.length ≤ h'.devices.length ∧ h.dhcpOptions.length ≤ h'.dhcpOptions.length ∧
      h.kubeSpans.length ≤ h'.kubeSpans.length := by
  unfold assignDevice at hrun
  cases hg : getDevice h cfg iface with
  | none => simp [hg] at hrun
  | some r =>
    obtain ⟨h1, dev⟩ := r
    obtain ⟨hd, hq, hk⟩ := getDevice_grows hg
    simp only [hg, updateDevice] at hrun
    cases hdev : h1.device dev with
    | none => simp [hdev] at hrun
    | some d =>
      simp only [hdev, Option.some.injEq, Prod.mk.injEq] at hrun
      obtain ⟨rfl, -⟩ := hrun
      refine ⟨?_, ?_, ?_⟩
      · simpa [Heap.storeDevice] using hd
      · simp [Heap.storeDevice, hq]
      · simp [Heap.storeDevice, hk]

theorem assignDhcp_grows {h h' : Heap} {cfg : Ptr} {iface : String}
    {g : DHCPOptions → DHCPOptions} {mt : MachineType} {e : Option GoError}
    (hrun : assignDhcp iface g mt cfg h = some (h', e)) :
    h.devices.length ≤ h'.devices.length ∧ h.dhcpOptions.length ≤ h'.dhcpOptions.length ∧
      h.kubeSpans.length ≤ h'.kubeSpans.length := by
  unfold assignDhcp at hrun
  cases hg : getDevice h cfg iface with
  | none => simp [hg] at hrun
  | some r =>
    obtain ⟨h1, dev⟩ := r
    obtain ⟨hd, hq, hk⟩ := getDevice_grows hg
    simp only [hg] at hrun
    cases hdev : h1.device dev with
    | none => simp [ensureDHCPOptions, hdev] at hrun
    | some d =>
      cases hopt : d.DeviceDHCPOptions with
      | some q =>
        rw [ensureDHCPOptions_of_some hdev hopt] at hrun
        simp only [updateDhcp] at hrun
        cases ho : h1.dhcp q with
        | none => simp [ho] at hrun
        | some o =>
          simp only [ho, Option.some.injEq, Prod.mk.injEq] at hrun
          obtain ⟨rfl, -⟩ := hrun
          refine ⟨?_, ?_, ?_⟩
          · simpa [Heap.storeDhcp] using hd
          · simp [Heap.storeDhcp, hq]
          · simp [Heap.storeDhcp, hk]
      | none =>
        rw [ensureDHCPOptions_of_none hdev hopt] at hrun
        simp only [updateDhcp] at hrun
        cases ho : ((h1.newDhcp DHCPOptions.zero).1.storeDevice dev
            { d with DeviceDHCPOptions := some h1.dhcpOptions.length }).dhcp
              h1.dhcpOptions.length with
        | none => simp [ho] at hrun
        | some o =>
          simp only [ho, Option.some.injEq, Prod.mk.injEq] at hrun
          obtain ⟨rfl, -⟩ := hrun
          refine ⟨?_, ?_, ?_⟩
          · simpa [Heap.storeDhcp, Heap.storeDevice, Heap.newDhcp] using hd
          · simp [Heap.storeDhcp, Heap.storeDevice, Heap.newDhcp, hq]
          · simp [Heap.storeDhcp, Heap.storeDevice, Heap.newDhcp, hk]

/-- No call of the option file frees a cell: on a well-formed heap every kind of
cell has at least as many cells after the call as before. -/
theorem build_grows (c : OptionCall) (mt : MachineType) {h h' : Heap} {cfg : Ptr}
    {e : Option GoError} (hwf : h.pointersValid = true)
    (hrun : c.build mt cfg h = some (h', e)) :
    h.devices.length ≤ h'.devices.length ∧ h.dhcpOptions.length ≤ h'.dhcpOptions.length ∧
      h.kubeSpans.length ≤ h'.kubeSpans.length := by
  cases c with
  | networkConfig c =>
    cases c with
    | none => simp [OptionCall.build, WithNetworkConfig] at hrun
    | some pc =>
      simp only [OptionCall.build, WithNetworkConfig] at hrun
      cases hv : h.config pc with
      | none => simp [hv] at hrun
      | some v =>
        cases hw : h.config cfg with
        | none => simp [hv, hw] at hrun
        | some w =>
          simp only [hv, hw, Option.some.injEq, Prod.mk.injEq] at hrun
          obtain ⟨rfl, -⟩ := hrun
          exact ⟨le_refl _, le_refl _, le_refl _⟩
  | networkNameservers ns =>
    have hrun' : WithNetworkNameservers ns mt cfg h = some (h', e) := hrun
    cases hv : h.config cfg with
    | none => simp [WithNetworkNameservers, hv] at hrun'
    | some v =>
      rw [withNetworkNameservers_eq ns mt hv] at hrun'
      simp only [Option.some.injEq, Prod.mk.injEq] at hrun'
      obtain ⟨rfl, -⟩ := hrun'
      obtain ⟨-, e2, e3, e4⟩ := Heap.append_cells h v.NameServers ns
      refine ⟨?_, ?_, ?_⟩ <;> simp [Heap.storeConfig, e2, e3, e4]
  | interfaceIgnore iface =>
    exact assignDevice_grows (show assignDevice iface _ mt cfg h = some (h', e) from hrun)
  | interfaceDHCP iface enable =>
    exact assignDevice_grows (show assignDevice iface _ mt cfg h = some (h', e) from hrun)
  | interfaceDHCPv4 iface enable =>
    exact assignDhcp_grows (show assignDhcp iface _ mt cfg h = some (h', e) from hrun)
  | interfaceDHCPv6 iface enable =>
    exact assignDhcp_grows (show assignDhcp iface _ mt cfg h = some (h', e) from hrun)
  | interfaceCIDR iface cidr =>
    have hrun' : WithNetworkInterfaceCIDR iface cidr mt cfg h = some (h', e) := hrun
    cases hv : h.config cfg with
    | none => simp [WithNetworkInterfaceCIDR, getDevice, hv] at hrun'
    | some v =>
      rw [withNetworkInterfaceCIDR_eq iface cidr mt hwf hv] at hrun'
      obtain ⟨h0, hrun0, rfl⟩ := map_withArrays_eq_some hrun'
      have := assignDevice_grows hrun0
      exact this
  | interfaceMTU iface mtu =>
    exact assignDevice_grows (show assignDevice iface _ mt cfg h = some (h', e) from hrun)
  | interfaceWireguard iface w =>
    exact assignDevice_grows (show assignDevice iface _ mt cfg h = some (h', e) from hrun)
  | interfaceVirtualIP iface cidr =>
    have hrun' : WithNetworkInterfaceVirtualIP iface cidr mt cfg h = some (h', e) := hrun
    by_cases hmt : mt = MachineType.TypeWorker
    · subst hmt
      simp only [WithNetworkInterfaceVirtualIP, if_true, Option.some.injEq,
        Prod.mk.injEq] at hrun'
      obtain ⟨rfl, -⟩ := hrun'
      exact ⟨le_refl _, le_refl _, le_refl _⟩
    · rw [withNetworkInterfaceVirtualIP_eq iface cidr mt hmt] at hrun'
      exact assignDevice_grows hrun'
  | kubeSpan =>
    have hrun' : WithKubeSpan mt cfg h = some (h', e) := hrun
    cases hv : h.config cfg with
    | none => simp [WithKubeSpan, hv] at hrun'
    | some v =>
      unfold WithKubeSpan at hrun'
      cases hk : v.NetworkKubeSpan with
      | some k =>
        cases hx : h.kubeSpan k with
        | none => simp [hv, hk, hx] at hrun'
        | some x =>
          simp only [hv, hk, hx, Option.some.injEq, Prod.mk.injEq] at hrun'
          obtain ⟨rfl, -⟩ := hrun'
          exact ⟨le_refl _, le_refl _, by simp [Heap.storeKubeSpan]⟩
      | none =>
        simp only [hv, hk, Heap.newKubeSpan, Heap.kubeSpan, Heap.storeConfig,
          List.getElem?_concat_length, Option.some.injEq, Prod.mk.injEq] at hrun'
        obtain ⟨rfl, -⟩ := hrun'
        exact ⟨le_refl _, le_refl _, by simp [Heap.storeKubeSpan]⟩

theorem assignDevice_arrays {h h' : Heap} {cfg : Ptr} {iface : String} {f : Device → Device}
    {mt : MachineType} {e : Option GoError}
    (hrun : assignDevice iface f mt cfg h = some (h', e)) : h'.arrays = h.arrays := by
  unfold assignDevice at hrun
  cases hg : getDevice h cfg iface with
  | none => simp [hg] at hrun
  | some r =>
    obtain ⟨h1, dev⟩ := r
    have harr := getDevice_arrays hg
    simp only [hg, updateDevice] at hrun
    cases hd : h1.device dev with
    | none => simp [hd] at hrun
    | some d =>
      simp only [hd, Option.some.injEq, Prod.mk.injEq] at hrun
      obtain ⟨rfl, -⟩ := hrun
      exact harr

theorem ensureDHCPOptions_arrays {h h2 : Heap} {dev q : Ptr}
    (he : ensureDHCPOptions h dev = some (h2, q)) : h2.arrays = h.arrays := by
  unfold ensureDHCPOptions at he
  cases hd : h.device dev with
  | none => simp [hd] at he
  | some d =>
    simp only [hd] at he
    cases hq : d.DeviceDHCPOptions with
    | some q0 =>
      simp only [hq, Option.some.injEq, Prod.mk.injEq] at he
      obtain ⟨rfl, -⟩ := he
      rfl
    | none =>
      simp only [hq, Heap.newDhcp, Option.some.injEq, Prod.mk.injEq] at he
      obtain ⟨rfl, -⟩ := he
      rfl

theorem assignDhcp_arrays {h h' : Heap} {cfg : Ptr} {iface : String}
    {g : DHCPOptions → DHCPOptions} {mt : MachineType} {e : Option GoError}
    (hrun : assignDhcp iface g mt cfg h = some (h', e)) : h'.arrays = h.arrays := by
  unfold assignDhcp at hrun
  cases hg : getDevice h cfg iface with
  | none => simp [hg] at hrun
  | some r =>
    obtain ⟨h1, dev⟩ := r
    have harr := getDevice_arrays hg
    simp only [hg] at hrun
    cases he : ensureDHCPOptions h1 dev with
    | none => simp [he] at hrun
    | some r2 =>
      obtain ⟨h2, q⟩ := r2
      have harr2 := ensureDHCPOptions_arrays he
      simp only [he, updateDhcp] at hrun
      cases ho : h2.dhcp q with
      | none => simp [ho] at hrun
      | some o =>
        simp only [ho, Option.some.injEq, Prod.mk.injEq] at hrun
        obtain ⟨rfl, -⟩ := hrun
        exact harr2.trans harr

/-- What a call does to the backing arrays: only `WithNetworkNameservers` and
`WithNetworkInterfaceCIDR` touch them, by the `append` they make. -/
theorem build_arrays (c : OptionCall) (mt : MachineType) {h h' : Heap} {cfg : Ptr}
    {e : Option GoError} (hwf : h.pointersValid = true)
    (hrun : c.build mt cfg h = some (h', e)) :
    h'.arrays = h.arrays ∨
      (∃ ns v, c = OptionCall.networkNameservers ns ∧ h.config cfg = some v ∧
        h'.arrays = (h.append v.NameServers ns).1.arrays) ∨
      (∃ iface cidr, c = OptionCall.interfaceCIDR iface cidr ∧
        h'.arrays = (h.append (addressesOf h cfg iface) [cidr]).1.arrays) := by
  cases c with
  | networkConfig c =>
    cases c with
    | none => simp [OptionCall.build, WithNetworkConfig] at hrun
    | some pc =>
      simp only [OptionCall.build, WithNetworkConfig] at hrun
      cases hv : h.config pc with
      | none => simp [hv] at hrun
      | some v =>
        cases hw : h.config cfg with
        | none => simp [hv, hw] at hrun
        | some w =>
          simp only [hv, hw, Option.some.injEq, Prod.mk.injEq] at hrun
          obtain ⟨rfl, -⟩ := hrun
          exact Or.inl rfl
  | networkNameservers ns =>
    have hrun' : WithNetworkNameservers ns mt cfg h = some (h', e) := hrun
    cases hv : h.config cfg with
    | none => simp [WithNetworkNameservers, hv] at hrun'
    | some v =>
      rw [withNetworkNameservers_eq ns mt hv] at hrun'
      simp only [Option.some.injEq, Prod.mk.injEq] at hrun'
      obtain ⟨rfl, -⟩ := hrun'
      exact Or.inr (Or.inl ⟨ns, v, rfl, rfl, rfl⟩)
  | interfaceIgnore iface =>
    exact Or.inl (assignDevice_arrays
      (show assignDevice iface _ mt cfg h = some (h', e) from hrun))
  | interfaceDHCP iface enable =>
    exact Or.inl (assignDevice_arrays
      (show assignDevice iface _ mt cfg h = some (h', e) from hrun))
  | interfaceDHCPv4 iface enable =>
    exact Or.inl (assignDhcp_arrays (show assignDhcp iface _ mt cfg h = some (h', e) from hrun))
  | interfaceDHCPv6 iface enable =>
    exact Or.inl (assignDhcp_arrays (show assignDhcp iface _ mt cfg h = some (h', e) from hrun))
  | interfaceCIDR iface cidr =>
    have hrun' : WithNetworkInterfaceCIDR iface cidr mt cfg h = some (h', e) := hrun
    cases hv : h.config cfg with
    | none => simp [WithNetworkInterfaceCIDR, getDevice, hv] at hrun'
    | some v =>
      rw [withNetworkInterfaceCIDR_eq iface cidr mt hwf hv] at hrun'
      obtain ⟨h0, hrun0, rfl⟩ := map_withArrays_eq_some hrun'
      exact Or.inr (Or.inr ⟨iface, cidr, rfl, rfl⟩)
  | interfaceMTU iface mtu =>
    exact Or.inl (assignDevice_arrays
      (show assignDevice iface _ mt cfg h = some (h', e) from hrun))
  | interfaceWireguard iface w =>
    exact Or.inl (assignDevice_arrays
      (show assignDevice iface _ mt cfg h = some (h', e) from hrun))
  | interfaceVirtualIP iface cidr =>
    have hrun' : WithNetworkInterfaceVirtualIP iface cidr mt cfg h = some (h', e) := hrun
    by_cases hmt : mt = MachineType.TypeWorker
    · subst hmt
      simp only [WithNetworkInterfaceVirtualIP, if_true, Option.some.injEq,
        Prod.mk.injEq] at hrun'
      obtain ⟨rfl, -⟩ := hrun'
      exact Or.inl rfl
    · rw [withNetworkInterfaceVirtualIP_eq iface cidr mt hmt] at hrun'
      exact Or.inl (assignDevice_arrays hrun')
  | kubeSpan =>
    have hrun' : WithKubeSpan mt cfg h = some (h', e) := hrun
    cases hv : h.config cfg with
    | none => simp [WithKubeSpan, hv] at hrun'
    | some v =>
      unfold WithKubeSpan at hrun'
      cases hk : v.NetworkKubeSpan with
      | some k =>
        cases hx : h.kubeSpan k with
        | none => simp [hv, hk, hx] at hrun'
        | some x =>
          simp only [hv, hk, hx, Option.some.injEq, Prod.mk.injEq] at hrun'
          obtain ⟨rfl, -⟩ := hrun'
          exact Or.inl rfl
      | none =>
        simp only [hv, hk, Heap.newKubeSpan, Heap.kubeSpan, Heap.storeConfig,
          List.getElem?_concat_length, Option.some.injEq, Prod.mk.injEq] at hrun'
        obtain ⟨rfl, -⟩ := hrun'
        exact Or.inl rfl

/-- No call frees a backing array or changes the length of one. -/
theorem build_arrays_mono (c : OptionCall) (mt : MachineType) {h h' : Heap} {cfg : Ptr}
    {e : Option GoError} (hwf : h.pointersValid = true)
    (hrun : c.build mt cfg h = some (h', e)) :
    ∀ (q : Nat) (a : List String), h.arrays[q]? = some a →
      ∃ a', h'.arrays[q]? = some a' ∧ a'.length = a.length := by
  intro q a ha
  rcases build_arrays c mt hwf hrun with e1 | ⟨ns, v, -, -, e1⟩ | ⟨iface, cidr, -, e1⟩
  · rw [e1]
    exact ⟨a, ha, rfl⟩
  · rw [e1]
    exact Heap.append_arrays_mono h _ _ q a ha
  · rw [e1]
    exact Heap.append_arrays_mono h _ _ q a ha

theorem build_arrays_grow (c : OptionCall) (mt : MachineType) {h h' : Heap} {cfg : Ptr}
    {e : Option GoError} (hwf : h.pointersValid = true)
    (hrun : c.build mt cfg h = some (h', e)) : h.arrays.length ≤ h'.arrays.length := by
  rcases build_arrays c mt hwf hrun with e1 | ⟨ns, v, -, -, e1⟩ | ⟨iface, cidr, -, e1⟩
  · rw [e1]
  · rw [e1]
    exact Heap.append_arrays_length h _ _
  · rw [e1]
    exact Heap.append_arrays_length h _ _

/-- No run of calls frees a backing array. -/
theorem applyCalls_arrays_grow (mt : MachineType) (cfg : Ptr) (cs : List OptionCall)
    {h h' : Heap} (hwf : h.pointersValid = true) (hcfg : h.hasConfig cfg = true)
    (hargs : ∀ c ∈ cs, c.argsValid h = true)
    (hrun : applyCalls mt cfg cs h = some (h', none)) :
    h.arrays.length ≤ h'.arrays.length := by
  induction cs generalizing h with
  | nil =>
    simp only [applyCalls_nil, Option.some.injEq, Prod.mk.injEq, and_true] at hrun
    subst hrun
    exact le_refl _
  | cons c cs ih =>
    obtain ⟨h1, hc, hwf1, hlen1, -⟩ :=
      build_stepOk c mt hwf hcfg (hargs c (List.mem_cons_self _ _))
    have g := build_arrays_grow c mt hwf hc
    have k := ih hwf1 (hasConfig_of_length hlen1 hcfg)
      (fun d hd => argsValid_of_length hlen1 d (hargs d (List.mem_cons_of_mem _ hd)))
      ((applyCalls_cons cs hc h').1 hrun)
    exact le_trans g k

/-- No run of calls frees a cell. -/
theorem applyCalls_grows (mt : MachineType) (cfg : Ptr) (cs : List OptionCall) {h h' : Heap}
    (hwf : h.pointersValid = true) (hcfg : h.hasConfig cfg = true)
    (hargs : ∀ c ∈ cs, c.argsValid h = true)
    (hrun : applyCalls mt cfg cs h = some (h', none)) :
    h.devices.length ≤ h'.devices.length ∧ h.dhcpOptions.length ≤ h'.dhcpOptions.length ∧
      h.kubeSpans.length ≤ h'.kubeSpans.length := by
  induction cs generalizing h with
  | nil =>
    simp only [applyCalls_nil, Option.some.injEq, Prod.mk.injEq, and_true] at hrun
    subst hrun
    exact ⟨le_refl _, le_refl _, le_refl _⟩
  | cons c cs ih =>
    obtain ⟨h1, hc, hwf1, hlen1, -⟩ :=
      build_stepOk c mt hwf hcfg (hargs c (List.mem_cons_self _ _))
    obtain ⟨g1, g2, g3⟩ := build_grows c mt hwf hc
    obtain ⟨k1, k2, k3⟩ := ih hwf1 (hasConfig_of_length hlen1 hcfg)
      (fun d hd => argsValid_of_length hlen1 d (hargs d (List.mem_cons_of_mem _ hd)))
      ((applyCalls_cons cs hc h').1 hrun)
    exact ⟨le_trans g1 k1, le_trans g2 k2, le_trans g3 k3⟩

namespace Heap

theorem sameReach_of_untouched {h0 h1 : Heap} {cfg i : Ptr} {v : NetworkConfig}
    (hunt : h0.untouchedOutside h1 cfg = true) (hi : i ≠ cfg) (hv : h0.config i = some v) :
    h0.sameReach h1 v = true := by
  unfold untouchedOutside at hunt
  rw [List.all_eq_true] at hunt
  have := hunt i (List.mem_range.2 (lt_of_config hv))
  simpa [hi, hv] using this

theorem sameArray_iff {h0 h1 : Heap} {x : Slice} :
    h0.sameArray h1 x = true ↔ ∀ q, x.array = some q → h1.arrays[q]? = h0.arrays[q]? := by
  unfold sameArray
  cases hq : x.array with
  | none => simp
  | some q => simp

theorem sameDevice_iff {h0 h1 : Heap} {p : Ptr} :
    h0.sameDevice h1 p = true ↔
      h1.device p = h0.device p ∧
        (∀ d, h0.device p = some d → h0.sameArray h1 d.DeviceAddresses = true) ∧
        ∀ d q, h0.device p = some d → d.DeviceDHCPOptions = some q → h1.dhcp q = h0.dhcp q := by
  unfold sameDevice
  cases hd : h0.device p with
  | none => simp
  | some d =>
    cases hq : d.DeviceDHCPOptions with
    | none =>
      simp only [hq, Bool.and_true, Bool.and_eq_true, decide_eq_true_eq, Option.some.injEq]
      constructor
      · rintro ⟨g1, g2⟩
        refine ⟨g1, fun d1 hd1 => hd1 ▸ g2, ?_⟩
        rintro d1 q rfl hq1
        rw [hq] at hq1
        cases hq1
      · rintro ⟨g1, g2, -⟩
        exact ⟨g1, g2 d rfl⟩
    | some q =>
      simp only [hq, Bool.and_eq_true, decide_eq_true_eq, Option.some.injEq]
      constructor
      · rintro ⟨g1, g2, g3⟩
        refine ⟨g1, fun d1 hd1 => hd1 ▸ g2, ?_⟩
        rintro d1 q1 rfl hq1
        rw [hq] at hq1
        cases hq1
        exact g3
      · rintro ⟨g1, g2, g3⟩
        exact ⟨g1, g2 d rfl, g3 d q rfl hq⟩

theorem sameReach_iff {h0 h1 : Heap} {v : NetworkConfig} :
    h0.sameReach h1 v = true ↔
      (∀ p ∈ v.NetworkInterfaces, h0.sameDevice h1 p = true) ∧
        h0.sameArray h1 v.NameServers = true ∧
        ∀ k, v.NetworkKubeSpan = some k → h1.kubeSpan k = h0.kubeSpan k := by
  unfold sameReach
  cases hk : v.NetworkKubeSpan with
  | none => simp
  | some k => simp [and_assoc]

/-- An element of a list with one position overwritten is the new element or stands
at another position of the old list. -/
theorem mem_set_cases {α : Type} {l : List α} {n : Nat} {a x : α} (hx : x ∈ l.set n a) :
    x = a ∨ ∃ i, i ≠ n ∧ l[i]? = some x := by
  obtain ⟨i, hi⟩ := List.mem_iff_getElem?.1 hx
  rw [List.getElem?_set] at hi
  by_cases hni : n = i
  · subst hni
    simp only [if_true] at hi
    split at hi
    · left
      simp only [Option.some.injEq] at hi
      exact hi.symm
    · cases hi
  · right
    simp only [hni, if_false] at hi
    exact ⟨i, Ne.symm hni, hi⟩

end Heap

theorem shift_slice_of_valid {h0 : Heap} (h1 : Heap) {x : Slice}
    (hx : h0.validSlice x = true) : (shiftBetween h0 h1).slice x = x := by
  rcases Heap.validSlice_iff.1 hx with ⟨hn, -, -⟩ | ⟨q, a, hq, ha, -, -⟩
  · cases x
    simp only [Shift.slice] at hn ⊢
    simp [hn]
  · have hlt := (List.getElem?_eq_some.1 ha).1
    cases x
    simp only [Shift.slice] at hq ⊢
    simp [hq, Shift.arr, shiftBetween, hlt]

theorem shift_device_of_valid {h0 : Heap} (h1 : Heap) {p : Ptr} {d : Device}
    (hp : h0.validDevice p = true) (hd : h0.device p = some d)
    (hs : h0.validSlice d.DeviceAddresses = true) :
    (shiftBetween h0 h1).device d = d := by
  obtain ⟨d0, hd0, hq⟩ := Heap.validDevice_iff.1 hp
  rw [hd] at hd0
  cases hd0
  have hsl := shift_slice_of_valid h1 hs
  cases hopt : d.DeviceDHCPOptions with
  | none =>
    cases d
    simp only [Shift.device] at hopt hsl ⊢
    simp [hopt, hsl]
  | some q =>
    have := hq q hopt
    have hdh : (shiftBetween h0 h1).dhcp q = q := by
      simp [Shift.dhcp, shiftBetween, this]
    cases d
    simp only [Shift.device] at hopt hsl ⊢
    simp [hopt, hsl, hdh]

theorem shift_config_of_valid {h0 : Heap} (h1 : Heap) {v : NetworkConfig}
    (hv : h0.validConfig v = true) (hs : h0.validSlice v.NameServers = true) :
    (shiftBetween h0 h1).config v = v := by
  obtain ⟨g1, g2⟩ := Heap.validConfig_iff.1 hv
  have hsl := shift_slice_of_valid h1 hs
  have e1 : v.NetworkInterfaces.map (shiftBetween h0 h1).dev = v.NetworkInterfaces := by
    conv_rhs => rw [← List.map_id v.NetworkInterfaces]
    apply List.map_congr_left
    intro p hp
    obtain ⟨d, hd, -⟩ := Heap.validDevice_iff.1 (g1 p hp)
    simp [Shift.dev, shiftBetween, Heap.lt_of_device hd]
  have e2 : v.NetworkKubeSpan.map (shiftBetween h0 h1).ks = v.NetworkKubeSpan := by
    cases hk : v.NetworkKubeSpan with
    | none => rfl
    | some k => simp [Shift.ks, shiftBetween, g2 k hk]
  cases v
  simp only [Shift.config] at e1 e2 hsl ⊢
  simp [e1, e2, hsl]

/-- Two states of a heap that differ only in the document cell and in cells no other
config points to, both with the document overwritten by the struct of another
config, correspond. -/
theorem sim_of_untouched {h0 h1 : Heap} {cfg pc : Ptr} {vc : NetworkConfig}
    (hwf : h0.pointersValid = true) (hsl : h0.slicesValid = true) (hne : pc ≠ cfg)
    (hvc : h0.config pc = some vc)
    (hlen : h1.configs.length = h0.configs.length)
    (hfr : ∀ p, p ≠ cfg → h1.config p = h0.config p)
    (hd : h0.devices.length ≤ h1.devices.length)
    (hq : h0.dhcpOptions.length ≤ h1.dhcpOptions.length)
    (hk : h0.kubeSpans.length ≤ h1.kubeSpans.length)
    (ha : h0.arrays.length ≤ h1.arrays.length)
    (hunt : h0.untouchedOutside h1 cfg = true) :
    Heap.Sim (shiftBetween h0 h1) (h0.storeConfig cfg vc) (h1.storeConfig cfg vc) := by
  have hvalid : ∀ v ∈ (h0.storeConfig cfg vc).configs,
      h0.validConfig v = true ∧ h0.validSlices v = true ∧ h0.sameReach h1 v = true := by
    intro v hv
    rcases Heap.mem_set_cases hv with rfl | ⟨i, hi, hiv⟩
    · exact ⟨Heap.validConfig_of_config hwf hvc, Heap.validSlices_of_config hsl hvc,
        Heap.sameReach_of_untouched hunt hne hvc⟩
    · exact ⟨Heap.validConfig_of_config hwf hiv, Heap.validSlices_of_config hsl hiv,
        Heap.sameReach_of_untouched hunt hi hiv⟩
  have hcfg_fix : ∀ v ∈ (h0.storeConfig cfg vc).configs, (shiftBetween h0 h1).config v = v :=
    fun v hv => shift_config_of_valid h1 (hvalid v hv).1
      (Heap.validSlices_iff.1 (hvalid v hv).2.1).1
  have hlive : ∀ p, (h0.storeConfig cfg vc).LiveDevice p →
      h0.validDevice p = true ∧ h0.sameDevice h1 p = true ∧
        ∀ d, h0.device p = some d → h0.validSlice d.DeviceAddresses = true := by
    rintro p ⟨v, hv, hp⟩
    obtain ⟨h1v, h2v, h3v⟩ := hvalid v hv
    exact ⟨(Heap.validConfig_iff.1 h1v).1 p hp, (Heap.sameReach_iff.1 h3v).1 p hp,
      (Heap.validSlices_iff.1 h2v).2 p hp⟩
  have harr_fix : ∀ {x : Slice} {q : Ptr}, h0.validSlice x = true → x.array = some q →
      (shiftBetween h0 h1).arr q = q := by
    intro x q hx hxq
    rcases Heap.validSlice_iff.1 hx with ⟨hn, -, -⟩ | ⟨q0, a, hq0, ha0, -, -⟩
    · rw [hn] at hxq
      cases hxq
    · rw [hq0] at hxq
      cases hxq
      simp [Shift.arr, shiftBetween, (List.getElem?_eq_some.1 ha0).1]
  refine ⟨?_, ?_, le_refl _, ?_, le_refl _, ?_, le_refl _, ?_, ?_, ?_, ?_, le_refl _, ?_⟩
  · -- the config cells
    have hmap : (h0.storeConfig cfg vc).configs.map (shiftBetween h0 h1).config
        = (h0.storeConfig cfg vc).configs := by
      conv_rhs => rw [← List.map_id (h0.storeConfig cfg vc).configs]
      exact List.map_congr_left hcfg_fix
    rw [hmap]
    apply List.ext_getElem?
    intro i
    simp only [Heap.storeConfig, List.getElem?_set, hlen]
    by_cases hi : cfg = i
    · simp [hi]
    · simp only [hi, if_false]
      exact hfr i (Ne.symm hi)
  · show h1.devices.length = h0.devices.length + (h1.devices.length - h0.devices.length)
    omega
  · show h1.dhcpOptions.length
      = h0.dhcpOptions.length + (h1.dhcpOptions.length - h0.dhcpOptions.length)
    omega
  · show h1.kubeSpans.length = h0.kubeSpans.length + (h1.kubeSpans.length - h0.kubeSpans.length)
    omega
  · intro p hp
    obtain ⟨hv, hs, hsv⟩ := hlive p hp
    obtain ⟨d, hd0, -⟩ := Heap.validDevice_iff.1 hv
    refine ⟨d, hd0, ?_⟩
    have hfix : (shiftBetween h0 h1).dev p = p := by
      simp [shiftBetween, Shift.dev, Heap.lt_of_device hd0]
    have hdfix : (shiftBetween h0 h1).device d = d :=
      shift_device_of_valid h1 hv hd0 (hsv d hd0)
    rw [hfix, hdfix]
    show h1.device p = some d
    rw [(Heap.sameDevice_iff.1 hs).1, hd0]
  · intro p d q hp hd0 hq0
    obtain ⟨hv, hs, -⟩ := hlive p hp
    have hd0' : h0.device p = some d := hd0
    obtain ⟨d1, hd1, hq1⟩ := Heap.validDevice_iff.1 hv
    rw [hd0'] at hd1
    cases hd1
    have hqlt := hq1 q hq0
    refine ⟨h0.dhcpOptions[q], Heap.dhcp_of_lt hqlt, ?_⟩
    have hfix : (shiftBetween h0 h1).dhcp q = q := by
      simp [shiftBetween, Shift.dhcp, hqlt]
    rw [hfix]
    show h1.dhcp q = _
    rw [(Heap.sameDevice_iff.1 hs).2.2 d q hd0' hq0]
    exact Heap.dhcp_of_lt hqlt
  · intro v k hv hk0
    obtain ⟨h1v, -, h2v⟩ := hvalid v hv
    have hklt := (Heap.validConfig_iff.1 h1v).2 k hk0
    refine ⟨h0.kubeSpans[k], Heap.kubeSpan_of_lt hklt, ?_⟩
    have hfix : (shiftBetween h0 h1).ks k = k := by
      simp [shiftBetween, Shift.ks, hklt]
    rw [hfix]
    show h1.kubeSpan k = _
    rw [(Heap.sameReach_iff.1 h2v).2.2 k hk0]
    exact Heap.kubeSpan_of_lt hklt
  · show h1.arrays.length = h0.arrays.length + (h1.arrays.length - h0.arrays.length)
    omega
  · rintro q (⟨v, hv, hvq⟩ | ⟨p, d, hp, hd0, hdq⟩)
    · obtain ⟨-, h2v, h3v⟩ := hvalid v hv
      rw [harr_fix (Heap.validSlices_iff.1 h2v).1 hvq]
      exact Heap.sameArray_iff.1 (Heap.sameReach_iff.1 h3v).2.1 q hvq
    · obtain ⟨-, hs, hsv⟩ := hlive p hp
      have hd0' : h0.device p = some d := hd0
      rw [harr_fix (hsv d hd0') hdq]
      exact Heap.sameArray_iff.1 ((Heap.sameDevice_iff.1 hs).2.1 d hd0') q hdq

/-- Whatever heap an option of the file runs on, an outcome it returns carries the
nil error: no `return` of the file returns anything else. -/
theorem build_error_nil (call : OptionCall) (mt : MachineType) (cfg : Ptr) (h h' : Heap)
    (e : Option GoError) (hr : call.build mt cfg h = some (h', e)) : e = none := by
  cases call with
  | networkConfig c =>
    simp only [OptionCall.build, WithNetworkConfig] at hr
    split at hr
    · simp at hr
    · split at hr <;> simp at hr
      exact hr.2.symm
  | networkNameservers ns =>
    simp only [OptionCall.build, WithNetworkNameservers] at hr
    split at hr <;> simp at hr
    exact hr.2.symm
  | interfaceIgnore iface =>
    simp only [OptionCall.build, WithNetworkInterfaceIgnore] at hr
    repeat' split at hr
    all_goals simp at hr
    exact hr.2.symm
  | interfaceDHCP iface enable =>
    simp only [OptionCall.build, WithNetworkInterfaceDHCP] at hr
    repeat' split at hr
    all_goals simp at hr
    exact hr.2.symm
  | interfaceDHCPv4 iface enable =>
    simp only [OptionCall.build, WithNetworkInterfaceDHCPv4] at hr
    repeat' split at hr
    all_goals simp at hr
    exact hr.2.symm
  | interfaceDHCPv6 iface enable =>
    simp only [OptionCall.build, WithNetworkInterfaceDHCPv6] at hr
    repeat' split at hr
    all_goals simp at hr
    exact hr.2.symm
  | interfaceCIDR iface cidr =>
    simp only [OptionCall.build, WithNetworkInterfaceCIDR] at hr
    repeat' split at hr
    all_goals simp at hr
    exact hr.2.symm
  | interfaceMTU iface mtu =>
    simp only [OptionCall.build, WithNetworkInterfaceMTU] at hr
    repeat' split at hr
    all_goals simp at hr
    exact hr.2.symm
  | interfaceWireguard iface w =>
    simp only [OptionCall.build, WithNetworkInterfaceWireguard] at hr
    repeat' split at hr
    all_goals simp at hr
    exact hr.2.symm
  | interfaceVirtualIP iface cidr =>
    simp only [OptionCall.build, WithNetworkInterfaceVirtualIP] at hr
    repeat' split at hr
    all_goals simp at hr
    all_goals exact hr.2.symm
  | kubeSpan =>
    simp only [OptionCall.build, WithKubeSpan] at hr
    repeat' split at hr
    all_goals simp at hr
    all_goals exact hr.2.symm

/-- Reading a device gives the same value in two heaps that agree on the device cell,
on the DHCP-options cell it points to and on what its address slice reads. -/
theorem readDevice_congr {h h' : Heap} {p : Ptr} (hd : h'.device p = h.device p)
    (hq : ∀ d q, h.device p = some d → d.DeviceDHCPOptions = some q → h'.dhcp q = h.dhcp q)
    (hs : ∀ d, h.device p = some d →
      h'.readSlice d.DeviceAddresses = h.readSlice d.DeviceAddresses) :
    h'.readDevice p = h.readDevice p := by
  unfold Heap.readDevice
  rw [hd]
  cases hdev : h.device p with
  | none => rfl
  | some d =>
    cases hopt : d.DeviceDHCPOptions with
    | none => simp [hopt, hs d hdev]
    | some q => simp [hopt, hq d q hdev hopt, hs d hdev]

theorem readDevices_congr {h h' : Heap} {ps : List Ptr}
    (hd : ∀ p ∈ ps, h'.device p = h.device p)
    (hq : ∀ p ∈ ps, ∀ d q, h.device p = some d → d.DeviceDHCPOptions = some q →
      h'.dhcp q = h.dhcp q)
    (hs : ∀ p ∈ ps, ∀ d, h.device p = some d →
      h'.readSlice d.DeviceAddresses = h.readSlice d.DeviceAddresses) :
    h'.readDevices ps = h.readDevices ps := by
  induction ps with
  | nil => rfl
  | cons p ps ih =>
    simp only [Heap.readDevices]
    rw [readDevice_congr (hd p (List.mem_cons_self _ _)) (hq p (List.mem_cons_self _ _))
        (hs p (List.mem_cons_self _ _)),
      ih (fun x hx => hd x (List.mem_cons_of_mem _ hx))
        (fun x hx => hq x (List.mem_cons_of_mem _ hx))
        (fun x hx => hs x (List.mem_cons_of_mem _ hx))]

theorem readKubeSpan_congr {h h' : Heap} {k : Option Ptr}
    (hk : ∀ k0, k = some k0 → h'.kubeSpan k0 = h.kubeSpan k0) :
    h'.readKubeSpan k = h.readKubeSpan k := by
  cases k with
  | none => rfl
  | some k0 => simp [Heap.readKubeSpan, hk k0 rfl]

/-- The value of a document is the same in two heaps that agree on every cell
reachable from it and on what its slices read. -/
theorem readConfig_congr {h h' : Heap} {n : Ptr} {v : NetworkConfig}
    (hv : h.config n = some v) (hc : h'.config n = some v)
    (hd : ∀ p ∈ v.NetworkInterfaces, h'.device p = h.device p)
    (hq : ∀ p ∈ v.NetworkInterfaces, ∀ d q, h.device p = some d →
      d.DeviceDHCPOptions = some q → h'.dhcp q = h.dhcp q)
    (hk : ∀ k0, v.NetworkKubeSpan = some k0 → h'.kubeSpan k0 = h.kubeSpan k0)
    (hs : ∀ p ∈ v.NetworkInterfaces, ∀ d, h.device p = some d →
      h'.readSlice d.DeviceAddresses = h.readSlice d.DeviceAddresses)
    (hns : h'.readSlice v.NameServers = h.readSlice v.NameServers) :
    h'.readConfig n = h.readConfig n := by
  simp only [Heap.readConfig, hv, hc, readDevices_congr hd hq hs, readKubeSpan_congr hk, hns]

/-- Reading devices only looks at the device cells, the DHCP-options cells and the
backing arrays. -/
theorem readDevices_of_cells {h h' : Heap} (hd : h'.devices = h.devices)
    (hq : h'.dhcpOptions = h.dhcpOptions) (ha : h'.arrays = h.arrays) (ps : List Ptr) :
    h'.readDevices ps = h.readDevices ps :=
  readDevices_congr (fun p _ => by simp [Heap.device, hd])
    (fun _ _ _ q _ _ => by simp [Heap.dhcp, hq])
    (fun _ _ _ _ => Heap.readSlice_congr (fun _ _ => by rw [ha]))

namespace Uploader

theorem foldl_pushResult (images : List CloudImage) (s : Process) :
    images.foldl (fun t image => pushResult image t) s
      = { s with result := s.result ++ images } := by
  induction images generalizing s with
  | nil => simp
  | cons i is ih =>
    simp only [List.foldl_cons, ih]
    simp [pushResult]

end Uploader

theorem set_length_append {α : Type} (l : List α) (a b : α) :
    (l ++ [a]).set l.length b = l ++ [b] := by
  induction l with
  | nil => rfl
  | cons x xs ih => simp [List.set, ih]

/-- The heap an option of the shape `cfg.getDevice(iface).F = v` leaves behind, in
full: either the first device named `iface` is rewritten in place, or no device has
the name and the heap gains one device cell, holding the changed zero device, whose
address is appended to the document's interface list. -/
theorem assignDevice_cases {h : Heap} {cfg : Ptr} {v : NetworkConfig} (iface : String)
    (hwf : h.pointersValid = true) (hcfg : h.config cfg = some v) :
    (∃ p d, findDevice h iface v.NetworkInterfaces = some (some p) ∧
        h.device p = some d ∧ d.DeviceInterface = iface ∧ p ∈ v.NetworkInterfaces ∧
        ∀ (f : Device → Device) (mt : MachineType), assignDevice iface f mt cfg h
          = some ({ h with devices := h.devices.set p (f d) }, none)) ∨
    (findDevice h iface v.NetworkInterfaces = some none ∧
        ∀ (f : Device → Device) (mt : MachineType), assignDevice iface f mt cfg h
          = some ({ configs := h.configs.set cfg
                      { v with NetworkInterfaces := v.NetworkInterfaces ++ [h.devices.length] },
                    devices := h.devices ++ [f (Device.named iface)],
                    dhcpOptions := h.dhcpOptions, kubeSpans := h.kubeSpans, arrays := h.arrays }, none)) := by
  rcases getDevice_cases iface hcfg (Heap.interfaces_lt hwf hcfg) with ⟨p, hf, hg⟩ | ⟨hf, hg⟩
  · obtain ⟨hm, d, hd, hname⟩ := findDevice_found hf
    refine Or.inl ⟨p, d, hf, hd, hname, hm, fun f mt => ?_⟩
    simp only [assignDevice, hg, updateDevice_eq f hd]
    rfl
  · refine Or.inr ⟨hf, fun f mt => ?_⟩
    have hd : ((h.newDevice (Device.named iface)).1.storeConfig cfg
        { v with NetworkInterfaces := v.NetworkInterfaces ++ [h.devices.length] }).device
          h.devices.length = some (Device.named iface) := by
      simp [Heap.device, Heap.storeConfig, Heap.newDevice]
    simp only [assignDevice, hg, updateDevice_eq f hd]
    simp [Heap.storeDevice, Heap.storeConfig, Heap.newDevice, set_length_append]

/-- The heap an option of the shape of DHCPv4 and DHCPv6 leaves behind, in full.
Three cases: the device exists with DHCP options, which are rewritten in place; the
device exists without, and gains a fresh options cell; no device has the name, and
the heap gains a device cell and an options cell. -/
theorem assignDhcp_cases {h : Heap} {cfg : Ptr} {v : NetworkConfig} (iface : String)
    (hwf : h.pointersValid = true) (hcfg : h.config cfg = some v) :
    (∃ p d q o, findDevice h iface v.NetworkInterfaces = some (some p) ∧
        h.device p = some d ∧ d.DeviceInterface = iface ∧ p ∈ v.NetworkInterfaces ∧
        d.DeviceDHCPOptions = some q ∧ h.dhcp q = some o ∧
        ∀ (g : DHCPOptions → DHCPOptions) (mt : MachineType), assignDhcp iface g mt cfg h
          = some ({ h with dhcpOptions := h.dhcpOptions.set q (g o) }, none)) ∨
    (∃ p d, findDevice h iface v.NetworkInterfaces = some (some p) ∧
        h.device p = some d ∧ d.DeviceInterface = iface ∧ p ∈ v.NetworkInterfaces ∧
        d.DeviceDHCPOptions = none ∧
        ∀ (g : DHCPOptions → DHCPOptions) (mt : MachineType), assignDhcp iface g mt cfg h
          = some ({ h with
                    devices := h.devices.set p
                      { d with DeviceDHCPOptions := some h.dhcpOptions.length },
                    dhcpOptions := h.dhcpOptions ++ [g DHCPOptions.zero] }, none)) ∨
    (findDevice h iface v.NetworkInterfaces = some none ∧
        ∀ (g : DHCPOptions → DHCPOptions) (mt : MachineType), assignDhcp iface g mt cfg h
          = some ({ configs := h.configs.set cfg
                      { v with NetworkInterfaces := v.NetworkInterfaces ++ [h.devices.length] },
                    devices := h.devices ++
                      [{ Device.named iface with
                          DeviceDHCPOptions := some h.dhcpOptions.length }],
                    dhcpOptions := h.dhcpOptions ++ [g DHCPOptions.zero],
                    kubeSpans := h.kubeSpans, arrays := h.arrays }, none)) := by
  rcases getDevice_cases iface hcfg (Heap.interfaces_lt hwf hcfg) with ⟨p, hf, hg⟩ | ⟨hf, hg⟩
  · obtain ⟨hm, d, hd, hname⟩ := findDevice_found hf
    cases hopt : d.DeviceDHCPOptions with
    | some q =>
      obtain ⟨e, he, hq'⟩ := Heap.validDevice_iff.1
        ((Heap.validConfig_iff.1 (Heap.validConfig_of_config hwf hcfg)).1 p hm)
      rw [hd] at he
      cases he
      have ho := Heap.dhcp_of_lt (hq' q hopt)
      refine Or.inl ⟨p, d, q, _, hf, hd, hname, hm, hopt, ho, fun g mt => ?_⟩
      simp only [assignDhcp, hg, ensureDHCPOptions_of_some hd hopt, updateDhcp_eq g ho]
      rfl
    | none =>
      refine Or.inr (Or.inl ⟨p, d, hf, hd, hname, hm, hopt, fun g mt => ?_⟩)
      have ho : ((h.newDhcp DHCPOptions.zero).1.storeDevice p
          { d with DeviceDHCPOptions := some h.dhcpOptions.length }).dhcp h.dhcpOptions.length
            = some DHCPOptions.zero := by
        simp [Heap.dhcp, Heap.storeDevice, Heap.newDhcp]
      simp only [assignDhcp, hg, ensureDHCPOptions_of_none hd hopt, updateDhcp_eq g ho]
      simp [Heap.storeDhcp, Heap.storeDevice, Heap.newDhcp, set_length_append]
  · refine Or.inr (Or.inr ⟨hf, fun g mt => ?_⟩)
    have hd : ((h.newDevice (Device.named iface)).1.storeConfig cfg
        { v with NetworkInterfaces := v.NetworkInterfaces ++ [h.devices.length] }).device
          h.devices.length = some (Device.named iface) := by
      simp [Heap.device, Heap.storeConfig, Heap.newDevice]
    have ho : ((((h.newDevice (Device.named iface)).1.storeConfig cfg
        { v with NetworkInterfaces := v.NetworkInterfaces ++ [h.devices.length] }).newDhcp
          DHCPOptions.zero).1.storeDevice h.devices.length
          { Device.named iface with DeviceDHCPOptions := some h.dhcpOptions.length }).dhcp
            h.dhcpOptions.length = some DHCPOptions.zero := by
      simp [Heap.dhcp, Heap.storeDevice, Heap.newDhcp, Heap.storeConfig, Heap.newDevice]
    have hz : (Device.named iface).DeviceDHCPOptions = none := rfl
    simp only [assignDhcp, hg, ensureDHCPOptions_of_none hd hz]
    rw [show ((h.newDevice (Device.named iface)).1.storeConfig cfg
        { v with NetworkInterfaces := v.NetworkInterfaces ++ [h.devices.length] }).dhcpOptions.length
          = h.dhcpOptions.length from rfl]
    simp only [updateDhcp_eq g ho]
    simp [Heap.storeDhcp, Heap.storeDevice, Heap.newDhcp, Heap.storeConfig, Heap.newDevice,
      set_length_append]

/-- When no device of a list of valid pointers carries the name, the lookup reports
"not found". -/
theorem findDevice_none_of_names {h : Heap} {name : String} {ps : List Ptr}
    (hv : ∀ p ∈ ps, p < h.devices.length)
    (hno : ∀ p ∈ ps, ∀ d, h.device p = some d → d.DeviceInterface ≠ name) :
    findDevice h name ps = some none := by
  obtain ⟨r, hr⟩ := findDevice_total name hv
  cases r with
  | none => exact hr
  | some p =>
    obtain ⟨hm, d, hd, hname⟩ := findDevice_found hr
    exact absurd hname (hno p hm d hd)

/-- The DHCP shape on a document whose device `iface` exists and has options: the
options cell is rewritten in place and nothing else changes. -/
theorem assignDhcp_of_found {h : Heap} {cfg p q : Ptr} {v : NetworkConfig} {d : Device}
    {o : DHCPOptions} {iface : String} (g : DHCPOptions → DHCPOptions) (mt : MachineType)
    (hcfg : h.config cfg = some v)
    (hf : findDevice h iface v.NetworkInterfaces = some (some p))
    (hd : h.device p = some d) (hq : d.DeviceDHCPOptions = some q) (ho : h.dhcp q = some o) :
    assignDhcp iface g mt cfg h
      = some ({ h with dhcpOptions := h.dhcpOptions.set q (g o) }, none) := by
  simp only [assignDhcp, getDevice_of_find hcfg hf, ensureDHCPOptions_of_some hd hq,
    updateDhcp_eq g ho]
  rfl

/-- Two assignments to the DHCP options of the same interface, one after the other,
leave the heap that the single assignment of both leaves. -/
theorem assignDhcp_then {h : Heap} {cfg : Ptr} {v : NetworkConfig} (iface : String)
    (g1 g2 : DHCPOptions → DHCPOptions) (mt : MachineType)
    (hwf : h.pointersValid = true) (hcfg : h.config cfg = some v) :
    ∃ h1 h2, assignDhcp iface g1 mt cfg h = some (h1, none) ∧
      assignDhcp iface g2 mt cfg h1 = some (h2, none) ∧
      assignDhcp iface (fun o => g2 (g1 o)) mt cfg h = some (h2, none) := by
  rcases assignDhcp_cases iface hwf hcfg with
    ⟨p, d, q, o, hf, hd, -, -, hq, ho, hrun⟩ | ⟨p, d, hf, hd, hname, -, hq, hrun⟩ | ⟨hf, hrun⟩
  · refine ⟨_, _, hrun g1 mt, ?_, hrun _ mt⟩
    generalize hh1 : ({ h with dhcpOptions := h.dhcpOptions.set q (g1 o) } : Heap) = h1
    have hc1 : h1.config cfg = some v := by
      subst hh1
      exact hcfg
    have hd1 : h1.device p = some d := by
      subst hh1
      exact hd
    have hf1 : findDevice h1 iface v.NetworkInterfaces = some (some p) := by
      refine Eq.trans (findDevice_congr h h1 iface _ ?_) hf
      intro x _
      subst hh1
      rfl
    have ho1 : h1.dhcp q = some (g1 o) := by
      subst hh1
      simp [Heap.dhcp, List.getElem?_set, Heap.lt_of_dhcp ho]
    rw [assignDhcp_of_found g2 mt hc1 hf1 hd1 hq ho1]
    subst hh1
    simp
  · refine ⟨_, _, hrun g1 mt, ?_, hrun _ mt⟩
    have hplt := Heap.lt_of_device hd
    generalize hh1 :
      ({ h with
         devices := h.devices.set p { d with DeviceDHCPOptions := some h.dhcpOptions.length },
         dhcpOptions := h.dhcpOptions ++ [g1 DHCPOptions.zero] } : Heap) = h1
    have hc1 : h1.config cfg = some v := by
      subst hh1
      exact hcfg
    have hd1 : h1.device p = some { d with DeviceDHCPOptions := some h.dhcpOptions.length } := by
      subst hh1
      simp [Heap.device, List.getElem?_set, hplt]
    have hf1 : findDevice h1 iface v.NetworkInterfaces = some (some p) := by
      refine Eq.trans (findDevice_congr h h1 iface _ ?_) hf
      intro x _
      subst hh1
      by_cases hx : p = x
      · subst hx
        rw [hd]
        simp [Heap.device, List.getElem?_set, hplt]
      · simp [Heap.device, List.getElem?_set, hx]
    have ho1 : h1.dhcp h.dhcpOptions.length = some (g1 DHCPOptions.zero) := by
      subst hh1
      simp [Heap.dhcp]
    rw [assignDhcp_of_found g2 mt hc1 hf1 hd1 rfl ho1]
    subst hh1
    simp [set_length_append]
  · refine ⟨_, _, hrun g1 mt, ?_, hrun _ mt⟩
    have hclt := Heap.lt_of_config hcfg
    have hlt := Heap.interfaces_lt hwf hcfg
    generalize hh1 :
      ({ configs := h.configs.set cfg
           { v with NetworkInterfaces := v.NetworkInterfaces ++ [h.devices.length] },
         devices := h.devices ++
           [{ Device.named iface with DeviceDHCPOptions := some h.dhcpOptions.length }],
         dhcpOptions := h.dhcpOptions ++ [g1 DHCPOptions.zero],
         kubeSpans := h.kubeSpans, arrays := h.arrays } : Heap) = h1
    have hc1 : h1.config cfg
        = some { v with NetworkInterfaces := v.NetworkInterfaces ++ [h.devices.length] } := by
      subst hh1
      simp [Heap.config, List.getElem?_set, hclt]
    have hd1 : h1.device h.devices.length
        = some { Device.named iface with DeviceDHCPOptions := some h.dhcpOptions.length } := by
      subst hh1
      simp [Heap.device]
    have ho1 : h1.dhcp h.dhcpOptions.length = some (g1 DHCPOptions.zero) := by
      subst hh1
      simp [Heap.dhcp]
    have hf0 : findDevice h1 iface v.NetworkInterfaces = some none := by
      refine Eq.trans (findDevice_congr h h1 iface _ ?_) hf
      intro x hx
      subst hh1
      simp [Heap.device, List.getElem?_append_left (hlt x hx)]
    have hf1 : findDevice h1 iface (v.NetworkInterfaces ++ [h.devices.length])
        = some (some h.devices.length) := by
      rw [findDevice_append, hf0]
      simp only [findDevice, hd1]
      simp [Device.named]
    rw [assignDhcp_of_found g2 mt hc1 hf1 hd1 rfl ho1]
    subst hh1
    simp [set_length_append]

/-- An assignment to the DHCP options of `iface` that does not touch the field
`DHCPIPv6` leaves that field as it was in every options cell and as seen from
every device of the document. -/
theorem assignDhcp_keeps_v6 {h : Heap} {cfg : Ptr} {v : NetworkConfig} (iface : String)
    (g : DHCPOptions → DHCPOptions) (mt : MachineType)
    (hkeep : ∀ o, (g o).DHCPIPv6 = o.DHCPIPv6) (hoth : ∀ o, (g o).others = o.others)
    (hwf : h.pointersValid = true) (hcfg : h.config cfg = some v) :
    ∃ h', assignDhcp iface g mt cfg h = some (h', none) ∧
      (∀ q o, h.dhcp q = some o →
        ∃ o', h'.dhcp q = some o' ∧ o'.DHCPIPv6 = o.DHCPIPv6 ∧ o'.others = o.others) ∧
      (∀ p ∈ v.NetworkInterfaces, h'.deviceDHCPv6 p = h.deviceDHCPv6 p) := by
  have hvalid : ∀ p ∈ v.NetworkInterfaces, ∃ d, h.device p = some d ∧
      ∀ q, d.DeviceDHCPOptions = some q → q < h.dhcpOptions.length := fun p hp =>
    Heap.validDevice_iff.1 ((Heap.validConfig_iff.1 (Heap.validConfig_of_config hwf hcfg)).1 p hp)
  rcases assignDhcp_cases iface hwf hcfg with
    ⟨p, d, q, o, hf, hd, -, -, hq, ho, hrun⟩ | ⟨p, d, hf, hd, hname, -, hq, hrun⟩ | ⟨hf, hrun⟩
  · refine ⟨_, hrun g mt, ?_, ?_⟩
    · intro q0 o0 ho0
      by_cases hq0 : q = q0
      · subst hq0
        rw [ho] at ho0
        cases ho0
        exact ⟨g o, by simp [Heap.dhcp, List.getElem?_set, Heap.lt_of_dhcp ho], hkeep o, hoth o⟩
      · exact ⟨o0, by simpa [Heap.dhcp, List.getElem?_set, hq0] using ho0, rfl, rfl⟩
    · intro p0 hp0
      obtain ⟨d0, hd0, hq0⟩ := hvalid p0 hp0
      have hd0' : Heap.device { h with dhcpOptions := h.dhcpOptions.set q (g o) } p0
          = some d0 := hd0
      simp only [Heap.deviceDHCPv6, hd0, hd0']
      cases hopt : d0.DeviceDHCPOptions with
      | none => rfl
      | some q1 =>
        by_cases hq1 : q = q1
        · subst hq1
          simp [Heap.dhcp, List.getElem?_set, Heap.lt_of_dhcp ho, hkeep] at ho ⊢
          simp [ho]
        · simp [Heap.dhcp, List.getElem?_set, hq1]
  · have hplt := Heap.lt_of_device hd
    refine ⟨_, hrun g mt, ?_, ?_⟩
    · intro q0 o0 ho0
      refine ⟨o0, ?_, rfl, rfl⟩
      simp only [Heap.dhcp] at ho0 ⊢
      rw [List.getElem?_append_left (by
        rcases List.getElem?_eq_some.1 ho0 with ⟨hlt, -⟩
        exact hlt)]
      exact ho0
    · intro p0 hp0
      obtain ⟨d0, hd0, hq0⟩ := hvalid p0 hp0
      by_cases hp : p = p0
      · subst hp
        rw [hd] at hd0
        cases hd0
        simp [Heap.deviceDHCPv6, Heap.device, Heap.dhcp, List.getElem?_set, hplt, hq, hkeep,
          DHCPOptions.zero] at hd ⊢
        simp [hd, hq]
      · have hd0' : Heap.device
            { h with
              devices := h.devices.set p
                { d with DeviceDHCPOptions := some h.dhcpOptions.length },
              dhcpOptions := h.dhcpOptions ++ [g DHCPOptions.zero] } p0 = some d0 := by
          simpa [Heap.device, List.getElem?_set, hp] using hd0
        simp only [Heap.deviceDHCPv6, hd0, hd0']
        cases hopt : d0.DeviceDHCPOptions with
        | none => rfl
        | some q1 => simp [Heap.dhcp, List.getElem?_append_left (hq0 q1 hopt)]
  · have hlt := Heap.interfaces_lt hwf hcfg
    refine ⟨_, hrun g mt, ?_, ?_⟩
    · intro q0 o0 ho0
      refine ⟨o0, ?_, rfl, rfl⟩
      simp only [Heap.dhcp] at ho0 ⊢
      rw [List.getElem?_append_left (by
        rcases List.getElem?_eq_some.1 ho0 with ⟨hlt, -⟩
        exact hlt)]
      exact ho0
    · intro p0 hp0
      obtain ⟨d0, hd0, hq0⟩ := hvalid p0 hp0
      have hd0' : Heap.device
          { configs := h.configs.set cfg
              { v with NetworkInterfaces := v.NetworkInterfaces ++ [h.devices.length] },
            devices := h.devices ++
              [{ Device.named iface with DeviceDHCPOptions := some h.dhcpOptions.length }],
            dhcpOptions := h.dhcpOptions ++ [g DHCPOptions.zero],
            kubeSpans := h.kubeSpans, arrays := h.arrays } p0 = some d0 := by
        simpa [Heap.device, List.getElem?_append_left (hlt p0 hp0)] using hd0
      simp only [Heap.deviceDHCPv6, hd0, hd0']
      cases hopt : d0.DeviceDHCPOptions with
      | none => rfl
      | some q1 => simp [Heap.dhcp, List.getElem?_append_left (hq0 q1 hopt)]

/-- An assignment to the DHCP options of `iface` that does not touch the field
`DHCPIPv4` leaves that field as it was in every options cell and as seen from
every device of the document. -/
theorem assignDhcp_keeps_v4 {h : Heap} {cfg : Ptr} {v : NetworkConfig} (iface : String)
    (g : DHCPOptions → DHCPOptions) (mt : MachineType)
    (hkeep : ∀ o, (g o).DHCPIPv4 = o.DHCPIPv4) (hoth : ∀ o, (g o).others = o.others)
    (hwf : h.pointersValid = true) (hcfg : h.config cfg = some v) :
    ∃ h', assignDhcp iface g mt cfg h = some (h', none) ∧
      (∀ q o, h.dhcp q = some o →
        ∃ o', h'.dhcp q = some o' ∧ o'.DHCPIPv4 = o.DHCPIPv4 ∧ o'.others = o.others) ∧
      (∀ p ∈ v.NetworkInterfaces, h'.deviceDHCPv4 p = h.deviceDHCPv4 p) := by
  have hvalid : ∀ p ∈ v.NetworkInterfaces, ∃ d, h.device p = some d ∧
      ∀ q, d.DeviceDHCPOptions = some q → q < h.dhcpOptions.length := fun p hp =>
    Heap.validDevice_iff.1 ((Heap.validConfig_iff.1 (Heap.validConfig_of_config hwf hcfg)).1 p hp)
  rcases assignDhcp_cases iface hwf hcfg with
    ⟨p, d, q, o, hf, hd, -, -, hq, ho, hrun⟩ | ⟨p, d, hf, hd, hname, -, hq, hrun⟩ | ⟨hf, hrun⟩
  · refine ⟨_, hrun g mt, ?_, ?_⟩
    · intro q0 o0 ho0
      by_cases hq0 : q = q0
      · subst hq0
        rw [ho] at ho0
        cases ho0
        exact ⟨g o, by simp [Heap.dhcp, List.getElem?_set, Heap.lt_of_dhcp ho], hkeep o, hoth o⟩
      · exact ⟨o0, by simpa [Heap.dhcp, List.getElem?_set, hq0] using ho0, rfl, rfl⟩
    · intro p0 hp0
      obtain ⟨d0, hd0, hq0⟩ := hvalid p0 hp0
      have hd0' : Heap.device { h with dhcpOptions := h.dhcpOptions.set q (g o) } p0
          = some d0 := hd0
      simp only [Heap.deviceDHCPv4, hd0, hd0']
      cases hopt : d0.DeviceDHCPOptions with
      | none => rfl
      | some q1 =>
        by_cases hq1 : q = q1
        · subst hq1
          simp [Heap.dhcp, List.getElem?_set, Heap.lt_of_dhcp ho, hkeep] at ho ⊢
          simp [ho]
        · simp [Heap.dhcp, List.getElem?_set, hq1]
  · have hplt := Heap.lt_of_device hd
    refine ⟨_, hrun g mt, ?_, ?_⟩
    · intro q0 o0 ho0
      refine ⟨o0, ?_, rfl, rfl⟩
      simp only [Heap.dhcp] at ho0 ⊢
      rw [List.getElem?_append_left (by
        rcases List.getElem?_eq_some.1 ho0 with ⟨hlt, -⟩
        exact hlt)]
      exact ho0
    · intro p0 hp0
      obtain ⟨d0, hd0, hq0⟩ := hvalid p0 hp0
      by_cases hp : p = p0
      · subst hp
        rw [hd] at hd0
        cases hd0
        simp [Heap.deviceDHCPv4, Heap.device, Heap.dhcp, List.getElem?_set, hplt, hq, hkeep,
          DHCPOptions.zero] at hd ⊢
        simp [hd, hq]
      · have hd0' : Heap.device
            { h with
              devices := h.devices.set p
                { d with DeviceDHCPOptions := some h.dhcpOptions.length },
              dhcpOptions := h.dhcpOptions ++ [g DHCPOptions.zero] } p0 = some d0 := by
          simpa [Heap.device, List.getElem?_set, hp] using hd0
        simp only [Heap.deviceDHCPv4, hd0, hd0']
        cases hopt : d0.DeviceDHCPOptions with
        | none => rfl
        | some q1 => simp [Heap.dhcp, List.getElem?_append_left (hq0 q1 hopt)]
  · have hlt := Heap.interfaces_lt hwf hcfg
    refine ⟨_, hrun g mt, ?_, ?_⟩
    · intro q0 o0 ho0
      refine ⟨o0, ?_, rfl, rfl⟩
      simp only [Heap.dhcp] at ho0 ⊢
      rw [List.getElem?_append_left (by
        rcases List.getElem?_eq_some.1 ho0 with ⟨hlt, -⟩
        exact hlt)]
      exact ho0
    · intro p0 hp0
      obtain ⟨d0, hd0, hq0⟩ := hvalid p0 hp0
      have hd0' : Heap.device
          { configs := h.configs.set cfg
              { v with NetworkInterfaces := v.NetworkInterfaces ++ [h.devices.length] },
            devices := h.devices ++
              [{ Device.named iface with DeviceDHCPOptions := some h.dhcpOptions.length }],
            dhcpOptions := h.dhcpOptions ++ [g DHCPOptions.zero],
            kubeSpans := h.kubeSpans, arrays := h.arrays } p0 = some d0 := by
        simpa [Heap.device, List.getElem?_append_left (hlt p0 hp0)] using hd0
      simp only [Heap.deviceDHCPv4, hd0, hd0']
      cases hopt : d0.DeviceDHCPOptions with
      | none => rfl
      | some q1 => simp [Heap.dhcp, List.getElem?_append_left (hq0 q1 hopt)]

/-- The frame of an option of the shape `cfg.getDevice(iface).F = v`, for an
assignment `f` that keeps the name and the options pointer and whose effect on the
value of the device is `F`. -/
theorem assignDevice_interfaceFrame {h : Heap} {cfg : Ptr} {v : NetworkConfig} (iface : String)
    (f : Device → Device) (F : DeviceValue → DeviceValue) (mt : MachineType)
    (hdhcp : ∀ d, (f d).DeviceDHCPOptions = d.DeviceDHCPOptions)
    (hadr : ∀ d, (f d).DeviceAddresses = d.DeviceAddresses)
    (hF : ∀ d xs o, (f d).toValue xs o = F (d.toValue xs o))
    (hwf : h.pointersValid = true) (hcfg : h.config cfg = some v) :
    ∃ h' v', assignDevice iface f mt cfg h = some (h', none) ∧
      InterfaceFrame h h' cfg v v' iface F false 0 := by
  have hlt := Heap.interfaces_lt hwf hcfg
  rcases assignDevice_cases iface hwf hcfg with ⟨p, d, hf, hd, hname, hm, hrun⟩ | ⟨hf, hrun⟩
  · have hplt := Heap.lt_of_device hd
    refine ⟨_, v, hrun f mt, ?_⟩
    generalize hh1 : ({ h with devices := h.devices.set p (f d) } : Heap) = h1
    have hdev : ∀ x, x ≠ p → h1.device x = h.device x := by
      intro x hx
      subst hh1
      simp [Heap.device, List.getElem?_set, Ne.symm hx]
    have hq : ∀ q, h1.dhcp q = h.dhcp q := by
      intro q
      subst hh1
      rfl
    have hne : ∀ x e, h.device x = some e → e.DeviceInterface ≠ iface → x ≠ p := by
      intro x e he hen hxp
      subst hxp
      rw [hd] at he
      cases he
      exact hen hname
    have hsl : ∀ t, h1.readSlice t = h.readSlice t := by
      intro t
      subst hh1
      rfl
    refine ⟨by subst hh1; exact hcfg, rfl, rfl, rfl, by subst hh1; rfl,
      Or.inl rfl, ?_, fun _ => by subst hh1; rfl,
      fun q o ho => Or.inl ((hq q).trans ho), fun _ => by subst hh1; rfl, fun _ _ ht _ => by subst hh1; exact ht,
      fun _ => by subst hh1; rfl, ?_, ?_, ?_⟩
    · intro x e he hen
      rw [hdev x (hne x e he hen)]
      exact he
    · intro x _ e he hen _ _
      exact readDevice_congr (hdev x (hne x e he hen)) (fun _ q _ _ => hq q)
        (fun _ _ => hsl _)
    · intro p' hf'
      rw [hf] at hf'
      cases hf'
      have hd1 : h1.device p = some (f d) := by
        subst hh1
        simp [Heap.device, List.getElem?_set, hplt]
      have hdq := hdhcp d
      cases hopt : d.DeviceDHCPOptions with
      | none =>
        rw [hopt] at hdq
        cases hs : h.readSlice d.DeviceAddresses <;>
          simp [readDevice_toValue, hd1, hd, hdq, hopt, hF, hadr, hsl, hs]
      | some q =>
        rw [hopt] at hdq
        cases hs : h.readSlice d.DeviceAddresses <;>
          simp [readDevice_toValue, hd1, hd, hdq, hopt, hF, hq, Function.comp_def, hadr, hsl,
            hs]
    · intro hf'
      rw [hf] at hf'
      cases hf'
  · have hclt := Heap.lt_of_config hcfg
    refine ⟨_, { v with NetworkInterfaces := v.NetworkInterfaces ++ [h.devices.length] },
      hrun f mt, ?_⟩
    generalize hh1 :
      ({ configs := h.configs.set cfg
           { v with NetworkInterfaces := v.NetworkInterfaces ++ [h.devices.length] },
         devices := h.devices ++ [f (Device.named iface)],
         dhcpOptions := h.dhcpOptions, kubeSpans := h.kubeSpans, arrays := h.arrays } : Heap) = h1
    have hdev : ∀ x e, h.device x = some e → h1.device x = some e := by
      intro x e he
      subst hh1
      simpa [Heap.device, List.getElem?_append_left (Heap.lt_of_device he)] using he
    have hq : ∀ q, h1.dhcp q = h.dhcp q := by
      intro q
      subst hh1
      rfl
    have hsl : ∀ t, h1.readSlice t = h.readSlice t := by
      intro t
      subst hh1
      rfl
    refine ⟨by subst hh1; simp [Heap.config, List.getElem?_set, hclt], rfl, rfl, rfl,
      by subst hh1; rfl,
      Or.inr ⟨hf, rfl⟩, fun x e he _ => hdev x e he, fun _ => by subst hh1; rfl,
      fun q o ho => Or.inl ((hq q).trans ho), fun _ => by subst hh1; rfl, fun _ _ ht _ => by subst hh1; exact ht,
      fun _ => by subst hh1; rfl, ?_, ?_, ?_⟩
    · intro x _ e he _ _ _
      exact readDevice_congr ((hdev x e he).trans he.symm) (fun _ q _ _ => hq q)
        (fun _ _ => hsl _)
    · intro p' hf'
      rw [hf] at hf'
      cases hf'
    · intro _
      have hd1 : h1.device h.devices.length = some (f (Device.named iface)) := by
        subst hh1
        simp [Heap.device]
      have hdq : (f (Device.named iface)).DeviceDHCPOptions = none := hdhcp _
      have hda : (f (Device.named iface)).DeviceAddresses = Slice.nil := hadr _
      simp [readDevice_toValue, hd1, hdq, hda, hsl, Heap.readSlice_nil, DeviceValue.named, hF]

/-- The frame of the DHCPv4 and DHCPv6 shape, for an assignment `g` to the DHCP
options: the value of the targeted device changes in its DHCP options only, which
exist afterwards and are `g` of the previous ones (of the zero options when there
were none). -/
theorem assignDhcp_interfaceFrame {h : Heap} {cfg : Ptr} {v : NetworkConfig} (iface : String)
    (g : DHCPOptions → DHCPOptions) (mt : MachineType)
    (hwf : h.pointersValid = true) (hcfg : h.config cfg = some v) :
    ∃ h' v', assignDhcp iface g mt cfg h = some (h', none) ∧
      InterfaceFrame h h' cfg v v' iface
        (fun x => { x with
          DeviceDHCPOptions := some (g (x.DeviceDHCPOptions.getD DHCPOptions.zero)) })
        true 0 := by
  have hlt := Heap.interfaces_lt hwf hcfg
  have hvalid : ∀ p ∈ v.NetworkInterfaces, ∃ d, h.device p = some d ∧
      ∀ q, d.DeviceDHCPOptions = some q → q < h.dhcpOptions.length := fun p hp =>
    Heap.validDevice_iff.1 ((Heap.validConfig_iff.1 (Heap.validConfig_of_config hwf hcfg)).1 p hp)
  rcases assignDhcp_cases iface hwf hcfg with
    ⟨p, d, q, o, hf, hd, hname, -, hq, ho, hrun⟩ | ⟨p, d, hf, hd, hname, -, hq, hrun⟩ | ⟨hf, hrun⟩
  · have hqlt := Heap.lt_of_dhcp ho
    refine ⟨_, v, hrun g mt, ?_⟩
    generalize hh1 : ({ h with dhcpOptions := h.dhcpOptions.set q (g o) } : Heap) = h1
    have hdev : ∀ x, h1.device x = h.device x := by
      intro x
      subst hh1
      rfl
    have hopt : ∀ x, x ≠ q → h1.dhcp x = h.dhcp x := by
      intro x hx
      subst hh1
      simp [Heap.dhcp, List.getElem?_set, Ne.symm hx]
    have hsl : ∀ t, h1.readSlice t = h.readSlice t := by
      intro t
      subst hh1
      rfl
    refine ⟨by subst hh1; exact hcfg, rfl, rfl, rfl, by subst hh1; rfl,
      Or.inl rfl, fun x e he _ => (hdev x).trans he,
      (fun hfalse => by cases hfalse), ?_, fun _ => by subst hh1; rfl, fun _ _ ht _ => by subst hh1; exact ht,
      fun _ => by subst hh1; rfl, ?_, ?_, ?_⟩
    · intro x ox hox
      by_cases hx : x = q
      · subst hx
        exact Or.inr ⟨p, d, hf, hd, hq⟩
      · exact Or.inl ((hopt x hx).trans hox)
    · intro x _ e he _ hshare _
      refine readDevice_congr (hdev x) (fun e' q' he' hq' => hopt q' ?_) (fun _ _ => hsl _)
      rw [he] at he'
      cases he'
      intro hqq
      subst hqq
      exact hshare rfl p d q' hf hd hq hq'
    · intro p' hf'
      rw [hf] at hf'
      cases hf'
      have ho1 : h1.dhcp q = some (g o) := by
        subst hh1
        simp [Heap.dhcp, List.getElem?_set, hqlt]
      cases hs : h.readSlice d.DeviceAddresses <;>
        simp [readDevice_toValue, hdev, hd, hq, ho, ho1, Device.toValue, hsl, hs]
    · intro hf'
      rw [hf] at hf'
      cases hf'
  · have hplt := Heap.lt_of_device hd
    refine ⟨_, v, hrun g mt, ?_⟩
    generalize hh1 :
      ({ h with
         devices := h.devices.set p { d with DeviceDHCPOptions := some h.dhcpOptions.length },
         dhcpOptions := h.dhcpOptions ++ [g DHCPOptions.zero] } : Heap) = h1
    have hdev : ∀ x, x ≠ p → h1.device x = h.device x := by
      intro x hx
      subst hh1
      simp [Heap.device, List.getElem?_set, Ne.symm hx]
    have hopt : ∀ x ox, h.dhcp x = some ox → h1.dhcp x = some ox := by
      intro x ox hox
      subst hh1
      simpa [Heap.dhcp, List.getElem?_append_left (Heap.lt_of_dhcp hox)] using hox
    have hne : ∀ x e, h.device x = some e → e.DeviceInterface ≠ iface → x ≠ p := by
      intro x e he hen hxp
      subst hxp
      rw [hd] at he
      cases he
      exact hen hname
    have hsl : ∀ t, h1.readSlice t = h.readSlice t := by
      intro t
      subst hh1
      rfl
    refine ⟨by subst hh1; exact hcfg, rfl, rfl, rfl, by subst hh1; rfl,
      Or.inl rfl,
      fun x e he hen => (hdev x (hne x e he hen)).trans he,
      (fun hfalse => by cases hfalse), fun x ox hox => Or.inl (hopt x ox hox),
      fun _ => by subst hh1; rfl, fun _ _ ht _ => by subst hh1; exact ht,
      fun _ => by subst hh1; rfl, ?_, ?_, ?_⟩
    · intro x hx e he hen _ _
      refine readDevice_congr (hdev x (hne x e he hen)) (fun e' q' he' hq' => ?_)
        (fun _ _ => hsl _)
      obtain ⟨e0, he0, hq0⟩ := hvalid x hx
      rw [he0] at he'
      cases he'
      have := Heap.dhcp_of_lt (hq0 q' hq')
      rw [hopt q' _ this, this]
    · intro p' hf'
      rw [hf] at hf'
      cases hf'
      have hd1 : h1.device p = some { d with DeviceDHCPOptions := some h.dhcpOptions.length } := by
        subst hh1
        simp [Heap.device, List.getElem?_set, hplt]
      have ho1 : h1.dhcp h.dhcpOptions.length = some (g DHCPOptions.zero) := by
        subst hh1
        simp [Heap.dhcp]
      cases hs : h.readSlice d.DeviceAddresses <;>
        simp [readDevice_toValue, hd1, hd, hq, ho1, Device.toValue, hsl, hs]
    · intro hf'
      rw [hf] at hf'
      cases hf'
  · have hclt := Heap.lt_of_config hcfg
    refine ⟨_, { v with NetworkInterfaces := v.NetworkInterfaces ++ [h.devices.length] },
      hrun g mt, ?_⟩
    generalize hh1 :
      ({ configs := h.configs.set cfg
           { v with NetworkInterfaces := v.NetworkInterfaces ++ [h.devices.length] },
         devices := h.devices ++
           [{ Device.named iface with DeviceDHCPOptions := some h.dhcpOptions.length }],
         dhcpOptions := h.dhcpOptions ++ [g DHCPOptions.zero],
         kubeSpans := h.kubeSpans, arrays := h.arrays } : Heap) = h1
    have hdev : ∀ x e, h.device x = some e → h1.device x = some e := by
      intro x e he
      subst hh1
      simpa [Heap.device, List.getElem?_append_left (Heap.lt_of_device he)] using he
    have hopt : ∀ x ox, h.dhcp x = some ox → h1.dhcp x = some ox := by
      intro x ox hox
      subst hh1
      simpa [Heap.dhcp, List.getElem?_append_left (Heap.lt_of_dhcp hox)] using hox
    have hsl : ∀ t, h1.readSlice t = h.readSlice t := by
      intro t
      subst hh1
      rfl
    refine ⟨by subst hh1; simp [Heap.config, List.getElem?_set, hclt], rfl, rfl, rfl,
      by subst hh1; rfl,
      Or.inr ⟨hf, rfl⟩, fun x e he _ => hdev x e he,
      (fun hfalse => by cases hfalse), fun x ox hox => Or.inl (hopt x ox hox),
      fun _ => by subst hh1; rfl, fun _ _ ht _ => by subst hh1; exact ht,
      fun _ => by subst hh1; rfl, ?_, ?_, ?_⟩
    · intro x hx e he _ _ _
      refine readDevice_congr ((hdev x e he).trans he.symm) (fun e' q' he' hq' => ?_)
        (fun _ _ => hsl _)
      obtain ⟨e0, he0, hq0⟩ := hvalid x hx
      rw [he0] at he'
      cases he'
      have := Heap.dhcp_of_lt (hq0 q' hq')
      rw [hopt q' _ this, this]
    · intro p' hf'
      rw [hf] at hf'
      cases hf'
    · intro _
      have hd1 : h1.device h.devices.length
          = some { Device.named iface with DeviceDHCPOptions := some h.dhcpOptions.length } := by
        subst hh1
        simp [Heap.device]
      have ho1 : h1.dhcp h.dhcpOptions.length = some (g DHCPOptions.zero) := by
        subst hh1
        simp [Heap.dhcp]
      simp [readDevice_toValue, hd1, ho1, Device.toValue, DeviceValue.named, Device.named, hsl,
        Heap.readSlice_nil]

namespace Heap

theorem Footprint.unchanged (h : Heap) (a : Ptr) : h.Footprint h a :=
  ⟨fun _ _ => rfl, fun _ _ _ => rfl, fun _ _ _ => rfl, fun _ _ _ => rfl, le_refl _, le_refl _,
    le_refl _, fun _ hp _ => hp, fun _ hq _ => hq, fun _ hk _ => hk, fun _ _ _ => rfl,
    le_refl _, fun _ hq _ => hq⟩

theorem Footprint.andThen {h h1 h2 : Heap} {a : Ptr} (f1 : h.Footprint h1 a)
    (f2 : h1.Footprint h2 a) : h.Footprint h2 a where
  configs := fun n hn => (f2.configs n hn).trans (f1.configs n hn)
  devices := fun p hp hno =>
    (f2.devices p (lt_of_lt_of_le hp f1.growDevices)
      (fun ho => hno (f1.ownDevices p ho hp))).trans (f1.devices p hp hno)
  options := fun q hq hno =>
    (f2.options q (lt_of_lt_of_le hq f1.growOptions)
      (fun ho => hno (f1.ownOptions q ho hq))).trans (f1.options q hq hno)
  kubeSpans := fun k hk hno =>
    (f2.kubeSpans k (lt_of_lt_of_le hk f1.growKubeSpans)
      (fun ho => hno (f1.ownKubeSpan k ho hk))).trans (f1.kubeSpans k hk hno)
  growDevices := le_trans f1.growDevices f2.growDevices
  growOptions := le_trans f1.growOptions f2.growOptions
  growKubeSpans := le_trans f1.growKubeSpans f2.growKubeSpans
  ownDevices := fun p ho hp =>
    f1.ownDevices p (f2.ownDevices p ho (lt_of_lt_of_le hp f1.growDevices)) hp
  ownOptions := fun q ho hq =>
    f1.ownOptions q (f2.ownOptions q ho (lt_of_lt_of_le hq f1.growOptions)) hq
  ownKubeSpan := fun k ho hk =>
    f1.ownKubeSpan k (f2.ownKubeSpan k ho (lt_of_lt_of_le hk f1.growKubeSpans)) hk
  arrays := fun q hq hno =>
    (f2.arrays q (lt_of_lt_of_le hq f1.growArrays)
      (fun ho => hno (f1.ownArrays q ho hq))).trans (f1.arrays q hq hno)
  growArrays := le_trans f1.growArrays f2.growArrays
  ownArrays := fun q ho hq =>
    f1.ownArrays q (f2.ownArrays q ho (lt_of_lt_of_le hq f1.growArrays)) hq

theorem Separate.symm {h : Heap} {a b : Ptr} (s : h.Separate a b) : h.Separate b a :=
  ⟨s.ne.symm, fun p hb ha => s.devices p ha hb, fun q hb ha => s.options q ha hb,
    fun k hb ha => s.kubeSpans k ha hb, fun q hb ha => s.arrays q ha hb⟩

/-- Writes to the document at `a` do not change the value of a document that shares
no cell with it. -/
theorem Footprint.readConfig_other {h h' : Heap} {a b : Ptr} (f : h.Footprint h' a)
    (s : h.Separate a b) (hwf : h.pointersValid = true) (hsl : h.slicesValid = true) :
    h'.readConfig b = h.readConfig b := by
  cases hb : h.config b with
  | none =>
    have hb' : h'.config b = none := (f.configs b s.ne.symm).trans hb
    simp [readConfig, hb, hb']
  | some vb =>
    have hvalid := Heap.validConfig_iff.1 (Heap.validConfig_of_config hwf hb)
    have hslices := Heap.validSlices_iff.1 (Heap.validSlices_of_config hsl hb)
    refine readConfig_congr hb ((f.configs b s.ne.symm).trans hb) ?_ ?_ ?_ ?_ ?_
    · intro p hp
      exact f.devices p (Heap.interfaces_lt hwf hb p hp)
        (fun ha => s.devices p ha ⟨vb, hb, hp⟩)
    · intro p hp d q hd hq
      obtain ⟨d', hd', hlt⟩ := Heap.validDevice_iff.1 (hvalid.1 p hp)
      rw [hd] at hd'
      cases hd'
      exact f.options q (hlt q hq) (fun ha => s.options q ha ⟨vb, p, d, hb, hp, hd, hq⟩)
    · intro k hk
      exact f.kubeSpans k (hvalid.2 k hk) (fun ha => s.kubeSpans k ha ⟨vb, hb, hk⟩)
    · intro p hp d hd
      refine readSlice_congr (fun q hq => ?_)
      exact f.arrays q (lt_of_validSlice (hslices.2 p hp d hd) hq)
        (fun ha => s.arrays q ha ⟨vb, hb, Or.inr ⟨p, d, hp, hd, hq⟩⟩)
    · refine readSlice_congr (fun q hq => ?_)
      exact f.arrays q (lt_of_validSlice hslices.1 hq)
        (fun ha => s.arrays q ha ⟨vb, hb, Or.inl hq⟩)

end Heap

/-- An option of the shape `cfg.getDevice(iface).F = v` that keeps the options
pointer, together with a change `A` of the backing arrays that leaves alone the arrays
the document does not own, writes to the document only; the address slice that `f`
assigns has to lie in the array of the previous one or in a fresh array. -/
theorem assignDevice_footprint_of {h : Heap} {cfg : Ptr} {v : NetworkConfig} (iface : String)
    (f : Device → Device) (mt : MachineType) (A : List (List String))
    (hdhcp : ∀ d, (f d).DeviceDHCPOptions = d.DeviceDHCPOptions)
    (hgrow : h.arrays.length ≤ A.length)
    (harr : ∀ q, q < h.arrays.length → ¬ h.ownsArray cfg q → A[q]? = h.arrays[q]?)
    (hadr : ∀ d q, d.DeviceAddresses = addressesOf h cfg iface →
      (f d).DeviceAddresses.array = some q → q < h.arrays.length →
      d.DeviceAddresses.array = some q)
    (hwf : h.pointersValid = true) (hcfg : h.config cfg = some v) :
    ∃ h', assignDevice iface f mt cfg h = some (h', none) ∧
      h.Footprint (h'.withArrays A) cfg := by
  have hlt := Heap.interfaces_lt hwf hcfg
  rcases assignDevice_cases iface hwf hcfg with ⟨p, d, hf, hd, hname, hm, hrun⟩ | ⟨hf, hrun⟩
  · refine ⟨_, hrun f mt, ?_⟩
    have hda : d.DeviceAddresses = addressesOf h cfg iface := by
      simp [addressesOf, hcfg, hf, hd]
    generalize hh1 : ({ h with devices := h.devices.set p (f d) } : Heap) = h1
    have hc : ∀ n, h1.config n = h.config n := by
      intro n
      subst hh1
      rfl
    have hdev : ∀ x, x ≠ p → h1.device x = h.device x := by
      intro x hx
      subst hh1
      simp [Heap.device, List.getElem?_set, Ne.symm hx]
    have hd1 : h1.device p = some (f d) := by
      subst hh1
      simp [Heap.device, List.getElem?_set, Heap.lt_of_device hd]
    refine ⟨fun n _ => hc n, ?_, fun _ _ _ => by subst hh1; rfl, fun _ _ _ => by subst hh1; rfl,
      by subst hh1; simp [Heap.withArrays], by subst hh1; simp [Heap.withArrays],
      by subst hh1; simp [Heap.withArrays], ?_, ?_, ?_, harr, hgrow, ?_⟩
    · intro x _ hno
      exact hdev x (fun hx => hno (hx ▸ ⟨v, hcfg, hm⟩))
    · rintro x ⟨v', hv', hx⟩ _
      exact ⟨v', (hc cfg).symm.trans hv', hx⟩
    · rintro q ⟨v', x, d', hv', hx, hd', hq'⟩ _
      have hv'' := (hc cfg).symm.trans hv'
      by_cases hxp : x = p
      · subst hxp
        have hd'' : h1.device x = some d' := hd'
        rw [hd1] at hd''
        cases hd''
        exact ⟨v', x, d, hv'', hx, hd, (hdhcp d).symm.trans hq'⟩
      · exact ⟨v', x, d', hv'', hx, (hdev x hxp).symm.trans hd', hq'⟩
    · rintro k ⟨v', hv', hk⟩ _
      exact ⟨v', (hc cfg).symm.trans hv', hk⟩
    · rintro q ⟨v', hv', hor⟩ hqlt
      have hv'' := (hc cfg).symm.trans hv'
      rcases hor with hns | ⟨x, d', hx, hd', hq'⟩
      · exact ⟨v', hv'', Or.inl hns⟩
      · by_cases hxp : x = p
        · subst hxp
          have hd'' : h1.device x = some d' := hd'
          rw [hd1] at hd''
          cases hd''
          exact ⟨v', hv'', Or.inr ⟨x, d, hx, hd, hadr d q hda hq' hqlt⟩⟩
        · exact ⟨v', hv'', Or.inr ⟨x, d', hx, (hdev x hxp).symm.trans hd', hq'⟩⟩
  · have hclt := Heap.lt_of_config hcfg
    refine ⟨_, hrun f mt, ?_⟩
    have hda : (Device.named iface).DeviceAddresses = addressesOf h cfg iface := by
      simp [addressesOf, hcfg, hf, Device.named]
    generalize hh1 :
      ({ configs := h.configs.set cfg
           { v with NetworkInterfaces := v.NetworkInterfaces ++ [h.devices.length] },
         devices := h.devices ++ [f (Device.named iface)],
         dhcpOptions := h.dhcpOptions, kubeSpans := h.kubeSpans, arrays := h.arrays } : Heap) = h1
    have hc1 : h1.config cfg
        = some { v with NetworkInterfaces := v.NetworkInterfaces ++ [h.devices.length] } := by
      subst hh1
      simp [Heap.config, List.getElem?_set, hclt]
    have hdev : ∀ x, x < h.devices.length → h1.device x = h.device x := by
      intro x hx
      subst hh1
      simp [Heap.device, List.getElem?_append_left hx]
    have hd1 : h1.device h.devices.length = some (f (Device.named iface)) := by
      subst hh1
      simp [Heap.device]
    refine ⟨fun n hn => by
        subst hh1
        simp [Heap.withArrays, Heap.config, List.getElem?_set, Ne.symm hn],
      fun x hx _ => hdev x hx, fun _ _ _ => by subst hh1; rfl, fun _ _ _ => by subst hh1; rfl,
      by subst hh1; simp [Heap.withArrays], by subst hh1; simp [Heap.withArrays],
      by subst hh1; simp [Heap.withArrays], ?_, ?_, ?_, harr, hgrow, ?_⟩
    · rintro x ⟨v', hv', hx⟩ hxlt
      have hv'' : h1.config cfg = some v' := hv'
      rw [hc1] at hv''
      cases hv''
      rcases List.mem_append.1 hx with hx | hx
      · exact ⟨v, hcfg, hx⟩
      · simp at hx
        subst hx
        exact absurd hxlt (Nat.lt_irrefl _)
    · rintro q ⟨v', x, d', hv', hx, hd', hq'⟩ _
      have hv'' : h1.config cfg = some v' := hv'
      rw [hc1] at hv''
      cases hv''
      rcases List.mem_append.1 hx with hx | hx
      · exact ⟨v, x, d', hcfg, hx, (hdev x (hlt x hx)).symm.trans hd', hq'⟩
      · simp at hx
        subst hx
        have hd'' : h1.device h.devices.length = some d' := hd'
        rw [hd1] at hd''
        cases hd''
        rw [hdhcp] at hq'
        cases hq'
    · rintro k ⟨v', hv', hk⟩ _
      have hv'' : h1.config cfg = some v' := hv'
      rw [hc1] at hv''
      cases hv''
      exact ⟨v, hcfg, hk⟩
    · rintro q ⟨v', hv', hor⟩ hqlt
      have hv'' : h1.config cfg = some v' := hv'
      rw [hc1] at hv''
      cases hv''
      rcases hor with hns | ⟨x, d', hx, hd', hq'⟩
      · exact ⟨v, hcfg, Or.inl hns⟩
      · rcases List.mem_append.1 hx with hx | hx
        · exact ⟨v, hcfg, Or.inr ⟨x, d', hx, (hdev x (hlt x hx)).symm.trans hd', hq'⟩⟩
        · simp at hx
          subst hx
          have hd'' : h1.device h.devices.length = some d' := hd'
          rw [hd1] at hd''
          cases hd''
          have := hadr _ q hda hq' hqlt
          simp [Device.named, Slice.nil] at this

/-- An option of the shape `cfg.getDevice(iface).F = v` that keeps the options
pointer and the address slice writes to the document only. -/
theorem assignDevice_footprint {h : Heap} {cfg : Ptr} {v : NetworkConfig} (iface : String)
    (f : Device → Device) (mt : MachineType)
    (hdhcp : ∀ d, (f d).DeviceDHCPOptions = d.DeviceDHCPOptions)
    (hadr : ∀ d, (f d).DeviceAddresses = d.DeviceAddresses)
    (hwf : h.pointersValid = true) (hcfg : h.config cfg = some v) :
    ∃ h', assignDevice iface f mt cfg h = some (h', none) ∧ h.Footprint h' cfg := by
  obtain ⟨h', hrun, hfp⟩ := assignDevice_footprint_of iface f mt h.arrays hdhcp (le_refl _)
    (fun _ _ _ => rfl) (fun d q _ hq _ => by rw [← hadr d]; exact hq) hwf hcfg
  have harr := assignDevice_arrays hrun
  have e : h'.withArrays h.arrays = h' := by
    rw [← harr]
    rfl
  rw [e] at hfp
  exact ⟨h', hrun, hfp⟩

/-- The option `WithNetworkInterfaceCIDR` writes to the document only. -/
theorem withNetworkInterfaceCIDR_footprint {h : Heap} {cfg : Ptr} {v : NetworkConfig}
    (iface cidr : String) (mt : MachineType)
    (hwf : h.pointersValid = true) (hcfg : h.config cfg = some v) :
    ∃ h', WithNetworkInterfaceCIDR iface cidr mt cfg h = some (h', none) ∧
      h.Footprint h' cfg := by
  obtain ⟨h', hrun, hfp⟩ := assignDevice_footprint_of iface
    (fun d => { d with DeviceAddresses := (h.append (addressesOf h cfg iface) [cidr]).2 }) mt
    (h.append (addressesOf h cfg iface) [cidr]).1.arrays (fun _ => rfl)
    (Heap.append_arrays_length h _ _)
    (fun q hq hno => by
      refine Heap.append_other_array h _ _ q (fun hown => hno ?_) hq
      rcases addressesOf_cases h cfg iface with hnil | ⟨v0, p, d, hv0, hf, hd, hda⟩
      · rw [hnil] at hown
        simp [Slice.nil] at hown
      · rw [hda] at hown
        exact ⟨v0, hv0, Or.inr ⟨p, d, (findDevice_found hf).1, hd, hown⟩⟩)
    (fun d q hda hq hqlt => by
      rw [hda]
      exact Heap.append_array_old hq hqlt)
    hwf hcfg
  refine ⟨_, ?_, hfp⟩
  rw [withNetworkInterfaceCIDR_eq iface cidr mt hwf hcfg, hrun]
  rfl

/-- The DHCPv4 and DHCPv6 shape writes to the document only. -/
theorem assignDhcp_footprint {h : Heap} {cfg : Ptr} {v : NetworkConfig} (iface : String)
    (g : DHCPOptions → DHCPOptions) (mt : MachineType)
    (hwf : h.pointersValid = true) (hcfg : h.config cfg = some v) :
    ∃ h', assignDhcp iface g mt cfg h = some (h', none) ∧ h.Footprint h' cfg := by
  have hlt := Heap.interfaces_lt hwf hcfg
  rcases assignDhcp_cases iface hwf hcfg with
    ⟨p, d, q, o, hf, hd, hname, hm, hq, ho, hrun⟩ | ⟨p, d, hf, hd, hname, hm, hq, hrun⟩ |
    ⟨hf, hrun⟩
  · refine ⟨_, hrun g mt, ?_⟩
    generalize hh1 : ({ h with dhcpOptions := h.dhcpOptions.set q (g o) } : Heap) = h1
    have hc : ∀ n, h1.config n = h.config n := by
      intro n
      subst hh1
      rfl
    have hdev : ∀ x, h1.device x = h.device x := by
      intro x
      subst hh1
      rfl
    refine ⟨fun n _ => hc n, fun x _ _ => hdev x, ?_, fun _ _ _ => by subst hh1; rfl,
      by subst hh1; simp, by subst hh1; simp, by subst hh1; simp, ?_, ?_, ?_,
      fun _ _ _ => by subst hh1; rfl, by subst hh1; exact le_refl _, ?_⟩
    · intro x _ hno
      have hx : q ≠ x := fun hx => hno (hx ▸ ⟨v, p, d, hcfg, hm, hd, hq⟩)
      subst hh1
      simp [Heap.dhcp, List.getElem?_set, hx]
    · rintro x ⟨v', hv', hx⟩ _
      exact ⟨v', (hc cfg).symm.trans hv', hx⟩
    · rintro q' ⟨v', x, d', hv', hx, hd', hq'⟩ _
      exact ⟨v', x, d', (hc cfg).symm.trans hv', hx, (hdev x).symm.trans hd', hq'⟩
    · rintro k ⟨v', hv', hk⟩ _
      exact ⟨v', (hc cfg).symm.trans hv', hk⟩
    · rintro q' ⟨v', hv', hor⟩ _
      have hv'' := (hc cfg).symm.trans hv'
      rcases hor with hns | ⟨x, d', hx, hd', hq'⟩
      · exact ⟨v', hv'', Or.inl hns⟩
      · exact ⟨v', hv'', Or.inr ⟨x, d', hx, (hdev x).symm.trans hd', hq'⟩⟩
  · refine ⟨_, hrun g mt, ?_⟩
    generalize hh1 :
      ({ h with
         devices := h.devices.set p { d with DeviceDHCPOptions := some h.dhcpOptions.length },
         dhcpOptions := h.dhcpOptions ++ [g DHCPOptions.zero] } : Heap) = h1
    have hc : ∀ n, h1.config n = h.config n := by
      intro n
      subst hh1
      rfl
    have hdev : ∀ x, x ≠ p → h1.device x = h.device x := by
      intro x hx
      subst hh1
      simp [Heap.device, List.getElem?_set, Ne.symm hx]
    have hd1 : h1.device p = some { d with DeviceDHCPOptions := some h.dhcpOptions.length } := by
      subst hh1
      simp [Heap.device, List.getElem?_set, Heap.lt_of_device hd]
    refine ⟨fun n _ => hc n, ?_, ?_, fun _ _ _ => by subst hh1; rfl,
      by subst hh1; simp, by subst hh1; simp, by subst hh1; simp, ?_, ?_, ?_,
      fun _ _ _ => by subst hh1; rfl, by subst hh1; exact le_refl _, ?_⟩
    · intro x _ hno
      exact hdev x (fun hx => hno (hx ▸ ⟨v, hcfg, hm⟩))
    · intro x hx _
      subst hh1
      simp [Heap.dhcp, List.getElem?_append_left hx]
    · rintro x ⟨v', hv', hx⟩ _
      exact ⟨v', (hc cfg).symm.trans hv', hx⟩
    · rintro q' ⟨v', x, d', hv', hx, hd', hq'⟩ hq'lt
      have hv'' := (hc cfg).symm.trans hv'
      by_cases hxp : x = p
      · subst hxp
        rw [hd1] at hd'
        cases hd'
        simp at hq'
        subst hq'
        exact absurd hq'lt (Nat.lt_irrefl _)
      · exact ⟨v', x, d', hv'', hx, (hdev x hxp).symm.trans hd', hq'⟩
    · rintro k ⟨v', hv', hk⟩ _
      exact ⟨v', (hc cfg).symm.trans hv', hk⟩
    · rintro q' ⟨v', hv', hor⟩ _
      have hv'' := (hc cfg).symm.trans hv'
      rcases hor with hns | ⟨x, d', hx, hd', hq'⟩
      · exact ⟨v', hv'', Or.inl hns⟩
      · by_cases hxp : x = p
        · subst hxp
          rw [hd1] at hd'
          cases hd'
          exact ⟨v', hv'', Or.inr ⟨x, d, hx, hd, hq'⟩⟩
        · exact ⟨v', hv'', Or.inr ⟨x, d', hx, (hdev x hxp).symm.trans hd', hq'⟩⟩
  · have hclt := Heap.lt_of_config hcfg
    refine ⟨_, hrun g mt, ?_⟩
    generalize hh1 :
      ({ configs := h.configs.set cfg
           { v with NetworkInterfaces := v.NetworkInterfaces ++ [h.devices.length] },
         devices := h.devices ++
           [{ Device.named iface with DeviceDHCPOptions := some h.dhcpOptions.length }],
         dhcpOptions := h.dhcpOptions ++ [g DHCPOptions.zero],
         kubeSpans := h.kubeSpans, arrays := h.arrays } : Heap) = h1
    have hc1 : h1.config cfg
        = some { v with NetworkInterfaces := v.NetworkInterfaces ++ [h.devices.length] } := by
      subst hh1
      simp [Heap.config, List.getElem?_set, hclt]
    have hdev : ∀ x, x < h.devices.length → h1.device x = h.device x := by
      intro x hx
      subst hh1
      simp [Heap.device, List.getElem?_append_left hx]
    have hd1 : h1.device h.devices.length
        = some { Device.named iface with DeviceDHCPOptions := some h.dhcpOptions.length } := by
      subst hh1
      simp [Heap.device]
    refine ⟨fun n hn => by subst hh1; simp [Heap.config, List.getElem?_set, Ne.symm hn],
      fun x hx _ => hdev x hx, ?_, fun _ _ _ => by subst hh1; rfl,
      by subst hh1; simp, by subst hh1; simp, by subst hh1; simp, ?_, ?_, ?_,
      fun _ _ _ => by subst hh1; rfl, by subst hh1; exact le_refl _, ?_⟩
    · intro x hx _
      subst hh1
      simp [Heap.dhcp, List.getElem?_append_left hx]
    · rintro x ⟨v', hv', hx⟩ hxlt
      rw [hc1] at hv'
      cases hv'
      rcases List.mem_append.1 hx with hx | hx
      · exact ⟨v, hcfg, hx⟩
      · simp at hx
        subst hx
        exact absurd hxlt (Nat.lt_irrefl _)
    · rintro q' ⟨v', x, d', hv', hx, hd', hq'⟩ hq'lt
      rw [hc1] at hv'
      cases hv'
      rcases List.mem_append.1 hx with hx | hx
      · exact ⟨v, x, d', hcfg, hx, (hdev x (hlt x hx)).symm.trans hd', hq'⟩
      · simp at hx
        subst hx
        rw [hd1] at hd'
        cases hd'
        simp at hq'
        subst hq'
        exact absurd hq'lt (Nat.lt_irrefl _)
    · rintro k ⟨v', hv', hk⟩ _
      rw [hc1] at hv'
      cases hv'
      exact ⟨v, hcfg, hk⟩
    · rintro q' ⟨v', hv', hor⟩ _
      rw [hc1] at hv'
      cases hv'
      rcases hor with hns | ⟨x, d', hx, hd', hq'⟩
      · exact ⟨v, hcfg, Or.inl hns⟩
      · rcases List.mem_append.1 hx with hx | hx
        · exact ⟨v, hcfg, Or.inr ⟨x, d', hx, (hdev x (hlt x hx)).symm.trans hd', hq'⟩⟩
        · simp at hx
          subst hx
          rw [hd1] at hd'
          cases hd'
          simp [Device.named, Slice.nil] at hq'

theorem withNetworkNameservers_footprint {h : Heap} {cfg : Ptr} {v : NetworkConfig}
    (ns : List String) (mt : MachineType) (hcfg : h.config cfg = some v) :
    ∃ h', WithNetworkNameservers ns mt cfg h = some (h', none) ∧ h.Footprint h' cfg := by
  refine ⟨_, withNetworkNameservers_eq ns mt hcfg, ?_⟩
  obtain ⟨e1, e2, e3, e4⟩ := Heap.append_cells h v.NameServers ns
  have hcfg0 : (h.append v.NameServers ns).1.config cfg = some v := by
    rw [Heap.append_config]
    exact hcfg
  have hc1 := Heap.config_storeConfig_self
    { v with NameServers := (h.append v.NameServers ns).2 } hcfg0
  have hdev : ∀ x, ((h.append v.NameServers ns).1.storeConfig cfg
      { v with NameServers := (h.append v.NameServers ns).2 }).device x = h.device x :=
    fun x => Heap.append_device h _ _ x
  refine ⟨fun n hn => (Heap.config_storeConfig_ne _ _ (Ne.symm hn)).trans
      (Heap.append_config h _ _ n),
    fun x _ _ => hdev x, fun x _ _ => Heap.append_dhcp h _ _ x,
    fun x _ _ => Heap.append_kubeSpan h _ _ x,
    by simp [Heap.storeConfig, e2], by simp [Heap.storeConfig, e3],
    by simp [Heap.storeConfig, e4], ?_, ?_, ?_, ?_, Heap.append_arrays_length h _ _, ?_⟩
  · rintro x ⟨v', hv', hx⟩ _
    rw [hc1] at hv'
    cases hv'
    exact ⟨v, hcfg, hx⟩
  · rintro q ⟨v', x, d', hv', hx, hd', hq'⟩ _
    rw [hc1] at hv'
    cases hv'
    exact ⟨v, x, d', hcfg, hx, (hdev x).symm.trans hd', hq'⟩
  · rintro k ⟨v', hv', hk⟩ _
    rw [hc1] at hv'
    cases hv'
    exact ⟨v, hcfg, hk⟩
  · intro q hq hno
    exact Heap.append_other_array h _ _ q (fun hown => hno ⟨v, hcfg, Or.inl hown⟩) hq
  · rintro q ⟨v', hv', hor⟩ hqlt
    rw [hc1] at hv'
    cases hv'
    rcases hor with hns | ⟨x, d', hx, hd', hq'⟩
    · exact ⟨v, hcfg, Or.inl (Heap.append_array_old hns hqlt)⟩
    · exact ⟨v, hcfg, Or.inr ⟨x, d', hx, (hdev x).symm.trans hd', hq'⟩⟩

theorem withKubeSpan_footprint {h : Heap} {cfg : Ptr} {v : NetworkConfig} (mt : MachineType)
    (hwf : h.pointersValid = true) (hcfg : h.config cfg = some v) :
    ∃ h', WithKubeSpan mt cfg h = some (h', none) ∧ h.Footprint h' cfg := by
  cases hk : v.NetworkKubeSpan with
  | some k =>
    have hklt := (Heap.validConfig_iff.1 (Heap.validConfig_of_config hwf hcfg)).2 k hk
    have hs := Heap.kubeSpan_of_lt hklt
    refine ⟨h.storeKubeSpan k { h.kubeSpans[k] with KubeSpanEnabled := some true },
      by simp [WithKubeSpan, hcfg, hk, hs], ?_⟩
    refine ⟨fun _ _ => rfl, fun _ _ _ => rfl, fun _ _ _ => rfl, ?_, le_refl _, le_refl _,
      by simp [Heap.storeKubeSpan], fun _ ho _ => ho, fun _ ho _ => ho, fun _ ho _ => ho,
      fun _ _ _ => rfl, le_refl _, fun _ ho _ => ho⟩
    intro x _ hno
    have hx : k ≠ x := fun hx => hno (hx ▸ ⟨v, hcfg, hk⟩)
    simp [Heap.kubeSpan, Heap.storeKubeSpan, List.getElem?_set, hx]
  | none =>
    have hlt := Heap.lt_of_config hcfg
    refine ⟨((h.newKubeSpan NetworkKubeSpan.zero).1.storeConfig cfg
        { v with NetworkKubeSpan := some h.kubeSpans.length }).storeKubeSpan h.kubeSpans.length
        { NetworkKubeSpan.zero with KubeSpanEnabled := some true },
      by simp [WithKubeSpan, hcfg, hk, Heap.newKubeSpan, Heap.kubeSpan, Heap.storeConfig], ?_⟩
    generalize hh1 : ((h.newKubeSpan NetworkKubeSpan.zero).1.storeConfig cfg
        { v with NetworkKubeSpan := some h.kubeSpans.length }).storeKubeSpan h.kubeSpans.length
        { NetworkKubeSpan.zero with KubeSpanEnabled := some true } = h1
    have hc1 : h1.config cfg = some { v with NetworkKubeSpan := some h.kubeSpans.length } := by
      subst hh1
      simp [Heap.config, Heap.storeKubeSpan, Heap.storeConfig, Heap.newKubeSpan, hlt]
    have hdev : ∀ x, h1.device x = h.device x := by
      intro x
      subst hh1
      rfl
    refine ⟨fun n hn => by
        subst hh1
        simp [Heap.config, Heap.storeKubeSpan, Heap.storeConfig, Heap.newKubeSpan,
          List.getElem?_set, Ne.symm hn],
      fun x _ _ => hdev x, fun _ _ _ => by subst hh1; rfl, ?_, by subst hh1; exact le_refl _,
      by subst hh1; exact le_refl _,
      by subst hh1; simp [Heap.storeKubeSpan, Heap.storeConfig, Heap.newKubeSpan], ?_, ?_, ?_,
      fun _ _ _ => by subst hh1; rfl, by subst hh1; exact le_refl _, ?_⟩
    · intro x hx _
      have hne : h.kubeSpans.length ≠ x := Nat.ne_of_gt hx
      subst hh1
      simp [Heap.kubeSpan, Heap.storeKubeSpan, Heap.storeConfig, Heap.newKubeSpan,
        List.getElem?_set, hne, List.getElem?_append_left hx]
    · rintro x ⟨v', hv', hx⟩ _
      rw [hc1] at hv'
      cases hv'
      exact ⟨v, hcfg, hx⟩
    · rintro q ⟨v', x, d', hv', hx, hd', hq'⟩ _
      rw [hc1] at hv'
      cases hv'
      exact ⟨v, x, d', hcfg, hx, (hdev x).symm.trans hd', hq'⟩
    · rintro k ⟨v', hv', hk'⟩ hklt
      rw [hc1] at hv'
      cases hv'
      simp at hk'
      subst hk'
      exact absurd hklt (Nat.lt_irrefl _)
    · rintro q ⟨v', hv', hor⟩ _
      rw [hc1] at hv'
      cases hv'
      rcases hor with hns | ⟨x, d', hx, hd', hq'⟩
      · exact ⟨v, hcfg, Or.inl hns⟩
      · exact ⟨v, hcfg, Or.inr ⟨x, d', hx, (hdev x).symm.trans hd', hq'⟩⟩

/-- Every call that does not replace the document returns a nil error, keeps the
heap well-formed and writes to the document only. -/
theorem build_footprint (c : OptionCall) (mt : MachineType) {h : Heap} {cfg : Ptr}
    (hrep : c.replaces = false) (hwf : h.pointersValid = true) (hcfg : h.hasConfig cfg = true) :
    ∃ h', c.build mt cfg h = some (h', none) ∧ h'.pointersValid = true ∧
      h'.hasConfig cfg = true ∧ h.Footprint h' cfg := by
  have hargs : c.argsValid h = true := by
    cases c <;> first | rfl | simp [OptionCall.replaces] at hrep
  obtain ⟨h0, hrun0, hwf0, hlen0, -⟩ := build_stepOk c mt hwf hcfg hargs
  have hc := Heap.config_of_lt (of_decide_eq_true hcfg)
  have key : ∃ h', c.build mt cfg h = some (h', none) ∧ h.Footprint h' cfg := by
    cases c with
    | networkConfig c0 => simp [OptionCall.replaces] at hrep
    | networkNameservers ns => exact withNetworkNameservers_footprint ns mt hc
    | interfaceIgnore i =>
      exact assignDevice_footprint i _ mt (fun _ => rfl) (fun _ => rfl) hwf hc
    | interfaceDHCP i e =>
      exact assignDevice_footprint i _ mt (fun _ => rfl) (fun _ => rfl) hwf hc
    | interfaceDHCPv4 i e => exact assignDhcp_footprint i _ mt hwf hc
    | interfaceDHCPv6 i e => exact assignDhcp_footprint i _ mt hwf hc
    | interfaceCIDR i cidr => exact withNetworkInterfaceCIDR_footprint i cidr mt hwf hc
    | interfaceMTU i m =>
      exact assignDevice_footprint i _ mt (fun _ => rfl) (fun _ => rfl) hwf hc
    | interfaceWireguard i w =>
      exact assignDevice_footprint i _ mt (fun _ => rfl) (fun _ => rfl) hwf hc
    | interfaceVirtualIP i cidr =>
      by_cases hmt : mt = MachineType.TypeWorker
      · exact ⟨h, by simp [OptionCall.build, WithNetworkInterfaceVirtualIP, hmt],
          Heap.Footprint.unchanged h cfg⟩
      · obtain ⟨h', hrun, hfp⟩ := assignDevice_footprint i
          (fun d => { d with DeviceVIPConfig := some { SharedIP := cidr } }) mt
          (fun _ => rfl) (fun _ => rfl) hwf hc
        rw [← withNetworkInterfaceVirtualIP_eq i cidr mt hmt] at hrun
        exact ⟨h', hrun, hfp⟩
    | kubeSpan => exact withKubeSpan_footprint mt hwf hc
  obtain ⟨h', hrun, hfp⟩ := key
  have e : h0 = h' := by
    have := hrun0.symm.trans hrun
    simpa using this
  subst e
  exact ⟨h0, hrun, hwf0, hasConfig_of_length hlen0 hcfg, hfp⟩

/-- A run of calls none of which replaces the document returns a nil error, keeps
the heap well-formed and writes to the document only. -/
theorem applyCalls_footprint (mt : MachineType) (cfg : Ptr) (cs : List OptionCall) {h : Heap}
    (hrep : ∀ c ∈ cs, c.replaces = false) (hwf : h.pointersValid = true)
    (hcfg : h.hasConfig cfg = true) :
    ∃ h', applyCalls mt cfg cs h = some (h', none) ∧ h'.pointersValid = true ∧
      h.Footprint h' cfg := by
  induction cs generalizing h with
  | nil => exact ⟨h, rfl, hwf, Heap.Footprint.unchanged h cfg⟩
  | cons c cs ih =>
    obtain ⟨h1, hrun1, hwf1, hcfg1, hfp1⟩ :=
      build_footprint c mt (hrep c (List.mem_cons_self _ _)) hwf hcfg
    obtain ⟨h2, hrun2, hwf2, hfp2⟩ :=
      ih (fun d hd => hrep d (List.mem_cons_of_mem _ hd)) hwf1 hcfg1
    exact ⟨h2, (applyCalls_cons cs hrun1 h2).2 hrun2, hwf2, hfp1.andThen hfp2⟩

namespace Heap

/-- The copy of a slice lives in a fresh array. -/
theorem copySlice_fresh {h : Heap} {s : Slice} {xs : List String}
    (hx : h.readSlice s = some xs) :
    ∃ h1 s1, h.copySlice s = some (h1, s1) ∧ h.Extends h1 ∧ h1.readSlice s1 = some xs ∧
      h1.configs = h.configs ∧ h1.devices = h.devices ∧ h1.dhcpOptions = h.dhcpOptions ∧
      h1.kubeSpans = h.kubeSpans ∧ h1.arrays.length = h.arrays.length + 1 ∧
      s1.array = some h.arrays.length ∧ h1.validSlice s1 = true :=
  ⟨{ h with arrays := h.arrays ++ [xs] },
    { array := some h.arrays.length, offset := 0, len := xs.length, cap := xs.length },
    by simp [copySlice, hx], extends_newArray h xs, by simp [readSlice], rfl, rfl, rfl, rfl,
    by simp, rfl, by simp [validSlice]⟩

theorem validSlice_of_extends {h h1 : Heap} (he : h.Extends h1) {s : Slice}
    (hv : h.validSlice s = true) : h1.validSlice s = true :=
  validSlice_mono (fun q a ha => ⟨a, he.array q a ha, rfl⟩) hv

/-- The copy of a device lives in the first fresh device cell, its options, if any,
in a fresh options cell, and its addresses in a fresh array. -/
theorem copyDevice_fresh {h : Heap} {p : Ptr} {x : DeviceValue} (hx : h.readDevice p = some x) :
    ∃ h1, h.copyDevice p = some (h1, h.devices.length) ∧ h.Extends h1 ∧
      h1.readDevice h.devices.length = some x ∧ h1.configs = h.configs ∧
      h1.kubeSpans = h.kubeSpans ∧ h1.devices.length = h.devices.length + 1 ∧
      h.dhcpOptions.length ≤ h1.dhcpOptions.length ∧
      h.arrays.length ≤ h1.arrays.length ∧
      ∀ d, h1.device h.devices.length = some d →
        (∀ q, d.DeviceDHCPOptions = some q →
          h.dhcpOptions.length ≤ q ∧ q < h1.dhcpOptions.length) ∧
        h1.validSlice d.DeviceAddresses = true ∧
        ∀ q, d.DeviceAddresses.array = some q → h.arrays.length ≤ q := by
  rw [readDevice_toValue] at hx
  cases hd : h.device p with
  | none => simp [hd] at hx
  | some d =>
    cases hs : h.readSlice d.DeviceAddresses with
    | none => simp [hd, hs] at hx
    | some addresses =>
      obtain ⟨h0, s0, hcopy, he0, hread0, c1, c2, c3, c4, hl0, hs0, hv0⟩ := copySlice_fresh hs
      have hlen0 : h0.devices.length = h.devices.length := by rw [c2]
      simp only [hd, hs, Option.some_bind] at hx
      cases hq : d.DeviceDHCPOptions with
      | none =>
        simp only [hq, Option.some.injEq] at hx
        have hrd := readDevice_newDevice h0 { d with DeviceAddresses := s0 }
        have hidx : (h0.newDevice { d with DeviceAddresses := s0 }).2 = h.devices.length := hlen0
        rw [hidx] at hrd
        refine ⟨(h0.newDevice { d with DeviceAddresses := s0 }).1,
          by simp [copyDevice, hd, hcopy, hq, newDevice, hlen0],
          he0.trans (extends_newDevice _ _), ?_, c1, c4, by simp [newDevice, hlen0],
          by simp [newDevice, c3], by simp [newDevice, hl0], ?_⟩
        · rw [hrd]
          simp [hread0, hq, ← hx, Device.toValue]
        · intro d' hd'
          have hd'' : (h0.devices ++ [{ d with DeviceAddresses := s0 }])[h.devices.length]?
              = some d' := hd'
          rw [← hlen0, List.getElem?_concat_length] at hd''
          cases hd''
          refine ⟨fun q' hq' => ?_, validSlice_of_extends (extends_newDevice _ _) hv0, ?_⟩
          · simp [hq] at hq'
          · intro q' hq'
            simp only [hs0, Option.some.injEq] at hq'
            exact le_of_eq hq'
      | some q =>
        simp only [hq] at hx
        cases ho : h.dhcp q with
        | none => simp [ho] at hx
        | some o =>
          simp only [ho, Option.map_some', Option.some.injEq] at hx
          have ho0 := he0.dhcp q o ho
          have hlen1 : (h0.newDhcp o).1.devices.length = h.devices.length := hlen0
          have hrd := readDevice_newDevice (h0.newDhcp o).1
            { d with DeviceAddresses := s0, DeviceDHCPOptions := some (h0.newDhcp o).2 }
          have hidx : ((h0.newDhcp o).1.newDevice
              { d with DeviceAddresses := s0, DeviceDHCPOptions := some (h0.newDhcp o).2 }).2
                = h.devices.length := hlen0
          rw [hidx] at hrd
          refine ⟨((h0.newDhcp o).1.newDevice
              { d with DeviceAddresses := s0, DeviceDHCPOptions := some (h0.newDhcp o).2 }).1,
            by simp [copyDevice, hd, hcopy, hq, ho0, newDevice, newDhcp, hlen0],
            he0.trans ((extends_newDhcp _ o).trans (extends_newDevice _ _)), ?_, c1, c4,
            by simp [newDevice, newDhcp, hlen0], by simp [newDevice, newDhcp, c3],
            by simp [newDevice, newDhcp, hl0], ?_⟩
          · rw [hrd]
            have hr := readSlice_of_extends (extends_newDhcp h0 o) hread0
            have hn : (h0.newDhcp o).1.dhcp (h0.newDhcp o).2 = some o := by
              simp [Heap.newDhcp, Heap.dhcp]
            simp [hr, hn, ← hx, Device.toValue]
          · intro d' hd'
            have hd'' : (h0.devices ++
                [{ d with DeviceAddresses := s0,
                          DeviceDHCPOptions := some (h0.newDhcp o).2 }])[h.devices.length]?
                = some d' := hd'
            rw [← hlen0, List.getElem?_concat_length] at hd''
            cases hd''
            refine ⟨fun q' hq' => ?_,
              validSlice_of_extends ((extends_newDhcp _ o).trans (extends_newDevice _ _)) hv0,
              ?_⟩
            · simp only [Option.some.injEq] at hq'
              subst hq'
              simp [newDevice, newDhcp, c3]
            · intro q' hq'
              simp only [hs0, Option.some.injEq] at hq'
              exact le_of_eq hq'

/-- The copies of a list of devices live in fresh device cells, their options in
fresh options cells and their addresses in fresh arrays. -/
theorem copyDevices_fresh {h : Heap} {ps : List Ptr} {xs : List DeviceValue}
    (hx : h.readDevices ps = some xs) :
    ∃ h1 ps1, h.copyDevices ps = some (h1, ps1) ∧ h.Extends h1 ∧
      h1.readDevices ps1 = some xs ∧ h1.configs = h.configs ∧ h1.kubeSpans = h.kubeSpans ∧
      h.devices.length ≤ h1.devices.length ∧ h.dhcpOptions.length ≤ h1.dhcpOptions.length ∧
      h.arrays.length ≤ h1.arrays.length ∧
      ∀ x ∈ ps1, h.devices.length ≤ x ∧ x < h1.devices.length ∧
        ∀ d, h1.device x = some d →
          (∀ q, d.DeviceDHCPOptions = some q →
            h.dhcpOptions.length ≤ q ∧ q < h1.dhcpOptions.length) ∧
          h1.validSlice d.DeviceAddresses = true ∧
          ∀ q, d.DeviceAddresses.array = some q → h.arrays.length ≤ q := by
  induction ps generalizing h xs with
  | nil =>
    simp only [readDevices, Option.some.injEq] at hx
    subst hx
    exact ⟨h, [], rfl, Extends.refl h, rfl, rfl, rfl, le_refl _, le_refl _, le_refl _,
      by simp⟩
  | cons p ps ih =>
    simp only [readDevices] at hx
    cases hr : h.readDevice p with
    | none => simp [hr] at hx
    | some x0 =>
      cases hrs : h.readDevices ps with
      | none => simp [hr, hrs] at hx
      | some xs0 =>
        simp only [hr, hrs, Option.some.injEq] at hx
        subst hx
        obtain ⟨h1, hc1, he1, hr1, hg1, hk1, hl1, hq1, ha1, hf1⟩ := copyDevice_fresh hr
        obtain ⟨h2, ps2, hc2, he2, hr2, hg2, hk2, hl2, hq2, ha2, hf2⟩ :=
          ih (readDevices_of_extends he1 hrs)
        refine ⟨h2, h.devices.length :: ps2, ?_, he1.trans he2, ?_, hg2.trans hg1,
          hk2.trans hk1, ?_, le_trans hq1 hq2, le_trans ha1 ha2, ?_⟩
        · simp [copyDevices, hc1, hc2]
        · simp [readDevices, readDevice_of_extends he2 hr1, hr2]
        · rw [hl1] at hl2
          exact le_trans (Nat.le_succ _) hl2
        · intro x hxm
          rcases List.mem_cons.1 hxm with hxe | hxm
          · subst hxe
            refine ⟨le_refl _, ?_, ?_⟩
            · rw [hl1] at hl2
              exact lt_of_lt_of_le (Nat.lt_succ_self _) hl2
            · intro d hd
              have hlt1 : h.devices.length < h1.devices.length := by
                rw [hl1]
                exact Nat.lt_succ_self _
              have hd1 : h1.device h.devices.length = some h1.devices[h.devices.length] := by
                simp [Heap.device, hlt1]
              have := he2.device _ _ hd1
              rw [hd] at this
              cases this
              obtain ⟨b1, b2, b3⟩ := hf1 _ hd1
              refine ⟨fun q hq => ?_, validSlice_of_extends he2 b2, b3⟩
              obtain ⟨c1, c2⟩ := b1 q hq
              exact ⟨c1, lt_of_lt_of_le c2 hq2⟩
          · obtain ⟨b1, b2, b3⟩ := hf2 x hxm
            refine ⟨?_, b2, ?_⟩
            · rw [hl1] at b1
              exact le_trans (Nat.le_succ _) b1
            · intro d hd
              obtain ⟨c1, c2, c3⟩ := b3 d hd
              refine ⟨fun q hq => ?_, c2, fun q hq => le_trans ha1 (c3 q hq)⟩
              obtain ⟨e1, e2⟩ := c1 q hq
              exact ⟨le_trans hq1 e1, e2⟩

theorem copyKubeSpan_fresh {h : Heap} {k : Option Ptr} {x : Option NetworkKubeSpan}
    (hx : h.readKubeSpan k = some x) :
    ∃ h1 k1, h.copyKubeSpan k = some (h1, k1) ∧ h.Extends h1 ∧
      h1.readKubeSpan k1 = some x ∧ h1.configs = h.configs ∧ h1.devices = h.devices ∧
      h1.dhcpOptions = h.dhcpOptions ∧ h1.arrays = h.arrays ∧
      ∀ k', k1 = some k' → h.kubeSpans.length ≤ k' ∧ k' < h1.kubeSpans.length := by
  cases k with
  | none =>
    exact ⟨h, none, rfl, Extends.refl h, hx, rfl, rfl, rfl, rfl, fun k' hk' => by cases hk'⟩
  | some k0 =>
    simp only [readKubeSpan] at hx
    cases hs : h.kubeSpan k0 with
    | none => simp [hs] at hx
    | some s =>
      simp only [hs, Option.some.injEq] at hx
      subst hx
      refine ⟨(h.newKubeSpan s).1, some h.kubeSpans.length, by simp [copyKubeSpan, hs, newKubeSpan],
        extends_newKubeSpan h s, ?_, rfl, rfl, rfl, rfl, ?_⟩
      · simp [readKubeSpan, Heap.kubeSpan, newKubeSpan]
      · intro k' hk'
        cases hk'
        simp [newKubeSpan]

end Heap

namespace Heap

theorem validDevice_of_extends {h h1 : Heap} (he : h.Extends h1) {p : Ptr}
    (hp : h.validDevice p = true) : h1.validDevice p = true := by
  rw [validDevice_iff] at hp ⊢
  obtain ⟨d, hd, hq⟩ := hp
  exact ⟨d, he.device p d hd, fun q hq' => lt_of_dhcp (he.dhcp q _ (dhcp_of_lt (hq q hq')))⟩

theorem validConfig_of_extends {h h1 : Heap} (he : h.Extends h1) {c : NetworkConfig}
    (hc : h.validConfig c = true) : h1.validConfig c = true := by
  rw [validConfig_iff] at hc ⊢
  exact ⟨fun p hp => validDevice_of_extends he (hc.1 p hp),
    fun k hk => lt_of_kubeSpan (he.kubeSpan k _ (kubeSpan_of_lt (hc.2 k hk)))⟩

theorem validSlices_of_extends {h h1 : Heap} (he : h.Extends h1) {c : NetworkConfig}
    (hp : h.validConfig c = true) (hc : h.validSlices c = true) : h1.validSlices c = true := by
  rw [validSlices_iff] at hc ⊢
  refine ⟨validSlice_of_extends he hc.1, fun p hp' d hd => ?_⟩
  obtain ⟨d0, hd0, -⟩ := validDevice_iff.1 ((validConfig_iff.1 hp).1 p hp')
  have := he.device p d0 hd0
  rw [hd] at this
  cases this
  exact validSlice_of_extends he (hc.2 p hp' _ hd0)

/-- The copy of a readable document on a well-formed heap: a new config cell at the
first fresh address, of equal value, on a heap that is well-formed again, and the
copy shares no cell and no backing array with any document that existed before. -/
theorem copyConfig_fresh {h : Heap} {p : Ptr} {x : NetworkConfigValue}
    (hx : h.readConfig p = some x) (hwf : h.pointersValid = true)
    (hsl : h.slicesValid = true) :
    ∃ h1, h.copyConfig p = some (h1, h.configs.length) ∧ h.Extends h1 ∧
      h1.readConfig h.configs.length = some x ∧
      h1.configs.length = h.configs.length + 1 ∧ h1.pointersValid = true ∧
      h1.slicesValid = true ∧
      ∀ b, b < h.configs.length → h1.Separate h.configs.length b := by
  unfold readConfig at hx
  cases hv : h.config p with
  | none => simp [hv] at hx
  | some v =>
    simp only [hv] at hx
    cases hds : h.readDevices v.NetworkInterfaces with
    | none => simp [hds] at hx
    | some ds =>
      cases hks : h.readKubeSpan v.NetworkKubeSpan with
      | none => simp [hds, hks] at hx
      | some ks =>
        cases hns : h.readSlice v.NameServers with
        | none => simp [hds, hks, hns] at hx
        | some ns =>
          simp only [hds, hks, hns, Option.some.injEq] at hx
          subst hx
          obtain ⟨ha, ps1, hca, hea, hra, hga, hka, hla, hqa, haa, hfa⟩ := copyDevices_fresh hds
          obtain ⟨hb, k1, hcb, heb, hrb, hgb, hdb, hob, hab, hfb⟩ :=
            copyKubeSpan_fresh (readKubeSpan_of_extends hea hks)
          obtain ⟨hc, s1, hcc, hec, hrc, hgc, hdc, hoc, hkc, hlc, hsc, hvc⟩ :=
            copySlice_fresh (readSlice_of_extends (hea.trans heb) hns)
          have hcfgs : hc.configs = h.configs := hgc.trans (hgb.trans hga)
          generalize hv1 : ({ v with NetworkInterfaces := ps1, NameServers := s1,
                                     NetworkKubeSpan := k1 } : NetworkConfig) = v1
          have hen := extends_newConfig hc v1
          have hext : h.Extends (hc.newConfig v1).1 := ((hea.trans heb).trans hec).trans hen
          have hc1 : (hc.newConfig v1).1.config h.configs.length = some v1 := by
            simp [Heap.config, newConfig, ← hcfgs]
          have hdevs : (hc.newConfig v1).1.devices = ha.devices := hdc.trans hdb
          have hopts : (hc.newConfig v1).1.dhcpOptions = ha.dhcpOptions := hoc.trans hob
          have hkss : (hc.newConfig v1).1.kubeSpans = hb.kubeSpans := hkc
          have harrb : hb.arrays.length = ha.arrays.length := by rw [hab]
          have hfresh : ∀ y ∈ ps1, h.devices.length ≤ y ∧
              ∃ d, (hc.newConfig v1).1.device y = some d ∧
                (∀ q, d.DeviceDHCPOptions = some q →
                  h.dhcpOptions.length ≤ q ∧ q < (hc.newConfig v1).1.dhcpOptions.length) ∧
                (hc.newConfig v1).1.validSlice d.DeviceAddresses = true ∧
                ∀ q, d.DeviceAddresses.array = some q → h.arrays.length ≤ q := by
            intro y hy
            obtain ⟨b1, b2, b3⟩ := hfa y hy
            have hdy := device_eq_some_iff.2 ⟨b2, rfl⟩
            obtain ⟨c1, c2, c3⟩ := b3 _ hdy
            refine ⟨b1, _, ((heb.trans hec).trans hen).device y _ hdy, fun q hq => ?_,
              validSlice_of_extends ((heb.trans hec).trans hen) c2, c3⟩
            rw [hopts]
            exact c1 q hq
          have hs1fresh : ∀ q, s1.array = some q → h.arrays.length ≤ q := by
            intro q hq
            rw [hsc] at hq
            cases hq
            rw [harrb]
            exact haa
          refine ⟨(hc.newConfig v1).1, ?_, hext, ?_, ?_, ?_, ?_, ?_⟩
          · simp [copyConfig, hv, hca, hcb, hcc, newConfig, hcfgs, hv1]
          · subst hv1
            simp only [readConfig, hc1, readDevices_of_extends ((heb.trans hec).trans hen) hra,
              readKubeSpan_of_extends (hec.trans hen) hrb, readSlice_of_extends hen hrc]
          · simp [newConfig, hcfgs]
          · rw [pointersValid_iff]
            intro c hc'
            have hc'' : c ∈ h.configs ∨ c = v1 := by
              simpa [newConfig, hcfgs] using hc'
            rcases hc'' with hc'' | hc''
            · exact validConfig_of_extends hext (pointersValid_iff.1 hwf c hc'')
            · subst hc''
              subst hv1
              rw [validConfig_iff]
              refine ⟨fun y hy => ?_, fun k hk => ?_⟩
              · obtain ⟨-, d, hd, hq, -, -⟩ := hfresh y hy
                exact validDevice_iff.2 ⟨d, hd, fun q hq' => (hq q hq').2⟩
              · rw [hkss]
                exact (hfb k hk).2
          · rw [slicesValid_iff]
            intro c hc'
            have hc'' : c ∈ h.configs ∨ c = v1 := by
              simpa [newConfig, hcfgs] using hc'
            rcases hc'' with hc'' | hc''
            · exact validSlices_of_extends hext (pointersValid_iff.1 hwf c hc'')
                (slicesValid_iff.1 hsl c hc'')
            · subst hc''
              subst hv1
              rw [validSlices_iff]
              refine ⟨validSlice_of_extends hen hvc, fun y hy d hd => ?_⟩
              obtain ⟨-, d', hd', -, hvd, -⟩ := hfresh y hy
              rw [hd] at hd'
              cases hd'
              exact hvd
          · intro b hb'
            have hcb0 := config_of_lt hb'
            have hcb1 := hext.config b _ hcb0
            have hvb := validConfig_iff.1 (validConfig_of_config hwf hcb0)
            have hsb := validSlices_iff.1 (validSlices_of_config hsl hcb0)
            refine ⟨Nat.ne_of_gt hb', ?_, ?_, ?_, ?_⟩
            · rintro y ⟨va, hva, hya⟩ ⟨vb, hvb', hyb⟩
              rw [hc1] at hva
              cases hva
              rw [hcb1] at hvb'
              cases hvb'
              subst hv1
              exact absurd (interfaces_lt hwf hcb0 y hyb) (Nat.not_lt.2 (hfresh y hya).1)
            · rintro q ⟨va, ya, da, hva, hya, hda, hqa'⟩ ⟨vb, yb, db, hvb', hyb, hdb', hqb⟩
              rw [hc1] at hva
              cases hva
              rw [hcb1] at hvb'
              cases hvb'
              subst hv1
              obtain ⟨-, d, hd, hq, -, -⟩ := hfresh ya hya
              rw [hda] at hd
              cases hd
              obtain ⟨d0, hd0, hq0⟩ := validDevice_iff.1 (hvb.1 yb hyb)
              have := hext.device yb d0 hd0
              rw [hdb'] at this
              cases this
              exact absurd (hq0 q hqb) (Nat.not_lt.2 (hq q hqa').1)
            · rintro k ⟨va, hva, hka'⟩ ⟨vb, hvb', hkb⟩
              rw [hc1] at hva
              cases hva
              rw [hcb1] at hvb'
              cases hvb'
              subst hv1
              have h1' := (hfb k hka').1
              rw [hka] at h1'
              exact absurd (hvb.2 k hkb) (Nat.not_lt.2 h1')
            · rintro q ⟨va, hva, hora⟩ ⟨vb, hvb', horb⟩
              rw [hc1] at hva
              cases hva
              rw [hcb1] at hvb'
              cases hvb'
              subst hv1
              have hqa1 : h.arrays.length ≤ q := by
                rcases hora with hq1 | ⟨ya, da, hya, hda, hq1⟩
                · exact hs1fresh q hq1
                · obtain ⟨-, d, hd, -, -, hq⟩ := hfresh ya hya
                  rw [hda] at hd
                  cases hd
                  exact hq q hq1
              have hqb1 : q < h.arrays.length := by
                rcases horb with hq1 | ⟨yb, db, hyb, hdb', hq1⟩
                · exact lt_of_validSlice hsb.1 hq1
                · obtain ⟨d0, hd0, -⟩ := validDevice_iff.1 (hvb.1 yb hyb)
                  have := hext.device yb d0 hd0
                  rw [hdb'] at this
                  cases this
                  exact lt_of_validSlice (hsb.2 yb hyb _ hd0) hq1
              exact absurd hqb1 (Nat.not_lt.2 hqa1)

end Heap

/-- A write to a device cell that a document does not own does not change the value
of the document. -/
theorem readConfig_storeDevice_of_not_owned {h : Heap} {b x : Ptr} (d : Device)
    (hno : ¬ h.ownsDevice b x) : (h.storeDevice x d).readConfig b = h.readConfig b := by
  cases hb : h.config b with
  | none =>
    have hb' : (h.storeDevice x d).config b = none := hb
    simp [Heap.readConfig, hb, hb']
  | some vb =>
    have hdev : ∀ y ∈ vb.NetworkInterfaces, (h.storeDevice x d).device y = h.device y :=
      fun y hy => Heap.device_storeDevice_ne h d (fun hxy => hno (hxy ▸ ⟨vb, hb, hy⟩))
    exact readConfig_congr hb hb hdev (fun _ _ _ _ _ _ => rfl) (fun _ _ => rfl)
      (fun _ _ _ _ => rfl) rfl

/-- A write to a DHCP-options cell that a document does not own does not change the
value of the document. -/
theorem readConfig_storeDhcp_of_not_owned {h : Heap} {b q : Ptr} (w : DHCPOptions)
    (hno : ¬ h.ownsOptions b q) : (h.storeDhcp q w).readConfig b = h.readConfig b := by
  cases hb : h.config b with
  | none =>
    have hb' : (h.storeDhcp q w).config b = none := hb
    simp [Heap.readConfig, hb, hb']
  | some vb =>
    refine readConfig_congr hb hb (fun _ _ => rfl) ?_ (fun _ _ => rfl)
      (fun _ _ _ _ => rfl) rfl
    intro y hy e q' he hq'
    have hne : q ≠ q' := fun hqq => hno (hqq ▸ ⟨vb, y, e, hb, hy, he, hq'⟩)
    simp [Heap.dhcp, Heap.storeDhcp, List.getElem?_set, hne]

namespace Heap

theorem slicesValid_of_configs {h' : Heap}
    (hc : ∀ c ∈ h'.configs, h'.validSlice c.NameServers = true ∧
      ∀ p ∈ c.NetworkInterfaces, ∀ d, h'.device p = some d →
        h'.validSlice d.DeviceAddresses = true) : h'.slicesValid = true :=
  slicesValid_iff.2 (fun c hm => validSlices_iff.2 (hc c hm))

/-- A write to a device cell keeps the slices valid when the struct written keeps the
address slice of the cell or carries a valid one. -/
theorem slicesValid_storeDevice {h : Heap} {p : Ptr} {d : Device} (d' : Device)
    (hsl : h.slicesValid = true) (hd : h.device p = some d)
    (hv : d'.DeviceAddresses = d.DeviceAddresses ∨ h.validSlice d'.DeviceAddresses = true) :
    (h.storeDevice p d').slicesValid = true := by
  refine slicesValid_of_configs (fun c hm => ?_)
  obtain ⟨h1, h2⟩ := validSlices_iff.1 (slicesValid_iff.1 hsl c hm)
  refine ⟨h1, fun x hx e he => ?_⟩
  by_cases hxp : p = x
  · subst hxp
    rw [device_storeDevice_self d' hd] at he
    cases he
    rcases hv with hv | hv
    · have := h2 p hx d hd
      rw [← hv] at this
      exact this
    · exact hv
  · rw [device_storeDevice_ne h d' hxp] at he
    exact h2 x hx e he

/-- A write to a config cell keeps the slices valid when the struct written has valid
slices. -/
theorem slicesValid_storeConfig {h : Heap} (n : Ptr) {v : NetworkConfig}
    (hsl : h.slicesValid = true) (hv : h.validSlices v = true) :
    (h.storeConfig n v).slicesValid = true := by
  rw [slicesValid_iff]
  intro c hm
  rcases List.mem_or_eq_of_mem_set hm with hm | hm
  · exact slicesValid_iff.1 hsl c hm
  · subst hm
    exact hv

/-- Allocating a device keeps the slices valid. -/
theorem slicesValid_newDevice {h : Heap} (d : Device) (hwf : h.pointersValid = true)
    (hsl : h.slicesValid = true) : (h.newDevice d).1.slicesValid = true := by
  refine slicesValid_of_configs (fun c hm => ?_)
  obtain ⟨h1, h2⟩ := validSlices_iff.1 (slicesValid_iff.1 hsl c hm)
  refine ⟨h1, fun x hx e he => ?_⟩
  obtain ⟨e0, he0, -⟩ := validDevice_iff.1
    ((validConfig_iff.1 (pointersValid_iff.1 hwf c hm)).1 x hx)
  have := (extends_newDevice h d).device x e0 he0
  rw [he] at this
  cases this
  exact h2 x hx _ he0

/-- Validity of the slices looks at the device cells, the backing arrays and the two
slice-bearing parts of the config structs only. -/
theorem slicesValid_congr {h h' : Heap} (hsl : h.slicesValid = true)
    (hd : h'.devices = h.devices) (ha : h'.arrays = h.arrays)
    (hc : ∀ c ∈ h'.configs, ∃ c0 ∈ h.configs, c.NameServers = c0.NameServers ∧
      c.NetworkInterfaces = c0.NetworkInterfaces) : h'.slicesValid = true := by
  refine slicesValid_of_configs (fun c hm => ?_)
  obtain ⟨c0, hm0, e1, e2⟩ := hc c hm
  obtain ⟨h1, h2⟩ := validSlices_iff.1 (slicesValid_iff.1 hsl c0 hm0)
  have hv : ∀ s, h.validSlice s = true → h'.validSlice s = true := fun s hs =>
    validSlice_mono (fun q a hq => ⟨a, by rw [ha]; exact hq, rfl⟩) hs
  refine ⟨by rw [e1]; exact hv _ h1, fun x hx e he => ?_⟩
  rw [e2] at hx
  have he' : h.device x = some e := by
    simp only [Heap.device] at he ⊢
    rw [← hd]
    exact he
  exact hv _ (h2 x hx e he')

theorem slicesValid_append {h : Heap} (s : Slice) (xs : List String)
    (hsl : h.slicesValid = true) : (h.append s xs).1.slicesValid = true := by
  refine slicesValid_of_configs (fun c hm => ?_)
  rw [(append_cells h s xs).1] at hm
  obtain ⟨h1, h2⟩ := validSlices_iff.1 (slicesValid_iff.1 hsl c hm)
  refine ⟨append_validSlice h s xs h1, fun x hx e he => ?_⟩
  rw [append_device] at he
  exact append_validSlice h s xs (h2 x hx e he)

end Heap

theorem getDevice_slicesValid {h h1 : Heap} {n dev : Ptr} {name : String}
    (hwf : h.pointersValid = true) (hsl : h.slicesValid = true)
    (hg : getDevice h n name = some (h1, dev)) : h1.slicesValid = true := by
  unfold getDevice at hg
  cases hc : h.config n with
  | none => simp [hc] at hg
  | some v =>
    simp only [hc] at hg
    cases hf : findDevice h name v.NetworkInterfaces with
    | none => simp [hf] at hg
    | some r =>
      cases r with
      | some p =>
        simp only [hf, Option.some.injEq, Prod.mk.injEq] at hg
        obtain ⟨rfl, -⟩ := hg
        exact hsl
      | none =>
        simp only [hf, Option.some.injEq, Prod.mk.injEq] at hg
        obtain ⟨rfl, -⟩ := hg
        have hsl1 := Heap.slicesValid_newDevice (Device.named name) hwf hsl
        refine Heap.slicesValid_storeConfig n hsl1 (Heap.validSlices_iff.2 ⟨?_, ?_⟩)
        · exact (Heap.validSlices_iff.1 (Heap.validSlices_of_config hsl hc)).1
        · intro x hx e he
          rcases List.mem_append.1 hx with hx | hx
          · exact (Heap.validSlices_iff.1 (Heap.slicesValid_iff.1 hsl1 v
              (Heap.mem_of_config hc))).2 x hx e he
          · simp only [List.mem_singleton] at hx
            subst hx
            simp only [Heap.device, Heap.newDevice, List.getElem?_concat_length,
              Option.some.injEq] at he
            subst he
            rfl

theorem assignDevice_slicesValid {h h' : Heap} {cfg : Ptr} {iface : String}
    {f : Device → Device} {mt : MachineType} {e : Option GoError}
    (hwf : h.pointersValid = true) (hsl : h.slicesValid = true)
    (hrun : assignDevice iface f mt cfg h = some (h', e))
    (hadr : ∀ d, (f d).DeviceAddresses = d.DeviceAddresses ∨
      h.validSlice (f d).DeviceAddresses = true) : h'.slicesValid = true := by
  unfold assignDevice at hrun
  cases hg : getDevice h cfg iface with
  | none => simp [hg] at hrun
  | some r =>
    obtain ⟨h1, dev⟩ := r
    have hsl1 := getDevice_slicesValid hwf hsl hg
    have harr := getDevice_arrays hg
    simp only [hg, updateDevice] at hrun
    cases hd : h1.device dev with
    | none => simp [hd] at hrun
    | some d =>
      simp only [hd, Option.some.injEq, Prod.mk.injEq] at hrun
      obtain ⟨rfl, -⟩ := hrun
      refine Heap.slicesValid_storeDevice (f d) hsl1 hd ?_
      rcases hadr d with h0 | h0
      · exact Or.inl h0
      · exact Or.inr (Heap.validSlice_mono (fun q a ha => ⟨a, by rw [harr]; exact ha, rfl⟩) h0)

theorem ensureDHCPOptions_slicesValid {h h2 : Heap} {dev q : Ptr}
    (hsl : h.slicesValid = true)
    (he : ensureDHCPOptions h dev = some (h2, q)) : h2.slicesValid = true := by
  unfold ensureDHCPOptions at he
  cases hd : h.device dev with
  | none => simp [hd] at he
  | some d =>
    simp only [hd] at he
    cases hq : d.DeviceDHCPOptions with
    | some q0 =>
      simp only [hq, Option.some.injEq, Prod.mk.injEq] at he
      obtain ⟨rfl, -⟩ := he
      exact hsl
    | none =>
      simp only [hq, Option.some.injEq, Prod.mk.injEq] at he
      obtain ⟨rfl, -⟩ := he
      have hsl1 : (h.newDhcp DHCPOptions.zero).1.slicesValid = true := hsl
      have hd1 : (h.newDhcp DHCPOptions.zero).1.device dev = some d := hd
      exact Heap.slicesValid_storeDevice _ hsl1 hd1 (Or.inl rfl)

theorem assignDhcp_slicesValid {h h' : Heap} {cfg : Ptr} {iface : String}
    {g : DHCPOptions → DHCPOptions} {mt : MachineType} {e : Option GoError}
    (hwf : h.pointersValid = true) (hsl : h.slicesValid = true)
    (hrun : assignDhcp iface g mt cfg h = some (h', e)) : h'.slicesValid = true := by
  unfold assignDhcp at hrun
  cases hg : getDevice h cfg iface with
  | none => simp [hg] at hrun
  | some r =>
    obtain ⟨h1, dev⟩ := r
    have hsl1 := getDevice_slicesValid hwf hsl hg
    simp only [hg] at hrun
    cases he : ensureDHCPOptions h1 dev with
    | none => simp [he] at hrun
    | some r2 =>
      obtain ⟨h2, q⟩ := r2
      have hsl2 := ensureDHCPOptions_slicesValid hsl1 he
      simp only [he, updateDhcp] at hrun
      cases ho : h2.dhcp q with
      | none => simp [ho] at hrun
      | some o =>
        simp only [ho, Option.some.injEq, Prod.mk.injEq] at hrun
        obtain ⟨rfl, -⟩ := hrun
        exact hsl2

/-- Every call keeps the slices of a well-formed heap valid. -/
theorem build_slicesValid (c : OptionCall) (mt : MachineType) {h h' : Heap} {cfg : Ptr}
    {e : Option GoError} (hwf : h.pointersValid = true) (hsl : h.slicesValid = true)
    (hrun : c.build mt cfg h = some (h', e)) : h'.slicesValid = true := by
  cases c with
  | networkConfig c =>
    cases c with
    | none => simp [OptionCall.build, WithNetworkConfig] at hrun
    | some pc =>
      simp only [OptionCall.build, WithNetworkConfig] at hrun
      cases hv : h.config pc with
      | none => simp [hv] at hrun
      | some v =>
        cases hw : h.config cfg with
        | none => simp [hv, hw] at hrun
        | some w =>
          simp only [hv, hw, Option.some.injEq, Prod.mk.injEq] at hrun
          obtain ⟨rfl, -⟩ := hrun
          exact Heap.slicesValid_storeConfig cfg hsl (Heap.validSlices_of_config hsl hv)
  | networkNameservers ns =>
    have hrun' : WithNetworkNameservers ns mt cfg h = some (h', e) := hrun
    cases hv : h.config cfg with
    | none => simp [WithNetworkNameservers, hv] at hrun'
    | some v =>
      rw [withNetworkNameservers_eq ns mt hv] at hrun'
      simp only [Option.some.injEq, Prod.mk.injEq] at hrun'
      obtain ⟨rfl, -⟩ := hrun'
      have hsl1 := Heap.slicesValid_append v.NameServers ns hsl
      have hv1 : (h.append v.NameServers ns).1.config cfg = some v := by
        rw [Heap.append_config]
        exact hv
      obtain ⟨g1, g2⟩ := Heap.validSlices_iff.1 (Heap.validSlices_of_config hsl hv)
      obtain ⟨-, g4⟩ := Heap.validSlices_iff.1 (Heap.validSlices_of_config hsl1 hv1)
      exact Heap.slicesValid_storeConfig cfg hsl1
        (Heap.validSlices_iff.2 ⟨Heap.append_valid ns g1, g4⟩)
  | interfaceIgnore iface =>
    exact assignDevice_slicesValid hwf hsl
      (show assignDevice iface _ mt cfg h = some (h', e) from hrun) (fun _ => Or.inl rfl)
  | interfaceDHCP iface enable =>
    exact assignDevice_slicesValid hwf hsl
      (show assignDevice iface _ mt cfg h = some (h', e) from hrun) (fun _ => Or.inl rfl)
  | interfaceDHCPv4 iface enable =>
    exact assignDhcp_slicesValid hwf hsl
      (show assignDhcp iface _ mt cfg h = some (h', e) from hrun)
  | interfaceDHCPv6 iface enable =>
    exact assignDhcp_slicesValid hwf hsl
      (show assignDhcp iface _ mt cfg h = some (h', e) from hrun)
  | interfaceCIDR iface cidr =>
    have hrun' : WithNetworkInterfaceCIDR iface cidr mt cfg h = some (h', e) := hrun
    cases hv : h.config cfg with
    | none => simp [WithNetworkInterfaceCIDR, getDevice, hv] at hrun'
    | some v =>
      rw [withNetworkInterfaceCIDR_pre iface cidr mt hwf hv] at hrun'
      have hva : h.validSlice (addressesOf h cfg iface) = true := by
        rcases addressesOf_cases h cfg iface with hnil | ⟨v0, p, d, hv0, hf, hd, hda⟩
        · rw [hnil]
          rfl
        · rw [hda]
          exact (Heap.validSlices_iff.1 (Heap.validSlices_of_config hsl hv0)).2 p
            (findDevice_found hf).1 d hd
      refine assignDevice_slicesValid ?_ (Heap.slicesValid_append _ _ hsl) hrun' ?_
      · rw [Heap.append_pointersValid]
        exact hwf
      · exact fun _ => Or.inr (Heap.append_valid [cidr] hva)
  | interfaceMTU iface mtu =>
    exact assignDevice_slicesValid hwf hsl
      (show assignDevice iface _ mt cfg h = some (h', e) from hrun) (fun _ => Or.inl rfl)
  | interfaceWireguard iface w =>
    exact assignDevice_slicesValid hwf hsl
      (show assignDevice iface _ mt cfg h = some (h', e) from hrun) (fun _ => Or.inl rfl)
  | interfaceVirtualIP iface cidr =>
    have hrun' : WithNetworkInterfaceVirtualIP iface cidr mt cfg h = some (h', e) := hrun
    by_cases hmt : mt = MachineType.TypeWorker
    · subst hmt
      simp only [WithNetworkInterfaceVirtualIP, if_true, Option.some.injEq,
        Prod.mk.injEq] at hrun'
      obtain ⟨rfl, -⟩ := hrun'
      exact hsl
    · rw [withNetworkInterfaceVirtualIP_eq iface cidr mt hmt] at hrun'
      exact assignDevice_slicesValid hwf hsl hrun' (fun _ => Or.inl rfl)
  | kubeSpan =>
    have hrun' : WithKubeSpan mt cfg h = some (h', e) := hrun
    cases hv : h.config cfg with
    | none => simp [WithKubeSpan, hv] at hrun'
    | some v =>
      unfold WithKubeSpan at hrun'
      cases hk : v.NetworkKubeSpan with
      | some k =>
        cases hx : h.kubeSpan k with
        | none => simp [hv, hk, hx] at hrun'
        | some x =>
          simp only [hv, hk, hx, Option.some.injEq, Prod.mk.injEq] at hrun'
          obtain ⟨rfl, -⟩ := hrun'
          exact hsl
      | none =>
        simp only [hv, hk, Heap.newKubeSpan, Heap.kubeSpan, Heap.storeConfig,
          List.getElem?_concat_length, Option.some.injEq, Prod.mk.injEq] at hrun'
        obtain ⟨rfl, -⟩ := hrun'
        refine Heap.slicesValid_congr hsl rfl rfl (fun c hm => ?_)
        rcases List.mem_or_eq_of_mem_set hm with hm | hm
        · exact ⟨c, hm, rfl, rfl⟩
        · subst hm
          exact ⟨v, Heap.mem_of_config hv, rfl, rfl⟩

/-- Every call keeps a well-formed heap well-formed. -/
theorem build_wellFormed (c : OptionCall) (mt : MachineType) {h h' : Heap} {cfg : Ptr}
    (hwf : h.wellFormed = true) (hcfg : h.hasConfig cfg = true)
    (hargs : c.argsValid h = true) (hrun : c.build mt cfg h = some (h', none)) :
    h'.wellFormed = true := by
  obtain ⟨hp, hs⟩ := Heap.wellFormed_iff.1 hwf
  obtain ⟨h1, hc, hwf1, -, -⟩ := build_stepOk c mt hp hcfg hargs
  have e : h1 = h' := by
    have := hc.symm.trans hrun
    simpa using this
  subst e
  exact Heap.wellFormed_iff.2 ⟨hwf1, build_slicesValid c mt hp hs hrun⟩

/-- A run of calls keeps a well-formed heap well-formed. -/
theorem applyCalls_wellFormed (mt : MachineType) (cfg : Ptr) (cs : List OptionCall)
    {h h' : Heap} (hwf : h.wellFormed = true) (hcfg : h.hasConfig cfg = true)
    (hargs : ∀ c ∈ cs, c.argsValid h = true)
    (hrun : applyCalls mt cfg cs h = some (h', none)) : h'.wellFormed = true := by
  induction cs generalizing h with
  | nil =>
    simp only [applyCalls_nil, Option.some.injEq, Prod.mk.injEq, and_true] at hrun
    subst hrun
    exact hwf
  | cons c cs ih =>
    obtain ⟨h1, hc, -, hlen1, -⟩ :=
      build_stepOk c mt (Heap.pointersValid_of_wellFormed hwf) hcfg
        (hargs c (List.mem_cons_self _ _))
    have hwf1 := build_wellFormed c mt hwf hcfg (hargs c (List.mem_cons_self _ _)) hc
    exact ih hwf1 (hasConfig_of_length hlen1 hcfg)
      (fun d hd => argsValid_of_length hlen1 d (hargs d (List.mem_cons_of_mem _ hd)))
      ((applyCalls_cons cs hc h').1 hrun)

/-- No slice sees a slot behind the nil slice: an `append` to it never writes in
place. -/
theorem Slice.seesBehind_nil (t : Slice) (n : Nat) : t.seesBehind Slice.nil n = false := by
  cases hq : t.array <;> simp [Slice.seesBehind, Slice.nil, hq]

/-- A slice does not see the slots behind itself. -/
theorem Slice.seesBehind_self (s : Slice) (n : Nat) : s.seesBehind s n = false := by
  simp only [Slice.seesBehind, decide_eq_false_iff_not]
  rintro ⟨-, -, -, -, -, h⟩
  exact absurd h (lt_irrefl _)

/-- The frame of `WithNetworkInterfaceCIDR`: the option appends one element to the
address slice of the device; the value of the device changes in its address list
only, which is the previous list followed by `cidr`. -/
theorem withNetworkInterfaceCIDR_interfaceFrame {h : Heap} {cfg : Ptr} {v : NetworkConfig}
    (iface cidr : String) (mt : MachineType)
    (hwf : h.pointersValid = true) (hsl : h.slicesValid = true)
    (hcfg : h.config cfg = some v) :
    ∃ h' v', WithNetworkInterfaceCIDR iface cidr mt cfg h = some (h', none) ∧
      InterfaceFrame h h' cfg v v' iface
        (fun x => { x with DeviceAddresses := x.DeviceAddresses ++ [cidr] }) false 1 := by
  have hlt := Heap.interfaces_lt hwf hcfg
  have hvs := Heap.validSlices_iff.1 (Heap.validSlices_of_config hsl hcfg)
  have heq := withNetworkInterfaceCIDR_eq iface cidr mt hwf hcfg
  rcases assignDevice_cases iface hwf hcfg with ⟨p, d, hf, hd, hname, hm, hrun⟩ | ⟨hf, hrun⟩
  · have hplt := Heap.lt_of_device hd
    have hs : addressesOf h cfg iface = d.DeviceAddresses := by
      simp [addressesOf, hcfg, hf, hd]
    rw [hs] at heq
    rw [hrun] at heq
    refine ⟨_, v, heq, ?_⟩
    obtain ⟨old, hold⟩ := Heap.readSlice_isSome_of_valid (hvs.2 p hm d hd)
    have hnew := Heap.append_read [cidr] hold
    generalize hA : h.append d.DeviceAddresses [cidr] = r at hnew
    have hfr : ∀ t ys, h.readSlice t = some ys → t.seesBehind d.DeviceAddresses 1 = false →
        r.1.readSlice t = some ys := by
      intro t ys ht hsee
      rw [← hA]
      exact Heap.append_frame [cidr] ht hsee
    generalize hh1 : (Heap.withArrays
      ({ h with devices := h.devices.set p { d with DeviceAddresses := r.2 } } : Heap)
      r.1.arrays) = h1
    have hread : ∀ t, h1.readSlice t = r.1.readSlice t := by
      intro t
      subst hh1
      exact Heap.readSlice_congr (fun _ _ => rfl)
    have hdev : ∀ x, x ≠ p → h1.device x = h.device x := by
      intro x hx
      subst hh1
      simp [Heap.device, Heap.withArrays, List.getElem?_set, Ne.symm hx]
    have hq : ∀ q, h1.dhcp q = h.dhcp q := by
      intro q
      subst hh1
      rfl
    have hne : ∀ x e, h.device x = some e → e.DeviceInterface ≠ iface → x ≠ p := by
      intro x e he hen hxp
      subst hxp
      rw [hd] at he
      cases he
      exact hen hname
    have hother : ∀ t xs, h.readSlice t = some xs →
        (∀ p d, findDevice h iface v.NetworkInterfaces = some (some p) → h.device p = some d →
          t.seesBehind d.DeviceAddresses 1 = false) → h1.readSlice t = some xs := by
      intro t xs ht hsee
      rw [hread]
      exact hfr t xs ht (hsee p d hf hd)
    refine ⟨by subst hh1; exact hcfg, rfl, rfl, rfl, by subst hh1; rfl,
      Or.inl rfl, ?_, fun _ => by subst hh1; rfl,
      fun q o ho => Or.inl ((hq q).trans ho), fun h01 => absurd h01 (by decide), hother,
      ?_, ?_, ?_, ?_⟩
    · intro x e he hen
      rw [hdev x (hne x e he hen)]
      exact he
    · intro hsee
      obtain ⟨ys, hys⟩ := Heap.readSlice_isSome_of_valid hvs.1
      rw [hother _ ys hys hsee, hys]
    · intro x hx e he hen _ hsee
      refine readDevice_congr (hdev x (hne x e he hen)) (fun _ q _ _ => hq q) ?_
      intro e' he'
      rw [he] at he'
      cases he'
      obtain ⟨ys, hys⟩ := Heap.readSlice_isSome_of_valid (hvs.2 x hx e he)
      rw [hother _ ys hys (fun t dt ht hdt => hsee t dt ht hdt), hys]
    · intro p' hf'
      rw [hf] at hf'
      cases hf'
      have hd1 : h1.device p = some { d with DeviceAddresses := r.2 } := by
        subst hh1
        simp [Heap.device, Heap.withArrays, List.getElem?_set, hplt]
      have hr2 : h1.readSlice r.2 = some (old ++ [cidr]) := by
        rw [hread]; exact hnew
      cases hopt : d.DeviceDHCPOptions with
      | none =>
        simp [readDevice_toValue, hd1, hd, hopt, hr2, hold, Device.toValue]
      | some q =>
        cases hoq : h.dhcp q <;>
          simp [readDevice_toValue, hd1, hd, hopt, hr2, hold, hq, hoq, Device.toValue]
    · intro hf'
      rw [hf] at hf'
      cases hf'
  · have hclt := Heap.lt_of_config hcfg
    have hs : addressesOf h cfg iface = Slice.nil := by
      simp [addressesOf, hcfg, hf]
    rw [hs] at heq
    rw [hrun] at heq
    refine ⟨_, { v with NetworkInterfaces := v.NetworkInterfaces ++ [h.devices.length] },
      heq, ?_⟩
    have hnew := Heap.append_read [cidr] (Heap.readSlice_nil h)
    generalize hA : h.append Slice.nil [cidr] = r at hnew
    have hfr : ∀ t ys, h.readSlice t = some ys → r.1.readSlice t = some ys := by
      intro t ys ht
      rw [← hA]
      exact Heap.append_frame [cidr] ht (Slice.seesBehind_nil t _)
    generalize hh1 : (Heap.withArrays
      ({ configs := h.configs.set cfg
           { v with NetworkInterfaces := v.NetworkInterfaces ++ [h.devices.length] },
         devices := h.devices ++ [{ Device.named iface with DeviceAddresses := r.2 }],
         dhcpOptions := h.dhcpOptions, kubeSpans := h.kubeSpans, arrays := h.arrays } : Heap)
      r.1.arrays) = h1
    have hread : ∀ t, h1.readSlice t = r.1.readSlice t := by
      intro t
      subst hh1
      exact Heap.readSlice_congr (fun _ _ => rfl)
    have hdev : ∀ x e, h.device x = some e → h1.device x = some e := by
      intro x e he
      subst hh1
      simpa [Heap.device, Heap.withArrays, List.getElem?_append_left (Heap.lt_of_device he)]
        using he
    have hq : ∀ q, h1.dhcp q = h.dhcp q := by
      intro q
      subst hh1
      rfl
    have hother : ∀ t xs, h.readSlice t = some xs → h1.readSlice t = some xs := by
      intro t xs ht
      rw [hread]
      exact hfr t xs ht
    refine ⟨by subst hh1; simp [Heap.config, Heap.withArrays, List.getElem?_set, hclt],
      rfl, rfl, rfl, by subst hh1; rfl,
      Or.inr ⟨hf, rfl⟩, fun x e he _ => hdev x e he, fun _ => by subst hh1; rfl,
      fun q o ho => Or.inl ((hq q).trans ho), fun h01 => absurd h01 (by decide),
      fun t xs ht _ => hother t xs ht, ?_, ?_, ?_, ?_⟩
    · intro _
      obtain ⟨ys, hys⟩ := Heap.readSlice_isSome_of_valid hvs.1
      rw [hother _ ys hys, hys]
    · intro x hx e he _ _ _
      refine readDevice_congr ((hdev x e he).trans he.symm) (fun _ q _ _ => hq q) ?_
      intro e' he'
      rw [he] at he'
      cases he'
      obtain ⟨ys, hys⟩ := Heap.readSlice_isSome_of_valid (hvs.2 x hx e he)
      rw [hother _ ys hys, hys]
    · intro p' hf'
      rw [hf] at hf'
      cases hf'
    · intro _
      have hd1 : h1.device h.devices.length
          = some { Device.named iface with DeviceAddresses := r.2 } := by
        subst hh1
        simp [Heap.device, Heap.withArrays]
      have hr2 : h1.readSlice r.2 = some ([] ++ [cidr]) := by
        rw [hread]; exact hnew
      simp [readDevice_toValue, hd1, hr2, Device.named, DeviceValue.named, Device.toValue]

/-- The frame of every interface option that reaches the lookup: the option returns a
nil error and leaves the frame described by `InterfaceFrame`, with the change of the
targeted field as `valueEffect` gives it. -/
theorem build_interfaceFrame (call : OptionCall) (iface : String) (mt : MachineType)
    {cfg : Ptr} {h : Heap} {v : NetworkConfig} (hlook : call.lookedUp mt = some iface)
    (hwf : h.pointersValid = true) (hsl : h.slicesValid = true)
    (hcfg : h.config cfg = some v) :
    ∃ h' v', call.build mt cfg h = some (h', none) ∧
      InterfaceFrame h h' cfg v v' iface (call.valueEffect mt) call.writesOptions
        call.appended := by
  cases call with
  | networkConfig c => simp [OptionCall.lookedUp, OptionCall.iface?] at hlook
  | networkNameservers ns => simp [OptionCall.lookedUp, OptionCall.iface?] at hlook
  | kubeSpan => simp [OptionCall.lookedUp, OptionCall.iface?] at hlook
  | interfaceIgnore i =>
    cases hlook
    exact assignDevice_interfaceFrame iface
      (fun d => { d with DeviceIgnore := some true })
      (fun x => { x with DeviceIgnore := some true }) mt (fun _ => rfl) (fun _ => rfl)
      (fun _ _ _ => rfl) hwf hcfg
  | interfaceDHCP i enable =>
    cases hlook
    exact assignDevice_interfaceFrame iface
      (fun d => { d with DeviceDHCP := some true })
      (fun x => { x with DeviceDHCP := some true }) mt (fun _ => rfl) (fun _ => rfl)
      (fun _ _ _ => rfl) hwf hcfg
  | interfaceDHCPv4 i enable =>
    cases hlook
    exact assignDhcp_interfaceFrame iface (fun o => { o with DHCPIPv4 := some enable }) mt
      hwf hcfg
  | interfaceDHCPv6 i enable =>
    cases hlook
    exact assignDhcp_interfaceFrame iface (fun o => { o with DHCPIPv6 := some enable }) mt
      hwf hcfg
  | interfaceCIDR i cidr =>
    cases hlook
    exact withNetworkInterfaceCIDR_interfaceFrame iface cidr mt hwf hsl hcfg
  | interfaceMTU i mtu =>
    cases hlook
    exact assignDevice_interfaceFrame iface
      (fun d => { d with DeviceMTU := mtu })
      (fun x => { x with DeviceMTU := mtu }) mt (fun _ => rfl) (fun _ => rfl)
      (fun _ _ _ => rfl) hwf hcfg
  | interfaceWireguard i w =>
    cases hlook
    exact assignDevice_interfaceFrame iface
      (fun d => { d with DeviceWireguardConfig := w })
      (fun x => { x with DeviceWireguardConfig := w }) mt (fun _ => rfl) (fun _ => rfl)
      (fun _ _ _ => rfl) hwf hcfg
  | interfaceVirtualIP i cidr =>
    by_cases hmt : mt = MachineType.TypeWorker
    · simp [OptionCall.lookedUp, hmt] at hlook
    · have hi : i = iface := by simpa [OptionCall.lookedUp, hmt] using hlook
      subst hi
      obtain ⟨h', v', hrun, hframe⟩ := assignDevice_interfaceFrame i
        (fun d => { d with DeviceVIPConfig := some { SharedIP := cidr } })
        (fun x => { x with DeviceVIPConfig := some { SharedIP := cidr } }) mt
        (fun _ => rfl) (fun _ => rfl) (fun _ _ _ => rfl) hwf hcfg
      rw [← withNetworkInterfaceVirtualIP_eq i cidr mt hmt] at hrun
      have hF : (OptionCall.interfaceVirtualIP i cidr).valueEffect mt
          = fun x => { x with DeviceVIPConfig := some { SharedIP := cidr } } := by
        funext x
        simp [OptionCall.valueEffect, hmt]
      refine ⟨h', v', hrun, ?_⟩
      rw [hF]
      exact hframe

/-- The value of a config is made of its struct, the values of its devices, its
KubeSpan struct and the elements of its nameserver slice. -/
theorem readDevices_of_values {h h' : Heap} {ps : List Ptr}
    (hd : ∀ p ∈ ps, h'.readDevice p = h.readDevice p) :
    h'.readDevices ps = h.readDevices ps := by
  induction ps with
  | nil => rfl
  | cons p ps ih =>
    simp only [Heap.readDevices, hd p (List.mem_cons_self _ _),
      ih (fun q hq => hd q (List.mem_cons_of_mem _ hq))]

theorem readConfig_of_values {h h' : Heap} {n : Ptr} {v : NetworkConfig}
    (hv : h.config n = some v) (hc : h'.config n = some v)
    (hd : ∀ p ∈ v.NetworkInterfaces, h'.readDevice p = h.readDevice p)
    (hk : ∀ k0, v.NetworkKubeSpan = some k0 → h'.kubeSpan k0 = h.kubeSpan k0)
    (hns : h'.readSlice v.NameServers = h.readSlice v.NameServers) :
    h'.readConfig n = h.readConfig n := by
  have hks : h'.readKubeSpan v.NetworkKubeSpan = h.readKubeSpan v.NetworkKubeSpan := by
    cases hk0 : v.NetworkKubeSpan with
    | none => rfl
    | some k0 => simp only [Heap.readKubeSpan, hk k0 hk0]
  simp only [Heap.readConfig, hv, hc, readDevices_of_values hd, hks, hns]

/-- Whether a call writes into memory that a config reaches is the same before and
after `WithNetworkConfig` has given another document the struct of that config. -/
theorem writesInto_storeConfig (call : OptionCall) (mt : MachineType) {h : Heap}
    {cfg pc : Ptr} (v : NetworkConfig) (hne : pc ≠ cfg) :
    call.writesInto mt (h.storeConfig cfg v) pc = call.writesInto mt h pc := by
  have hc : (h.storeConfig cfg v).config pc = h.config pc :=
    Heap.config_storeConfig_ne h v (Ne.symm hne)
  have hf : ∀ name ps, findDevice (h.storeConfig cfg v) name ps = findDevice h name ps :=
    fun name ps => findDevice_congr _ _ name ps (fun _ _ => rfl)
  have hd : ∀ p, (h.storeConfig cfg v).device p = h.device p := fun _ => rfl
  unfold OptionCall.writesInto
  rw [hc]
  cases h.config pc with
  | none => rfl
  | some vc => cases call <;> simp only [hf, hd]

/-- A call that does not write into memory the config at `pc` reaches leaves the value
of that config as it is, when it runs on another document that has the very struct of
`pc`. -/
theorem build_keeps_value {h h2 : Heap} {cfg pc : Ptr} {vc : NetworkConfig}
    (call : OptionCall) (mt : MachineType) (hne : pc ≠ cfg)
    (hwf : h.pointersValid = true) (hsl : h.slicesValid = true)
    (hcfg : h.config cfg = some vc) (hpc : h.config pc = some vc)
    (hargs : call.argsValid h = true)
    (hw : call.writesInto mt h pc = false)
    (hrun : call.build mt cfg h = some (h2, none)) :
    h2.readConfig pc = h.readConfig pc := by
  have hcfg' : h.hasConfig cfg = true := by
    simp [Heap.hasConfig, Heap.lt_of_config hcfg]
  obtain ⟨h2', hrun', -, -, hfr⟩ := build_stepOk call mt hwf hcfg' hargs
  rw [hrun] at hrun'
  cases hrun'
  have hc2 : h2.config pc = some vc := by rw [hfr pc hne, hpc]
  have hvs := Heap.validSlices_iff.1 (Heap.validSlices_of_config hsl hpc)
  have hlt := Heap.interfaces_lt hwf hpc
  have hsame : h2.devices = h.devices → h2.dhcpOptions = h.dhcpOptions →
      h2.kubeSpans = h.kubeSpans → h2.arrays = h.arrays →
      h2.readConfig pc = h.readConfig pc := by
    intro e1 e2 e3 e4
    exact readConfig_congr hpc hc2 (fun _ _ => by simp [Heap.device, e1])
      (fun _ _ _ _ _ _ => by simp [Heap.dhcp, e2])
      (fun _ _ => by simp [Heap.kubeSpan, e3])
      (fun _ _ _ _ => Heap.readSlice_congr (fun _ _ => by rw [e4]))
      (Heap.readSlice_congr (fun _ _ => by rw [e4]))
  have hframe : ∀ iface, call.lookedUp mt = some iface →
      findDevice h iface vc.NetworkInterfaces = some none →
      h2.readConfig pc = h.readConfig pc := by
    intro iface hl hf
    obtain ⟨h2', v', hrun', fr⟩ := build_interfaceFrame call iface mt hl hwf hsl hcfg
    rw [hrun] at hrun'
    cases hrun'
    have habs := findDevice_absent hf
    refine readConfig_of_values hpc hc2 ?_ (fun k0 _ => by simp [Heap.kubeSpan, fr.kubeSpans])
      ?_
    · intro p hp
      obtain ⟨d, hd, hn⟩ := habs p hp
      refine fr.otherValues p hp d hd hn ?_ ?_
      · intro _ t dt q hft
        rw [hf] at hft
        cases hft
      · intro t dt hft
        rw [hf] at hft
        cases hft
    · have := fr.nameServerList (by
        intro t dt hft
        rw [hf] at hft
        cases hft)
      rw [fr.nameServers] at this
      exact this
  have hlook : ∀ c : OptionCall, c = call → ∀ iface, c.lookedUp mt = some iface →
      (match c.lookedUp mt with
        | none => false
        | some iface => decide (findDevice h iface vc.NetworkInterfaces ≠ some none)) = false →
      h2.readConfig pc = h.readConfig pc := by
    intro c hc iface hl hm
    subst hc
    rw [hl] at hm
    exact hframe iface hl (by simpa using hm)
  cases call with
  | networkConfig c =>
    cases c with
    | none => simp [OptionCall.argsValid] at hargs
    | some pc' =>
      obtain ⟨w, hw'⟩ : ∃ w, h.config pc' = some w :=
        ⟨_, Heap.config_of_lt (of_decide_eq_true hargs)⟩
      have e : WithNetworkConfig (some pc') mt cfg h = some (h2, none) := hrun
      rw [withNetworkConfig_eq mt hw' hcfg] at e
      cases e
      exact hsame rfl rfl rfl rfl
  | networkNameservers ns =>
    have e : WithNetworkNameservers ns mt cfg h = some (h2, none) := hrun
    rw [withNetworkNameservers_eq ns mt hcfg] at e
    cases e
    have hw' : ∀ p ∈ vc.NetworkInterfaces, ∀ d, h.device p = some d →
        d.DeviceAddresses.seesBehind vc.NameServers ns.length = false := by
      intro p hp d hd
      have := hw
      simp only [OptionCall.writesInto, hpc, List.any_eq_false] at this
      have h3 := this p hp
      simpa [hd] using h3
    have hrd : ∀ t, ((h.append vc.NameServers ns).1.storeConfig cfg
        { vc with NameServers := (h.append vc.NameServers ns).2 }).readSlice t
          = (h.append vc.NameServers ns).1.readSlice t := fun _ => rfl
    refine readConfig_congr hpc hc2
      (fun p _ => (Heap.append_device h _ _ p))
      (fun _ _ _ q _ _ => (Heap.append_dhcp h _ _ q))
      (fun k0 _ => Heap.append_kubeSpan h _ _ k0) ?_ ?_
    · intro p hp d hd
      obtain ⟨ys, hys⟩ := Heap.readSlice_isSome_of_valid (hvs.2 p hp d hd)
      rw [hrd, Heap.append_frame ns hys (hw' p hp d hd), hys]
    · obtain ⟨ys, hys⟩ := Heap.readSlice_isSome_of_valid hvs.1
      rw [hrd, Heap.append_frame ns hys (Slice.seesBehind_self _ _), hys]
  | kubeSpan =>
    have hnone : vc.NetworkKubeSpan = none := by
      have := hw
      simp only [OptionCall.writesInto, hpc] at this
      cases hk : vc.NetworkKubeSpan with
      | none => rfl
      | some k => simp [hk] at this
    obtain ⟨h', k, s, hrun', -, -, -, -, -, hdev, hdh, -, -⟩ := withKubeSpan_spec mt hwf hcfg
    have e : WithKubeSpan mt cfg h = some (h2, none) := hrun
    rw [e] at hrun'
    cases hrun'
    have harr : h2.arrays = h.arrays := by
      rcases build_arrays OptionCall.kubeSpan mt hwf hrun with e1 | ⟨_, _, hc, _⟩ | ⟨_, _, hc, _⟩
      · exact e1
      · cases hc
      · cases hc
    exact readConfig_congr hpc hc2 (fun _ _ => by simp [Heap.device, hdev])
      (fun _ _ _ _ _ _ => by simp [Heap.dhcp, hdh])
      (fun k0 hk0 => by rw [hnone] at hk0; cases hk0)
      (fun _ _ _ _ => Heap.readSlice_congr (fun _ _ => by rw [harr]))
      (Heap.readSlice_congr (fun _ _ => by rw [harr]))
  | interfaceIgnore i =>
    exact hlook _ rfl i rfl (by simpa [OptionCall.writesInto, hpc] using hw)
  | interfaceDHCP i enable =>
    exact hlook _ rfl i rfl (by simpa [OptionCall.writesInto, hpc] using hw)
  | interfaceDHCPv4 i enable =>
    exact hlook _ rfl i rfl (by simpa [OptionCall.writesInto, hpc] using hw)
  | interfaceDHCPv6 i enable =>
    exact hlook _ rfl i rfl (by simpa [OptionCall.writesInto, hpc] using hw)
  | interfaceCIDR i cidr =>
    exact hlook _ rfl i rfl (by simpa [OptionCall.writesInto, hpc] using hw)
  | interfaceMTU i mtu =>
    exact hlook _ rfl i rfl (by simpa [OptionCall.writesInto, hpc] using hw)
  | interfaceWireguard i w =>
    exact hlook _ rfl i rfl (by simpa [OptionCall.writesInto, hpc] using hw)
  | interfaceVirtualIP i cidr =>
    by_cases hmt : mt = MachineType.TypeWorker
    · have e : WithNetworkInterfaceVirtualIP i cidr mt cfg h = some (h2, none) := hrun
      simp [WithNetworkInterfaceVirtualIP, hmt] at e
      rw [← e]
    · exact hlook _ rfl i (by simp [OptionCall.lookedUp, hmt])
        (by simpa [OptionCall.writesInto, hpc] using hw)

/-! ## The claims -/

/-- C1. For every interface name, every address, every heap and every document
pointer, the virtual-IP option applied with machine type Worker returns a nil error
and leaves the heap, hence the document, exactly as it was before the call; no
device entry is created. -/
theorem virtualIP_worker_noop (iface cidr : String) (cfg : Ptr) (h : Heap) :
    WithNetworkInterfaceVirtualIP iface cidr MachineType.TypeWorker cfg h = some (h, none) := by
  simp [WithNetworkInterfaceVirtualIP]

/-- C2. For every machine type other than Worker, on a well-formed heap holding the
document, the virtual-IP option returns a nil error, and afterwards the first entry
of the document's interface list named `iface` exists and its virtual-IP
configuration is exactly `{SharedIP: cidr}`, whatever it was before. -/
theorem virtualIP_sets (iface cidr : String) (mt : MachineType) (cfg : Ptr) (h : Heap)
    (hmt : mt ≠ MachineType.TypeWorker) (hwf : h.wellFormed = true)
    (hcfg : h.hasConfig cfg = true) :
    ∃ h' v dev d, WithNetworkInterfaceVirtualIP iface cidr mt cfg h = some (h', none) ∧
      h'.config cfg = some v ∧ dev ∈ v.NetworkInterfaces ∧
      findDevice h' iface v.NetworkInterfaces = some (some dev) ∧
      h'.device dev = some d ∧ d.DeviceInterface = iface ∧
      d.DeviceVIPConfig = some { SharedIP := cidr } := by
  replace hwf := Heap.pointersValid_of_wellFormed hwf
  have hc := Heap.config_of_lt (of_decide_eq_true hcfg)
  obtain ⟨h1, dev, d, v1, -, -, -, hrun, -, hc1, hf, hd, -, -, -⟩ :=
    assignDevice_spec iface (fun d => { d with DeviceVIPConfig := some { SharedIP := cidr } })
      mt (fun _ => rfl) (fun _ => rfl) hwf hc
  rw [← withNetworkInterfaceVirtualIP_eq iface cidr mt hmt] at hrun
  obtain ⟨hm, e, he, hen⟩ := findDevice_found hf
  rw [hd] at he
  cases he
  exact ⟨_, v1, dev, _, hrun, hc1, hm, hf, hd, hen, rfl⟩

/-- Witness of C2: the control-plane role on the heap holding one empty document. -/
theorem virtualIP_sets_witness :
    MachineType.TypeControlPlane ≠ MachineType.TypeWorker ∧
    emptyDocument.wellFormed = true ∧ emptyDocument.hasConfig 0 = true ∧
    ∃ h' v dev d,
      WithNetworkInterfaceVirtualIP "eth0" "10.0.0.10" MachineType.TypeControlPlane 0
        emptyDocument = some (h', none) ∧
      h'.config 0 = some v ∧ dev ∈ v.NetworkInterfaces ∧
      findDevice h' "eth0" v.NetworkInterfaces = some (some dev) ∧
      h'.device dev = some d ∧ d.DeviceInterface = "eth0" ∧
      d.DeviceVIPConfig = some { SharedIP := "10.0.0.10" } :=
  ⟨by decide, by decide, by decide,
    virtualIP_sets "eth0" "10.0.0.10" MachineType.TypeControlPlane 0 emptyDocument
      (by decide) (by decide) (by decide)⟩

/-- C3, counterexample.  The caller's config `c` (address 1) has a device `eth0`
with MTU 0; the document (address 0) is empty.  With
`P = [WithNetworkConfig(c), WithNetworkInterfaceMTU "eth0" 1]` and `Q = []`, the run
`P ++ [WithNetworkConfig(c)] ++ Q` ends with `eth0` at MTU 1 while the run
`[WithNetworkConfig(c)] ++ Q` ends with `eth0` at MTU 0: what `P` did survives the
replacement, and the document after `P ++ [WithNetworkConfig(c)]` is not the value
`c` had before the run. -/
theorem replacement_keeps_shared_writes :
    (applyCalls MachineType.TypeControlPlane 0
        ([OptionCall.networkConfig (some 1), OptionCall.interfaceMTU "eth0" 1]
          ++ [OptionCall.networkConfig (some 1)] ++ [])
        callerConfigHeap).map (fun r => (r.1.readConfig 0, r.2))
      ≠ (applyCalls MachineType.TypeControlPlane 0
        ([OptionCall.networkConfig (some 1)] ++ [])
        callerConfigHeap).map (fun r => (r.1.readConfig 0, r.2)) ∧
    (applyCalls MachineType.TypeControlPlane 0
        ([OptionCall.networkConfig (some 1), OptionCall.interfaceMTU "eth0" 1]
          ++ [OptionCall.networkConfig (some 1)])
        callerConfigHeap).map (fun r => (r.1.readConfig 0, r.2))
      ≠ some (callerConfigHeap.readConfig 1, none) ∧
    (applyCalls MachineType.TypeControlPlane 0
        ([OptionCall.networkConfig (some 1), OptionCall.interfaceMTU "eth0" 1]
          ++ [OptionCall.networkConfig (some 1)] ++ [])
        callerConfigHeap).map
        (fun r => (r.1.readConfig 0).map
          (fun c => c.NetworkInterfaces.map DeviceValue.DeviceMTU))
      = some (some [1]) ∧
    (applyCalls MachineType.TypeControlPlane 0
        ([OptionCall.networkConfig (some 1)] ++ [])
        callerConfigHeap).map
        (fun r => (r.1.readConfig 0).map
          (fun c => c.NetworkInterfaces.map DeviceValue.DeviceMTU))
      = some (some [0]) := by
  decide

/-- C3, amended.  Last-writer-wins for whole-structure replacement.  On a
well-formed heap, for every machine type, every sequence `P` of calls and every
non-nil `c`: the run `P ++ [WithNetworkConfig(c)]` ends with a nil error and leaves
the document with the top-level struct, hence the value, that `c` has after `P`.
When moreover `c` is not the document itself and `P` wrote to no cell and to no
backing array that a config other than the document points to, that value is the
value `c` had before the run,
and for every sequence `Q` the runs `P ++ [WithNetworkConfig(c)] ++ Q` and
`[WithNetworkConfig(c)] ++ Q` both end with a nil error and leave documents of equal
value: nothing done by `P` survives.  The interface list of a config is a value in
this development, so the heaps spoken of are those in which no two configs share the
storage behind their interface lists when the run starts. -/
theorem replacement_discards_earlier_options (mt : MachineType) (cfg pc : Ptr) (h : Heap)
    (P Q : List OptionCall)
    (hwf : h.wellFormed = true) (hcfg : h.hasConfig cfg = true)
    (hpc : h.hasConfig pc = true)
    (hP : ∀ c ∈ P, c.argsValid h = true) (hQ : ∀ c ∈ Q, c.argsValid h = true) :
    ∃ h1 h2 : Heap, applyCalls mt cfg P h = some (h1, none) ∧
      applyCalls mt cfg (P ++ [OptionCall.networkConfig (some pc)]) h = some (h2, none) ∧
      h2.config cfg = h1.config pc ∧ h2.readConfig cfg = h1.readConfig pc ∧
      (pc ≠ cfg → leavesOthersUntouched mt cfg P h = true →
        ∃ (h3 h4 : Heap) (x y : NetworkConfigValue),
          h.readConfig pc = some x ∧ h2.readConfig cfg = some x ∧
          applyCalls mt cfg (P ++ [OptionCall.networkConfig (some pc)] ++ Q) h
            = some (h3, none) ∧
          applyCalls mt cfg ([OptionCall.networkConfig (some pc)] ++ Q) h = some (h4, none) ∧
          h3.readConfig cfg = some y ∧ h4.readConfig cfg = some y) := by
  have hsl := Heap.slicesValid_of_wellFormed hwf
  replace hwf := Heap.pointersValid_of_wellFormed hwf
  obtain ⟨h1, hrunP, hwf1, hlen1, hfr1⟩ := applyCalls_stepOk mt cfg P hwf hcfg hP
  have hcfg1 := hasConfig_of_length hlen1 hcfg
  have hpc1 := hasConfig_of_length hlen1 hpc
  obtain ⟨w1, hw1⟩ : ∃ w1, h1.config cfg = some w1 :=
    ⟨_, Heap.config_of_lt (of_decide_eq_true hcfg1)⟩
  obtain ⟨vc1, hvc1⟩ : ∃ vc1, h1.config pc = some vc1 :=
    ⟨_, Heap.config_of_lt (of_decide_eq_true hpc1)⟩
  have hwnc1 : (OptionCall.networkConfig (some pc)).build mt cfg h1
      = some (h1.storeConfig cfg vc1, none) := withNetworkConfig_eq mt hvc1 hw1
  have hrun2 : applyCalls mt cfg (P ++ [OptionCall.networkConfig (some pc)]) h
      = some (h1.storeConfig cfg vc1, none) :=
    (applyCalls_append _ hrunP _).2 ((applyCalls_cons [] hwnc1 _).2 (applyCalls_nil _ _ _))
  refine ⟨h1, h1.storeConfig cfg vc1, hrunP, hrun2, ?_, Heap.readConfig_storeConfig_copy hvc1 hw1,
    ?_⟩
  · rw [Heap.config_storeConfig_self vc1 hw1, hvc1]
  · intro hne hunt
    have hunt' : h.untouchedOutside h1 cfg = true := by
      simpa [leavesOthersUntouched, hrunP] using hunt
    obtain ⟨w, hw⟩ : ∃ w, h.config cfg = some w :=
      ⟨_, Heap.config_of_lt (of_decide_eq_true hcfg)⟩
    obtain ⟨vc, hvc⟩ : ∃ vc, h.config pc = some vc :=
      ⟨_, Heap.config_of_lt (of_decide_eq_true hpc)⟩
    have hsame : vc1 = vc := by
      have := hfr1 pc hne
      rw [hvc1, hvc] at this
      exact Option.some.inj this
    subst hsame
    obtain ⟨g1, g2, g3⟩ := applyCalls_grows mt cfg P hwf hcfg hP hrunP
    have g4 := applyCalls_arrays_grow mt cfg P hwf hcfg hP hrunP
    have sim := sim_of_untouched hwf hsl hne hvc hlen1 hfr1 g1 g2 g3 g4 hunt'
    obtain ⟨x, hx⟩ := Heap.readConfig_isSome_of_valid hwf hsl hvc
    have hwnc0 : (OptionCall.networkConfig (some pc)).build mt cfg h
        = some (h.storeConfig cfg vc1, none) := withNetworkConfig_eq mt hvc hw
    have hwfA : (h.storeConfig cfg vc1).pointersValid = true :=
      withNetworkConfig_pointersValid hwf hvc
    have hslA : (h.storeConfig cfg vc1).slicesValid = true :=
      Heap.slicesValid_storeConfig cfg hsl (Heap.validSlices_of_config hsl hvc)
    have hlenA : (h.storeConfig cfg vc1).configs.length = h.configs.length := by
      simp [Heap.storeConfig]
    obtain ⟨h4, hrunQA, hwf4, hlen4, -⟩ := applyCalls_stepOk mt cfg Q hwfA
      (hasConfig_of_length hlenA hcfg) (fun c hc => argsValid_of_length hlenA c (hQ c hc))
    have hwf4' := applyCalls_wellFormed mt cfg Q (Heap.wellFormed_iff.2 ⟨hwfA, hslA⟩)
      (hasConfig_of_length hlenA hcfg) (fun c hc => argsValid_of_length hlenA c (hQ c hc))
      hrunQA
    obtain ⟨h3, hrunQB, sim3⟩ := applyCalls_sim mt cfg Q sim hrunQA
    have hcfg4 := hasConfig_of_length (hlen4.trans hlenA) hcfg
    obtain ⟨y, hy⟩ := Heap.readConfig_isSome_of_valid hwf4
      (Heap.slicesValid_of_wellFormed hwf4') (Heap.config_of_lt (of_decide_eq_true hcfg4))
    refine ⟨h3, h4, x, y, hx, ?_, ?_, ?_, ?_, hy⟩
    · rw [sim.readConfig_eq cfg, Heap.readConfig_storeConfig_copy hvc hw, hx]
    · exact (applyCalls_append Q hrun2 h3).2 hrunQB
    · exact (applyCalls_cons Q hwnc0 h4).2 hrunQA
    · rw [sim3.readConfig_eq cfg, hy]

/-- Witness of the amended C3, the example of the claim: `P` sets the MTU of `eth0`
to 1, the replacement config is empty, `Q` sets the MTU of `eth0` to 2; the run ends
with the single device `eth0` at MTU 2. -/
theorem replacement_discards_earlier_options_witness :
    emptyReplacementHeap.wellFormed = true ∧ emptyReplacementHeap.hasConfig 0 = true ∧
    emptyReplacementHeap.hasConfig 1 = true ∧
    (∀ c ∈ [OptionCall.interfaceMTU "eth0" 1], c.argsValid emptyReplacementHeap = true) ∧
    (∀ c ∈ [OptionCall.interfaceMTU "eth0" 2], c.argsValid emptyReplacementHeap = true) ∧
    (1 : Ptr) ≠ 0 ∧
    leavesOthersUntouched MachineType.TypeControlPlane 0 [OptionCall.interfaceMTU "eth0" 1]
      emptyReplacementHeap = true ∧
    (applyCalls MachineType.TypeControlPlane 0
        ([OptionCall.interfaceMTU "eth0" 1] ++ [OptionCall.networkConfig (some 1)]
          ++ [OptionCall.interfaceMTU "eth0" 2])
        emptyReplacementHeap).map
        (fun r => (r.1.readConfig 0).map
          (fun c => c.NetworkInterfaces.map (fun d => (d.DeviceInterface, d.DeviceMTU))))
      = some (some [("eth0", 2)]) ∧
    ∃ (h1 h2 h3 h4 : Heap) (x y : NetworkConfigValue),
      applyCalls MachineType.TypeControlPlane 0 [OptionCall.interfaceMTU "eth0" 1]
        emptyReplacementHeap = some (h1, none) ∧
      applyCalls MachineType.TypeControlPlane 0
        ([OptionCall.interfaceMTU "eth0" 1] ++ [OptionCall.networkConfig (some 1)])
        emptyReplacementHeap = some (h2, none) ∧
      h2.config 0 = h1.config 1 ∧ h2.readConfig 0 = h1.readConfig 1 ∧
      emptyReplacementHeap.readConfig 1 = some x ∧ h2.readConfig 0 = some x ∧
      applyCalls MachineType.TypeControlPlane 0
        ([OptionCall.interfaceMTU "eth0" 1] ++ [OptionCall.networkConfig (some 1)]
          ++ [OptionCall.interfaceMTU "eth0" 2])
        emptyReplacementHeap = some (h3, none) ∧
      applyCalls MachineType.TypeControlPlane 0
        ([OptionCall.networkConfig (some 1)] ++ [OptionCall.interfaceMTU "eth0" 2])
        emptyReplacementHeap = some (h4, none) ∧
      h3.readConfig 0 = some y ∧ h4.readConfig 0 = some y := by
  obtain ⟨h1, h2, e1, e2, e3, e4, rest⟩ :=
    replacement_discards_earlier_options MachineType.TypeControlPlane 0 1 emptyReplacementHeap
      [OptionCall.interfaceMTU "eth0" 1] [OptionCall.interfaceMTU "eth0" 2]
      (by decide) (by decide) (by decide) (by decide) (by decide)
  obtain ⟨h3, h4, x, y, f1, f2, f3, f4, f5, f6⟩ := rest (by decide) (by decide)
  exact ⟨by decide, by decide, by decide, by decide, by decide, by decide, by decide,
    by decide, h1, h2, h3, h4, x, y, e1, e2, e3, e4, f1, f2, f3, f4, f5, f6⟩

/-- On every well-formed heap `WithNetworkInterfaceDHCP` returns and leaves the DHCP
field of the device named `iface` set to `true`, whatever `enable` is. -/
theorem withNetworkInterfaceDHCP_sets_true (iface : String) (enable : Bool) (mt : MachineType)
    (cfg : Ptr) (h : Heap) (hwf : h.wellFormed = true) (hcfg : h.hasConfig cfg = true) :
    ∃ h' v dev d, WithNetworkInterfaceDHCP iface enable mt cfg h = some (h', none) ∧
      h'.config cfg = some v ∧
      findDevice h' iface v.NetworkInterfaces = some (some dev) ∧
      h'.device dev = some d ∧ d.DeviceDHCP = some true := by
  replace hwf := Heap.pointersValid_of_wellFormed hwf
  have hc := Heap.config_of_lt (of_decide_eq_true hcfg)
  obtain ⟨h1, dev, d, v1, -, -, -, hrun, -, hc1, hf, hd, -, -, -⟩ :=
    assignDevice_spec iface (fun d => { d with DeviceDHCP := some true })
      mt (fun _ => rfl) (fun _ => rfl) hwf hc
  exact ⟨_, v1, dev, _, hrun, hc1, hf, hd, rfl⟩

/-- C4, the code at the failing input: `WithNetworkInterfaceDHCP "eth0" false` on the
empty document returns a nil error and leaves one device, `eth0`, whose DHCP field
is set to `true`; the claim asks for an explicitly set `false`. -/
theorem dhcp_option_ignores_enable :
    (WithNetworkInterfaceDHCP "eth0" false MachineType.TypeControlPlane 0 emptyDocument).map
        (fun r => ((r.1.readConfig 0).map
          (fun c => c.NetworkInterfaces.map (fun d => (d.DeviceInterface, d.DeviceDHCP))), r.2))
      = some (some [("eth0", some true)], none) := by
  decide

/-- C5. Tri-state DHCPv4/DHCPv6 switches.  On a well-formed heap holding the
document: after `WithNetworkInterfaceDHCPv4 iface enable` the device named `iface`
has DHCP options and their IPv4 field is set to `enable`; likewise the IPv6 field
after `WithNetworkInterfaceDHCPv6`; a device created on a document without
interfaces by `WithNetworkInterfaceMTU` has no DHCP options, so both fields read
as unset; and the state reached with `enable = false` differs from that unset
state. -/
theorem dhcp_switches_tristate (iface : String) (enable : Bool) (mt : MachineType)
    (cfg : Ptr) (h : Heap) (hwf : h.wellFormed = true) (hcfg : h.hasConfig cfg = true) :
    (∃ h' v dev d q o, WithNetworkInterfaceDHCPv4 iface enable mt cfg h = some (h', none) ∧
      h'.config cfg = some v ∧ findDevice h' iface v.NetworkInterfaces = some (some dev) ∧
      h'.device dev = some d ∧ d.DeviceDHCPOptions = some q ∧ h'.dhcp q = some o ∧
      o.DHCPIPv4 = some enable ∧ h'.deviceDHCPv4 dev = some enable) ∧
    (∃ h' v dev d q o, WithNetworkInterfaceDHCPv6 iface enable mt cfg h = some (h', none) ∧
      h'.config cfg = some v ∧ findDevice h' iface v.NetworkInterfaces = some (some dev) ∧
      h'.device dev = some d ∧ d.DeviceDHCPOptions = some q ∧ h'.dhcp q = some o ∧
      o.DHCPIPv6 = some enable ∧ h'.deviceDHCPv6 dev = some enable) ∧
    (∀ mtu v0, h.config cfg = some v0 → v0.NetworkInterfaces = [] →
      ∃ h' v dev d, WithNetworkInterfaceMTU iface mtu mt cfg h = some (h', none) ∧
        h'.config cfg = some v ∧ v.NetworkInterfaces = [dev] ∧
        h'.device dev = some d ∧ d.DeviceInterface = iface ∧
        d.DeviceDHCPOptions = none ∧
        h'.deviceDHCPv4 dev = none ∧ h'.deviceDHCPv6 dev = none) ∧
    (∃ h' v dev, WithNetworkInterfaceDHCPv4 iface false mt cfg h = some (h', none) ∧
      h'.config cfg = some v ∧ findDevice h' iface v.NetworkInterfaces = some (some dev) ∧
      h'.deviceDHCPv4 dev = some false ∧ h'.deviceDHCPv4 dev ≠ none) ∧
    (∃ h' v dev, WithNetworkInterfaceDHCPv6 iface false mt cfg h = some (h', none) ∧
      h'.config cfg = some v ∧ findDevice h' iface v.NetworkInterfaces = some (some dev) ∧
      h'.deviceDHCPv6 dev = some false ∧ h'.deviceDHCPv6 dev ≠ none) := by
  replace hwf := Heap.pointersValid_of_wellFormed hwf
  have hc := Heap.config_of_lt (of_decide_eq_true hcfg)
  have h4 : ∀ b : Bool, ∃ h' v dev d q o,
      WithNetworkInterfaceDHCPv4 iface b mt cfg h = some (h', none) ∧
      h'.config cfg = some v ∧ findDevice h' iface v.NetworkInterfaces = some (some dev) ∧
      h'.device dev = some d ∧ d.DeviceDHCPOptions = some q ∧ h'.dhcp q = some o ∧
      o.DHCPIPv4 = some b ∧ h'.deviceDHCPv4 dev = some b := by
    intro b
    obtain ⟨h', dev, d, q, o, v1, hrun, -, hc1, hf, hd, -, hq, ho, -, -, -⟩ :=
      assignDhcp_spec iface (fun o => { o with DHCPIPv4 := some b }) mt hwf hc
    exact ⟨h', v1, dev, d, q, _, hrun, hc1, hf, hd, hq, ho, rfl,
      by simp [Heap.deviceDHCPv4, hd, hq, ho]⟩
  have h6 : ∀ b : Bool, ∃ h' v dev d q o,
      WithNetworkInterfaceDHCPv6 iface b mt cfg h = some (h', none) ∧
      h'.config cfg = some v ∧ findDevice h' iface v.NetworkInterfaces = some (some dev) ∧
      h'.device dev = some d ∧ d.DeviceDHCPOptions = some q ∧ h'.dhcp q = some o ∧
      o.DHCPIPv6 = some b ∧ h'.deviceDHCPv6 dev = some b := by
    intro b
    obtain ⟨h', dev, d, q, o, v1, hrun, -, hc1, hf, hd, -, hq, ho, -, -, -⟩ :=
      assignDhcp_spec iface (fun o => { o with DHCPIPv6 := some b }) mt hwf hc
    exact ⟨h', v1, dev, d, q, _, hrun, hc1, hf, hd, hq, ho, rfl,
      by simp [Heap.deviceDHCPv6, hd, hq, ho]⟩
  refine ⟨h4 enable, h6 enable, ?_, ?_, ?_⟩
  · intro mtu v0 hv0 hnil
    have hfind : findDevice h iface v0.NetworkInterfaces = some none := by
      rw [hnil]; rfl
    have hg : getDevice h cfg iface =
        some ((h.newDevice (Device.named iface)).1.storeConfig cfg
          { v0 with NetworkInterfaces := v0.NetworkInterfaces ++ [h.devices.length] },
          h.devices.length) := by
      simp [getDevice, hv0, hfind, Heap.newDevice]
    have hlt := Heap.lt_of_config hv0
    refine ⟨((h.newDevice (Device.named iface)).1.storeConfig cfg
          { v0 with NetworkInterfaces := v0.NetworkInterfaces ++ [h.devices.length] }).storeDevice
          h.devices.length { Device.named iface with DeviceMTU := mtu },
      { v0 with NetworkInterfaces := v0.NetworkInterfaces ++ [h.devices.length] },
      h.devices.length, { Device.named iface with DeviceMTU := mtu }, ?_, ?_, ?_,
      ?_, rfl, rfl, ?_, ?_⟩
    · simp [WithNetworkInterfaceMTU, hg, updateDevice, Heap.device, Heap.storeConfig,
        Heap.newDevice]
    · simp [Heap.config, Heap.storeConfig, Heap.storeDevice, Heap.newDevice, hlt]
    · simp [hnil]
    · simp [Heap.device, Heap.storeConfig, Heap.storeDevice, Heap.newDevice,
        List.getElem?_set]
    · simp [Heap.deviceDHCPv4, Heap.device, Heap.storeConfig, Heap.storeDevice, Heap.newDevice,
        List.getElem?_set, Device.named]
    · simp [Heap.deviceDHCPv6, Heap.device, Heap.storeConfig, Heap.storeDevice, Heap.newDevice,
        List.getElem?_set, Device.named]
  · obtain ⟨h', v, dev, d, q, o, hrun, hc1, hf, -, -, -, -, hs⟩ := h4 false
    exact ⟨h', v, dev, hrun, hc1, hf, hs, by simp [hs]⟩
  · obtain ⟨h', v, dev, d, q, o, hrun, hc1, hf, -, -, -, -, hs⟩ := h6 false
    exact ⟨h', v, dev, hrun, hc1, hf, hs, by simp [hs]⟩

/-- Witness of C5: the heap holding one empty document; `eth0` after
`WithNetworkInterfaceDHCPv4 "eth0" false` reads "set, false", and `eth0` created by
`WithNetworkInterfaceMTU "eth0" 1500` reads "unset". -/
theorem dhcp_switches_tristate_witness :
    emptyDocument.wellFormed = true ∧ emptyDocument.hasConfig 0 = true ∧
    (∃ h' v dev, WithNetworkInterfaceDHCPv4 "eth0" false MachineType.TypeWorker 0 emptyDocument
        = some (h', none) ∧
      h'.config 0 = some v ∧ findDevice h' "eth0" v.NetworkInterfaces = some (some dev) ∧
      h'.deviceDHCPv4 dev = some false ∧ h'.deviceDHCPv4 dev ≠ none) ∧
    (∃ h' v dev d, WithNetworkInterfaceMTU "eth0" 1500 MachineType.TypeWorker 0 emptyDocument
        = some (h', none) ∧
      h'.config 0 = some v ∧ v.NetworkInterfaces = [dev] ∧
      h'.device dev = some d ∧ d.DeviceInterface = "eth0" ∧
      d.DeviceDHCPOptions = none ∧
      h'.deviceDHCPv4 dev = none ∧ h'.deviceDHCPv6 dev = none) :=
  ⟨by decide, by decide,
    (dhcp_switches_tristate "eth0" false MachineType.TypeWorker 0 emptyDocument
      (by decide) (by decide)).2.2.2.1,
    (dhcp_switches_tristate "eth0" false MachineType.TypeWorker 0 emptyDocument
      (by decide) (by decide)).2.2.1 1500 NetworkConfig.zero (by decide) rfl⟩

/-- C6. Get-or-create stability.  Start from a well-formed heap whose document has
no interface, and run any finite sequence of interface options (Ignore, DHCP,
DHCPv4, DHCPv6, CIDR, MTU, Wireguard, and VirtualIP for a non-worker).  The run
ends with a nil error, and the names of the document's device list are exactly the
names the sequence referenced, each once, in the order of first reference
(`firstReferences`): no two entries share a name, the length is the number of
distinct names referenced, and of two entries the one first referenced earlier
stands first. -/
theorem getDevice_get_or_create_stable (mt : MachineType) (cfg : Ptr) (h : Heap)
    (v : NetworkConfig) (calls : List OptionCall)
    (hwf : h.wellFormed = true) (hcfg : h.config cfg = some v)
    (hempty : v.NetworkInterfaces = [])
    (hcalls : ∀ c ∈ calls, (c.lookedUp mt).isSome = true) :
    ∃ h' v', applyCalls mt cfg calls h = some (h', none) ∧ h'.config cfg = some v' ∧
      h'.deviceNames v'.NetworkInterfaces =
        (firstReferences (calls.filterMap (OptionCall.lookedUp mt))).map some ∧
      (h'.deviceNames v'.NetworkInterfaces).Nodup ∧
      v'.NetworkInterfaces.length = (calls.filterMap (OptionCall.lookedUp mt)).toFinset.card ∧
      (firstReferences (calls.filterMap (OptionCall.lookedUp mt))).Pairwise
        (fun a b =>
          (calls.filterMap (OptionCall.lookedUp mt)).indexOf a
            < (calls.filterMap (OptionCall.lookedUp mt)).indexOf b) := by
  replace hwf := Heap.pointersValid_of_wellFormed hwf
  obtain ⟨h', v', hrun, -, hc', hn'⟩ :=
    applyCalls_names mt cfg calls hwf hcfg
      (show h.deviceNames v.NetworkInterfaces = ([] : List String).map some by
        simp [hempty, Heap.deviceNames]) hcalls
  have hn : h'.deviceNames v'.NetworkInterfaces =
      (firstReferences (calls.filterMap (OptionCall.lookedUp mt))).map some := hn'
  refine ⟨h', v', hrun, hc', hn, ?_, ?_, ?_⟩
  · rw [hn]
    exact (nodup_firstReferences _).map (Option.some_injective _)
  · have hlen : (h'.deviceNames v'.NetworkInterfaces).length = v'.NetworkInterfaces.length := by
      simp [Heap.deviceNames]
    rw [← hlen, hn, List.length_map, length_firstReferences]
  · exact pairwise_firstReferences _

/-- Witness of C6: five interface options on the empty document, control-plane
role; the device list ends as `eth0`, `eth1`, `eth2`. -/
theorem getDevice_get_or_create_stable_witness :
    emptyDocument.wellFormed = true ∧ emptyDocument.config 0 = some NetworkConfig.zero ∧
    NetworkConfig.zero.NetworkInterfaces = [] ∧
    (∀ c ∈ sampleInterfaceCalls,
      (c.lookedUp MachineType.TypeControlPlane).isSome = true) ∧
    firstReferences (sampleInterfaceCalls.filterMap
      (OptionCall.lookedUp MachineType.TypeControlPlane)) = ["eth0", "eth1", "eth2"] ∧
    ∃ h' v', applyCalls MachineType.TypeControlPlane 0 sampleInterfaceCalls emptyDocument
        = some (h', none) ∧ h'.config 0 = some v' ∧
      h'.deviceNames v'.NetworkInterfaces =
        (firstReferences (sampleInterfaceCalls.filterMap
          (OptionCall.lookedUp MachineType.TypeControlPlane))).map some ∧
      (h'.deviceNames v'.NetworkInterfaces).Nodup ∧
      v'.NetworkInterfaces.length =
        (sampleInterfaceCalls.filterMap
          (OptionCall.lookedUp MachineType.TypeControlPlane)).toFinset.card ∧
      (firstReferences (sampleInterfaceCalls.filterMap
          (OptionCall.lookedUp MachineType.TypeControlPlane))).Pairwise
        (fun a b =>
          (sampleInterfaceCalls.filterMap
              (OptionCall.lookedUp MachineType.TypeControlPlane)).indexOf a
            < (sampleInterfaceCalls.filterMap
              (OptionCall.lookedUp MachineType.TypeControlPlane)).indexOf b) :=
  ⟨by decide, by decide, rfl, by decide, by decide,
    getDevice_get_or_create_stable MachineType.TypeControlPlane 0 emptyDocument
      NetworkConfig.zero sampleInterfaceCalls (by decide) (by decide) rfl (by decide)⟩

/-- C7, counterexample.  On the empty document, applying
`WithNetworkNameservers "1.1.1.1"` twice leaves the nameserver list
`["1.1.1.1", "1.1.1.1"]` while applying it once leaves `["1.1.1.1"]`; applying
`WithNetworkInterfaceCIDR "eth0" "10.0.0.2/24"` twice leaves the address twice in
the device's address list.  In both cases the document after two applications
differs from the document after one. -/
theorem appending_options_not_idempotent :
    (applyCalls MachineType.TypeControlPlane 0
        [OptionCall.networkNameservers ["1.1.1.1"], OptionCall.networkNameservers ["1.1.1.1"]]
        emptyDocument).map (fun r => (r.1.readConfig 0, r.2))
      ≠ (applyCalls MachineType.TypeControlPlane 0
        [OptionCall.networkNameservers ["1.1.1.1"]]
        emptyDocument).map (fun r => (r.1.readConfig 0, r.2)) ∧
    (applyCalls MachineType.TypeControlPlane 0
        [OptionCall.networkNameservers ["1.1.1.1"], OptionCall.networkNameservers ["1.1.1.1"]]
        emptyDocument).map
        (fun r => (r.1.readConfig 0).map NetworkConfigValue.NameServers)
      = some (some ["1.1.1.1", "1.1.1.1"]) ∧
    (applyCalls MachineType.TypeControlPlane 0
        [OptionCall.interfaceCIDR "eth0" "10.0.0.2/24",
          OptionCall.interfaceCIDR "eth0" "10.0.0.2/24"]
        emptyDocument).map (fun r => (r.1.readConfig 0, r.2))
      ≠ (applyCalls MachineType.TypeControlPlane 0
        [OptionCall.interfaceCIDR "eth0" "10.0.0.2/24"]
        emptyDocument).map (fun r => (r.1.readConfig 0, r.2)) ∧
    (applyCalls MachineType.TypeControlPlane 0
        [OptionCall.interfaceCIDR "eth0" "10.0.0.2/24",
          OptionCall.interfaceCIDR "eth0" "10.0.0.2/24"]
        emptyDocument).map
        (fun r => (r.1.readConfig 0).map
          (fun c => c.NetworkInterfaces.map DeviceValue.DeviceAddresses))
      = some (some [["10.0.0.2/24", "10.0.0.2/24"]]) := by
  decide

/-- C7, amended.  Every call of the option file that appends nothing is idempotent,
that is every call other than `WithNetworkInterfaceCIDR` and other than
`WithNetworkNameservers` with a non-empty list: on a well-formed heap holding the
document, with a usable config pointer in the case of `WithNetworkConfig`, the
option returns a nil error, and applied again to the heap it left it returns a nil
error and leaves that heap, hence the document, exactly as it is. -/
theorem options_idempotent_unless_appending (call : OptionCall) (mt : MachineType) (cfg : Ptr)
    (h : Heap) (hwf : h.wellFormed = true) (hcfg : h.hasConfig cfg = true)
    (hargs : call.argsValid h = true) (happ : call.appends = false) :
    ∃ h', call.build mt cfg h = some (h', none) ∧ call.build mt cfg h' = some (h', none) := by
  replace hwf := Heap.pointersValid_of_wellFormed hwf
  obtain ⟨vd, hc⟩ : ∃ vd, h.config cfg = some vd :=
    ⟨_, Heap.config_of_lt (of_decide_eq_true hcfg)⟩
  cases call with
  | networkConfig c =>
    cases c with
    | none => simp [OptionCall.argsValid] at hargs
    | some pc =>
      obtain ⟨vc, hp⟩ : ∃ vc, h.config pc = some vc :=
        ⟨_, Heap.config_of_lt (of_decide_eq_true hargs)⟩
      refine ⟨_, withNetworkConfig_eq mt hp hc, ?_⟩
      have hc' : (h.storeConfig cfg vc).config cfg = some vc :=
        Heap.config_storeConfig_self vc hc
      have hp' : (h.storeConfig cfg vc).config pc = some vc := by
        by_cases hpc : cfg = pc
        · subst hpc; exact hc'
        · rw [Heap.config_storeConfig_ne h vc hpc]; exact hp
      show WithNetworkConfig (some pc) mt cfg _ = _
      rw [withNetworkConfig_eq mt hp' hc', Heap.storeConfig_storeConfig]
  | networkNameservers ns =>
    have hns : ns = [] := by
      cases ns with
      | nil => rfl
      | cons a as => simp [OptionCall.appends] at happ
    subst hns
    have happend : h.append vd.NameServers [] = (h, vd.NameServers) := rfl
    have hsame : h.storeConfig cfg { vd with NameServers := vd.NameServers } = h :=
      Heap.storeConfig_same hc
    refine ⟨h, ?_, ?_⟩ <;>
    · show WithNetworkNameservers [] mt cfg h = _
      rw [withNetworkNameservers_eq [] mt hc, happend]
      exact congrArg (fun x => some (x, none)) hsame
  | interfaceIgnore iface =>
    exact assignDevice_twice iface _ mt (fun _ => rfl) (fun _ => rfl) (fun _ => rfl) hwf hc
  | interfaceDHCP iface enable =>
    exact assignDevice_twice iface _ mt (fun _ => rfl) (fun _ => rfl) (fun _ => rfl) hwf hc
  | interfaceDHCPv4 iface enable => exact assignDhcp_twice iface _ mt (fun _ => rfl) hwf hc
  | interfaceDHCPv6 iface enable => exact assignDhcp_twice iface _ mt (fun _ => rfl) hwf hc
  | interfaceCIDR iface cidr => simp [OptionCall.appends] at happ
  | interfaceMTU iface mtu =>
    exact assignDevice_twice iface _ mt (fun _ => rfl) (fun _ => rfl) (fun _ => rfl) hwf hc
  | interfaceWireguard iface w =>
    exact assignDevice_twice iface _ mt (fun _ => rfl) (fun _ => rfl) (fun _ => rfl) hwf hc
  | interfaceVirtualIP iface cidr =>
    by_cases hmt : mt = MachineType.TypeWorker
    · subst hmt
      exact ⟨h, by simp [OptionCall.build, WithNetworkInterfaceVirtualIP],
        by simp [OptionCall.build, WithNetworkInterfaceVirtualIP]⟩
    · obtain ⟨h', h1, h2⟩ := assignDevice_twice iface
        (fun d => { d with DeviceVIPConfig := some { SharedIP := cidr } }) mt
        (fun _ => rfl) (fun _ => rfl) (fun _ => rfl) hwf hc
      refine ⟨h', ?_, ?_⟩
      · show WithNetworkInterfaceVirtualIP iface cidr mt cfg h = _
        rw [withNetworkInterfaceVirtualIP_eq iface cidr mt hmt]; exact h1
      · show WithNetworkInterfaceVirtualIP iface cidr mt cfg h' = _
        rw [withNetworkInterfaceVirtualIP_eq iface cidr mt hmt]; exact h2
  | kubeSpan => exact withKubeSpan_twice mt hwf hc

/-- Witness of the amended C7: `WithNetworkInterfaceDHCPv4 "eth0" false` on the empty
document. -/
theorem options_idempotent_unless_appending_witness :
    emptyDocument.wellFormed = true ∧ emptyDocument.hasConfig 0 = true ∧
    (OptionCall.interfaceDHCPv4 "eth0" false).argsValid emptyDocument = true ∧
    (OptionCall.interfaceDHCPv4 "eth0" false).appends = false ∧
    ∃ h', (OptionCall.interfaceDHCPv4 "eth0" false).build MachineType.TypeControlPlane 0
        emptyDocument = some (h', none) ∧
      (OptionCall.interfaceDHCPv4 "eth0" false).build MachineType.TypeControlPlane 0 h'
        = some (h', none) :=
  ⟨by decide, by decide, by decide, by decide,
    options_idempotent_unless_appending (OptionCall.interfaceDHCPv4 "eth0" false)
      MachineType.TypeControlPlane 0 emptyDocument (by decide) (by decide) (by decide)
      (by decide)⟩

/-- C8, the code against its documentation.  The comment of the option says that
`WithNetworkNameservers` sets the global nameservers list; its body assigns
`append(cfg.NameServers, nameservers...)`.  On the document whose nameserver list is
`["1.1.1.1"]`, `WithNetworkNameservers "8.8.8.8"` returns a nil error and leaves the
list `["1.1.1.1", "8.8.8.8"]`, which is not the list passed. -/
theorem nameservers_not_replaced :
    (nameserverDocument.readConfig 0).map NetworkConfigValue.NameServers
      = some ["1.1.1.1"] ∧
    (WithNetworkNameservers ["8.8.8.8"] MachineType.TypeControlPlane 0 nameserverDocument).map
        (fun r => ((r.1.readConfig 0).map NetworkConfigValue.NameServers, r.2))
      = some (some ["1.1.1.1", "8.8.8.8"], none) ∧
    (WithNetworkNameservers ["8.8.8.8"] MachineType.TypeControlPlane 0 nameserverDocument).map
        (fun r => (r.1.readConfig 0).map NetworkConfigValue.NameServers)
      ≠ some (some ["8.8.8.8"]) := by
  decide

/-- C9, counterexample.  The caller's config `c` (address 1) has a device `eth0`
with MTU 0 and DHCP options with the IPv4 switch unset.  Applying
`WithNetworkConfig(c)` and then `WithNetworkInterfaceMTU "eth0" 1500` to the
document (address 0) changes the value of `c`: its device now has MTU 1500.
Likewise `WithNetworkInterfaceDHCPv4 "eth0" true` after the replacement sets the
switch in the DHCP options of `c`. -/
theorem networkConfig_shares_devices :
    (applyCalls MachineType.TypeControlPlane 0
        [OptionCall.networkConfig (some 1), OptionCall.interfaceMTU "eth0" 1500]
        callerConfigHeap).map (fun r => (r.1.readConfig 1, r.2))
      ≠ some (callerConfigHeap.readConfig 1, none) ∧
    (applyCalls MachineType.TypeControlPlane 0
        [OptionCall.networkConfig (some 1), OptionCall.interfaceMTU "eth0" 1500]
        callerConfigHeap).map
        (fun r => ((r.1.readConfig 1).map
          (fun c => c.NetworkInterfaces.map DeviceValue.DeviceMTU), r.2))
      = some (some [1500], none) ∧
    (callerConfigHeap.readConfig 1).map
        (fun c => c.NetworkInterfaces.map DeviceValue.DeviceMTU) = some [0] ∧
    (applyCalls MachineType.TypeControlPlane 0
        [OptionCall.networkConfig (some 1), OptionCall.interfaceDHCPv4 "eth0" true]
        callerConfigHeap).map (fun r => (r.1.readConfig 1, r.2))
      ≠ some (callerConfigHeap.readConfig 1, none) := by
  decide

/-- C9, amended.  When the caller's config `c` is not the document itself, applying
`WithNetworkConfig(c)` and then any option of the file to the document returns nil
errors, gives the document the top-level fields of `c` (the same nameserver slice, the
same device pointers, the same KubeSpan pointer, so the two share every device entry
and sub-structure), and leaves the top-level struct of `c` as it was.  The value of
`c`, read through its pointers and slices, is not changed by the replacement, and it
is not changed by the later option either unless that option writes into memory that
`c` reaches, that is unless it is an interface option whose name a device of `c`
carries, or `WithKubeSpan` while `c` has a KubeSpan struct, or
`WithNetworkNameservers` while the address slice of a device of `c` sees the slots
behind the nameserver slice of `c`. -/
theorem networkConfig_keeps_caller_value (pc cfg : Ptr) (call : OptionCall) (mt : MachineType)
    (h : Heap) (hne : pc ≠ cfg) (hwf : h.wellFormed = true) (hcfg : h.hasConfig cfg = true)
    (hpc : h.hasConfig pc = true) (hargs : call.argsValid h = true) :
    ∃ h1 h2, WithNetworkConfig (some pc) mt cfg h = some (h1, none) ∧
      call.build mt cfg h1 = some (h2, none) ∧
      h1.config cfg = h.config pc ∧ h1.config pc = h.config pc ∧
      h2.config pc = h.config pc ∧
      (h.readConfig pc).isSome = true ∧ h1.readConfig pc = h.readConfig pc ∧
      (call.writesInto mt h pc = false → h2.readConfig pc = h.readConfig pc) := by
  have hsl := Heap.slicesValid_of_wellFormed hwf
  replace hwf := Heap.pointersValid_of_wellFormed hwf
  obtain ⟨vd, hc⟩ : ∃ vd, h.config cfg = some vd := ⟨_, Heap.config_of_lt (of_decide_eq_true hcfg)⟩
  obtain ⟨vc, hp⟩ : ∃ vc, h.config pc = some vc := ⟨_, Heap.config_of_lt (of_decide_eq_true hpc)⟩
  have hrun1 := withNetworkConfig_eq mt hp hc
  have hwf1 : (h.storeConfig cfg vc).pointersValid = true :=
    withNetworkConfig_pointersValid hwf hp
  have hsl1 : (h.storeConfig cfg vc).slicesValid = true :=
    Heap.slicesValid_storeConfig cfg hsl (Heap.validSlices_of_config hsl hp)
  have hlen1 : (h.storeConfig cfg vc).configs.length = h.configs.length := by
    simp [Heap.storeConfig]
  obtain ⟨h2, hrun2, -, -, hfr⟩ := build_stepOk call mt hwf1 (hasConfig_of_length hlen1 hcfg)
    (argsValid_of_length hlen1 call hargs)
  have h1pc : (h.storeConfig cfg vc).config pc = h.config pc :=
    Heap.config_storeConfig_ne h _ (Ne.symm hne)
  have h1cfg : (h.storeConfig cfg vc).config cfg = some vc :=
    Heap.config_storeConfig_self _ hc
  have hread1 : (h.storeConfig cfg vc).readConfig pc = h.readConfig pc :=
    readConfig_congr hp (h1pc.trans hp) (fun _ _ => rfl) (fun _ _ _ _ _ _ => rfl)
      (fun _ _ => rfl) (fun _ _ _ _ => rfl) rfl
  obtain ⟨x, hx⟩ := Heap.readConfig_isSome_of_valid hwf hsl hp
  refine ⟨_, h2, hrun1, hrun2, ?_, h1pc, ?_, by simp [hx], hread1, ?_⟩
  · rw [h1cfg, hp]
  · rw [hfr pc hne, h1pc]
  · intro hw
    rw [← hread1]
    exact build_keeps_value call mt hne hwf1 hsl1 h1cfg (h1pc.trans hp)
      (argsValid_of_length hlen1 call hargs)
      (by rw [writesInto_storeConfig call mt vc hne]; exact hw) hrun2

/-- Witness of the amended C9: the caller's config at address 1, which holds `eth0`,
the document at address 0, the later option `WithNetworkInterfaceMTU "eth1" 1500`,
whose interface the caller's config does not have. -/
theorem networkConfig_keeps_caller_value_witness :
    (1 : Ptr) ≠ 0 ∧ callerConfigHeap.wellFormed = true ∧ callerConfigHeap.hasConfig 0 = true ∧
    callerConfigHeap.hasConfig 1 = true ∧
    (OptionCall.interfaceMTU "eth1" 1500).argsValid callerConfigHeap = true ∧
    (OptionCall.interfaceMTU "eth1" 1500).writesInto MachineType.TypeControlPlane
      callerConfigHeap 1 = false ∧
    ∃ h1 h2, WithNetworkConfig (some 1) MachineType.TypeControlPlane 0 callerConfigHeap
        = some (h1, none) ∧
      (OptionCall.interfaceMTU "eth1" 1500).build MachineType.TypeControlPlane 0 h1
        = some (h2, none) ∧
      h1.config 0 = callerConfigHeap.config 1 ∧ h1.config 1 = callerConfigHeap.config 1 ∧
      h2.config 1 = callerConfigHeap.config 1 ∧
      (callerConfigHeap.readConfig 1).isSome = true ∧
      h1.readConfig 1 = callerConfigHeap.readConfig 1 ∧
      h2.readConfig 1 = callerConfigHeap.readConfig 1 := by
  obtain ⟨h1, h2, e1, e2, e3, e4, e5, e6, e7, e8⟩ :=
    networkConfig_keeps_caller_value 1 0 (OptionCall.interfaceMTU "eth1" 1500)
      MachineType.TypeControlPlane callerConfigHeap (by decide) (by decide) (by decide)
      (by decide) (by decide)
  exact ⟨by decide, by decide, by decide, by decide, by decide, by decide,
    h1, h2, e1, e2, e3, e4, e5, e6, e7, e8 (by decide)⟩

/-- C10. Redaction completeness and non-mutation.  For every provider whose
network configuration can be read and every placeholder `s`, `RedactSecrets s`
returns a new provider: field by field it has the name and the tag of the
source, every secret-bearing field has the value `s`, every other field is the
source's field, the readonly flag and the value of the network configuration are
the source's; and the source is unchanged: its provider object, every other
provider object and every cell of the heap are what they were. -/
theorem redactSecrets_complete_and_pure (st : Store) (p : Ptr) (s : String)
    (hr : st.readable p = true) :
    ∃ (st' : Store) (p' : Ptr) (o o' : ProviderObject), st.provider p = some o ∧ st.RedactSecrets p s = some (st', p') ∧
      st'.provider p' = some o' ∧
      o'.fields.length = o.fields.length ∧
      (∀ (i : Nat) (f : DocumentField), o.fields[i]? = some f →
        ∃ f' : DocumentField, o'.fields[i]? = some f' ∧ f'.name = f.name ∧ f'.secret = f.secret ∧
          (f.secret = true → f'.value = s) ∧ (f.secret = false → f' = f)) ∧
      o'.readonly = o.readonly ∧
      st'.heap.readConfig o'.network = st.heap.readConfig o.network ∧
      p' ≠ p ∧ st'.provider p = some o ∧
      (∀ q po, st.provider q = some po → st'.provider q = some po) ∧
      st.heap.Extends st'.heap ∧
      st'.heap.readConfig o.network = st.heap.readConfig o.network := by
  unfold Store.readable at hr
  cases ho : st.provider p with
  | none => simp [ho] at hr
  | some o =>
    simp only [ho, Option.isSome_iff_exists] at hr
    obtain ⟨x, hx⟩ := hr
    obtain ⟨h1, n1, hcopy, hext, hread, -⟩ := Heap.copyConfig_spec hx
    have hplt : p < st.providers.length := by
      simp only [Store.provider, List.getElem?_eq_some] at ho
      exact ho.1
    refine ⟨⟨h1, st.providers ++ [⟨o.fields.map (Store.redactField s), n1, o.readonly⟩]⟩,
      st.providers.length, o, ⟨o.fields.map (Store.redactField s), n1, o.readonly⟩, rfl,
      by simp [Store.RedactSecrets, ho, hcopy], ?_, ?_, ?_, rfl, ?_, ?_, ?_, ?_, hext, ?_⟩
    · simp [Store.provider]
    · simp
    · intro i f hf
      refine ⟨Store.redactField s f, by simp [hf], ?_, ?_, ?_, ?_⟩
      · unfold Store.redactField; split <;> rfl
      · unfold Store.redactField; split <;> rfl
      · intro hs; simp [Store.redactField, hs]
      · intro hs; simp [Store.redactField, hs]
    · rw [hread, hx]
    · exact Nat.ne_of_gt hplt
    · exact Heap.getElem?_append_of_some _ ho
    · intro q po hq
      exact Heap.getElem?_append_of_some _ hq
    · rw [Heap.readConfig_of_extends hext hx, hx]

/-- Witness of C10: the sample store, whose provider holds a token, a hostname and
an empty CA key, redacted with `"***"`. -/
theorem redactSecrets_complete_and_pure_witness :
    sampleStore.readable 0 = true ∧
    ∃ (st' : Store) (p' : Ptr) (o o' : ProviderObject), sampleStore.provider 0 = some o ∧
      sampleStore.RedactSecrets 0 "***" = some (st', p') ∧
      st'.provider p' = some o' ∧
      o'.fields.length = o.fields.length ∧
      (∀ (i : Nat) (f : DocumentField), o.fields[i]? = some f →
        ∃ f' : DocumentField, o'.fields[i]? = some f' ∧ f'.name = f.name ∧ f'.secret = f.secret ∧
          (f.secret = true → f'.value = "***") ∧ (f.secret = false → f' = f)) ∧
      o'.readonly = o.readonly ∧
      st'.heap.readConfig o'.network = sampleStore.heap.readConfig o.network ∧
      p' ≠ 0 ∧ st'.provider 0 = some o ∧
      (∀ q po, sampleStore.provider q = some po → st'.provider q = some po) ∧
      sampleStore.heap.Extends st'.heap ∧
      st'.heap.readConfig o.network = sampleStore.heap.readConfig o.network :=
  ⟨by decide, redactSecrets_complete_and_pure sampleStore 0 "***" (by decide)⟩

/-- C11. Clone independence.  `Clone`, on a well-formed store, for a provider whose
network configuration is a config cell, returns a new provider: its fields and its
readonly flag are the source's and its document reads, through all pointers, as the
source's document, which itself reads as before.  Afterwards the two documents are
independent.  Any run of options that change something inside a document (every
option except the wholesale replacement `WithNetworkConfig`), applied to the clone's
document, returns a nil error and leaves the value of the source's document
unchanged, and applied to the source's document leaves the value of the clone's
document unchanged.  The same holds for an arbitrary write to a device struct, or to
the DHCP options of a device, of either document. -/
theorem clone_independent (st : Store) (p : Ptr) (o : ProviderObject)
    (hwf : st.heap.wellFormed = true) (hp : st.provider p = some o)
    (hn : st.heap.hasConfig o.network = true) :
    ∃ (st' : Store) (p' : Ptr) (o' : ProviderObject),
      st.Clone p = some (st', p') ∧ st'.provider p' = some o' ∧ st'.provider p = some o ∧
      p' ≠ p ∧ o'.network ≠ o.network ∧
      o'.fields = o.fields ∧ o'.readonly = o.readonly ∧
      (st.heap.readConfig o.network).isSome = true ∧
      st'.heap.readConfig o'.network = st.heap.readConfig o.network ∧
      st'.heap.readConfig o.network = st.heap.readConfig o.network ∧
      (∀ (mt : MachineType) (calls : List OptionCall), (∀ c ∈ calls, c.replaces = false) →
        ∃ h'', applyCalls mt o'.network calls st'.heap = some (h'', none) ∧
          h''.readConfig o.network = st.heap.readConfig o.network) ∧
      (∀ (mt : MachineType) (calls : List OptionCall), (∀ c ∈ calls, c.replaces = false) →
        ∃ h'', applyCalls mt o.network calls st'.heap = some (h'', none) ∧
          h''.readConfig o'.network = st.heap.readConfig o.network) ∧
      (∀ (x : Ptr) (d : Device), st'.heap.ownsDevice o'.network x →
        (st'.heap.storeDevice x d).readConfig o.network = st.heap.readConfig o.network) ∧
      (∀ (q : Ptr) (w : DHCPOptions), st'.heap.ownsOptions o'.network q →
        (st'.heap.storeDhcp q w).readConfig o.network = st.heap.readConfig o.network) ∧
      (∀ (x : Ptr) (d : Device), st'.heap.ownsDevice o.network x →
        (st'.heap.storeDevice x d).readConfig o'.network = st.heap.readConfig o.network) ∧
      (∀ (q : Ptr) (w : DHCPOptions), st'.heap.ownsOptions o.network q →
        (st'.heap.storeDhcp q w).readConfig o'.network = st.heap.readConfig o.network) := by
  have hsl := Heap.slicesValid_of_wellFormed hwf
  replace hwf := Heap.pointersValid_of_wellFormed hwf
  have hnlt : o.network < st.heap.configs.length := of_decide_eq_true hn
  obtain ⟨x, hx⟩ := Heap.readConfig_isSome_of_valid hwf hsl (Heap.config_of_lt hnlt)
  have hsome : (st.heap.readConfig o.network).isSome = true := by simp [hx]
  obtain ⟨h1, hcopy, hext, hread, hlen, hwf1, hsl1, hsep⟩ := Heap.copyConfig_fresh hx hwf hsl
  have hsrc : h1.readConfig o.network = some x := Heap.readConfig_of_extends hext hx
  have hs := hsep o.network hnlt
  have hplt : p < st.providers.length := by
    simp only [Store.provider, List.getElem?_eq_some] at hp
    exact hp.1
  have hcl : h1.hasConfig st.heap.configs.length = true := by
    simp [Heap.hasConfig, hlen]
  have hso : h1.hasConfig o.network = true := by
    simp only [Heap.hasConfig, hlen, decide_eq_true_eq]
    exact Nat.lt_succ_of_lt hnlt
  refine ⟨⟨h1, st.providers ++ [⟨o.fields, st.heap.configs.length, o.readonly⟩]⟩,
    st.providers.length, ⟨o.fields, st.heap.configs.length, o.readonly⟩,
    by simp [Store.Clone, hp, hcopy], by simp [Store.provider],
    Heap.getElem?_append_of_some _ hp, Nat.ne_of_gt hplt, Nat.ne_of_gt hnlt, rfl, rfl, hsome,
    by rw [hread, hx], by rw [hsrc, hx], ?_, ?_, ?_, ?_, ?_, ?_⟩
  · intro mt calls hrep
    obtain ⟨h'', hrun, -, hfp⟩ := applyCalls_footprint mt _ calls hrep hwf1 hcl
    exact ⟨h'', hrun, by rw [hfp.readConfig_other hs hwf1 hsl1, hsrc, hx]⟩
  · intro mt calls hrep
    obtain ⟨h'', hrun, -, hfp⟩ := applyCalls_footprint mt _ calls hrep hwf1 hso
    exact ⟨h'', hrun, by rw [hfp.readConfig_other hs.symm hwf1 hsl1, hread, hx]⟩
  · intro y d hy
    rw [readConfig_storeDevice_of_not_owned d (hs.devices y hy), hsrc, hx]
  · intro q w hq
    rw [readConfig_storeDhcp_of_not_owned w (hs.options q hq), hsrc, hx]
  · intro y d hy
    rw [readConfig_storeDevice_of_not_owned d (hs.symm.devices y hy), hread, hx]
  · intro q w hq
    rw [readConfig_storeDhcp_of_not_owned w (hs.symm.options q hq), hread, hx]

/-- Witness of C11: the sample store, whose provider holds one device with DHCP
options and is readonly. -/
theorem clone_independent_witness :
    ∃ (st' : Store) (p' : Ptr) (o' : ProviderObject),
      sampleStore.Clone 0 = some (st', p') ∧ st'.provider p' = some o' ∧
      o'.readonly = true ∧
      (∀ (mt : MachineType) (calls : List OptionCall), (∀ c ∈ calls, c.replaces = false) →
        ∃ h'', applyCalls mt o'.network calls st'.heap = some (h'', none) ∧
          h''.readConfig 0 = sampleStore.heap.readConfig 0) ∧
      (∀ (mt : MachineType) (calls : List OptionCall), (∀ c ∈ calls, c.replaces = false) →
        ∃ h'', applyCalls mt 0 calls st'.heap = some (h'', none) ∧
          h''.readConfig o'.network = sampleStore.heap.readConfig 0) := by
  obtain ⟨st', p', o', h1, h2, -, -, -, -, h7, -, -, -, h11, h12, -⟩ :=
    clone_independent sampleStore 0
      ⟨[⟨"token", true, "s3cr3t"⟩, ⟨"hostname", false, "node-1"⟩, ⟨"ca-key", true, ""⟩], 0, true⟩
      (by decide) (by decide) (by decide)
  exact ⟨st', p', o', h1, h2, h7, h11, h12⟩

/-- C12, counterexample.  In a document whose nameserver slice has one element and
capacity for a second one, and whose device `eth0` has an address slice over the two
slots of the same backing array, `WithNetworkNameservers "8.8.8.8"` returns a nil
error and fills the second slot in place: the nameservers are the previous list
followed by `"8.8.8.8"`, but the address list of `eth0`, another field of the
document, has changed. -/
theorem nameservers_append_fills_shared_slot :
    sharedNameserverHeap.wellFormed = true ∧
    (sharedNameserverHeap.readConfig 0).map NetworkConfigValue.NameServers
      = some ["1.1.1.1"] ∧
    (sharedNameserverHeap.readConfig 0).map
        (fun c => c.NetworkInterfaces.map DeviceValue.DeviceAddresses)
      = some [["1.1.1.1", "9.9.9.9"]] ∧
    (WithNetworkNameservers ["8.8.8.8"] MachineType.TypeControlPlane 0
        sharedNameserverHeap).map
        (fun r => ((r.1.readConfig 0).map NetworkConfigValue.NameServers, r.2))
      = some (some ["1.1.1.1", "8.8.8.8"], none) ∧
    (WithNetworkNameservers ["8.8.8.8"] MachineType.TypeControlPlane 0
        sharedNameserverHeap).map
        (fun r => (r.1.readConfig 0).map
          (fun c => c.NetworkInterfaces.map DeviceValue.DeviceAddresses))
      = some (some [["1.1.1.1", "8.8.8.8"]]) ∧
    (WithNetworkNameservers ["8.8.8.8"] MachineType.TypeControlPlane 0
        sharedNameserverHeap).map (fun r => r.1.readConfig 0)
      ≠ some ((sharedNameserverHeap.readConfig 0).map
          (fun c => { c with NameServers := c.NameServers ++ ["8.8.8.8"] })) := by
  decide

/-- C12, amended.  `WithNetworkNameservers ns` has append semantics.  On every
well-formed heap holding the document it returns a nil error; afterwards the
nameserver list is the previous list followed by `ns` in order, the interface list,
the KubeSpan pointer and the rest of the config struct are what they were, and no
device, DHCP-options or KubeSpan struct has changed.  Every slice reads as before
unless it sees a slot behind the nameserver slice that the append fills in place; so
when no address slice of a device of the document sees such a slot, the value of the
document differs from the previous value in the nameserver list only.  Applying the
option twice gives the previous list followed by `ns ++ ns`; on a document with an
empty list that is `ns ++ ns`, which is not `ns` when `ns` is non-empty. -/
theorem nameservers_append_semantics (ns : List String) (mt : MachineType) (cfg : Ptr)
    (h : Heap) (v : NetworkConfig) (hwf : h.wellFormed = true)
    (hcfg : h.config cfg = some v) :
    ∃ h' v' old, WithNetworkNameservers ns mt cfg h = some (h', none) ∧
      h'.config cfg = some v' ∧
      h.readSlice v.NameServers = some old ∧
      h'.readSlice v'.NameServers = some (old ++ ns) ∧
      v'.NetworkInterfaces = v.NetworkInterfaces ∧
      v'.NetworkKubeSpan = v.NetworkKubeSpan ∧ v'.others = v.others ∧
      h'.devices = h.devices ∧ h'.dhcpOptions = h.dhcpOptions ∧
      h'.kubeSpans = h.kubeSpans ∧
      (∀ t ys, h.readSlice t = some ys → t.seesBehind v.NameServers ns.length = false →
        h'.readSlice t = some ys) ∧
      ((∀ p ∈ v.NetworkInterfaces, ∀ d, h.device p = some d →
          d.DeviceAddresses.seesBehind v.NameServers ns.length = false) →
        h'.readConfig cfg
          = (h.readConfig cfg).map (fun c => { c with NameServers := c.NameServers ++ ns })) ∧
      ∃ h'' v'', WithNetworkNameservers ns mt cfg h' = some (h'', none) ∧
        h''.config cfg = some v'' ∧
        h''.readSlice v''.NameServers = some (old ++ (ns ++ ns)) ∧
        (old = [] → h''.readSlice v''.NameServers = some (ns ++ ns) ∧
          (ns ≠ [] → h''.readSlice v''.NameServers ≠ some ns)) := by
  have hsl := Heap.slicesValid_of_wellFormed hwf
  replace hwf := Heap.pointersValid_of_wellFormed hwf
  have hvs := Heap.validSlices_iff.1 (Heap.validSlices_of_config hsl hcfg)
  obtain ⟨old, hold⟩ := Heap.readSlice_isSome_of_valid hvs.1
  have hrun := withNetworkNameservers_eq ns mt hcfg
  have hnew := Heap.append_read ns hold
  have hfr : ∀ t ys, h.readSlice t = some ys → t.seesBehind v.NameServers ns.length = false →
      (h.append v.NameServers ns).1.readSlice t = some ys :=
    fun t ys ht hsee => Heap.append_frame ns ht hsee
  have hcells := Heap.append_cells h v.NameServers ns
  have hc0 : (h.append v.NameServers ns).1.config cfg = some v := by
    rw [Heap.append_config]; exact hcfg
  generalize h.append v.NameServers ns = r at hrun hnew hfr hcells hc0
  have hc1 := Heap.config_storeConfig_self { v with NameServers := r.2 } hc0
  have hrd : ∀ t, (r.1.storeConfig cfg { v with NameServers := r.2 }).readSlice t
      = r.1.readSlice t := fun _ => rfl
  refine ⟨_, _, old, hrun, hc1, hold, by rw [hrd]; exact hnew, rfl, rfl, rfl, hcells.2.1,
    hcells.2.2.1, hcells.2.2.2, fun t ys ht hsee => by rw [hrd]; exact hfr t ys ht hsee,
    ?_, ?_⟩
  · intro hsee
    have e1 : (r.1.storeConfig cfg { v with NameServers := r.2 }).readDevices
        v.NetworkInterfaces = h.readDevices v.NetworkInterfaces := by
      refine readDevices_congr (fun p _ => by simp [Heap.device, Heap.storeConfig, hcells.2.1])
        (fun _ _ _ q _ _ => by simp [Heap.dhcp, Heap.storeConfig, hcells.2.2.1]) ?_
      intro p hp d hd
      obtain ⟨ys, hys⟩ := Heap.readSlice_isSome_of_valid (hvs.2 p hp d hd)
      rw [hrd, hfr _ ys hys (hsee p hp d hd), hys]
    have e2 : (r.1.storeConfig cfg { v with NameServers := r.2 }).readKubeSpan
        v.NetworkKubeSpan = h.readKubeSpan v.NetworkKubeSpan :=
      readKubeSpan_congr (fun _ _ => by simp [Heap.kubeSpan, Heap.storeConfig, hcells.2.2.2])
    have e3 : (r.1.storeConfig cfg { v with NameServers := r.2 }).readSlice r.2
        = some (old ++ ns) := by rw [hrd]; exact hnew
    simp only [Heap.readConfig, hc1, hcfg, e1, e2, e3, hold]
    cases h.readDevices v.NetworkInterfaces <;> cases h.readKubeSpan v.NetworkKubeSpan <;> rfl
  · have hold1 : (r.1.storeConfig cfg { v with NameServers := r.2 }).readSlice
        ({ v with NameServers := r.2 } : NetworkConfig).NameServers = some (old ++ ns) := by
      rw [hrd]; exact hnew
    have hnew2 := Heap.append_read ns hold1
    have hrun2 := withNetworkNameservers_eq ns mt hc1
    have hc1' : ((r.1.storeConfig cfg { v with NameServers := r.2 }).append
        ({ v with NameServers := r.2 } : NetworkConfig).NameServers ns).1.config cfg
          = some { v with NameServers := r.2 } := by
      rw [Heap.append_config]; exact hc1
    have hc2 := Heap.config_storeConfig_self
      { ({ v with NameServers := r.2 } : NetworkConfig) with
        NameServers := ((r.1.storeConfig cfg { v with NameServers := r.2 }).append
          ({ v with NameServers := r.2 } : NetworkConfig).NameServers ns).2 } hc1'
    have hread2 : ∀ (hh : Heap) (w : NetworkConfig) t, (hh.storeConfig cfg w).readSlice t
        = hh.readSlice t := fun _ _ _ => rfl
    have hfin : (((r.1.storeConfig cfg { v with NameServers := r.2 }).append
          ({ v with NameServers := r.2 } : NetworkConfig).NameServers ns).1.storeConfig cfg
        { ({ v with NameServers := r.2 } : NetworkConfig) with
          NameServers := ((r.1.storeConfig cfg { v with NameServers := r.2 }).append
            ({ v with NameServers := r.2 } : NetworkConfig).NameServers ns).2 }).readSlice
        ((r.1.storeConfig cfg { v with NameServers := r.2 }).append
            ({ v with NameServers := r.2 } : NetworkConfig).NameServers ns).2
          = some (old ++ (ns ++ ns)) := by
      rw [hread2, hnew2, List.append_assoc]
    refine ⟨_, _, hrun2, hc2, hfin, ?_⟩
    intro hnil
    subst hnil
    refine ⟨by rw [hfin]; rfl, fun hne heq => ?_⟩
    rw [hfin] at heq
    have hl := congrArg List.length (Option.some.inj heq)
    simp at hl
    exact hne hl

/-- Witness of the amended C12: `["1.1.1.1", "8.8.8.8"]` applied to the empty document
gives that list, and applied twice gives it twice. -/
theorem nameservers_append_semantics_witness :
    emptyDocument.wellFormed = true ∧ emptyDocument.config 0 = some NetworkConfig.zero ∧
    ∃ h' v' old, WithNetworkNameservers ["1.1.1.1", "8.8.8.8"] MachineType.TypeControlPlane 0
        emptyDocument = some (h', none) ∧
      h'.config 0 = some v' ∧
      emptyDocument.readSlice NetworkConfig.zero.NameServers = some old ∧
      h'.readSlice v'.NameServers = some (old ++ ["1.1.1.1", "8.8.8.8"]) ∧
      v'.NetworkInterfaces = NetworkConfig.zero.NetworkInterfaces ∧
      v'.NetworkKubeSpan = NetworkConfig.zero.NetworkKubeSpan ∧
      v'.others = NetworkConfig.zero.others ∧
      h'.devices = emptyDocument.devices ∧ h'.dhcpOptions = emptyDocument.dhcpOptions ∧
      h'.kubeSpans = emptyDocument.kubeSpans ∧
      (∀ t ys, emptyDocument.readSlice t = some ys →
        t.seesBehind NetworkConfig.zero.NameServers ["1.1.1.1", "8.8.8.8"].length = false →
        h'.readSlice t = some ys) ∧
      ((∀ p ∈ NetworkConfig.zero.NetworkInterfaces, ∀ d, emptyDocument.device p = some d →
          d.DeviceAddresses.seesBehind NetworkConfig.zero.NameServers
            ["1.1.1.1", "8.8.8.8"].length = false) →
        h'.readConfig 0
          = (emptyDocument.readConfig 0).map
              (fun c => { c with NameServers := c.NameServers ++ ["1.1.1.1", "8.8.8.8"] })) ∧
      ∃ h'' v'', WithNetworkNameservers ["1.1.1.1", "8.8.8.8"] MachineType.TypeControlPlane 0 h'
          = some (h'', none) ∧
        h''.config 0 = some v'' ∧
        h''.readSlice v''.NameServers
          = some (old ++ (["1.1.1.1", "8.8.8.8"] ++ ["1.1.1.1", "8.8.8.8"])) ∧
        (old = [] →
          h''.readSlice v''.NameServers
            = some (["1.1.1.1", "8.8.8.8"] ++ ["1.1.1.1", "8.8.8.8"]) ∧
          (["1.1.1.1", "8.8.8.8"] ≠ [] →
            h''.readSlice v''.NameServers ≠ some ["1.1.1.1", "8.8.8.8"])) :=
  ⟨by decide, by decide,
    nameservers_append_semantics ["1.1.1.1", "8.8.8.8"] MachineType.TypeControlPlane 0
      emptyDocument NetworkConfig.zero (by decide) (by decide)⟩

/-- C13. `WithNetworkInterfaceCIDR iface cidr`, on a well-formed heap holding the
document, returns a nil error although it calls `getDevice` twice, and creates at
most one device.  When no device of the document is named `iface`, the interface
list afterwards is the previous list followed by one new pointer, the heap has
gained exactly one device cell, and the new device reads as the zero device named
`iface` with the address list `[cidr]`.  When the first device named `iface` is `p`,
the interface list and the number of device cells are unchanged, and `p` reads as
before except that its address list is its previous list followed by `cidr`. -/
theorem cidr_creates_at_most_one_device (iface cidr : String) (mt : MachineType) (cfg : Ptr)
    (h : Heap) (v : NetworkConfig) (hwf : h.wellFormed = true)
    (hcfg : h.config cfg = some v) :
    ∃ h' v', WithNetworkInterfaceCIDR iface cidr mt cfg h = some (h', none) ∧
      h'.config cfg = some v' ∧
      ((∀ p ∈ v.NetworkInterfaces, ∀ d, h.device p = some d → d.DeviceInterface ≠ iface) →
        v'.NetworkInterfaces = v.NetworkInterfaces ++ [h.devices.length] ∧
        h'.devices.length = h.devices.length + 1 ∧
        h'.readDevice h.devices.length
          = some { DeviceValue.named iface with DeviceAddresses := [cidr] }) ∧
      (∀ p, findDevice h iface v.NetworkInterfaces = some (some p) →
        v'.NetworkInterfaces = v.NetworkInterfaces ∧
        h'.devices.length = h.devices.length ∧
        ∃ x, h.readDevice p = some x ∧
          h'.readDevice p = some { x with DeviceAddresses := x.DeviceAddresses ++ [cidr] }) := by
  have hsl := Heap.slicesValid_of_wellFormed hwf
  replace hwf := Heap.pointersValid_of_wellFormed hwf
  have hvs := Heap.validSlices_iff.1 (Heap.validSlices_of_config hsl hcfg)
  have hvc := Heap.validConfig_iff.1 (Heap.validConfig_of_config hwf hcfg)
  obtain ⟨h', v', hrun, fr⟩ :=
    withNetworkInterfaceCIDR_interfaceFrame iface cidr mt hwf hsl hcfg
  have heq := withNetworkInterfaceCIDR_eq iface cidr mt hwf hcfg
  rw [hrun] at heq
  have hc' := fr.config
  refine ⟨h', v', hrun, hc', ?_, ?_⟩
  · intro hno
    have hf := findDevice_none_of_names (Heap.interfaces_lt hwf hcfg) hno
    rcases assignDevice_cases iface hwf hcfg with ⟨p, d, hf', -⟩ | ⟨-, hr⟩
    · rw [hf] at hf'
      cases hf'
    · rw [hr] at heq
      have e : h' = Heap.withArrays _ _ := (Prod.mk.inj (Option.some.inj heq)).1
      have hv' : v' = { v with NetworkInterfaces := v.NetworkInterfaces ++ [h.devices.length] } := by
        rw [e] at hc'
        simpa [Heap.config, Heap.withArrays, List.getElem?_set, Heap.lt_of_config hcfg]
          using hc'.symm
      refine ⟨by rw [hv'], by rw [e]; simp [Heap.withArrays], ?_⟩
      rw [fr.created hf]
      simp [DeviceValue.named, Device.toValue]
  · intro p hf
    obtain ⟨hm, d, hd, -⟩ := findDevice_found hf
    rcases assignDevice_cases iface hwf hcfg with ⟨p', d', hf', -, -, -, hr⟩ | ⟨hf', -⟩
    · rw [hr] at heq
      have e : h' = Heap.withArrays _ _ := (Prod.mk.inj (Option.some.inj heq)).1
      have hv' : v' = v := by
        rw [e] at hc'
        have : h.config cfg = some v' := hc'
        rw [hcfg] at this
        exact (Option.some.inj this).symm
      obtain ⟨x, hx⟩ := Heap.readDevice_isSome_of_valid (hvc.1 p hm)
        (fun d0 hd0 => hvs.2 p hm d0 hd0)
      refine ⟨by rw [hv'], by rw [e]; simp [Heap.withArrays], x, hx, ?_⟩
      rw [fr.target p hf, hx]
      rfl
    · rw [hf] at hf'
      cases hf'

/-- Witness of C13: the empty document gains the device `eth0` with one address. -/
theorem cidr_creates_at_most_one_device_witness :
    emptyDocument.wellFormed = true ∧ emptyDocument.config 0 = some NetworkConfig.zero ∧
    ∃ h' v', WithNetworkInterfaceCIDR "eth0" "10.0.0.2/24" MachineType.TypeWorker 0
        emptyDocument = some (h', none) ∧
      h'.config 0 = some v' ∧
      ((∀ p ∈ NetworkConfig.zero.NetworkInterfaces, ∀ d, emptyDocument.device p = some d →
          d.DeviceInterface ≠ "eth0") →
        v'.NetworkInterfaces
          = NetworkConfig.zero.NetworkInterfaces ++ [emptyDocument.devices.length] ∧
        h'.devices.length = emptyDocument.devices.length + 1 ∧
        h'.readDevice emptyDocument.devices.length
          = some { DeviceValue.named "eth0" with DeviceAddresses := ["10.0.0.2/24"] }) ∧
      (∀ p, findDevice emptyDocument "eth0" NetworkConfig.zero.NetworkInterfaces
          = some (some p) →
        v'.NetworkInterfaces = NetworkConfig.zero.NetworkInterfaces ∧
        h'.devices.length = emptyDocument.devices.length ∧
        ∃ x, emptyDocument.readDevice p = some x ∧
          h'.readDevice p
            = some { x with DeviceAddresses := x.DeviceAddresses ++ ["10.0.0.2/24"] }) :=
  ⟨by decide, by decide,
    cidr_creates_at_most_one_device "eth0" "10.0.0.2/24" MachineType.TypeWorker 0
      emptyDocument NetworkConfig.zero (by decide) (by decide)⟩

/-- C14, counterexample.  In a document whose devices `eth0` and `eth1` point to the
same DHCP-options struct, `WithNetworkInterfaceDHCPv4 "eth0" true` returns a nil
error and leaves the device struct of `eth1` as it was, but `eth1`, whose name
differs from `eth0`, no longer reads as before: its DHCPv4 switch, unset before,
is now set to true.  In a document whose devices `eth0` and `eth1` have address
slices over the same backing array, `eth0` with capacity for one more address,
`WithNetworkInterfaceCIDR "eth0" "10.0.0.2/24"` returns a nil error, leaves the
device struct of `eth1` as it was and fills the slot behind the addresses of `eth0`
in place: the second address of `eth1` is now `"10.0.0.2/24"`. -/
theorem shared_memory_changes_other_device :
    sharedOptionsHeap.wellFormed = true ∧
    (sharedOptionsHeap.device 1).map Device.DeviceInterface = some "eth1" ∧
    (WithNetworkInterfaceDHCPv4 "eth0" true MachineType.TypeControlPlane 0
        sharedOptionsHeap).map (fun r => (r.1.device 1, r.2))
      = some (sharedOptionsHeap.device 1, none) ∧
    (WithNetworkInterfaceDHCPv4 "eth0" true MachineType.TypeControlPlane 0
        sharedOptionsHeap).map (fun r => r.1.readDevice 1)
      ≠ some (sharedOptionsHeap.readDevice 1) ∧
    sharedOptionsHeap.deviceDHCPv4 1 = none ∧
    (WithNetworkInterfaceDHCPv4 "eth0" true MachineType.TypeControlPlane 0
        sharedOptionsHeap).map (fun r => r.1.deviceDHCPv4 1)
      = some (some true) ∧
    sharedAddressesHeap.wellFormed = true ∧
    (sharedAddressesHeap.device 1).map Device.DeviceInterface = some "eth1" ∧
    (WithNetworkInterfaceCIDR "eth0" "10.0.0.2/24" MachineType.TypeControlPlane 0
        sharedAddressesHeap).map (fun r => (r.1.device 1, r.2))
      = some (sharedAddressesHeap.device 1, none) ∧
    (sharedAddressesHeap.readDevice 1).map DeviceValue.DeviceAddresses
      = some ["10.0.0.1/24", "10.0.0.9/24"] ∧
    (WithNetworkInterfaceCIDR "eth0" "10.0.0.2/24" MachineType.TypeControlPlane 0
        sharedAddressesHeap).map
        (fun r => (r.1.readDevice 1).map DeviceValue.DeviceAddresses)
      = some (some ["10.0.0.1/24", "10.0.0.2/24"]) ∧
    (WithNetworkInterfaceCIDR "eth0" "10.0.0.2/24" MachineType.TypeControlPlane 0
        sharedAddressesHeap).map
        (fun r => (r.1.readDevice 0).map DeviceValue.DeviceAddresses)
      = some (some ["10.0.0.1/24", "10.0.0.2/24"]) := by
  decide

/-- C14, amended.  Frame of the per-interface options.  Every option that targets an
interface (Ignore, DHCP, DHCPv4, DHCPv6, CIDR, MTU, Wireguard, VirtualIP), called with
the name `iface` on a well-formed heap holding the document, returns a nil error.  The
virtual-IP option for a worker leaves the heap as it is.  In every other case: the
nameserver slice, the KubeSpan pointer and struct and the rest of the config struct
are unchanged; the interface list is the previous list, followed by one new pointer
when no device had the name, so every entry keeps its position; every device struct
whose name differs from `iface` is unchanged; the only DHCP-options struct that can
change is the one of the targeted device, and only DHCPv4 and DHCPv6 change it; only
CIDR changes a backing array, and every slice, the nameservers among them, reads as
before unless it sees the slot that CIDR fills in place behind the addresses of the
targeted device.  So every device of the document whose name differs from `iface`
reads as before, with two exceptions: for DHCPv4 and DHCPv6 a device that points to
the very options struct of the targeted device, for CIDR a device whose address
slice sees the filled slot.  The value of the targeted device, the first one named
`iface` or else the new zero device of that name, changes in the targeted field
only. -/
theorem interface_options_frame (call : OptionCall) (iface : String) (mt : MachineType)
    (cfg : Ptr) (h : Heap) (v : NetworkConfig) (hcall : call.iface? = some iface)
    (hwf : h.wellFormed = true) (hcfg : h.config cfg = some v) :
    ∃ h' v', call.build mt cfg h = some (h', none) ∧
      (call.lookedUp mt = none → h' = h ∧ v' = v) ∧
      (call.lookedUp mt = some iface →
        InterfaceFrame h h' cfg v v' iface (call.valueEffect mt) call.writesOptions
          call.appended) := by
  have hsl := Heap.slicesValid_of_wellFormed hwf
  replace hwf := Heap.pointersValid_of_wellFormed hwf
  by_cases hl : call.lookedUp mt = some iface
  · obtain ⟨h', v', hrun, fr⟩ := build_interfaceFrame call iface mt hl hwf hsl hcfg
    exact ⟨h', v', hrun, fun hn => (by rw [hl] at hn; cases hn), fun _ => fr⟩
  · cases call with
    | interfaceVirtualIP i cidr =>
      by_cases hmt : mt = MachineType.TypeWorker
      · exact ⟨h, v, by simp [OptionCall.build, WithNetworkInterfaceVirtualIP, hmt],
          fun _ => ⟨rfl, rfl⟩, fun hl' => absurd hl' hl⟩
      · exact absurd (by simpa [OptionCall.lookedUp, hmt, OptionCall.iface?] using hcall) hl
    | networkConfig c => simp [OptionCall.iface?] at hcall
    | networkNameservers ns => simp [OptionCall.iface?] at hcall
    | kubeSpan => simp [OptionCall.iface?] at hcall
    | interfaceIgnore i => exact absurd hcall hl
    | interfaceDHCP i enable => exact absurd hcall hl
    | interfaceDHCPv4 i enable => exact absurd hcall hl
    | interfaceDHCPv6 i enable => exact absurd hcall hl
    | interfaceCIDR i cidr => exact absurd hcall hl
    | interfaceMTU i mtu => exact absurd hcall hl
    | interfaceWireguard i w => exact absurd hcall hl

/-- Witness of the amended C14: appending an address to `eth0` in the document whose
devices `eth0` and `eth1` have address slices over the same backing array. -/
theorem interface_options_frame_witness :
    (OptionCall.interfaceCIDR "eth0" "10.0.0.2/24").iface? = some "eth0" ∧
    sharedAddressesHeap.wellFormed = true ∧
    ∃ h' v', (OptionCall.interfaceCIDR "eth0" "10.0.0.2/24").build MachineType.TypeWorker 0
        sharedAddressesHeap = some (h', none) ∧
      ((OptionCall.interfaceCIDR "eth0" "10.0.0.2/24").lookedUp MachineType.TypeWorker = none →
        h' = sharedAddressesHeap ∧ v' = { NetworkConfig.zero with NetworkInterfaces := [0, 1] }) ∧
      ((OptionCall.interfaceCIDR "eth0" "10.0.0.2/24").lookedUp MachineType.TypeWorker
          = some "eth0" →
        InterfaceFrame sharedAddressesHeap h' 0
          { NetworkConfig.zero with NetworkInterfaces := [0, 1] } v' "eth0"
          ((OptionCall.interfaceCIDR "eth0" "10.0.0.2/24").valueEffect MachineType.TypeWorker)
          (OptionCall.interfaceCIDR "eth0" "10.0.0.2/24").writesOptions
          (OptionCall.interfaceCIDR "eth0" "10.0.0.2/24").appended) :=
  ⟨rfl, by decide,
    interface_options_frame (OptionCall.interfaceCIDR "eth0" "10.0.0.2/24") "eth0"
      MachineType.TypeWorker 0 sharedAddressesHeap _ rfl (by decide) (by decide)⟩

/-- C15. No option of the file ever fails.  On a well-formed heap holding the
document, every call (with a usable, non-nil config pointer in the case of
`WithNetworkConfig`) returns, for every machine type, and the error it returns is
nil; so does every list of such calls run by the engine.  Moreover, on any heap
whatsoever, an outcome returned by an option carries the nil error. -/
theorem options_never_fail (call : OptionCall) (calls : List OptionCall) (mt : MachineType)
    (cfg : Ptr) (h : Heap) (hwf : h.wellFormed = true) (hcfg : h.hasConfig cfg = true)
    (hargs : call.argsValid h = true) (hall : ∀ c ∈ calls, c.argsValid h = true) :
    (∃ h', call.build mt cfg h = some (h', none)) ∧
    (∃ h', applyCalls mt cfg calls h = some (h', none)) ∧
    (∀ (c : OptionCall) (m : MachineType) (p : Ptr) (h0 h1 : Heap) (e : Option GoError),
      c.build m p h0 = some (h1, e) → e = none) := by
  replace hwf := Heap.pointersValid_of_wellFormed hwf
  obtain ⟨h1, hrun, -⟩ := build_stepOk call mt hwf hcfg hargs
  obtain ⟨h2, hruns, -⟩ := applyCalls_stepOk mt cfg calls hwf hcfg hall
  exact ⟨⟨h1, hrun⟩, ⟨h2, hruns⟩, fun c m p h0 h1 e hr => build_error_nil c m p h0 h1 e hr⟩

/-- Witness of C15: replacing the empty document by the caller's config, alone and
in front of one call of every other constructor. -/
theorem options_never_fail_witness :
    (∃ h', (OptionCall.networkConfig (some 1)).build MachineType.TypeWorker 0 callerConfigHeap
        = some (h', none)) ∧
    (∃ h', applyCalls MachineType.TypeWorker 0
        [OptionCall.networkConfig (some 1), OptionCall.networkNameservers ["1.1.1.1"],
         OptionCall.interfaceIgnore "eth0", OptionCall.interfaceDHCP "eth0" false,
         OptionCall.interfaceDHCPv4 "eth1" true, OptionCall.interfaceDHCPv6 "eth1" false,
         OptionCall.interfaceCIDR "eth2" "10.0.0.2/24", OptionCall.interfaceMTU "eth0" 1500,
         OptionCall.interfaceWireguard "wg0" none,
         OptionCall.interfaceVirtualIP "eth0" "10.0.0.10", OptionCall.kubeSpan]
        callerConfigHeap = some (h', none)) ∧
    (∀ (c : OptionCall) (m : MachineType) (p : Ptr) (h0 h1 : Heap) (e : Option GoError),
      c.build m p h0 = some (h1, e) → e = none) :=
  options_never_fail (OptionCall.networkConfig (some 1)) _ MachineType.TypeWorker 0
    callerConfigHeap (by decide) (by decide) (by decide) (by decide)

/-- C16. The DHCPv4 and DHCPv6 options on the same interface are independent and
commute.  On a well-formed heap holding the document, `WithNetworkInterfaceDHCPv4`
returns a nil error and every DHCP-options cell that existed before keeps its
`DHCPIPv6` field and its remaining fields, so that the IPv6 switch of every device
of the document reads as before; symmetrically `WithNetworkInterfaceDHCPv6` keeps
`DHCPIPv4` and the remaining fields.  Applying DHCPv4 then DHCPv6 and applying DHCPv6
then DHCPv4 both return a nil error and leave the same heap, hence the same
document. -/
theorem dhcp_v4_v6_independent_commute (iface : String) (a b : Bool) (mt : MachineType)
    (cfg : Ptr) (h : Heap) (v : NetworkConfig) (hwf : h.wellFormed = true)
    (hcfg : h.config cfg = some v) :
    (∃ h4, WithNetworkInterfaceDHCPv4 iface a mt cfg h = some (h4, none) ∧
      (∀ q o, h.dhcp q = some o →
        ∃ o', h4.dhcp q = some o' ∧ o'.DHCPIPv6 = o.DHCPIPv6 ∧ o'.others = o.others) ∧
      (∀ p ∈ v.NetworkInterfaces, h4.deviceDHCPv6 p = h.deviceDHCPv6 p)) ∧
    (∃ h6, WithNetworkInterfaceDHCPv6 iface b mt cfg h = some (h6, none) ∧
      (∀ q o, h.dhcp q = some o →
        ∃ o', h6.dhcp q = some o' ∧ o'.DHCPIPv4 = o.DHCPIPv4 ∧ o'.others = o.others) ∧
      (∀ p ∈ v.NetworkInterfaces, h6.deviceDHCPv4 p = h.deviceDHCPv4 p)) ∧
    (∃ h', applyCalls mt cfg
          [OptionCall.interfaceDHCPv4 iface a, OptionCall.interfaceDHCPv6 iface b] h
        = some (h', none) ∧
      applyCalls mt cfg
          [OptionCall.interfaceDHCPv6 iface b, OptionCall.interfaceDHCPv4 iface a] h
        = some (h', none) ∧
      ∃ dev, h'.deviceDHCPv4 dev = some a ∧ h'.deviceDHCPv6 dev = some b ∧
        ∃ v', h'.config cfg = some v' ∧
          findDevice h' iface v'.NetworkInterfaces = some (some dev)) := by
  replace hwf := Heap.pointersValid_of_wellFormed hwf
  refine ⟨assignDhcp_keeps_v6 iface _ mt (fun _ => rfl) (fun _ => rfl) hwf hcfg,
    assignDhcp_keeps_v4 iface _ mt (fun _ => rfl) (fun _ => rfl) hwf hcfg, ?_⟩
  obtain ⟨h1, h2, r1, r2, r12⟩ := assignDhcp_then iface
    (fun o => { o with DHCPIPv4 := some a }) (fun o => { o with DHCPIPv6 := some b }) mt hwf hcfg
  obtain ⟨k1, k2, s1, s2, s12⟩ := assignDhcp_then iface
    (fun o => { o with DHCPIPv6 := some b }) (fun o => { o with DHCPIPv4 := some a }) mt hwf hcfg
  have e : k2 = h2 := by
    have := r12.symm.trans s12
    simpa using this.symm
  subst e
  refine ⟨k2, ?_, ?_, ?_⟩
  · exact (applyCalls_cons _ (show (OptionCall.interfaceDHCPv4 iface a).build mt cfg h
      = some (h1, none) from r1) k2).2
      ((applyCalls_cons _ (show (OptionCall.interfaceDHCPv6 iface b).build mt cfg h1
        = some (k2, none) from r2) k2).2 rfl)
  · exact (applyCalls_cons _ (show (OptionCall.interfaceDHCPv6 iface b).build mt cfg h
      = some (k1, none) from s1) k2).2
      ((applyCalls_cons _ (show (OptionCall.interfaceDHCPv4 iface a).build mt cfg k1
        = some (k2, none) from s2) k2).2 rfl)
  · obtain ⟨h', dev, d, q, o, v1, hrun, -, hc, hf, hd, -, hq, ho, -⟩ :=
      assignDhcp_spec iface
        (fun o => ({ ({ o with DHCPIPv4 := some a } : DHCPOptions) with
          DHCPIPv6 := some b } : DHCPOptions)) mt hwf hcfg
    have e : h' = k2 := by
      have := hrun.symm.trans r12
      simpa using this
    subst e
    exact ⟨dev, by simp [Heap.deviceDHCPv4, hd, hq, ho], by simp [Heap.deviceDHCPv6, hd, hq, ho],
      v1, hc, hf⟩

/-- Witness of C16: both orders on the empty document. -/
theorem dhcp_v4_v6_independent_commute_witness :
    ∃ h', applyCalls MachineType.TypeWorker 0
          [OptionCall.interfaceDHCPv4 "eth0" true, OptionCall.interfaceDHCPv6 "eth0" false]
          emptyDocument = some (h', none) ∧
      applyCalls MachineType.TypeWorker 0
          [OptionCall.interfaceDHCPv6 "eth0" false, OptionCall.interfaceDHCPv4 "eth0" true]
          emptyDocument = some (h', none) ∧
      ∃ dev, h'.deviceDHCPv4 dev = some true ∧ h'.deviceDHCPv6 dev = some false ∧
        ∃ v', h'.config 0 = some v' ∧
          findDevice h' "eth0" v'.NetworkInterfaces = some (some dev) :=
  (dhcp_v4_v6_independent_commute "eth0" true false MachineType.TypeWorker 0 emptyDocument
    NetworkConfig.zero (by decide) (by decide)).2.2

/-- C17. `WithKubeSpan` on a well-formed heap holding the document returns a nil
error.  Afterwards the document's KubeSpan pointer is not nil and the struct it
points to has `KubeSpanEnabled` set to true.  When the pointer was not nil before,
it is the same pointer and the struct is the previous struct with only the enabled
switch changed; when it was nil, the struct is the zero struct with only the
enabled switch set.  The interface list, the nameservers and the remaining fields of
the config struct, all device and DHCP-options cells and all other config cells are
unchanged, so the value of the document read through its pointers differs from the
previous value in the KubeSpan field only. -/
theorem kubeSpan_enabled_rest_kept (mt : MachineType) (cfg : Ptr) (h : Heap)
    (v : NetworkConfig) (hwf : h.wellFormed = true) (hcfg : h.config cfg = some v) :
    ∃ h' v' k s', WithKubeSpan mt cfg h = some (h', none) ∧
      h'.config cfg = some v' ∧ v'.NetworkKubeSpan = some k ∧
      h'.kubeSpan k = some s' ∧ s'.KubeSpanEnabled = some true ∧
      (∀ k0, v.NetworkKubeSpan = some k0 →
        k = k0 ∧ ∃ s0, h.kubeSpan k0 = some s0 ∧
          s' = { s0 with KubeSpanEnabled := some true }) ∧
      (v.NetworkKubeSpan = none →
        s' = { NetworkKubeSpan.zero with KubeSpanEnabled := some true }) ∧
      v'.NetworkInterfaces = v.NetworkInterfaces ∧ v'.NameServers = v.NameServers ∧
      v'.others = v.others ∧
      h'.devices = h.devices ∧ h'.dhcpOptions = h.dhcpOptions ∧
      (∀ p, p ≠ cfg → h'.config p = h.config p) ∧
      h'.readConfig cfg
        = (h.readConfig cfg).map (fun c =>
            let s := c.NetworkKubeSpan.getD NetworkKubeSpan.zero
            { c with NetworkKubeSpan := some { s with KubeSpanEnabled := some true } }) := by
  replace hwf := Heap.pointersValid_of_wellFormed hwf
  obtain ⟨h', k, s, hrun, -, hc', hk', hold, hnew, hdev, hdh, hfr, -⟩ :=
    withKubeSpan_spec mt hwf hcfg
  refine ⟨h', _, k, _, hrun, hc', rfl, hk', rfl, ?_, ?_, rfl, rfl, rfl, hdev, hdh, hfr, ?_⟩
  · intro k0 hk0
    obtain ⟨e, hs⟩ := hold k0 hk0
    exact ⟨e.symm, s, e ▸ hs, rfl⟩
  · intro hn
    rw [hnew hn]
  · have harr : h'.arrays = h.arrays := by
      have hb : OptionCall.kubeSpan.build mt cfg h = some (h', none) := hrun
      rcases build_arrays OptionCall.kubeSpan mt hwf hb with e1 | ⟨_, _, hc, _⟩ | ⟨_, _, hc, _⟩
      · exact e1
      · cases hc
      · cases hc
    have e1 := readDevices_of_cells hdev hdh harr v.NetworkInterfaces
    have e2 : h'.readSlice v.NameServers = h.readSlice v.NameServers :=
      Heap.readSlice_congr (fun _ _ => by rw [harr])
    simp only [Heap.readConfig, hc', hcfg, e1, e2, Heap.readKubeSpan, hk']
    cases hks : v.NetworkKubeSpan with
    | none =>
      rw [hnew hks]
      cases h.readDevices v.NetworkInterfaces <;> cases h.readSlice v.NameServers <;> rfl
    | some k0 =>
      obtain ⟨e, hs⟩ := hold k0 hks
      subst e
      simp only [hs]
      cases h.readDevices v.NetworkInterfaces <;> cases h.readSlice v.NameServers <;> rfl

/-- Witness of C17: the empty document, whose KubeSpan pointer is nil. -/
theorem kubeSpan_enabled_rest_kept_witness :
    ∃ h' v' k s', WithKubeSpan MachineType.TypeWorker 0 emptyDocument = some (h', none) ∧
      h'.config 0 = some v' ∧ v'.NetworkKubeSpan = some k ∧
      h'.kubeSpan k = some s' ∧ s'.KubeSpanEnabled = some true ∧
      (∀ k0, NetworkConfig.zero.NetworkKubeSpan = some k0 →
        k = k0 ∧ ∃ s0, emptyDocument.kubeSpan k0 = some s0 ∧
          s' = { s0 with KubeSpanEnabled := some true }) ∧
      (NetworkConfig.zero.NetworkKubeSpan = none →
        s' = { NetworkKubeSpan.zero with KubeSpanEnabled := some true }) ∧
      v'.NetworkInterfaces = NetworkConfig.zero.NetworkInterfaces ∧
      v'.NameServers = NetworkConfig.zero.NameServers ∧
      v'.others = NetworkConfig.zero.others ∧
      h'.devices = emptyDocument.devices ∧ h'.dhcpOptions = emptyDocument.dhcpOptions ∧
      (∀ p, p ≠ 0 → h'.config p = emptyDocument.config p) ∧
      h'.readConfig 0
        = (emptyDocument.readConfig 0).map (fun c =>
            let s := c.NetworkKubeSpan.getD NetworkKubeSpan.zero
            { c with NetworkKubeSpan := some { s with KubeSpanEnabled := some true } }) :=
  kubeSpan_enabled_rest_kept MachineType.TypeWorker 0 emptyDocument NetworkConfig.zero
    (by decide) (by decide)

/-- C18. No partial results on failure in the uploader.  Take the group's outcome
as an input, an error `e` or nil.  Unless `log.Fatalf` has ended the process before
the group was started, `run` with a failing group returns the error
`fmt.Errorf("failed: %w", e)`, whose message is `"failed: "` followed by the message
of `e` and which unwraps to `e`, and it adds to the events neither the creation of
the file nor an encoding.  When the group succeeds and the file can be created,
`run` creates the file at the joined path of `cloud-images.json` under the artifacts
directory, encodes the accumulator, which holds what it held
before followed by the pushed records in push order, and returns what the encoder
returns.  An encoding that `run` adds to the events happens only after a successful
group and encodes exactly that accumulator. -/
theorem run_no_partial_results (env : Uploader.Environment) (s : Uploader.Process) :
    (∀ e, env.seedError = none → env.groupError = some e →
      (Uploader.run env s).2
          = Uploader.Exit.returned (some (Uploader.Failure.wrapping "failed: " e)) ∧
        (Uploader.Failure.wrapping "failed: " e).Error = "failed: " ++ e.Error ∧
        (Uploader.Failure.wrapping "failed: " e).Unwrap = some e ∧
        (Uploader.run env s).1.result = s.result ++ env.pushed ∧
        ∃ added, (Uploader.run env s).1.events = s.events ++ added ∧
          ∀ ev ∈ added, ev.emits = false) ∧
    (env.seedError = none → env.groupError = none → env.createError = none →
      (Uploader.run env s).2 = Uploader.Exit.returned env.encodeError ∧
        ∃ logs, (∀ ev ∈ logs, ev.emits = false) ∧
          (Uploader.run env s).1.events = s.events ++ logs ++
            [Uploader.Event.created env.cloudImagesPath,
             Uploader.Event.encoded (s.result ++ env.pushed),
             Uploader.Event.closed env.cloudImagesPath]) ∧
    (∃ added, (Uploader.run env s).1.events = s.events ++ added ∧
      ∀ records, Uploader.Event.encoded records ∈ added →
        env.groupError = none ∧ records = s.result ++ env.pushed) := by
  refine ⟨?_, ?_, ?_⟩
  · intro e hseed hgroup
    refine ⟨by simp [Uploader.run, hseed, hgroup], rfl, rfl, ?_, ?_⟩
    · cases hr : env.regionsError <;>
        simp [Uploader.run, hseed, hgroup, hr, Uploader.foldl_pushResult, Uploader.Process.emit]
    · cases hr : env.regionsError with
      | none =>
        exact ⟨[], by simp [Uploader.run, hseed, hgroup, hr, Uploader.foldl_pushResult], by simp⟩
      | some r =>
        exact ⟨[Uploader.Event.logged
          ("failed to get a list of enabled AWS regions: " ++ r.Error ++ ", ignored")], by
          simp [Uploader.run, hseed, hgroup, hr, Uploader.foldl_pushResult,
            Uploader.Process.emit], by simp [Uploader.Event.emits]⟩
  · intro hseed hgroup hcreate
    refine ⟨by simp [Uploader.run, hseed, hgroup, hcreate], ?_⟩
    cases hr : env.regionsError with
    | none =>
      exact ⟨[], by simp, by
        simp [Uploader.run, hseed, hgroup, hcreate, hr, Uploader.foldl_pushResult,
          Uploader.Process.emit]⟩
    | some r =>
      exact ⟨[Uploader.Event.logged
          ("failed to get a list of enabled AWS regions: " ++ r.Error ++ ", ignored")], by simp [Uploader.Event.emits], by
        simp [Uploader.run, hseed, hgroup, hcreate, hr, Uploader.foldl_pushResult,
          Uploader.Process.emit]⟩
  · cases hr : env.regionsError <;> cases hseed : env.seedError <;>
      cases hgroup : env.groupError <;> cases hcreate : env.createError <;>
      simp [Uploader.run, hseed, hgroup, hcreate, hr, Uploader.foldl_pushResult,
        Uploader.Process.emit]

/-- Witness of C18: two images are pushed and the group then reports an error; `run`
returns the wrapped error, the accumulator holds both images in push order, and
nothing has been created or encoded. -/
theorem run_no_partial_results_witness :
    Uploader.run Uploader.failingUpload Uploader.Process.start
      = ({ result := Uploader.failingUpload.pushed, events := [] },
          Uploader.Exit.returned
            (some (Uploader.Failure.wrapping "failed: " (Uploader.Failure.plain "upload failed")))) ∧
    (Uploader.Failure.wrapping "failed: " (Uploader.Failure.plain "upload failed")).Error
      = "failed: upload failed" ∧
    ∃ added, (Uploader.run Uploader.failingUpload Uploader.Process.start).1.events
        = Uploader.Process.start.events ++ added ∧
      ∀ ev ∈ added, ev.emits = false :=
  ⟨by decide, by decide,
    ((run_no_partial_results Uploader.failingUpload Uploader.Process.start).1
      (Uploader.Failure.plain "upload failed") rfl rfl).2.2.2.2⟩

end Talos
